import Mathlib

/-!
# cdoku: Sudoku by exact cover with dancing links

A shallow embedding of `src/main.c`.

* Pointers are natural numbers, `NULL` is `0`; `malloc` is a bump allocator
  (`Heap.next`).  A `struct dlx_node` is spread over the field maps of `Heap`.
  The anonymous union of the node is modelled by four separate maps
  (`row_id`, `parent` for data nodes, `id`, `count` for column nodes); the code
  only reads the variant that matches `type`.
* `size_t` is 64 bit, `unsigned int` is 32 bit; wrap-around is written out
  where the C expression can overflow.
* Every pointer-chasing loop takes a step budget; `Err.timeout` is the
  budget running out, `Err.nullDeref` a dereference of `NULL`,
  `Err.assertFail` a failing `assert`, `Err.badIndex` an out-of-range access
  of the solution array.
-/

namespace Cdoku

/-! ## Machine constants -/

/-- Number of values of a `size_t`. -/
def SIZE_MOD : Nat := 2 ^ 64

/-- Number of values of an `unsigned int`. -/
def UINT_MOD : Nat := 2 ^ 32

/-- The constant `BOARD_MAX_CELL_SIZE` of the source. -/
def BOARD_MAX_CELL_SIZE : Nat := 7

/-- The enum value `DLX_TYPE_DATA`. -/
def DLX_TYPE_DATA : Nat := 0

/-- The enum value `DLX_TYPE_COLUMN`. -/
def DLX_TYPE_COLUMN : Nat := 1

/-- Ways in which a run can fail to return. -/
inductive Err where
  | timeout
  | nullDeref
  | assertFail
  | badIndex
  | useAfterFree
  deriving DecidableEq, Repr

/-! ## The node heap -/

/-- All `struct dlx_node` objects, one map per field. -/
@[ext]
structure Heap where
  type : Nat → Nat
  left : Nat → Nat
  right : Nat → Nat
  up : Nat → Nat
  down : Nat → Nat
  row_id : Nat → Nat
  parent : Nat → Nat
  id : Nat → Nat
  count : Nat → Nat
  next : Nat

/-- Pointwise update of a field map. -/
def upd (f : Nat → Nat) (a v : Nat) : Nat → Nat := fun x => if x = a then v else f x

/-- The heap before any allocation: every field is `NULL`/zero, the first
free address is `1`. -/
def Heap.empty : Heap :=
  { type := fun _ => 0, left := fun _ => 0, right := fun _ => 0, up := fun _ => 0,
    down := fun _ => 0, row_id := fun _ => 0, parent := fun _ => 0, id := fun _ => 0,
    count := fun _ => 0, next := 1 }

def Heap.setLeft (s : Heap) (a v : Nat) : Heap := { s with left := upd s.left a v }
def Heap.setRight (s : Heap) (a v : Nat) : Heap := { s with right := upd s.right a v }
def Heap.setUp (s : Heap) (a v : Nat) : Heap := { s with up := upd s.up a v }
def Heap.setDown (s : Heap) (a v : Nat) : Heap := { s with down := upd s.down a v }
def Heap.setCount (s : Heap) (a v : Nat) : Heap := { s with count := upd s.count a v }

/-- The C function `node_create`: returns the new node and the new heap. -/
def node_create (s : Heap) (type parent id : Nat) : Nat × Heap :=
  let node := s.next
  let s1 : Heap :=
    { s with
      next := s.next + 1
      type := upd s.type node type
      left := upd s.left node 0
      right := upd s.right node 0
      up := upd s.up node 0
      down := upd s.down node 0 }
  if type = DLX_TYPE_DATA then
    (node, { s1 with row_id := upd s1.row_id node id, parent := upd s1.parent node parent })
  else if type = DLX_TYPE_COLUMN then
    (node, { s1 with id := upd s1.id node id, count := upd s1.count node 0 })
  else (node, s1)

def LINK_UP : Nat := 1
def LINK_RIGHT : Nat := 2
def LINK_DOWN : Nat := 4
def LINK_LEFT : Nat := 8

/-- The C function `link_nodes`. -/
def link_nodes (s : Heap) (a b mask : Nat) : Heap :=
  if a = 0 ∨ b = 0 then s else
  let s1 := if mask &&& LINK_LEFT ≠ 0 then (s.setLeft a b).setRight b a else s
  let s2 := if mask &&& LINK_RIGHT ≠ 0 then (s1.setRight a b).setLeft b a else s1
  let s3 := if mask &&& LINK_UP ≠ 0 then (s2.setUp a b).setDown b a else s2
  if mask &&& LINK_DOWN ≠ 0 then (s3.setDown a b).setUp b a else s3

/-! ## The board -/

/-- The globals `board`, `board_size`, `board_grid_size`, `board_cell_size`
and `board_line_size`. -/
structure Board where
  cells : List Nat
  board_size : Nat
  board_grid_size : Nat
  board_cell_size : Nat
  board_line_size : Nat
  deriving DecidableEq, Repr

/-- The C function `board_get`; `i` and `j` are `unsigned int`. -/
def board_get (b : Board) (i j : Nat) : Nat :=
  let idx := (i + j * b.board_line_size) % UINT_MOD
  if idx < b.board_size then b.cells.getD idx 0 else 0

/-- The C function `board_set`; `i` and `j` are `unsigned int`. -/
def board_set (b : Board) (i j value : Nat) : Board :=
  let idx := (i + j * b.board_line_size) % UINT_MOD
  if idx < b.board_size then { b with cells := b.cells.set idx value } else b

/-! ## `matrix_create` -/

/-- The first loop of `matrix_create`: create the column headers `col`,
`col + 1`, ... and link each to the right of the previous one.  Returns the
heap, the last header created and the `constraints` array. -/
def create_columns : Nat → Nat → Heap → Nat → List Nat → Heap × Nat × List Nat
  | 0, _, s, previous_constraint, constraints => (s, previous_constraint, constraints)
  | n + 1, col, s, previous_constraint, constraints =>
    let (constraint, s1) := node_create s DLX_TYPE_COLUMN 0 col
    let s2 := link_nodes s1 constraint constraint LINK_DOWN
    let s3 := link_nodes s2 previous_constraint constraint LINK_RIGHT
    create_columns n (col + 1) s3 constraint (constraints ++ [constraint])

/-- One iteration of the second loop of `matrix_create`, from the creation
of the four data nodes on. -/
def create_row_nodes (s : Heap)
    (row num_constraint row_constraint col_constraint box_constraint : Nat) : Heap :=
  let (num_node, s1) := node_create s DLX_TYPE_DATA num_constraint row
  let (row_node, s2) := node_create s1 DLX_TYPE_DATA row_constraint row
  let (col_node, s3) := node_create s2 DLX_TYPE_DATA col_constraint row
  let (box_node, s4) := node_create s3 DLX_TYPE_DATA box_constraint row
  let s5 := s4.setCount num_constraint ((s4.count num_constraint + 1) % SIZE_MOD)
  let s6 := s5.setCount row_constraint ((s5.count row_constraint + 1) % SIZE_MOD)
  let s7 := s6.setCount col_constraint ((s6.count col_constraint + 1) % SIZE_MOD)
  let s8 := s7.setCount box_constraint ((s7.count box_constraint + 1) % SIZE_MOD)
  let s9 := link_nodes s8 (s8.up num_constraint) num_node LINK_DOWN
  let s10 := link_nodes s9 (s9.up row_constraint) row_node LINK_DOWN
  let s11 := link_nodes s10 (s10.up col_constraint) col_node LINK_DOWN
  let s12 := link_nodes s11 (s11.up box_constraint) box_node LINK_DOWN
  let s13 := link_nodes s12 num_constraint num_node LINK_UP
  let s14 := link_nodes s13 row_constraint row_node LINK_UP
  let s15 := link_nodes s14 col_constraint col_node LINK_UP
  let s16 := link_nodes s15 box_constraint box_node LINK_UP
  let s17 := link_nodes s16 num_node row_node LINK_RIGHT
  let s18 := link_nodes s17 row_node col_node LINK_RIGHT
  let s19 := link_nodes s18 col_node box_node LINK_RIGHT
  link_nodes s19 box_node num_node LINK_RIGHT

/-- The test `value && value != offset + 1` of `matrix_create`: the row is
skipped. -/
def row_skipped (b : Board) (row : Nat) : Prop :=
  let row_idx := row / b.board_grid_size
  let col_idx := (row / b.board_line_size) % b.board_line_size
  let offset := row % b.board_line_size
  let value := board_get b (col_idx % UINT_MOD) (row_idx % UINT_MOD)
  value ≠ 0 ∧ value ≠ offset + 1

instance (b : Board) (row : Nat) : Decidable (row_skipped b row) := by
  unfold row_skipped; exact inferInstance

/-- The index into `constraints` of the row-column constraint of a row. -/
def num_index (b : Board) (constraint_set_size row : Nat) : Nat :=
  0 * constraint_set_size + row / b.board_line_size

/-- The index into `constraints` of the row-number constraint of a row. -/
def row_index (b : Board) (constraint_set_size row : Nat) : Nat :=
  let row_idx := row / b.board_grid_size
  let offset := row % b.board_line_size
  1 * constraint_set_size + row_idx * b.board_line_size + offset

/-- The index into `constraints` of the col-number constraint of a row. -/
def col_index (b : Board) (constraint_set_size row : Nat) : Nat :=
  let col_idx := (row / b.board_line_size) % b.board_line_size
  let offset := row % b.board_line_size
  2 * constraint_set_size + col_idx * b.board_line_size + offset

/-- The index into `constraints` of the box-number constraint of a row. -/
def box_index (b : Board) (constraint_set_size row : Nat) : Nat :=
  let row_idx := row / b.board_grid_size
  let col_idx := (row / b.board_line_size) % b.board_line_size
  let offset := row % b.board_line_size
  3 * constraint_set_size
    + (b.board_cell_size * (row_idx / b.board_cell_size) + col_idx / b.board_cell_size)
      * b.board_line_size + offset

/-- One iteration of the second loop of `matrix_create`. -/
def create_row (b : Board) (constraints : List Nat) (constraint_set_size : Nat)
    (s : Heap) (row : Nat) : Heap :=
  if row_skipped b row then s else
  let num_constraint := constraints.getD (num_index b constraint_set_size row) 0
  let row_constraint := constraints.getD (row_index b constraint_set_size row) 0
  let col_constraint := constraints.getD (col_index b constraint_set_size row) 0
  let box_constraint := constraints.getD (box_index b constraint_set_size row) 0
  create_row_nodes s row num_constraint row_constraint col_constraint box_constraint

/-- The second loop of `matrix_create`, over `row = row0, row0 + 1, ...`. -/
def create_rows (b : Board) (constraints : List Nat) (constraint_set_size : Nat) :
    Nat → Nat → Heap → Heap
  | 0, _, s => s
  | n + 1, row, s =>
    create_rows b constraints constraint_set_size n (row + 1)
      (create_row b constraints constraint_set_size s row)

/-- The search state: the node heap, the fields `root` and `solved` of
`struct dlx_matrix`, and the array `*solution` of length `*solution_len`. -/
structure State where
  heap : Heap
  root : Nat
  solved : Bool
  solution : List Nat

/-- The C function `matrix_create`, started on a given heap. -/
def matrix_create_on (s0 : Heap) (b : Board) : Heap × Nat :=
  let (h, s1) := node_create s0 DLX_TYPE_COLUMN 0 0
  let constraint_set_size := (b.board_line_size * b.board_line_size) % UINT_MOD
  let cols := 4 * constraint_set_size
  let (s2, previous_constraint, constraints) := create_columns cols 0 s1 h []
  let s3 := link_nodes s2 previous_constraint h LINK_RIGHT
  let placement_set_size := b.board_grid_size
  let number_set_size := b.board_line_size
  let rows := number_set_size * placement_set_size
  (create_rows b constraints constraint_set_size rows 0 s3, h)

/-- The C function `matrix_create` together with the initialisation of
`solution` and `solution_len` in `main`. -/
def matrix_create (b : Board) : State :=
  let r := matrix_create_on Heap.empty b
  { heap := r.1, root := r.2, solved := false, solution := [] }

/-! ## Column selection, cover and uncover -/

/-- The initial value of `min_count`: `(2 << sizeof(size_t)) - 1` with an
8-byte `size_t`. -/
def MIN_COUNT_INIT : Nat := (2 <<< 8) - 1

/-- The loop of `choose_min_length_column`. -/
def choose_loop (s : Heap) (root : Nat) : Nat → Nat → Nat → Nat → Except Err Nat
  | 0, _, _, _ => .error .timeout
  | f + 1, curr, best, min_count =>
    if curr = root then .ok best
    else if s.count curr < min_count then
      choose_loop s root f (s.right curr) curr (s.count curr)
    else choose_loop s root f (s.right curr) best min_count

/-- The C function `choose_min_length_column`; the result `0` is `NULL`. -/
def choose_min_length_column (F : Nat) (s : Heap) (root : Nat) : Except Err Nat :=
  choose_loop s root F (s.right root) 0 MIN_COUNT_INIT

/-- The body of the inner loop of `cover_column`. -/
def unlinkV (s : Heap) (node : Nat) : Heap :=
  let s1 := s.setDown (s.up node) (s.down node)
  let s2 := s1.setUp (s1.down node) (s1.up node)
  s2.setCount (s2.parent node) ((s2.count (s2.parent node) + (SIZE_MOD - 1)) % SIZE_MOD)

/-- The body of the inner loop of `uncover_column`. -/
def relinkV (s : Heap) (node : Nat) : Heap :=
  let s1 := s.setCount (s.parent node) ((s.count (s.parent node) + 1) % SIZE_MOD)
  let s2 := s1.setUp (s1.down node) node
  s2.setDown (s2.up node) node

/-- The loop shape `for (x = x0; x != stop; x = next(x)) body(x)` shared by
every list walk of the source, with a step budget.  `next` is read in the
state left by the body. -/
def for_nodes {σ : Type} (stop : Nat) (next : σ → Nat → Nat)
    (body : σ → Nat → Except Err σ) : Nat → Nat → σ → Except Err σ
  | 0, _, _ => .error .timeout
  | f + 1, x, s =>
    if x = stop then .ok s
    else
      match body s x with
      | .error e => .error e
      | .ok s1 => for_nodes stop next body f (next s1 x) s1

/-- The inner loop of `cover_column`:
`for (node = row->right; node != row; node = node->right)`. -/
def cover_inner (F : Nat) (s : Heap) (row : Nat) : Except Err Heap :=
  for_nodes row (fun s node => s.right node) (fun s node => .ok (unlinkV s node)) F
    (s.right row) s

/-- The outer loop of `cover_column`:
`for (row = col->down; row != col; row = row->down)`. -/
def cover_outer (F : Nat) (s : Heap) (col : Nat) : Except Err Heap :=
  for_nodes col (fun s row => s.down row) (cover_inner F) F (s.down col) s

/-- The C function `cover_column`. -/
def cover_column (F : Nat) (s : Heap) (col : Nat) : Except Err Heap :=
  if col = 0 then .error .nullDeref
  else if s.type col ≠ DLX_TYPE_COLUMN then .error .assertFail
  else
    let s1 := s.setRight (s.left col) (s.right col)
    let s2 := s1.setLeft (s1.right col) (s1.left col)
    cover_outer F s2 col

/-- The inner loop of `uncover_column`:
`for (node = row->left; node != row; node = node->left)`. -/
def uncover_inner (F : Nat) (s : Heap) (row : Nat) : Except Err Heap :=
  for_nodes row (fun s node => s.left node) (fun s node => .ok (relinkV s node)) F
    (s.left row) s

/-- The outer loop of `uncover_column`:
`for (row = col->up; row != col; row = row->up)`. -/
def uncover_outer (F : Nat) (s : Heap) (col : Nat) : Except Err Heap :=
  for_nodes col (fun s row => s.up row) (uncover_inner F) F (s.up col) s

/-- The C function `uncover_column`. -/
def uncover_column (F : Nat) (s : Heap) (col : Nat) : Except Err Heap :=
  if col = 0 then .error .nullDeref
  else if s.type col ≠ DLX_TYPE_COLUMN then .error .assertFail
  else
    match uncover_outer F s col with
    | .error e => .error e
    | .ok s1 =>
      let s2 := s1.setLeft (s1.right col) col
      .ok (s2.setRight (s2.left col) col)

/-! ## The search -/

/-- The loop `for (node = row->right; node != row; node = node->right)
cover_column(node->data.parent)` of `dlx_solve_impl`. -/
def cover_row (F : Nat) (s : Heap) (row : Nat) : Except Err Heap :=
  for_nodes row (fun s node => s.right node) (fun s node => cover_column F s (s.parent node)) F
    (s.right row) s

/-- The loop `for (node = row->left; node != row; node = node->left)
uncover_column(node->data.parent)` of `dlx_solve_impl`. -/
def uncover_row (F : Nat) (s : Heap) (row : Nat) : Except Err Heap :=
  for_nodes row (fun s node => s.left node) (fun s node => uncover_column F s (s.parent node)) F
    (s.left row) s

/-- Push `row` on the solution array when the matrix is not yet solved. -/
def push_row (st : State) (row : Nat) : State :=
  if st.solved then st else { st with solution := st.solution ++ [row] }

/-- Pop the last row from the solution array when the matrix is not solved;
`*solution_len -= 1` on an empty array leaves no valid index. -/
def pop_row (st : State) : Except Err State :=
  if st.solved then .ok st
  else if st.solution = [] then .error .badIndex
  else .ok { st with solution := st.solution.dropLast }

/-- The body of the loop over the rows of the selected column in
`dlx_solve_impl`; `recurse` is the recursive call. -/
def solve_row (recurse : State → Except Err (Bool × State)) (F : Nat) (st : State)
    (row : Nat) : Except Err State :=
  let st1 := push_row st row
  match cover_row F st1.heap row with
  | .error e => .error e
  | .ok h2 =>
    match recurse { st1 with heap := h2 } with
    | .error e => .error e
    | .ok (b, st3) =>
      let st4 : State := if b then { st3 with solved := true } else st3
      match pop_row st4 with
      | .error e => .error e
      | .ok st5 =>
        match uncover_row F st5.heap row with
        | .error e => .error e
        | .ok h6 => .ok { st5 with heap := h6 }

/-- The C function `dlx_solve_impl`; the first budget bounds the recursion
depth, `F` bounds every loop. -/
def dlx_solve_impl (F : Nat) : Nat → State → Except Err (Bool × State)
  | 0, _ => .error .timeout
  | d + 1, st =>
    if st.heap.right st.root = st.root then .ok (true, st)
    else
      match choose_min_length_column F st.heap st.root with
      | .error e => .error e
      | .ok col =>
        if col = 0 then .error .nullDeref
        else
          match cover_column F st.heap col with
          | .error e => .error e
          | .ok h1 =>
            match for_nodes col (fun st2 row => st2.heap.down row)
                (solve_row (fun st2 => dlx_solve_impl F d st2) F) F (h1.down col)
                { st with heap := h1 } with
            | .error e => .error e
            | .ok st3 =>
              match uncover_column F st3.heap col with
              | .error e => .error e
              | .ok h4 => .ok (st3.solved, { st3 with heap := h4 })

/-- The C function `dlx_solve`. -/
def dlx_solve (F : Nat) (st : State) : Except Err (Bool × State) :=
  dlx_solve_impl F F st

/-! ## Result mapping of `main` -/

/-- One iteration of the result loop of `main`: decode the row id of a
solution node and write the digit; `row_id` is an `unsigned int`. -/
def write_solution_row (h : Heap) (b : Board) (node : Nat) : Board :=
  let row_id := h.row_id node % UINT_MOD
  let row_idx := row_id / b.board_grid_size
  let col_idx := (row_id / b.board_line_size) % b.board_line_size
  let offset := row_id % b.board_line_size + 1
  board_set b (col_idx % UINT_MOD) (row_idx % UINT_MOD) offset

/-- The result loop of `main`. -/
def write_solution (h : Heap) (b : Board) (solution : List Nat) : Board :=
  solution.foldl (write_solution_row h) b

/-- The search of `main` and its result loop, without the calls of
`matrix_free`: build the matrix, solve, and on success decode the row ids the
solution nodes were created with.  `none` is the exit with "Failed to find a
solution!".  The run of `main` itself, which releases the matrix before it
reads the row ids, is `main_run`. -/
def solve_board (F : Nat) (b : Board) : Except Err (Option Board) :=
  match dlx_solve F (matrix_create b) with
  | .error e => .error e
  | .ok (false, _) => .ok none
  | .ok (true, st) => .ok (some (write_solution st.heap b st.solution))

/-! ## Releasing the matrix in `main` -/

/-- A read through the pointer `n` when the nodes `freed` have been passed to
`free`: reading through `NULL` or through a released node is an error. -/
def deref (freed : List Nat) (n : Nat) : Except Err Unit :=
  if n = 0 then .error .nullDeref
  else if n ∈ freed then .error .useAfterFree
  else .ok ()

/-- The statement `node_free(node)` behind a read through `node`, as in
`next_row = row->up; node_free(row);`.  The state is the list of released
nodes. -/
def free_node (freed : List Nat) (node : Nat) : Except Err (List Nat) :=
  match deref freed node with
  | .error e => .error e
  | .ok _ => .ok (node :: freed)

/-- The inner loop of `matrix_free`:
`for (row = column->up; row != column; row = next_row)` with the body
`next_row = row->up; node_free(row);`. -/
def free_rows (h : Heap) (F : Nat) (column : Nat) (freed : List Nat) : Except Err (List Nat) :=
  for_nodes column (fun _ row => h.up row) free_node F (h.up column) freed

/-- The body of the outer loop of `matrix_free`: read `column->up`, run the
inner loop, then `next_column = column->left; node_free(column);`. -/
def free_column (h : Heap) (F : Nat) (freed : List Nat) (column : Nat) : Except Err (List Nat) :=
  match deref freed column with
  | .error e => .error e
  | .ok _ =>
    match free_rows h F column freed with
    | .error e => .error e
    | .ok fr1 => free_node fr1 column

/-- The outer loop of `matrix_free`:
`for (column = root->left; column != root; column = next_column)`. -/
def free_columns (h : Heap) (F : Nat) (root : Nat) (freed : List Nat) : Except Err (List Nat) :=
  for_nodes root (fun _ column => h.left column) (free_column h F) F (h.left root) freed

/-- The C function `matrix_free`: every column still linked into the header
list is released together with the nodes still linked into it, then the root.
Returns the released nodes. -/
def matrix_free (F : Nat) (st : State) : Except Err (List Nat) :=
  match deref [] st.root with
  | .error e => .error e
  | .ok _ =>
    match free_columns st.heap F st.root [] with
    | .error e => .error e
    | .ok fr => .ok (st.root :: fr)

/-- The result loop of `main` as it stands in the source, after
`matrix_free(board_repr)`: every iteration reads `solution[i]->data.row_id`
through the pointer stored by the search. -/
def read_solution (h : Heap) (freed : List Nat) : List Nat → Board → Except Err Board
  | [], b => .ok b
  | node :: rest, b =>
    match deref freed node with
    | .error e => .error e
    | .ok _ => read_solution h freed rest (write_solution_row h b node)

/-- The function `main` after parsing: build the matrix, solve; on failure
release the matrix and exit (`none`); on success release the matrix and then
run the result loop over the solution array. -/
def main_run (F : Nat) (b : Board) : Except Err (Option Board) :=
  match dlx_solve F (matrix_create b) with
  | .error e => .error e
  | .ok (false, st) =>
    match matrix_free F st with
    | .error e => .error e
    | .ok _ => .ok none
  | .ok (true, st) =>
    match matrix_free F st with
    | .error e => .error e
    | .ok freed =>
      match read_solution st.heap freed st.solution b with
      | .error e => .error e
      | .ok g => .ok (some g)

/-! ## Well-formed matrices

A matrix in memory is described by a `Shape`: the list of column headers
linked into the header list, the list of data nodes linked into every column,
and for every data node the other nodes of its row. -/

/-- A doubly linked segment: walking `nxt` from `a` visits exactly the nodes
of `l` and then arrives at `b`, and `prv` walks the same way back. -/
def Seg (nxt prv : Nat → Nat) : Nat → List Nat → Nat → Prop
  | a, [], b => nxt a = b ∧ prv b = a
  | a, x :: l, b => nxt a = x ∧ prv x = a ∧ Seg nxt prv x l b

instance Seg.decide (nxt prv : Nat → Nat) : (a : Nat) → (l : List Nat) → (b : Nat) →
    Decidable (Seg nxt prv a l b)
  | a, [], b => inferInstanceAs (Decidable (nxt a = b ∧ prv b = a))
  | a, x :: l, b =>
    have := Seg.decide nxt prv x l b
    inferInstanceAs (Decidable (nxt a = x ∧ prv x = a ∧ Seg nxt prv x l b))

/-- Walking `nxt` from `x` visits exactly the nodes of `l`, starting with `x`
itself, and then arrives at `b`. -/
def Path (nxt : Nat → Nat) : Nat → List Nat → Nat → Prop
  | x, [], b => x = b
  | x, y :: l, b => x = y ∧ Path nxt (nxt y) l b

/-- The linked content of a matrix. -/
structure Shape where
  /-- the column headers in the header list, in `right` order from the root -/
  hs : List Nat
  /-- the data nodes linked into a column, in `down` order from its header -/
  vs : Nat → List Nat
  /-- the other nodes of the row of a data node, in `right` order -/
  rs : Nat → List Nat
  /-- the column header of a data node -/
  par : Nat → Nat

/-- The column headers met by the row of data node `n`. -/
def Shape.rowCols (sh : Shape) (n : Nat) : List Nat := (n :: sh.rs n).map sh.par

/-- A shape is a sparse 0/1 matrix: no column is listed twice, a column lists
its own nodes once each, a row has at most one node per column, all nodes of
a row are linked, and the nodes of one row agree on what the row is. -/
structure Shape.WF (sh : Shape) : Prop where
  hs_nodup : sh.hs.Nodup
  vs_nodup : ∀ c ∈ sh.hs, (sh.vs c).Nodup
  vs_par : ∀ c ∈ sh.hs, ∀ n ∈ sh.vs c, sh.par n = c
  row_nodup : ∀ c ∈ sh.hs, ∀ n ∈ sh.vs c, (sh.rowCols n).Nodup
  row_act : ∀ c ∈ sh.hs, ∀ n ∈ sh.vs c, ∀ m ∈ sh.rs n, sh.par m ∈ sh.hs ∧ m ∈ sh.vs (sh.par m)
  row_sub : ∀ c ∈ sh.hs, ∀ n ∈ sh.vs c, ∀ m ∈ sh.rs n, ∀ x ∈ m :: sh.rs m, x ∈ n :: sh.rs n
  row_sup : ∀ c ∈ sh.hs, ∀ n ∈ sh.vs c, ∀ m ∈ sh.rs n, ∀ x ∈ n :: sh.rs n, x ∈ m :: sh.rs m

/-- The heap holds the matrix `sh` below `root`: the header list is a circular
doubly linked list through the root, every column is a circular doubly linked
list through its header whose `count` is its number of data nodes, and every
row is a circular doubly linked list of data nodes. -/
structure Rep (s : Heap) (root : Nat) (sh : Shape) : Prop where
  root_ne : root ≠ 0
  root_type : s.type root = DLX_TYPE_COLUMN
  root_nmem : root ∉ sh.hs
  hs_ne : ∀ c ∈ sh.hs, c ≠ 0
  hring : Seg s.right s.left root sh.hs root
  col_type : ∀ c ∈ sh.hs, s.type c = DLX_TYPE_COLUMN
  vring : ∀ c ∈ sh.hs, Seg s.down s.up c (sh.vs c) c
  cnt : ∀ c ∈ sh.hs, s.count c = (sh.vs c).length
  cnt_lt : ∀ c ∈ sh.hs, (sh.vs c).length < SIZE_MOD
  node_type : ∀ c ∈ sh.hs, ∀ n ∈ sh.vs c, s.type n = DLX_TYPE_DATA
  node_par : ∀ c ∈ sh.hs, ∀ n ∈ sh.vs c, s.parent n = c
  rring : ∀ c ∈ sh.hs, ∀ n ∈ sh.vs c, Seg s.right s.left n (sh.rs n) n

/-- The columns `cols` of the heap are circular lists with contents `vs`; this
is the part of `Rep` that `cover_column` changes node by node. -/
structure VRep (s : Heap) (cols : List Nat) (vs : Nat → List Nat) : Prop where
  col_type : ∀ c ∈ cols, s.type c = DLX_TYPE_COLUMN
  vring : ∀ c ∈ cols, Seg s.down s.up c (vs c) c
  vnodup : ∀ c ∈ cols, (vs c).Nodup
  cnt : ∀ c ∈ cols, s.count c = (vs c).length
  cnt_lt : ∀ c ∈ cols, (vs c).length < SIZE_MOD
  node_type : ∀ c ∈ cols, ∀ n ∈ vs c, s.type n = DLX_TYPE_DATA
  node_par : ∀ c ∈ cols, ∀ n ∈ vs c, s.parent n = c

/-- The heaps agree on everything `cover_column` and `uncover_column` never
write: types, parents, ids, and the `left`/`right` links of data nodes. -/
structure SameRows (s t : Heap) : Prop where
  type : t.type = s.type
  parent : t.parent = s.parent
  row_id : t.row_id = s.row_id
  id : t.id = s.id
  next : t.next = s.next
  right : ∀ x, s.type x = DLX_TYPE_DATA → t.right x = s.right x
  left : ∀ x, s.type x = DLX_TYPE_DATA → t.left x = s.left x

/-- A well-formed matrix: the heap below `st.root` holds some sparse matrix. -/
def WellFormed (st : State) (sh : Shape) : Prop := sh.WF ∧ Rep st.heap st.root sh

/-- All nodes unlinked from their columns by `cover_column c`: the other
nodes of every row of column `c`. -/
def Shape.removed (sh : Shape) (c : Nat) : List Nat := (sh.vs c).flatMap sh.rs

/-- The matrix after `cover_column c`. -/
def coverA (sh : Shape) (c : Nat) : Shape :=
  { sh with
    hs := sh.hs.filter (fun d => d ≠ c)
    vs := fun d => (sh.vs d).filter (fun x => x ∉ sh.removed c) }

/-- The matrix after covering the columns of the other nodes of row `r`. -/
def selectA (sh : Shape) (r : Nat) : Shape :=
  (sh.rs r).foldl (fun a n => coverA a (sh.par n)) sh

/-- The selection loop of `choose_min_length_column` over a list of headers
with their node counts. -/
def chooseL (cnt : Nat → Nat) : List Nat → Nat → Nat → Nat
  | [], best, _ => best
  | c :: l, best, min_count =>
    if cnt c < min_count then chooseL cnt l c (cnt c) else chooseL cnt l best min_count

/-- The column chosen in a matrix, `0` when none is. -/
def chooseA (sh : Shape) : Nat :=
  chooseL (fun c => (sh.vs c).length) sh.hs 0 MIN_COUNT_INIT

/-- The flag `matrix->solved` and the solution array. -/
abbrev Acc : Type := Bool × List Nat

/-- The state of the search with heap `h`, root `root`, and flag and solution
array `a`. -/
def State.mk' (h : Heap) (root : Nat) (a : Acc) : State :=
  { heap := h, root := root, solved := a.1, solution := a.2 }

/-- `push_row` on the flag and the solution array. -/
def pushA (a : Acc) (r : Nat) : Acc := if a.1 then a else (a.1, a.2 ++ [r])

/-- `pop_row` on the flag and the solution array. -/
def popA (a : Acc) : Except Err Acc :=
  if a.1 then .ok a else if a.2 = [] then .error .badIndex else .ok (a.1, a.2.dropLast)

/-- The body of the row loop of `dlx_solve_impl` on shapes. -/
def solve_rowA (recurse : Shape → Acc → Except Err (Bool × Acc)) (sh1 : Shape) (a : Acc)
    (r : Nat) : Except Err Acc :=
  match recurse (selectA sh1 r) (pushA a r) with
  | .error e => .error e
  | .ok (b, a3) => popA (if b then (true, a3.2) else a3)

/-- Running a loop body over a list of rows. -/
def foldRows (body : Acc → Nat → Except Err Acc) : List Nat → Acc → Except Err Acc
  | [], a => .ok a
  | r :: rows, a =>
    match body a r with
    | .error e => .error e
    | .ok a1 => foldRows body rows a1

/-- The search `dlx_solve_impl` on shapes: what the C function computes on a
heap that holds the matrix `sh`. -/
def solveA : Nat → Shape → Acc → Except Err (Bool × Acc)
  | 0, _, _ => .error .timeout
  | d + 1, sh, a =>
    if sh.hs = [] then .ok (true, a)
    else if chooseA sh = 0 then .error .nullDeref
    else
      match foldRows (solve_rowA (solveA d) (coverA sh (chooseA sh))) (sh.vs (chooseA sh)) a with
      | .error e => .error e
      | .ok a3 => .ok (a3.1, a3)

/-- A property of matrices that the search keeps and under which a column is
always chosen. -/
structure Closed (P : Shape → Prop) : Prop where
  choose_ne : ∀ sh, sh.WF → P sh → sh.hs ≠ [] → chooseA sh ≠ 0
  step : ∀ sh, sh.WF → P sh → sh.hs ≠ [] → ∀ r ∈ sh.vs (chooseA sh),
    P (selectA (coverA sh (chooseA sh)) r)

/-- A step budget that is enough for every loop over the matrix. -/
def Shape.Fits (sh : Shape) (F : Nat) : Prop :=
  sh.hs.length < F ∧ (∀ c ∈ sh.hs, (sh.vs c).length < F) ∧
    ∀ c ∈ sh.hs, ∀ n ∈ sh.vs c, (sh.rs n).length < F

/-- A step budget that fits the matrix. -/
def Shape.bound (sh : Shape) : Nat :=
  sh.hs.length +
    (sh.hs.map (fun c => (sh.vs c).length + ((sh.vs c).map (fun n => (sh.rs n).length)).sum)).sum
    + 1

/-- The selected rows cover every column of the matrix exactly once: each
selected node is a linked data node, and each column is met by the row of
exactly one of them. -/
def ExactCover (sh : Shape) (sol : List Nat) : Prop :=
  (∀ n ∈ sol, sh.par n ∈ sh.hs ∧ n ∈ sh.vs (sh.par n)) ∧
    ∀ c ∈ sh.hs, (sol.filter (fun n => c ∈ sh.rowCols n)).length = 1

/-! ## Small matrices used as test inputs -/

/-- A heap with root `1`, one column header `2` and `n` data nodes
`3, ..., n + 2` in that column, each a row of its own. -/
def columnHeap (n : Nat) : Heap :=
  { type := fun x => if x = 1 ∨ x = 2 then DLX_TYPE_COLUMN else DLX_TYPE_DATA
    left := fun x => if x = 1 then 2 else if x = 2 then 1 else x
    right := fun x => if x = 1 then 2 else if x = 2 then 1 else x
    up := fun x => if x = 2 then n + 2 else x - 1
    down := fun x => if x = n + 2 then 2 else x + 1
    row_id := fun x => x - 3
    parent := fun _ => 2
    id := fun _ => 0
    count := fun x => if x = 2 then n else 0
    next := n + 3 }

/-- The matrix held by `columnHeap n`. -/
def columnShape (n : Nat) : Shape :=
  { hs := [2]
    vs := fun c => if c = 2 then List.range' 3 n else []
    rs := fun _ => []
    par := fun _ => 2 }

/-- The search state on `columnHeap n` before the search. -/
def columnState (n : Nat) : State :=
  { heap := columnHeap n, root := 1, solved := false, solution := [] }

/-- The heap after `node_create` of a data node. -/
def newData (s : Heap) (parent id : Nat) : Heap :=
  { s with
    next := s.next + 1
    type := upd s.type s.next DLX_TYPE_DATA
    left := upd s.left s.next 0
    right := upd s.right s.next 0
    up := upd s.up s.next 0
    down := upd s.down s.next 0
    row_id := upd s.row_id s.next id
    parent := upd s.parent s.next parent }

/-- What one iteration of the second loop of `matrix_create` writes: the four
new nodes `s.next`, ..., `s.next + 3` of row `row`, appended to the columns
`c0`, ..., `c3` and linked into a ring; everything else is as in `s`. -/
structure RowAdded (s t : Heap) (row c0 c1 c2 c3 : Nat) : Prop where
  next : t.next = s.next + 4
  id : t.id = s.id
  old_type : ∀ x, x < s.next → t.type x = s.type x
  old_parent : ∀ x, x < s.next → t.parent x = s.parent x
  old_row_id : ∀ x, x < s.next → t.row_id x = s.row_id x
  old_right : ∀ x, x < s.next → t.right x = s.right x
  old_left : ∀ x, x < s.next → t.left x = s.left x
  type0 : t.type (s.next) = DLX_TYPE_DATA
  row_id0 : t.row_id (s.next) = row
  parent0 : t.parent (s.next) = c0
  right0 : t.right (s.next) = s.next + 1
  left0 : t.left (s.next) = s.next + 3
  down0 : t.down (s.next) = c0
  last0 : t.down (s.up c0) = s.next
  up0 : t.up (s.next) = s.up c0
  col0 : t.up c0 = s.next
  count0 : t.count c0 = (s.count c0 + 1) % SIZE_MOD
  type1 : t.type (s.next + 1) = DLX_TYPE_DATA
  row_id1 : t.row_id (s.next + 1) = row
  parent1 : t.parent (s.next + 1) = c1
  right1 : t.right (s.next + 1) = s.next + 2
  left1 : t.left (s.next + 1) = s.next
  down1 : t.down (s.next + 1) = c1
  last1 : t.down (s.up c1) = s.next + 1
  up1 : t.up (s.next + 1) = s.up c1
  col1 : t.up c1 = s.next + 1
  count1 : t.count c1 = (s.count c1 + 1) % SIZE_MOD
  type2 : t.type (s.next + 2) = DLX_TYPE_DATA
  row_id2 : t.row_id (s.next + 2) = row
  parent2 : t.parent (s.next + 2) = c2
  right2 : t.right (s.next + 2) = s.next + 3
  left2 : t.left (s.next + 2) = s.next + 1
  down2 : t.down (s.next + 2) = c2
  last2 : t.down (s.up c2) = s.next + 2
  up2 : t.up (s.next + 2) = s.up c2
  col2 : t.up c2 = s.next + 2
  count2 : t.count c2 = (s.count c2 + 1) % SIZE_MOD
  type3 : t.type (s.next + 3) = DLX_TYPE_DATA
  row_id3 : t.row_id (s.next + 3) = row
  parent3 : t.parent (s.next + 3) = c3
  right3 : t.right (s.next + 3) = s.next
  left3 : t.left (s.next + 3) = s.next + 2
  down3 : t.down (s.next + 3) = c3
  last3 : t.down (s.up c3) = s.next + 3
  up3 : t.up (s.next + 3) = s.up c3
  col3 : t.up c3 = s.next + 3
  count3 : t.count c3 = (s.count c3 + 1) % SIZE_MOD
  old_down : ∀ x, x < s.next → x ≠ s.up c0 → x ≠ s.up c1 → x ≠ s.up c2 → x ≠ s.up c3 →
    t.down x = s.down x
  old_up : ∀ x, x < s.next → x ≠ c0 → x ≠ c1 → x ≠ c2 → x ≠ c3 → t.up x = s.up x
  old_count : ∀ x, x ≠ c0 → x ≠ c1 → x ≠ c2 → x ≠ c3 → t.count x = s.count x

/-- The matrix with one more row: the nodes `n0`, ..., `n0 + 3` appended to
the columns `c0`, ..., `c3` and forming a row in this order. -/
def addRow (sh : Shape) (n0 c0 c1 c2 c3 : Nat) : Shape :=
  { hs := sh.hs
    vs := fun c =>
      if c = c0 then sh.vs c ++ [n0]
      else if c = c1 then sh.vs c ++ [n0 + 1]
      else if c = c2 then sh.vs c ++ [n0 + 2]
      else if c = c3 then sh.vs c ++ [n0 + 3]
      else sh.vs c
    rs := fun n =>
      if n = n0 then [n0 + 1, n0 + 2, n0 + 3]
      else if n = n0 + 1 then [n0 + 2, n0 + 3, n0]
      else if n = n0 + 2 then [n0 + 3, n0, n0 + 1]
      else if n = n0 + 3 then [n0, n0 + 1, n0 + 2]
      else sh.rs n
    par := fun n =>
      if n = n0 then c0
      else if n = n0 + 1 then c1
      else if n = n0 + 2 then c2
      else if n = n0 + 3 then c3
      else sh.par n }

/-- Every node of the matrix has been allocated and is not `NULL`. -/
structure Alloc (s : Heap) (root : Nat) (sh : Shape) : Prop where
  root_lt : root < s.next
  hs_lt : ∀ c ∈ sh.hs, c < s.next
  vs_lt : ∀ c ∈ sh.hs, ∀ n ∈ sh.vs c, n < s.next
  vs_ne : ∀ c ∈ sh.hs, ∀ n ∈ sh.vs c, n ≠ 0

/-- What the first loop of `matrix_create` writes when it creates `n` column
headers with ids `col`, `col + 1`, ... behind the node `prev`: the headers are
the nodes `s.next`, ..., `s.next + n - 1`, each an empty column, chained with
`right` and `left` behind `prev`; everything else is as in `s`. -/
structure ColsCreated (s t : Heap) (n col prev : Nat) : Prop where
  next : t.next = s.next + n
  old_type : ∀ x, x < s.next → t.type x = s.type x
  old_left : ∀ x, x < s.next → t.left x = s.left x
  old_right : ∀ x, x < s.next → x ≠ prev → t.right x = s.right x
  old_up : ∀ x, x < s.next → t.up x = s.up x
  old_down : ∀ x, x < s.next → t.down x = s.down x
  old_count : ∀ x, x < s.next → t.count x = s.count x
  old_id : ∀ x, x < s.next → t.id x = s.id x
  prev_right : 0 < n → t.right prev = s.next
  prev_right0 : n = 0 → t.right prev = s.right prev
  new_type : ∀ i, i < n → t.type (s.next + i) = DLX_TYPE_COLUMN
  new_id : ∀ i, i < n → t.id (s.next + i) = col + i
  new_count : ∀ i, i < n → t.count (s.next + i) = 0
  new_down : ∀ i, i < n → t.down (s.next + i) = s.next + i
  new_up : ∀ i, i < n → t.up (s.next + i) = s.next + i
  first_left : 0 < n → t.left s.next = prev
  new_left : ∀ i, i + 1 < n → t.left (s.next + i + 1) = s.next + i
  new_right : ∀ i, i + 1 < n → t.right (s.next + i) = s.next + i + 1

/-- The heap after `node_create` of a column node. -/
def newColumn (s : Heap) (id : Nat) : Heap :=
  { s with
    next := s.next + 1
    type := upd s.type s.next DLX_TYPE_COLUMN
    left := upd s.left s.next 0
    right := upd s.right s.next 0
    up := upd s.up s.next 0
    down := upd s.down s.next 0
    id := upd s.id s.next id
    count := upd s.count s.next 0 }

/-! ## Boards and the matrix of a board -/

/-- The globals describe a board with boxes of `k` by `k` cells, as
`try_read_board` sets them up: `N = k * k` cells per line, `N * N` cells in
all, every cell `0` (empty) or a digit `1..N`.  The sizes are `unsigned int`,
so `N * N` is below `2 ^ 32`. -/
structure IsBoard (b : Board) (k : Nat) : Prop where
  k_pos : 1 ≤ k
  cell_size : b.board_cell_size = k
  line_size : b.board_line_size = k * k
  grid_size : b.board_grid_size = k * k * (k * k)
  size : b.board_size = k * k * (k * k)
  len : b.cells.length = k * k * (k * k)
  fits : k * k * (k * k) < UINT_MOD
  cells_le : ∀ v ∈ b.cells, v ≤ k * k

/-- The matrix with `cols` empty columns `2, 3, ...`. -/
def emptyShape (cols : Nat) : Shape :=
  { hs := List.range' 2 cols, vs := fun _ => [], rs := fun _ => [], par := fun _ => 0 }

/-- The matrix built by the second loop of `matrix_create` over the rows
`row`, `row + 1`, ..., when the next node is allocated at `next`. -/
def rows_shape (b : Board) (css : Nat) : Nat → Nat → Nat → Shape → Shape
  | 0, _, _, sh => sh
  | n + 1, row, next, sh =>
    if row_skipped b row then rows_shape b css n (row + 1) next sh
    else rows_shape b css n (row + 1) (next + 4)
      (addRow sh next (2 + num_index b css row) (2 + row_index b css row)
        (2 + col_index b css row) (2 + box_index b css row))

/-- The matrix built by `matrix_create`: the root is node `1`, the column
headers are the nodes `2, 3, ...`, the data nodes follow. -/
def matrix_shape (b : Board) : Shape :=
  let css := (b.board_line_size * b.board_line_size) % UINT_MOD
  rows_shape b css (b.board_line_size * b.board_grid_size) 0 (4 * css + 2) (emptyShape (4 * css))

/-- The nodes `n0`, ..., `n0 + 3` are the row of the matrix with row id
`s.row_id n0`: they lie in the four columns of that row id, in the order cell,
row, column, box, and each lists the other three as its row. -/
structure IsRow (b : Board) (css : Nat) (s : Heap) (sh : Shape) (n0 : Nat) : Prop where
  id1 : s.row_id (n0 + 1) = s.row_id n0
  id2 : s.row_id (n0 + 2) = s.row_id n0
  id3 : s.row_id (n0 + 3) = s.row_id n0
  par0 : sh.par n0 = 2 + num_index b css (s.row_id n0)
  par1 : sh.par (n0 + 1) = 2 + row_index b css (s.row_id n0)
  par2 : sh.par (n0 + 2) = 2 + col_index b css (s.row_id n0)
  par3 : sh.par (n0 + 3) = 2 + box_index b css (s.row_id n0)
  rs0 : sh.rs n0 = [n0 + 1, n0 + 2, n0 + 3]
  rs1 : sh.rs (n0 + 1) = [n0 + 2, n0 + 3, n0]
  rs2 : sh.rs (n0 + 2) = [n0 + 3, n0, n0 + 1]
  rs3 : sh.rs (n0 + 3) = [n0, n0 + 1, n0 + 2]
  mem0 : n0 ∈ sh.vs (sh.par n0)
  mem1 : n0 + 1 ∈ sh.vs (sh.par (n0 + 1))
  mem2 : n0 + 2 ∈ sh.vs (sh.par (n0 + 2))
  mem3 : n0 + 3 ∈ sh.vs (sh.par (n0 + 3))

/-- The state of the second loop of `matrix_create` before iteration `i`: the
heap holds the matrix `sh` with `4 * css` columns, whose rows are exactly the
rows with an id below `i` that the loop does not skip. -/
structure RowsInv (b : Board) (css : Nat) (s : Heap) (sh : Shape) (i : Nat) : Prop where
  wf : sh.WF
  rep : Rep s 1 sh
  alloc : Alloc s 1 sh
  hs : sh.hs = List.range' 2 (4 * css)
  len : ∀ c ∈ sh.hs, (sh.vs c).length ≤ i
  ids : ∀ j, j < 4 * css → s.id (2 + j) = j
  row : ∀ c ∈ sh.hs, ∀ n ∈ sh.vs c, ∃ n0, IsRow b css s sh n0 ∧ s.row_id n0 < i ∧
    ¬ row_skipped b (s.row_id n0) ∧ (n = n0 ∨ n = n0 + 1 ∨ n = n0 + 2 ∨ n = n0 + 3)
  has : ∀ r, r < i → ¬ row_skipped b r → ∃ n0, IsRow b css s sh n0 ∧ s.row_id n0 = r
  uniq : ∀ c ∈ sh.hs, ∀ n ∈ sh.vs c, ∀ m ∈ sh.vs c, s.row_id n = s.row_id m → n = m

/-! ## The torus invariants -/

/-- The vertical torus at column header `c`: walking `down` from the header
visits `count` different data nodes of the column and then arrives back at the
header. -/
def VTorus (h : Heap) (c : Nat) : Prop :=
  (∀ j, 1 ≤ j → j ≤ h.count c →
      h.type (h.down^[j] c) = DLX_TYPE_DATA ∧ h.parent (h.down^[j] c) = c) ∧
    (∀ i j, 1 ≤ i → i < j → j ≤ h.count c → h.down^[i] c ≠ h.down^[j] c) ∧
    h.down^[h.count c + 1] c = c

/-- The horizontal torus at `c`: walking `right` exactly `n` times from `c`
arrives back at `c`. -/
def HTorus (h : Heap) (n c : Nat) : Prop := h.right^[n] c = c

/-- The board with a single empty cell (`k = 1`). -/
def unitBoard : Board :=
  { cells := [0], board_size := 1, board_grid_size := 1, board_cell_size := 1,
    board_line_size := 1 }

/-! ## Row ids -/

/-- The decoding of a row id in the result loop of `main`: the row id is
first stored in an `unsigned int`, then split into the row index, the column
index and the digit. -/
def decode_row (b : Board) (id : Nat) : Nat × Nat × Nat :=
  let row_id := id % UINT_MOD
  (row_id / b.board_grid_size, (row_id / b.board_line_size) % b.board_line_size,
    row_id % b.board_line_size + 1)

/-- The splitting of a row id at the head of the row loop of `matrix_create`,
in `size_t`: the row index, the column index and the offset. -/
def split_row (b : Board) (row : Nat) : Nat × Nat × Nat :=
  (row / b.board_grid_size, (row / b.board_line_size) % b.board_line_size,
    row % b.board_line_size)

/-- The row id of the possibility "digit `d` in line `r`, column `c`" on a
board with `N` cells per line. -/
def row_of (N r c d : Nat) : Nat := r * N * N + c * N + (d - 1)

/-- The board with the single cell `1` (`k = 1`): the input file `1`. -/
def oneBoard : Board :=
  { cells := [1], board_size := 1, board_grid_size := 1, board_cell_size := 1,
    board_line_size := 1 }

/-- The empty board with boxes of `k` by `k` cells. -/
def emptyBoard (k : Nat) : Board :=
  { cells := List.replicate (k * k * (k * k)) 0, board_size := k * k * (k * k),
    board_grid_size := k * k * (k * k), board_cell_size := k, board_line_size := k * k }

/-- The matrix `sh` held by heap `h` contains a row with row id `id`: some
linked data node carries it. -/
def has_row (h : Heap) (sh : Shape) (id : Nat) : Prop :=
  ∃ c ∈ sh.hs, ∃ n ∈ sh.vs c, h.row_id n = id

/-- No header is `NULL` and every column holds fewer nodes than the initial
`min_count` of `choose_min_length_column`. -/
def SmallCols (sh : Shape) : Prop :=
  0 ∉ sh.hs ∧ ∀ c ∈ sh.hs, (sh.vs c).length < MIN_COUNT_INIT

/-! ## The search with a log of its calls -/

/-- What the log of a run records: the entry of a call of `dlx_solve_impl`, a
call of `cover_column`, and a recursive call reporting success to the row loop
(the branch `matrix->solved = true`). -/
inductive Ev where
  | call
  | cover (col : Nat)
  | found
  deriving DecidableEq, Repr

/-- The cover loop of `dlx_solve_impl` (see `cover_row`), logging every call
of `cover_column`. -/
def cover_row_log (F : Nat) (s : Heap) (row : Nat) (log : List Ev) :
    Except Err (Heap × List Ev) :=
  for_nodes row (fun (p : Heap × List Ev) node => p.1.right node)
    (fun p node =>
      match cover_column F p.1 (p.1.parent node) with
      | .error e => .error e
      | .ok s1 => .ok (s1, p.2 ++ [Ev.cover (p.1.parent node)]))
    F (s.right row) (s, log)

/-- The body of the row loop of `dlx_solve_impl` (see `solve_row`) with the
log. -/
def solve_row_log (recurse : State × List Ev → Except Err (Bool × State × List Ev)) (F : Nat)
    (p : State × List Ev) (row : Nat) : Except Err (State × List Ev) :=
  let st1 := push_row p.1 row
  match cover_row_log F st1.heap row p.2 with
  | .error e => .error e
  | .ok (h2, log2) =>
    match recurse ({ st1 with heap := h2 }, log2) with
    | .error e => .error e
    | .ok (b, st3, log3) =>
      let st4 : State := if b then { st3 with solved := true } else st3
      let log4 : List Ev := if b then log3 ++ [Ev.found] else log3
      match pop_row st4 with
      | .error e => .error e
      | .ok st5 =>
        match uncover_row F st5.heap row with
        | .error e => .error e
        | .ok h6 => .ok ({ st5 with heap := h6 }, log4)

/-- The C function `dlx_solve_impl` with the log: the same run as
`dlx_solve_impl`, which also records its calls. -/
def dlx_solve_impl_log (F : Nat) : Nat → State × List Ev → Except Err (Bool × State × List Ev)
  | 0, _ => .error .timeout
  | d + 1, p =>
    let st := p.1
    let log0 := p.2 ++ [Ev.call]
    if st.heap.right st.root = st.root then .ok (true, st, log0)
    else
      match choose_min_length_column F st.heap st.root with
      | .error e => .error e
      | .ok col =>
        if col = 0 then .error .nullDeref
        else
          match cover_column F st.heap col with
          | .error e => .error e
          | .ok h1 =>
            match for_nodes col (fun (q : State × List Ev) row => q.1.heap.down row)
                (solve_row_log (fun q => dlx_solve_impl_log F d q) F) F (h1.down col)
                ({ st with heap := h1 }, log0 ++ [Ev.cover col]) with
            | .error e => .error e
            | .ok (st3, log3) =>
              match uncover_column F st3.heap col with
              | .error e => .error e
              | .ok h4 => .ok (st3.solved, { st3 with heap := h4 }, log3)

/-- The log of a run of `dlx_solve`. -/
def dlx_solve_log (F : Nat) (st : State) : Except Err (List Ev) :=
  match dlx_solve_impl_log F F (st, []) with
  | .error e => .error e
  | .ok r => .ok r.2.2

/-! ## The search with early exit -/

/-- The row loop of the search with early exit: try the rows of the selected
column in order and return the first solution that a recursive call reports;
`none` when no row leads to one. -/
def searchEarlyRows (recurse : Shape → List Nat → Except Err (Option (List Nat)))
    (sh1 : Shape) (sol : List Nat) : List Nat → Except Err (Option (List Nat))
  | [] => .ok none
  | r :: rows =>
    match recurse (selectA sh1 r) (sol ++ [r]) with
    | .error e => .error e
    | .ok (some s) => .ok (some s)
    | .ok none => searchEarlyRows recurse sh1 sol rows

/-- The variant of the search that returns immediately when a recursive call
reports success: the depth-first search over the matrix, same column choice,
same row order, which returns the first exact cover it meets. -/
def searchEarly : Nat → Shape → List Nat → Except Err (Option (List Nat))
  | 0, _, _ => .error .timeout
  | d + 1, sh, sol =>
    if sh.hs = [] then .ok (some sol)
    else if chooseA sh = 0 then .error .nullDeref
    else searchEarlyRows (searchEarly d) (coverA sh (chooseA sh)) sol (sh.vs (chooseA sh))

/-! ## Exact covers of the matrix of a board -/

/-- The four column headers of the row with id `row`. -/
def rowColsOf (b : Board) (css row : Nat) : List Nat :=
  [2 + num_index b css row, 2 + row_index b css row, 2 + col_index b css row,
    2 + box_index b css row]

/-! ## Contradictory clues -/

/-- Two rows of the matrix `sh0` clash: node `a` is in column `A`, node `b` in
column `B`, neither row meets the column of the other, and the two rows meet
in a third column. -/
structure Clash (sh0 : Shape) (A B a b : Nat) : Prop where
  ne : A ≠ B
  nA : B ∉ sh0.rowCols a
  nB : A ∉ sh0.rowCols b
  share : ∃ Z, Z ∈ sh0.rowCols a ∧ Z ∈ sh0.rowCols b

/-- What the search keeps of a clash: the columns `A` and `B` are both still
there and hold no other nodes than `a` and `b`, or one of them is still there
and has become empty. -/
def ClashInv (sh0 : Shape) (A B a b : Nat) (sh : Shape) : Prop :=
  sh.rs = sh0.rs ∧ sh.par = sh0.par ∧ 0 ∉ sh.hs ∧
    ((A ∈ sh.hs ∧ B ∈ sh.hs ∧ (∀ x ∈ sh.vs A, x = a) ∧ (∀ x ∈ sh.vs B, x = b)) ∨
      (A ∈ sh.hs ∧ sh.vs A = []) ∨ (B ∈ sh.hs ∧ sh.vs B = []))

/-- The clues of the board hold the same digit twice in one row, in one
column or in one box. -/
def DuplicateClue (b : Board) (k : Nat) : Prop :=
  ∃ r1 c1 r2 c2, r1 < k * k ∧ c1 < k * k ∧ r2 < k * k ∧ c2 < k * k ∧ (r1 ≠ r2 ∨ c1 ≠ c2) ∧
    board_get b c1 r1 ≠ 0 ∧ board_get b c1 r1 = board_get b c2 r2 ∧
    (r1 = r2 ∨ c1 = c2 ∨ (r1 / k = r2 / k ∧ c1 / k = c2 / k))

/-- A 4 by 4 board whose first line holds the digit 1 twice. -/
def clashBoard : Board :=
  { cells := [1, 1, 0, 0, 0, 0, 0, 0, 0, 0, 0, 0, 0, 0, 0, 0], board_size := 16,
    board_grid_size := 16, board_cell_size := 2, board_line_size := 4 }

/-- The 4 by 4 board of the scenario of the specification: the lines
`[1,0,0,0]`, `[0,0,1,0]`, `[0,1,0,0]`, `[0,0,0,2]`. -/
def scenarioBoard : Board :=
  { cells := [1, 0, 0, 0, 0, 0, 1, 0, 0, 1, 0, 0, 0, 0, 0, 2], board_size := 16,
    board_grid_size := 16, board_cell_size := 2, board_line_size := 4 }

/-- The grid that the specification gives as the solution of the scenario:
the lines `[1,2,3,4]`, `[3,4,1,2]`, `[2,1,4,3]`, `[4,3,2,1]`. -/
def scenarioGrid : Board :=
  { cells := [1, 2, 3, 4, 3, 4, 1, 2, 2, 1, 4, 3, 4, 3, 2, 1], board_size := 16,
    board_grid_size := 16, board_cell_size := 2, board_line_size := 4 }

/-- A completely filled board with boxes of `k` by `k` cells that is a valid
Sudoku solution: line `r`, column `c` holds
`(k * (r % k) + r / k + c) % N + 1`. -/
def patternBoard (k : Nat) : Board :=
  { cells := (List.range (k * k * (k * k))).map
      (fun i => (k * ((i / (k * k)) % k) + (i / (k * k)) / k + i % (k * k)) % (k * k) + 1)
    board_size := k * k * (k * k), board_grid_size := k * k * (k * k), board_cell_size := k,
    board_line_size := k * k }

/-- A heap in which every node carries the row id `id`. -/
def rowIdHeap (id : Nat) : Heap := { Heap.empty with row_id := fun _ => id }

/-! ## Grids -/

/-- The sizes of a board with boxes of `k` by `k` cells. -/
structure Dims (b : Board) (k : Nat) : Prop where
  line_size : b.board_line_size = k * k
  grid_size : b.board_grid_size = k * k * (k * k)
  size : b.board_size = k * k * (k * k)
  len : b.cells.length = k * k * (k * k)

/-- The grid is a Sudoku solution: every digit `1..N` occurs exactly once in
every line, in every column and in every box. -/
def ValidGrid (g : Board) (k : Nat) : Prop :=
  (∀ r d, r < k * k → 1 ≤ d → d ≤ k * k → ∃! c, c < k * k ∧ board_get g c r = d) ∧
  (∀ c d, c < k * k → 1 ≤ d → d ≤ k * k → ∃! r, r < k * k ∧ board_get g c r = d) ∧
  (∀ br bc d, br < k → bc < k → 1 ≤ d → d ≤ k * k →
    ∃! p : Nat × Nat, p.1 < k * k ∧ p.2 < k * k ∧ p.1 / k = br ∧ p.2 / k = bc ∧
      board_get g p.2 p.1 = d)

/-- Every column of the matrix holds exactly one node (and no header is
`NULL`): the matrix of a completely filled valid board. -/
def OneEach (sh : Shape) : Prop :=
  0 ∉ sh.hs ∧ ∀ c ∈ sh.hs, (sh.vs c).length = 1

/-- The board is completely filled. -/
def Filled (b : Board) (k : Nat) : Prop :=
  ∀ r c, r < k * k → c < k * k → board_get b c r ≠ 0

/-- The headers are in increasing order, and `key x` is the least column of
the row of every linked node `x`. -/
def KeyInv (key : Nat → Nat) (sh : Shape) : Prop :=
  sh.hs.Pairwise (fun x y => x < y) ∧
    ∀ c ∈ sh.hs, ∀ x ∈ sh.vs c, key x ∈ sh.rowCols x ∧ ∀ e ∈ sh.rowCols x, key x ≤ e

/-! # Properties -/

/-! ## Field maps and segments -/

theorem upd_same (f : Nat → Nat) (a v : Nat) : upd f a v a = v := by simp [upd]

theorem upd_ne (f : Nat → Nat) {a x : Nat} (v : Nat) (h : x ≠ a) : upd f a v x = f x := by
  simp [upd, h]

theorem upd_self (f : Nat → Nat) (a : Nat) : upd f a (f a) = f := by
  funext x; by_cases h : x = a <;> simp [upd, h]

theorem upd_upd (f : Nat → Nat) (a v w : Nat) : upd (upd f a v) a w = upd f a w := by
  funext x; by_cases h : x = a <;> simp [upd, h]

theorem Seg.congr {nxt prv nxt' prv' : Nat → Nat} : ∀ (l : List Nat) (a b : Nat),
    (∀ x ∈ a :: l, nxt' x = nxt x) → (∀ x ∈ l ++ [b], prv' x = prv x) →
    Seg nxt prv a l b → Seg nxt' prv' a l b
  | [], a, b, hn, hp, h => by
    obtain ⟨h1, h2⟩ := h
    exact ⟨by rw [hn a (by simp), h1], by rw [hp b (by simp), h2]⟩
  | x :: l, a, b, hn, hp, h => by
    obtain ⟨h1, h2, h3⟩ := h
    refine ⟨by rw [hn a (by simp), h1], by rw [hp x (by simp), h2], ?_⟩
    exact Seg.congr l x b (fun y hy => hn y (List.mem_cons_of_mem _ hy))
      (fun y hy => hp y (by simp at hy ⊢; tauto)) h3

theorem Seg.append {nxt prv : Nat → Nat} : ∀ (l1 : List Nat) (a x : Nat) (l2 : List Nat) (b : Nat),
    Seg nxt prv a (l1 ++ x :: l2) b ↔ Seg nxt prv a l1 x ∧ Seg nxt prv x l2 b
  | [], a, x, l2, b => by simp [Seg, and_assoc]
  | y :: l1, a, x, l2, b => by
    show (_ ∧ _ ∧ Seg nxt prv y (l1 ++ x :: l2) b) ↔ _
    rw [Seg.append l1 y x l2 b]
    simp only [Seg, and_assoc]

theorem Seg.snoc {nxt prv : Nat → Nat} (l : List Nat) (a x b : Nat) :
    Seg nxt prv a (l ++ [x]) b ↔ Seg nxt prv a l x ∧ nxt x = b ∧ prv b = x := by
  rw [Seg.append]; simp [Seg]

theorem Seg.rev {nxt prv : Nat → Nat} : ∀ (l : List Nat) (a b : Nat),
    Seg nxt prv a l b → Seg prv nxt b l.reverse a
  | [], a, b, h => ⟨h.2, h.1⟩
  | x :: l, a, b, h => by
    obtain ⟨h1, h2, h3⟩ := h
    rw [List.reverse_cons, Seg.snoc]
    exact ⟨Seg.rev l x b h3, h2, h1⟩

/-- The successor of the head of a segment. -/
theorem Seg.nxt_head {nxt prv : Nat → Nat} {a b : Nat} {l : List Nat}
    (h : Seg nxt prv a l b) : nxt a = (l ++ [b]).head (by simp) := by
  cases l with
  | nil => exact h.1
  | cons x l => exact h.1

/-- Unlinking a node from a segment. -/
theorem Seg.unlink {nxt prv : Nat → Nat} : ∀ (l1 : List Nat) (a x : Nat) (l2 : List Nat) (b : Nat),
    Seg nxt prv a (l1 ++ x :: l2) b → (a :: (l1 ++ x :: l2)).Nodup →
    (l1 ++ x :: l2 ++ [b]).Nodup →
    Seg (upd nxt (prv x) (nxt x)) (upd prv (nxt x) (prv x)) a (l1 ++ l2) b ∧
      prv x ∈ a :: l1 ∧ nxt x ∈ l2 ++ [b] ∧ nxt (prv x) = x ∧ prv (nxt x) = x
  | [], a, x, l2, b, h, hs, ht => by
    obtain ⟨h1, h2, h3⟩ := h
    simp only [List.nil_append] at hs ht ⊢
    have hq : nxt x ∈ l2 ++ [b] := by
      rw [Seg.nxt_head h3]; exact List.head_mem _
    have hxa : x ≠ a := by
      intro e; simp [e] at hs
    refine ⟨?_, by simp [h2], hq, by rw [h2, h1], ?_⟩
    · cases l2 with
      | nil =>
        obtain ⟨h4, h5⟩ := h3
        exact ⟨by rw [h2, upd_same, h4], by rw [h4, upd_same, h2]⟩
      | cons y l2 =>
        obtain ⟨h4, h5, h6⟩ := h3
        refine ⟨by rw [h2, upd_same, h4], by rw [h4, upd_same, h2], ?_⟩
        refine Seg.congr l2 y b ?_ ?_ h6
        · intro z hz
          apply upd_ne
          rw [h2]; rintro rfl
          simp at hs; simp at hz; tauto
        · intro z hz
          apply upd_ne
          rw [h4]; rintro rfl
          simp [List.nodup_cons, List.nodup_append] at ht; simp at hz; tauto
    · cases l2 with
      | nil => rw [h3.1]; exact h3.2
      | cons y l2 => rw [h3.1]; exact h3.2.1
  | y :: l1, a, x, l2, b, h, hs, ht => by
    obtain ⟨h1, h2, h3⟩ := h
    have hs' : (y :: (l1 ++ x :: l2)).Nodup := (List.nodup_cons.1 hs).2
    have ht' : (l1 ++ x :: l2 ++ [b]).Nodup := by
      simp only [List.cons_append] at ht; exact (List.nodup_cons.1 ht).2
    obtain ⟨ih, hp, hq, e1, e2⟩ := Seg.unlink l1 y x l2 b h3 hs' ht'
    refine ⟨⟨?_, ?_, ih⟩, List.mem_cons_of_mem _ hp, hq, e1, e2⟩
    · rw [upd_ne _ _ ?_, h1]
      rintro e
      have : a ∈ y :: (l1 ++ x :: l2) := by
        rw [e]
        rcases List.mem_cons.1 hp with h | h
        · rw [h]; simp
        · simp; tauto
      exact (List.nodup_cons.1 hs).1 this
    · rw [upd_ne _ _ ?_, h2]
      rintro e
      have : y ∈ l1 ++ x :: l2 ++ [b] := by
        rw [e]; simp at hq ⊢; tauto
      simp only [List.cons_append] at ht
      exact (List.nodup_cons.1 ht).1 this

/-- Unlinking a node from a circular list with head `h`. -/
theorem Seg.unlink_ring {nxt prv : Nat → Nat} {h x : Nat} {l : List Nat}
    (hseg : Seg nxt prv h l h) (hnd : (h :: l).Nodup) (hx : x ∈ l) :
    Seg (upd nxt (prv x) (nxt x)) (upd prv (nxt x) (prv x)) h (l.filter (fun y => y ≠ x)) h ∧
      prv x ∈ h :: l ∧ nxt x ∈ h :: l ∧ prv x ≠ x ∧ nxt x ≠ x ∧
      nxt (prv x) = x ∧ prv (nxt x) = x := by
  obtain ⟨l1, l2, rfl⟩ := List.append_of_mem hx
  have ht : (l1 ++ x :: l2 ++ [h]).Nodup :=
    (List.perm_append_singleton h (l1 ++ x :: l2)).nodup_iff.2 hnd
  obtain ⟨hs, hp, hq, e1, e2⟩ := Seg.unlink l1 h x l2 h hseg hnd ht
  have hxn1 : x ∉ l1 := by
    intro hm
    have := (List.nodup_cons.1 hnd).2
    rw [List.nodup_append] at this
    exact this.2.2 hm (List.mem_cons_self _ _)
  have hxn2 : x ∉ l2 := by
    have := (List.nodup_cons.1 hnd).2
    rw [List.nodup_append] at this
    exact (List.nodup_cons.1 this.2.1).1
  have hxh : x ≠ h := by
    rintro rfl; exact (List.nodup_cons.1 hnd).1 hx
  have hf : (l1 ++ x :: l2).filter (fun y => y ≠ x) = l1 ++ l2 := by
    rw [List.filter_append, List.filter_cons]
    simp only [ne_eq, not_true_eq_false, decide_False, Bool.false_eq_true, ↓reduceIte]
    rw [List.filter_eq_self.2, List.filter_eq_self.2]
    · intro a ha; simp only [ne_eq, decide_not, Bool.not_eq_true', decide_eq_false_iff_not]
      rintro rfl; exact hxn2 ha
    · intro a ha; simp only [ne_eq, decide_not, Bool.not_eq_true', decide_eq_false_iff_not]
      rintro rfl; exact hxn1 ha
  rw [hf]
  refine ⟨hs, ?_, ?_, ?_, ?_, e1, e2⟩
  · simp at hp ⊢; tauto
  · simp at hq ⊢; tauto
  · intro e; rw [e] at hp; simp at hp; rcases hp with h1 | h1
    · exact hxh h1
    · exact hxn1 h1
  · intro e; rw [e] at hq; simp at hq; rcases hq with h1 | h1
    · exact hxn2 h1
    · exact hxh h1

theorem upd_eq_self {f : Nat → Nat} {a v : Nat} (h : f a = v) : upd f a v = f := by
  rw [← h]; exact upd_self f a

/-! ## Loops over linked lists -/

theorem Seg.path {nxt prv : Nat → Nat} : ∀ (l : List Nat) (a b : Nat),
    Seg nxt prv a l b → Path nxt (nxt a) l b
  | [], _, _, h => h.1
  | x :: l, _, b, h => ⟨h.1, Seg.path l x b h.2.2⟩

theorem Path.congr_path {nxt nxt' : Nat → Nat} : ∀ (l : List Nat) (x b : Nat),
    (∀ y ∈ l, nxt' y = nxt y) → Path nxt x l b → Path nxt' x l b
  | [], _, _, _, h => h
  | y :: l, _, b, hn, h =>
    ⟨h.1, by
      rw [hn y (by simp)]
      exact Path.congr_path l _ b (fun z hz => hn z (List.mem_cons_of_mem _ hz)) h.2⟩

theorem for_nodes_stop {σ : Type} (stop : Nat) (next : σ → Nat → Nat)
    (body : σ → Nat → Except Err σ) (f : Nat) (s : σ) :
    for_nodes stop next body (f + 1) stop s = .ok s := by
  simp [for_nodes]

theorem for_nodes_step {σ : Type} {stop : Nat} {next : σ → Nat → Nat}
    {body : σ → Nat → Except Err σ} {x : Nat} {s s1 : σ} (f : Nat)
    (hx : x ≠ stop) (hb : body s x = .ok s1) :
    for_nodes stop next body (f + 1) x s = for_nodes stop next body f (next s1 x) s1 := by
  simp [for_nodes, hx, hb]

/-- A loop whose body is total and leaves the links it walks on unchanged
folds the body over the list walked. -/
theorem for_nodes_pure {σ : Type} (stop : Nat) (next : σ → Nat → Nat) (g : σ → Nat → σ)
    (hnext : ∀ s n, next (g s n) = next s) :
    ∀ (l : List Nat) (x : Nat) (s : σ) (fuel : Nat), Path (next s) x l stop → stop ∉ l →
      l.length < fuel →
      for_nodes stop next (fun s n => .ok (g s n)) fuel x s = .ok (l.foldl g s)
  | [], x, s, fuel, hp, _, hf => by
    obtain ⟨f, rfl⟩ : ∃ f, fuel = f + 1 := ⟨fuel - 1, by simp at hf; omega⟩
    have : x = stop := hp
    rw [this]; exact for_nodes_stop _ _ _ _ _
  | y :: l, x, s, fuel, hp, hs, hf => by
    obtain ⟨f, rfl⟩ : ∃ f, fuel = f + 1 := ⟨fuel - 1, by simp at hf; omega⟩
    obtain ⟨rfl, hp2⟩ := hp
    have hx : x ≠ stop := by rintro rfl; simp at hs
    rw [for_nodes_step f hx rfl]
    simp only [List.foldl_cons]
    apply for_nodes_pure stop next g hnext l
    · rw [hnext]; exact hp2
    · intro h; exact hs (List.mem_cons_of_mem _ h)
    · simp at hf; omega

/-! ## Unlinking and relinking one node -/

@[simp] theorem unlinkV_right (s : Heap) (n : Nat) : (unlinkV s n).right = s.right := rfl
@[simp] theorem unlinkV_left (s : Heap) (n : Nat) : (unlinkV s n).left = s.left := rfl
@[simp] theorem unlinkV_type (s : Heap) (n : Nat) : (unlinkV s n).type = s.type := rfl
@[simp] theorem unlinkV_parent (s : Heap) (n : Nat) : (unlinkV s n).parent = s.parent := rfl
@[simp] theorem unlinkV_row_id (s : Heap) (n : Nat) : (unlinkV s n).row_id = s.row_id := rfl
@[simp] theorem unlinkV_id (s : Heap) (n : Nat) : (unlinkV s n).id = s.id := rfl
@[simp] theorem unlinkV_next (s : Heap) (n : Nat) : (unlinkV s n).next = s.next := rfl
@[simp] theorem relinkV_right (s : Heap) (n : Nat) : (relinkV s n).right = s.right := rfl
@[simp] theorem relinkV_left (s : Heap) (n : Nat) : (relinkV s n).left = s.left := rfl

theorem foldl_unlinkV_static (l : List Nat) (s : Heap) :
    (l.foldl unlinkV s).right = s.right ∧ (l.foldl unlinkV s).left = s.left ∧
    (l.foldl unlinkV s).type = s.type ∧ (l.foldl unlinkV s).parent = s.parent ∧
    (l.foldl unlinkV s).row_id = s.row_id ∧ (l.foldl unlinkV s).id = s.id ∧
    (l.foldl unlinkV s).next = s.next := by
  induction l generalizing s with
  | nil => simp
  | cons n l ih => simpa using ih (unlinkV s n)

theorem size_dec_inc {k : Nat} (h1 : 0 < k) (h2 : k < SIZE_MOD) :
    (k + (SIZE_MOD - 1)) % SIZE_MOD = k - 1 ∧ ((k - 1) + 1) % SIZE_MOD = k := by
  have e : SIZE_MOD = 18446744073709551616 := by norm_num [SIZE_MOD]
  rw [e] at h2 ⊢
  omega

/-- Unlinking a linked node keeps the columns well formed, and relinking it
restores the heap. -/
theorem unlinkV_spec {s : Heap} {cols : List Nat} {vs : Nat → List Nat} {d n : Nat}
    (hv : VRep s cols vs) (hd : d ∈ cols) (hn : n ∈ vs d) :
    VRep (unlinkV s n) cols (fun e => (vs e).filter (fun x => x ≠ n)) ∧
      relinkV (unlinkV s n) n = s := by
  have hnd : (d :: vs d).Nodup := by
    refine List.nodup_cons.2 ⟨fun h => ?_, hv.vnodup d hd⟩
    have h1 := hv.node_type d hd d h
    rw [hv.col_type d hd] at h1
    exact absurd h1 (by decide)
  obtain ⟨hseg, hp, hq, hpn, hqn, e1, e2⟩ := Seg.unlink_ring (hv.vring d hd) hnd hn
  have hpar : s.parent n = d := hv.node_par d hd n hn
  have hlen : 0 < (vs d).length := List.length_pos_of_mem hn
  obtain ⟨a1, a2⟩ := size_dec_inc hlen (hv.cnt_lt d hd)
  have hdown : (unlinkV s n).down = upd s.down (s.up n) (s.down n) := rfl
  have hup : (unlinkV s n).up = upd s.up (s.down n) (s.up n) := by
    show upd s.up (upd s.down (s.up n) (s.down n) n) (s.up n) = _
    rw [upd_ne _ _ (Ne.symm hpn)]
  have hcount : (unlinkV s n).count = upd s.count d ((vs d).length - 1) := by
    show upd s.count (s.parent n) ((s.count (s.parent n) + (SIZE_MOD - 1)) % SIZE_MOD) = _
    rw [hpar, hv.cnt d hd, a1]
  -- membership of the two neighbours in another column is impossible
  have hother : ∀ e ∈ cols, e ≠ d → ∀ x ∈ d :: vs d, x ∉ e :: vs e := by
    intro e he hne x hx hx'
    rcases List.mem_cons.1 hx with rfl | hx
    · rcases List.mem_cons.1 hx' with h | h
      · exact hne h.symm
      · have := hv.node_type e he _ h
        rw [hv.col_type _ hd] at this; exact absurd this (by decide)
    · rcases List.mem_cons.1 hx' with rfl | h
      · have := hv.node_type d hd _ hx
        rw [hv.col_type _ he] at this; exact absurd this (by decide)
      · exact hne ((hv.node_par e he x h).symm.trans (hv.node_par d hd x hx))
  have hfilt : ∀ e ∈ cols, e ≠ d → (vs e).filter (fun x => x ≠ n) = vs e := by
    intro e he hne
    apply List.filter_eq_self.2
    intro a ha
    simp only [ne_eq, decide_not, Bool.not_eq_true', decide_eq_false_iff_not]
    rintro rfl
    exact hother e he hne a (List.mem_cons_of_mem _ hn) (List.mem_cons_of_mem _ ha)
  have hlenf : ((vs d).filter (fun x => x ≠ n)).length = (vs d).length - 1 := by
    obtain ⟨l1, l2, h12⟩ := List.append_of_mem hn
    have hnd' := hv.vnodup d hd
    rw [h12] at hnd' ⊢
    have hn1 : n ∉ l1 := fun h => (List.nodup_append.1 hnd').2.2 h (List.mem_cons_self _ _)
    have hn2 : n ∉ l2 := (List.nodup_cons.1 (List.nodup_append.1 hnd').2.1).1
    rw [List.filter_append, List.filter_cons]
    simp only [ne_eq, not_true_eq_false, decide_False, Bool.false_eq_true, ↓reduceIte]
    rw [List.filter_eq_self.2, List.filter_eq_self.2]
    · simp
    · intro a ha
      simp only [ne_eq, decide_not, Bool.not_eq_true', decide_eq_false_iff_not]
      rintro rfl; exact hn2 ha
    · intro a ha
      simp only [ne_eq, decide_not, Bool.not_eq_true', decide_eq_false_iff_not]
      rintro rfl; exact hn1 ha
  constructor
  · refine ⟨hv.col_type, ?_, ?_, ?_, ?_, ?_, ?_⟩
    · intro e he
      by_cases hed : e = d
      · subst hed
        rw [hdown, hup]; exact hseg
      · rw [hfilt e he hed, hdown, hup]
        refine Seg.congr _ _ _ ?_ ?_ (hv.vring e he)
        · intro x hx
          apply upd_ne
          rintro rfl
          exact hother e he hed _ hp hx
        · intro x hx
          apply upd_ne
          rintro rfl
          refine hother e he hed _ hq ?_
          rcases List.mem_append.1 hx with h | h
          · exact List.mem_cons_of_mem _ h
          · rw [List.mem_singleton.1 h]; exact List.mem_cons_self _ _
    · intro e he; exact (hv.vnodup e he).filter _
    · intro e he
      by_cases hed : e = d
      · subst hed
        rw [hcount, upd_same, hlenf]
      · rw [hfilt e he hed, hcount, upd_ne _ _ hed]; exact hv.cnt e he
    · intro e he
      exact lt_of_le_of_lt (List.length_filter_le _ _) (hv.cnt_lt e he)
    · intro e he x hx
      exact hv.node_type e he x (List.mem_filter.1 hx).1
    · intro e he x hx
      exact hv.node_par e he x (List.mem_filter.1 hx).1
  · have r1 : (unlinkV s n).parent n = d := hpar
    have r2 : (unlinkV s n).down n = s.down n := by
      rw [hdown, upd_ne _ _ (Ne.symm hpn)]
    have u1 : (relinkV (unlinkV s n) n).up = s.up := by
      show upd (unlinkV s n).up ((unlinkV s n).down n) n = s.up
      rw [r2, hup, upd_upd]; exact upd_eq_self e2
    apply Heap.ext <;> try rfl
    · exact u1
    · show upd (unlinkV s n).down ((relinkV (unlinkV s n) n).up n) n = s.down
      rw [u1, hdown, upd_upd]; exact upd_eq_self e1
    · show upd (unlinkV s n).count ((unlinkV s n).parent n)
        (((unlinkV s n).count ((unlinkV s n).parent n) + 1) % SIZE_MOD) = s.count
      rw [r1, hcount, upd_same, upd_upd, a2]; exact upd_eq_self (hv.cnt d hd)

/-! ## Unlinking and relinking a list of nodes -/

theorem filter_not_mem_cons (l : List Nat) (n : Nat) (ops : List Nat) :
    (l.filter (fun x => x ≠ n)).filter (fun x => x ∉ ops) = l.filter (fun x => x ∉ n :: ops) := by
  rw [List.filter_filter]
  congr 1
  funext x
  simp only [List.mem_cons, not_or, Bool.decide_and, ne_eq, decide_not, Bool.and_comm]

/-- Unlinking distinct linked nodes one after the other keeps the columns
well formed, and relinking them in reverse order restores the heap. -/
theorem foldl_unlinkV_spec {cols : List Nat} : ∀ (ops : List Nat) (s : Heap) (vs : Nat → List Nat),
    VRep s cols vs → ops.Nodup → (∀ n ∈ ops, ∃ d ∈ cols, n ∈ vs d) →
    VRep (ops.foldl unlinkV s) cols (fun e => (vs e).filter (fun x => x ∉ ops)) ∧
      ops.reverse.foldl relinkV (ops.foldl unlinkV s) = s
  | [], s, vs, hv, _, _ => by
    simp only [List.foldl_nil, List.reverse_nil, List.not_mem_nil, not_false_eq_true,
      decide_True, List.filter_true, and_true]
    exact hv
  | n :: ops, s, vs, hv, hnd, hact => by
    obtain ⟨d, hd, hn⟩ := hact n (List.mem_cons_self _ _)
    obtain ⟨hv1, hinv⟩ := unlinkV_spec hv hd hn
    have hact1 : ∀ m ∈ ops, ∃ e ∈ cols, m ∈ (vs e).filter (fun x => x ≠ n) := by
      intro m hm
      obtain ⟨e, he, hme⟩ := hact m (List.mem_cons_of_mem _ hm)
      refine ⟨e, he, List.mem_filter.2 ⟨hme, ?_⟩⟩
      simp only [ne_eq, decide_not, Bool.not_eq_true', decide_eq_false_iff_not]
      rintro rfl
      exact (List.nodup_cons.1 hnd).1 hm
    obtain ⟨ih1, ih2⟩ := foldl_unlinkV_spec ops (unlinkV s n) _ hv1 (List.nodup_cons.1 hnd).2 hact1
    constructor
    · simp only [filter_not_mem_cons] at ih1
      exact ih1
    · rw [List.reverse_cons, List.foldl_append, List.foldl_cons, List.foldl_nil, List.foldl_cons,
        ih2, hinv]

theorem foldl_relinkV_static (l : List Nat) (s : Heap) :
    (l.foldl relinkV s).right = s.right ∧ (l.foldl relinkV s).left = s.left := by
  induction l generalizing s with
  | nil => simp
  | cons n l ih => simpa using ih (relinkV s n)

/-- The inner loop of `cover_column` unlinks the other nodes of the row. -/
theorem cover_inner_eq {F : Nat} {s : Heap} {r : Nat} {l : List Nat}
    (hr : Seg s.right s.left r l r) (hnm : r ∉ l) (hF : l.length < F) :
    cover_inner F s r = .ok (l.foldl unlinkV s) :=
  @for_nodes_pure Heap r (fun s node => s.right node) unlinkV (fun _ _ => rfl) l _ s F
    (Seg.path l r r hr) hnm hF

/-- The inner loop of `uncover_column` relinks the other nodes of the row in
reverse order. -/
theorem uncover_inner_eq {F : Nat} {s : Heap} {r : Nat} {l : List Nat}
    (hr : Seg s.right s.left r l r) (hnm : r ∉ l) (hF : l.length < F) :
    uncover_inner F s r = .ok (l.reverse.foldl relinkV s) :=
  @for_nodes_pure Heap r (fun s node => s.left node) relinkV (fun _ _ => rfl) l.reverse _ s F
    (Seg.path l.reverse r r (Seg.rev l r r hr)) (by simpa using hnm) (by simpa using hF)

theorem Seg.nxt_headD {nxt prv : Nat → Nat} {a b : Nat} {l : List Nat}
    (h : Seg nxt prv a l b) : nxt a = l.headD b := by
  cases l with
  | nil => exact h.1
  | cons x l => exact h.1

theorem Seg.prv_getLastD {nxt prv : Nat → Nat} {a b : Nat} {l : List Nat}
    (h : Seg nxt prv a l b) : prv b = l.getLastD a := by
  have := Seg.nxt_headD (Seg.rev l a b h)
  rw [this]
  cases l using List.reverseRecOn with
  | nil => rfl
  | append_singleton l x _ => simp

/-- The loops of `cover_column` and `uncover_column` over the rows of a column,
started in the middle of the column: covering unlinks the other nodes of the
remaining rows, and uncovering walks back to where covering started. -/
theorem cover_rows_eq {F c : Nat} {cols : List Nat} {rs : Nat → List Nat} :
    ∀ (rows pre : List Nat) (s : Heap) (vs : Nat → List Nat) (fuel : Nat),
    VRep s cols vs → c ∈ cols → vs c = pre ++ rows → (rows.flatMap rs).Nodup →
    (∀ r ∈ rows, ∀ n ∈ rs r, ∃ d ∈ cols, d ≠ c ∧ n ∈ vs d) →
    (∀ r ∈ rows, Seg s.right s.left r (rs r) r ∧ r ∉ rs r ∧ (rs r).length < F) →
    rows.length < fuel →
    for_nodes c (fun s row => s.down row) (cover_inner F) fuel (rows.headD c) s
        = .ok ((rows.flatMap rs).foldl unlinkV s) ∧
      ∀ f, for_nodes c (fun s row => s.up row) (uncover_inner F) (f + rows.length)
          (((rows.flatMap rs).foldl unlinkV s).up c) ((rows.flatMap rs).foldl unlinkV s)
        = for_nodes c (fun s row => s.up row) (uncover_inner F) f (pre.getLastD c) s
  | [], pre, s, vs, fuel, hv, hc, hvs, _, _, _, hfuel => by
    obtain ⟨f, rfl⟩ : ∃ f, fuel = f + 1 := ⟨fuel - 1, by simp at hfuel; omega⟩
    refine ⟨for_nodes_stop _ _ _ _ _, fun f => ?_⟩
    have h := hv.vring c hc
    rw [hvs, List.append_nil] at h
    simp only [List.flatMap_nil, List.foldl_nil, List.length_nil, Nat.add_zero]
    rw [Seg.prv_getLastD h]
  | r :: rows, pre, s, vs, fuel, hv, hc, hvs, hnd, hact, hrow, hfuel => by
    obtain ⟨f0, rfl⟩ : ∃ f, fuel = f + 1 := ⟨fuel - 1, by simp at hfuel; omega⟩
    have hrc : r ∈ vs c := by rw [hvs]; simp
    have hne : r ≠ c := by
      rintro rfl
      have := hv.node_type r hc r hrc
      rw [hv.col_type r hc] at this; exact absurd this (by decide)
    obtain ⟨hseg, hrn, hlen⟩ := hrow r (List.mem_cons_self _ _)
    rw [List.flatMap_cons, List.nodup_append] at hnd
    obtain ⟨hnd1, hnd2, hdisj⟩ := hnd
    -- the heap after the inner loop on row `r`
    obtain ⟨hv1, hinv⟩ := foldl_unlinkV_spec (rs r) s vs hv hnd1
      (fun n hn => by
        obtain ⟨d, hd, _, hnd⟩ := hact r (List.mem_cons_self _ _) n hn
        exact ⟨d, hd, hnd⟩)
    obtain ⟨st1, st2, -⟩ := foldl_unlinkV_static (rs r) s
    have hin : cover_inner F s r = .ok ((rs r).foldl unlinkV s) := cover_inner_eq hseg hrn hlen
    -- column `c` is not touched
    have hkeep : (vs c).filter (fun x => x ∉ rs r) = vs c := by
      apply List.filter_eq_self.2
      intro a ha
      simp only [decide_not, Bool.not_eq_true', decide_eq_false_iff_not]
      intro har
      obtain ⟨d, hd, hdc, had⟩ := hact r (List.mem_cons_self _ _) a har
      exact hdc ((hv.node_par d hd a had).symm.trans (hv.node_par c hc a ha))
    have hvs1 : (fun e => (vs e).filter (fun x => x ∉ rs r)) c = (pre ++ [r]) ++ rows := by
      show (vs c).filter (fun x => x ∉ rs r) = _
      rw [hkeep, hvs]; simp
    have hact1 : ∀ r' ∈ rows, ∀ n ∈ rs r', ∃ d ∈ cols, d ≠ c ∧
        n ∈ (fun e => (vs e).filter (fun x => x ∉ rs r)) d := by
      intro r' hr' n hn
      obtain ⟨d, hd, hdc, hnd'⟩ := hact r' (List.mem_cons_of_mem _ hr') n hn
      refine ⟨d, hd, hdc, List.mem_filter.2 ⟨hnd', ?_⟩⟩
      simp only [decide_not, Bool.not_eq_true', decide_eq_false_iff_not]
      intro hnr
      exact hdisj hnr (List.mem_flatMap.2 ⟨r', hr', hn⟩)
    have hrow1 : ∀ r' ∈ rows, Seg ((rs r).foldl unlinkV s).right ((rs r).foldl unlinkV s).left
        r' (rs r') r' ∧ r' ∉ rs r' ∧ (rs r').length < F := by
      intro r' hr'
      rw [st1, st2]; exact hrow r' (List.mem_cons_of_mem _ hr')
    obtain ⟨ih1, ih2⟩ := cover_rows_eq rows (pre ++ [r]) ((rs r).foldl unlinkV s) _ f0 hv1 hc hvs1
      hnd2 hact1 hrow1 (by simp at hfuel; omega)
    -- the links of column `c` around `r`
    have hcs := hv.vring c hc
    rw [hvs, Seg.append] at hcs
    have hcs1 := hv1.vring c hc
    simp only [hkeep] at hcs1
    rw [hvs, Seg.append] at hcs1
    have hdown : ((rs r).foldl unlinkV s).down r = rows.headD c := Seg.nxt_headD hcs1.2
    have hup : s.up r = pre.getLastD c := Seg.prv_getLastD hcs.1
    rw [List.flatMap_cons, List.foldl_append]
    constructor
    · show for_nodes c _ _ (f0 + 1) r s = _
      rw [for_nodes_step f0 hne hin]
      show for_nodes c _ _ f0 (((rs r).foldl unlinkV s).down r) _ = _
      rw [hdown]; exact ih1
    · intro f
      have e : f + (r :: rows).length = (f + 1) + rows.length := by simp; omega
      rw [e, ih2 (f + 1)]
      simp only [List.getLastD_concat]
      have hun : uncover_inner F ((rs r).foldl unlinkV s) r = .ok s := by
        rw [uncover_inner_eq (by rw [st1, st2]; exact hseg) hrn hlen, hinv]
      rw [for_nodes_step f hne hun]
      show for_nodes c _ _ f (s.up r) s = _
      rw [hup]

/-! ## Facts about shapes -/

theorem Shape.WF.rs_nodup {sh : Shape} (h : sh.WF) {c n : Nat} (hc : c ∈ sh.hs)
    (hn : n ∈ sh.vs c) : (n :: sh.rs n).Nodup :=
  List.Nodup.of_map _ (h.row_nodup c hc n hn)

theorem Shape.WF.not_mem_rs {sh : Shape} (h : sh.WF) {c n : Nat} (hc : c ∈ sh.hs)
    (hn : n ∈ sh.vs c) : n ∉ sh.rs n :=
  (List.nodup_cons.1 (h.rs_nodup hc hn)).1

/-- Two nodes of one row that lie in the same column are equal. -/
theorem Shape.WF.row_inj {sh : Shape} (h : sh.WF) {c n x y : Nat} (hc : c ∈ sh.hs)
    (hn : n ∈ sh.vs c) (hx : x ∈ n :: sh.rs n) (hy : y ∈ n :: sh.rs n)
    (e : sh.par x = sh.par y) : x = y :=
  List.inj_on_of_nodup_map (h.row_nodup c hc n hn) hx hy e

/-- Every node of the row of a linked node is linked. -/
theorem Shape.WF.row_linked {sh : Shape} (h : sh.WF) {c n x : Nat} (hc : c ∈ sh.hs)
    (hn : n ∈ sh.vs c) (hx : x ∈ n :: sh.rs n) : sh.par x ∈ sh.hs ∧ x ∈ sh.vs (sh.par x) := by
  rcases List.mem_cons.1 hx with rfl | hx
  · rw [h.vs_par c hc x hn]; exact ⟨hc, hn⟩
  · exact h.row_act c hc n hn x hx

/-- The rows of the nodes of one row are the same set of nodes. -/
theorem Shape.WF.row_eq {sh : Shape} (h : sh.WF) {c n m : Nat} (hc : c ∈ sh.hs)
    (hn : n ∈ sh.vs c) (hm : m ∈ n :: sh.rs n) (x : Nat) :
    x ∈ m :: sh.rs m ↔ x ∈ n :: sh.rs n := by
  rcases List.mem_cons.1 hm with rfl | hm
  · rfl
  · exact ⟨h.row_sub c hc n hn m hm x, h.row_sup c hc n hn m hm x⟩

theorem Shape.WF.removed_nodup {sh : Shape} (h : sh.WF) {c : Nat} (hc : c ∈ sh.hs) :
    (sh.removed c).Nodup := by
  unfold Shape.removed
  rw [List.nodup_flatMap]
  refine ⟨fun r hr => (List.nodup_cons.1 (h.rs_nodup hc hr)).2, ?_⟩
  refine List.Pairwise.imp_of_mem ?_ (h.vs_nodup c hc)
  intro r1 r2 h1 h2 hne x hx1 hx2
  have hx1' : x ∈ r1 :: sh.rs r1 := List.mem_cons_of_mem _ hx1
  have hx2' : x ∈ r2 :: sh.rs r2 := List.mem_cons_of_mem _ hx2
  have a1 : r2 ∈ r1 :: sh.rs r1 := by
    rw [← h.row_eq hc h1 hx1', h.row_eq hc h2 hx2']; exact List.mem_cons_self _ _
  exact hne (h.row_inj hc h1 (List.mem_cons_self _ _) a1
    ((h.vs_par c hc r1 h1).trans (h.vs_par c hc r2 h2).symm))

/-- The nodes removed by covering `c` are linked nodes of other columns. -/
theorem Shape.WF.removed_act {sh : Shape} (h : sh.WF) {c : Nat} (hc : c ∈ sh.hs) :
    ∀ r ∈ sh.vs c, ∀ n ∈ sh.rs r, ∃ d ∈ sh.hs, d ≠ c ∧ n ∈ sh.vs d := by
  intro r hr n hn
  obtain ⟨h1, h2⟩ := h.row_act c hc r hr n hn
  refine ⟨sh.par n, h1, fun e => ?_, h2⟩
  have := h.row_inj hc hr (List.mem_cons_of_mem _ hn) (List.mem_cons_self _ _)
    (e.trans (h.vs_par c hc r hr).symm)
  exact h.not_mem_rs hc hr (this ▸ hn)

theorem mem_removed {sh : Shape} {c x : Nat} :
    x ∈ sh.removed c ↔ ∃ r ∈ sh.vs c, x ∈ sh.rs r := List.mem_flatMap

theorem mem_coverA_hs {sh : Shape} {c d : Nat} :
    d ∈ (coverA sh c).hs ↔ d ∈ sh.hs ∧ d ≠ c := by
  simp [coverA]

theorem mem_coverA_vs {sh : Shape} {c d x : Nat} :
    x ∈ (coverA sh c).vs d ↔ x ∈ sh.vs d ∧ x ∉ sh.removed c := by
  simp [coverA]

/-- The covered column keeps its own nodes. -/
theorem Shape.WF.coverA_vs_self {sh : Shape} (h : sh.WF) {c : Nat} (hc : c ∈ sh.hs) :
    (coverA sh c).vs c = sh.vs c := by
  apply List.filter_eq_self.2
  intro a ha
  simp only [decide_not, Bool.not_eq_true', decide_eq_false_iff_not]
  intro har
  obtain ⟨r, hr, hn⟩ := mem_removed.1 har
  obtain ⟨d, hd, hdc, had⟩ := h.removed_act hc r hr a hn
  exact hdc ((h.vs_par d hd a had).symm.trans (h.vs_par c hc a ha))

/-- Covering a column of a sparse matrix leaves a sparse matrix. -/
theorem Shape.WF.cover {sh : Shape} (h : sh.WF) {c : Nat} (hc : c ∈ sh.hs) :
    (coverA sh c).WF := by
  have key : ∀ d ∈ (coverA sh c).hs, ∀ n ∈ (coverA sh c).vs d, ∀ m ∈ sh.rs n,
      sh.par m ≠ c ∧ m ∉ sh.removed c := by
    intro d hd n hn m hm
    obtain ⟨hd1, hd2⟩ := mem_coverA_hs.1 hd
    obtain ⟨hn1, hn2⟩ := mem_coverA_vs.1 hn
    have hm' : m ∈ n :: sh.rs n := List.mem_cons_of_mem _ hm
    have hnm : n ∈ m :: sh.rs m := by
      rw [h.row_eq hd1 hn1 hm']; exact List.mem_cons_self _ _
    have hne : n ≠ m := fun e => h.not_mem_rs hd1 hn1 (e ▸ hm)
    constructor
    · intro e
      have hmc : m ∈ sh.vs c := e ▸ (h.row_act d hd1 n hn1 m hm).2
      refine hn2 (mem_removed.2 ⟨m, hmc, ?_⟩)
      rcases List.mem_cons.1 hnm with h1 | h1
      · exact absurd h1 hne
      · exact h1
    · intro hrem
      obtain ⟨r, hr, hmr⟩ := mem_removed.1 hrem
      have hnr : n ∈ r :: sh.rs r := by
        rw [← h.row_eq hc hr (List.mem_cons_of_mem _ hmr)]; exact hnm
      rcases List.mem_cons.1 hnr with h1 | h1
      · apply hd2
        rw [← h.vs_par d hd1 n hn1, h1, h.vs_par c hc r hr]
      · exact hn2 (mem_removed.2 ⟨r, hr, h1⟩)
  refine ⟨h.hs_nodup.filter _, fun d hd => (h.vs_nodup d (mem_coverA_hs.1 hd).1).filter _,
    ?_, ?_, ?_, ?_, ?_⟩
  · intro d hd n hn
    exact h.vs_par d (mem_coverA_hs.1 hd).1 n (mem_coverA_vs.1 hn).1
  · intro d hd n hn
    exact h.row_nodup d (mem_coverA_hs.1 hd).1 n (mem_coverA_vs.1 hn).1
  · intro d hd n hn m hm
    obtain ⟨k1, k2⟩ := key d hd n hn m hm
    obtain ⟨a1, a2⟩ := h.row_act d (mem_coverA_hs.1 hd).1 n (mem_coverA_vs.1 hn).1 m hm
    exact ⟨mem_coverA_hs.2 ⟨a1, k1⟩, mem_coverA_vs.2 ⟨a2, k2⟩⟩
  · intro d hd n hn m hm
    exact h.row_sub d (mem_coverA_hs.1 hd).1 n (mem_coverA_vs.1 hn).1 m hm
  · intro d hd n hn m hm
    exact h.row_sup d (mem_coverA_hs.1 hd).1 n (mem_coverA_vs.1 hn).1 m hm

theorem Shape.Fits.fits_cover {sh : Shape} {F : Nat} (h : sh.Fits F) (c : Nat) :
    (coverA sh c).Fits F := by
  obtain ⟨h1, h2, h3⟩ := h
  refine ⟨lt_of_le_of_lt (List.length_filter_le _ _) h1, ?_, ?_⟩
  · intro d hd
    exact lt_of_le_of_lt (List.length_filter_le _ _) (h2 d (mem_coverA_hs.1 hd).1)
  · intro d hd n hn
    exact h3 d (mem_coverA_hs.1 hd).1 n (mem_coverA_vs.1 hn).1

/-! ## `cover_column` and `uncover_column` on a well-formed matrix -/

theorem Rep.vrep {s : Heap} {root : Nat} {sh : Shape} (hw : sh.WF) (h : Rep s root sh) :
    VRep s sh.hs sh.vs :=
  ⟨h.col_type, h.vring, hw.vs_nodup, h.cnt, h.cnt_lt, h.node_type, h.node_par⟩

/-- Every node of the row of a linked node is a data node. -/
theorem Rep.row_type {s : Heap} {root : Nat} {sh : Shape} (hw : sh.WF) (h : Rep s root sh)
    {c n x : Nat} (hc : c ∈ sh.hs) (hn : n ∈ sh.vs c) (hx : x ∈ n :: sh.rs n) :
    s.type x = DLX_TYPE_DATA := by
  obtain ⟨h1, h2⟩ := hw.row_linked hc hn hx
  exact h.node_type _ h1 x h2

theorem Rep.hdr_type {s : Heap} {root : Nat} {sh : Shape} (h : Rep s root sh) {x : Nat}
    (hx : x ∈ root :: sh.hs) : s.type x = DLX_TYPE_COLUMN := by
  rcases List.mem_cons.1 hx with rfl | hx
  · exact h.root_type
  · exact h.col_type x hx

theorem SameRows.refl (s : Heap) : SameRows s s :=
  ⟨rfl, rfl, rfl, rfl, rfl, fun _ _ => rfl, fun _ _ => rfl⟩

theorem SameRows.trans {s t u : Heap} (h1 : SameRows s t) (h2 : SameRows t u) : SameRows s u :=
  ⟨h2.type.trans h1.type, h2.parent.trans h1.parent, h2.row_id.trans h1.row_id,
    h2.id.trans h1.id, h2.next.trans h1.next,
    fun x hx => (h2.right x (by rw [h1.type]; exact hx)).trans (h1.right x hx),
    fun x hx => (h2.left x (by rw [h1.type]; exact hx)).trans (h1.left x hx)⟩

theorem SameRows.symm {s t : Heap} (h : SameRows s t) : SameRows t s :=
  ⟨h.type.symm, h.parent.symm, h.row_id.symm, h.id.symm, h.next.symm,
    fun x hx => (h.right x (by rw [← h.type]; exact hx)).symm,
    fun x hx => (h.left x (by rw [← h.type]; exact hx)).symm⟩

/-- A row ring of data nodes is the same in heaps with the same rows. -/
theorem SameRows.seg {s t : Heap} (h : SameRows s t) {n : Nat} {l : List Nat}
    (ht : ∀ x ∈ n :: l, s.type x = DLX_TYPE_DATA) (hs : Seg s.right s.left n l n) :
    Seg t.right t.left n l n := by
  refine Seg.congr l n n (fun x hx => h.right x (ht x hx)) (fun x hx => h.left x (ht x ?_)) hs
  rcases List.mem_append.1 hx with h1 | h1
  · exact List.mem_cons_of_mem _ h1
  · rw [List.mem_singleton.1 h1]; exact List.mem_cons_self _ _

/-- `cover_column` on a linked column of a well-formed matrix: it returns, the
heap then holds the covered matrix, the covered column still has its own
nodes, and `uncover_column` right after it restores the heap exactly. -/
theorem cover_column_spec {s : Heap} {root : Nat} {sh : Shape} {c F : Nat}
    (hw : sh.WF) (hr : Rep s root sh) (hc : c ∈ sh.hs) (hF : sh.Fits F) :
    ∃ t, cover_column F s c = .ok t ∧ Rep t root (coverA sh c) ∧
      VRep t sh.hs (coverA sh c).vs ∧ SameRows s t ∧ uncover_column F t c = .ok s := by
  have hnd : (root :: sh.hs).Nodup := List.nodup_cons.2 ⟨hr.root_nmem, hw.hs_nodup⟩
  obtain ⟨hseg, hp, hq, hpc, hqc, e1, e2⟩ := Seg.unlink_ring hr.hring hnd hc
  -- the heap after the header is unlinked
  let s2 : Heap := (s.setRight (s.left c) (s.right c)).setLeft
    ((s.setRight (s.left c) (s.right c)).right c) ((s.setRight (s.left c) (s.right c)).left c)
  have hs2r : s2.right = upd s.right (s.left c) (s.right c) := rfl
  have hs2l : s2.left = upd s.left (s.right c) (s.left c) := by
    show upd s.left (upd s.right (s.left c) (s.right c) c) (s.left c) = _
    rw [upd_ne _ _ (Ne.symm hpc)]
  have hdata : ∀ x, s.type x = DLX_TYPE_DATA → x ∉ root :: sh.hs := by
    intro x hx hm
    rw [hr.hdr_type hm] at hx; exact absurd hx (by decide)
  have hsame2 : SameRows s s2 := by
    refine ⟨rfl, rfl, rfl, rfl, rfl, fun x hx => ?_, fun x hx => ?_⟩
    · rw [hs2r]; apply upd_ne; rintro rfl; exact hdata _ hx hp
    · rw [hs2l]; apply upd_ne; rintro rfl; exact hdata _ hx hq
  have hv2 : VRep s2 sh.hs sh.vs :=
    ⟨hr.col_type, hr.vring, hw.vs_nodup, hr.cnt, hr.cnt_lt, hr.node_type, hr.node_par⟩
  have hrow2 : ∀ r ∈ sh.vs c,
      Seg s2.right s2.left r (sh.rs r) r ∧ r ∉ sh.rs r ∧ (sh.rs r).length < F := by
    intro r hr'
    exact ⟨hsame2.seg (fun x hx => hr.row_type hw hc hr' hx) (hr.rring c hc r hr'),
      hw.not_mem_rs hc hr', hF.2.2 c hc r hr'⟩
  obtain ⟨hcov, hunc⟩ := cover_rows_eq (sh.vs c) [] s2 sh.vs F hv2 hc rfl
    (hw.removed_nodup hc) (hw.removed_act hc) hrow2 (hF.2.1 c hc)
  obtain ⟨hvT, -⟩ := foldl_unlinkV_spec (sh.removed c) s2 sh.vs hv2 (hw.removed_nodup hc)
    (fun n hn => by
      obtain ⟨r, hr', hn'⟩ := mem_removed.1 hn
      obtain ⟨d, hd, -, hnd'⟩ := hw.removed_act hc r hr' n hn'
      exact ⟨d, hd, hnd'⟩)
  obtain ⟨t1, t2, t3, t4, t5, t6, t7⟩ := foldl_unlinkV_static (sh.removed c) s2
  have hsameT : SameRows s ((sh.removed c).foldl unlinkV s2) :=
    hsame2.trans ⟨t3, t4, t5, t6, t7, fun x _ => by rw [t1], fun x _ => by rw [t2]⟩
  have hc0 : c ≠ 0 := hr.hs_ne c hc
  have hct : s.type c = DLX_TYPE_COLUMN := hr.col_type c hc
  refine ⟨(sh.removed c).foldl unlinkV s2, ?_, ?_, hvT, hsameT, ?_⟩
  · -- the run of `cover_column`
    unfold cover_column
    rw [if_neg hc0, if_neg (by rw [hct]; exact fun h => h rfl)]
    show cover_outer F s2 c = _
    unfold cover_outer
    rw [show s2.down c = (sh.vs c).headD c from Seg.nxt_headD (hr.vring c hc)]
    exact hcov
  · -- the heap holds the covered matrix
    have sub : ∀ d, d ∈ (coverA sh c).hs → d ∈ sh.hs := fun d hd => (mem_coverA_hs.1 hd).1
    refine ⟨hr.root_ne, by rw [hsameT.type]; exact hr.root_type,
      fun h => hr.root_nmem (sub _ h), fun d hd => hr.hs_ne d (sub d hd), ?_,
      fun d hd => hvT.col_type d (sub d hd), fun d hd => hvT.vring d (sub d hd),
      fun d hd => hvT.cnt d (sub d hd), fun d hd => hvT.cnt_lt d (sub d hd),
      fun d hd => hvT.node_type d (sub d hd), fun d hd => hvT.node_par d (sub d hd), ?_⟩
    · rw [t1, t2, hs2r, hs2l]; exact hseg
    · intro d hd n hn
      have hd' := sub d hd
      have hn' := (mem_coverA_vs.1 hn).1
      exact hsameT.seg (fun x hx => hr.row_type hw hd' hn' hx) (hr.rring d hd' n hn')
  · -- the run of `uncover_column`
    unfold uncover_column
    rw [if_neg hc0, if_neg (by rw [hsameT.type, hct]; exact fun h => h rfl)]
    have hlen := hF.2.1 c hc
    obtain ⟨f, hf⟩ : ∃ f, F = (f + 1) + (sh.vs c).length := ⟨F - (sh.vs c).length - 1, by omega⟩
    have hout : uncover_outer F ((sh.removed c).foldl unlinkV s2) c = .ok s2 := by
      unfold uncover_outer
      conv_lhs => arg 4; rw [hf]
      exact (hunc (f + 1)).trans (for_nodes_stop _ _ _ _ _)
    rw [hout]
    have hl : upd s2.left (s2.right c) c = s.left := by
      rw [hs2r, upd_ne _ _ (Ne.symm hpc), hs2l, upd_upd]; exact upd_eq_self e2
    have hr2 : upd s2.right (s.left c) c = s.right := by
      rw [hs2r, upd_upd]; exact upd_eq_self e1
    show Except.ok _ = Except.ok s
    congr 1
    apply Heap.ext <;> try rfl
    · exact hl
    · show upd s2.right (upd s2.left (s2.right c) c c) c = s.right
      rw [hl]; exact hr2

/-! ## Column selection -/

theorem choose_loop_eq (s : Heap) (root : Nat) : ∀ (l : List Nat) (x best m fuel : Nat),
    Path s.right x l root → root ∉ l → l.length < fuel →
    choose_loop s root fuel x best m = .ok (chooseL s.count l best m)
  | [], x, best, m, fuel, hp, _, hf => by
    obtain ⟨f, rfl⟩ : ∃ f, fuel = f + 1 := ⟨fuel - 1, by simp at hf; omega⟩
    have : x = root := hp
    simp [choose_loop, chooseL, this]
  | y :: l, x, best, m, fuel, hp, hs, hf => by
    obtain ⟨f, rfl⟩ : ∃ f, fuel = f + 1 := ⟨fuel - 1, by simp at hf; omega⟩
    obtain ⟨rfl, hp2⟩ := hp
    have hx : x ≠ root := by rintro rfl; simp at hs
    have hs' : root ∉ l := fun h => hs (List.mem_cons_of_mem _ h)
    have hf' : l.length < f := by simp at hf; omega
    unfold choose_loop chooseL
    rw [if_neg hx]
    by_cases hc : s.count x < m
    · rw [if_pos hc, if_pos hc]; exact choose_loop_eq s root l _ _ _ f hp2 hs' hf'
    · rw [if_neg hc, if_neg hc]; exact choose_loop_eq s root l _ _ _ f hp2 hs' hf'

theorem chooseL_congr {f g : Nat → Nat} : ∀ (l : List Nat) (best m : Nat),
    (∀ c ∈ l, f c = g c) → chooseL f l best m = chooseL g l best m
  | [], _, _, _ => rfl
  | c :: l, best, m, h => by
    unfold chooseL
    rw [h c (by simp)]
    have h' : ∀ d ∈ l, f d = g d := fun d hd => h d (List.mem_cons_of_mem _ hd)
    rw [chooseL_congr l c (g c) h', chooseL_congr l best m h']

/-- On a well-formed matrix `choose_min_length_column` returns the column
chosen on its shape. -/
theorem choose_eq {s : Heap} {root : Nat} {sh : Shape} {F : Nat} (hr : Rep s root sh)
    (hF : sh.Fits F) : choose_min_length_column F s root = .ok (chooseA sh) := by
  unfold choose_min_length_column chooseA
  rw [choose_loop_eq s root sh.hs _ _ _ F (Seg.path _ _ _ hr.hring) hr.root_nmem hF.1]
  rw [chooseL_congr sh.hs _ _ (fun c hc => hr.cnt c hc)]

/-- The loop returns the initial `best` or a header of the list. -/
theorem chooseL_mem (cnt : Nat → Nat) : ∀ (l : List Nat) (best m : Nat),
    chooseL cnt l best m = best ∨ chooseL cnt l best m ∈ l
  | [], _, _ => Or.inl rfl
  | c :: l, best, m => by
    unfold chooseL
    split
    · rcases chooseL_mem cnt l c (cnt c) with h | h
      · rw [h]; exact Or.inr (List.mem_cons_self _ _)
      · exact Or.inr (List.mem_cons_of_mem _ h)
    · rcases chooseL_mem cnt l best m with h | h
      · exact Or.inl h
      · exact Or.inr (List.mem_cons_of_mem _ h)

/-- The loop keeps the initial `best` exactly when no count is below the
initial `min_count`, provided `best` is not a header of the list. -/
theorem chooseL_eq_best (cnt : Nat → Nat) : ∀ (l : List Nat) (best m : Nat), best ∉ l →
    (chooseL cnt l best m = best ↔ ∀ c ∈ l, m ≤ cnt c)
  | [], _, _, _ => by simp [chooseL]
  | c :: l, best, m, hb => by
    have hbl : best ∉ l := fun h => hb (List.mem_cons_of_mem _ h)
    have hbc : best ≠ c := fun h => hb (h ▸ List.mem_cons_self _ _)
    unfold chooseL
    by_cases hc : cnt c < m
    · rw [if_pos hc]
      constructor
      · intro h
        exfalso
        rcases chooseL_mem cnt l c (cnt c) with h1 | h1
        · exact hbc (h.symm.trans h1)
        · exact hbl (h ▸ h1)
      · intro h
        exact absurd (h c (List.mem_cons_self _ _)) (by omega)
    · rw [if_neg hc, chooseL_eq_best cnt l best m hbl]
      constructor
      · intro h d hd
        rcases List.mem_cons.1 hd with rfl | hd
        · omega
        · exact h d hd
      · intro h d hd
        exact h d (List.mem_cons_of_mem _ hd)

/-- The loop returns a header whose count is minimal among the headers with a
count below the initial `min_count`, and the first such header. -/
theorem chooseL_min (cnt : Nat → Nat) : ∀ (l : List Nat) (best m : Nat),
    l.Nodup → best ∉ l → chooseL cnt l best m ≠ best →
    ∃ l1 l2, l = l1 ++ chooseL cnt l best m :: l2 ∧ cnt (chooseL cnt l best m) < m ∧
      (∀ d ∈ l1, cnt (chooseL cnt l best m) < cnt d) ∧
      (∀ d ∈ l2, cnt (chooseL cnt l best m) ≤ cnt d)
  | [], best, m, _, _, h => absurd rfl h
  | c :: l, best, m, hnd, hb, h => by
    obtain ⟨hcl, hnd'⟩ := List.nodup_cons.1 hnd
    unfold chooseL at h ⊢
    by_cases hc : cnt c < m
    · rw [if_pos hc] at h ⊢
      by_cases he : chooseL cnt l c (cnt c) = c
      · rw [he]
        exact ⟨[], l, rfl, hc, by simp, (chooseL_eq_best cnt l c (cnt c) hcl).1 he⟩
      · obtain ⟨l1, l2, e, h1, h2, h3⟩ := chooseL_min cnt l c (cnt c) hnd' hcl he
        refine ⟨c :: l1, l2, by rw [List.cons_append, ← e], lt_trans h1 hc, ?_, h3⟩
        intro d hd
        rcases List.mem_cons.1 hd with rfl | hd
        · exact h1
        · exact h2 d hd
    · rw [if_neg hc] at h ⊢
      have hb' : best ∉ l := fun h2 => hb (List.mem_cons_of_mem _ h2)
      obtain ⟨l1, l2, e, h1, h2, h3⟩ := chooseL_min cnt l best m hnd' hb' h
      refine ⟨c :: l1, l2, by rw [List.cons_append, ← e], h1, ?_, h3⟩
      intro d hd
      rcases List.mem_cons.1 hd with rfl | hd
      · omega
      · exact h2 d hd

/-! ## The search on a well-formed matrix -/

/-- The two row loops of `dlx_solve_impl`, started in the middle of the row:
covering the columns of the remaining nodes leaves the matrix with these
columns covered, and uncovering walks back to where covering started. -/
theorem cover_row_loop {F root r : Nat} (par : Nat → Nat) :
    ∀ (l pre : List Nat) (s : Heap) (sh : Shape) (fuel : Nat),
    sh.WF → Rep s root sh → sh.Fits F → sh.par = par →
    Seg s.right s.left r (pre ++ l) r → r ∉ l →
    (∀ x ∈ r :: (pre ++ l), s.type x = DLX_TYPE_DATA) →
    (∀ n ∈ l, s.parent n = par n) → (l.map par).Nodup → (∀ n ∈ l, par n ∈ sh.hs) →
    l.length < fuel →
    ∃ t, for_nodes r (fun s node => s.right node)
          (fun s node => cover_column F s (s.parent node)) fuel (l.headD r) s = .ok t ∧
      Rep t root (l.foldl (fun a n => coverA a (par n)) sh) ∧
      (l.foldl (fun a n => coverA a (par n)) sh).WF ∧
      (l.foldl (fun a n => coverA a (par n)) sh).Fits F ∧
      SameRows s t ∧
      ∀ f, for_nodes r (fun s node => s.left node)
            (fun s node => uncover_column F s (s.parent node)) (f + l.length)
            ((pre ++ l).getLastD r) t
          = for_nodes r (fun s node => s.left node)
            (fun s node => uncover_column F s (s.parent node)) f (pre.getLastD r) s
  | [], pre, s, sh, fuel, hw, hr, hF, _, _, _, _, _, _, _, hfuel => by
    obtain ⟨f, rfl⟩ : ∃ f, fuel = f + 1 := ⟨fuel - 1, by simp at hfuel; omega⟩
    exact ⟨s, for_nodes_stop _ _ _ _ _, hr, hw, hF, SameRows.refl s, fun f => by simp⟩
  | n :: l, pre, s, sh, fuel, hw, hr, hF, hpar, hseg, hrl, hty, hpn, hnd, hact, hfuel => by
    obtain ⟨f0, rfl⟩ : ∃ f, fuel = f + 1 := ⟨fuel - 1, by simp at hfuel; omega⟩
    have hne : n ≠ r := by rintro rfl; exact hrl (List.mem_cons_self _ _)
    have hc : par n ∈ sh.hs := hact n (List.mem_cons_self _ _)
    obtain ⟨t1, hcov, hr1, -, hsame, hunc⟩ := cover_column_spec hw hr hc hF
    have hseg' := hseg
    rw [Seg.append] at hseg'
    have hnty : s.type n = DLX_TYPE_DATA := hty n (by simp)
    have hnext : t1.right n = l.headD r := by
      rw [hsame.right n hnty]; exact Seg.nxt_headD hseg'.2
    have hprev : s.left n = pre.getLastD r := Seg.prv_getLastD hseg'.1
    have hlist : pre ++ n :: l = (pre ++ [n]) ++ l := by simp
    obtain ⟨hnd1, hnd2⟩ := List.nodup_cons.1 (by simpa using hnd : (par n :: l.map par).Nodup)
    obtain ⟨t, hloop, hrt, hwt, hFt, hsamet, hff⟩ := cover_row_loop par l (pre ++ [n]) t1
      (coverA sh (par n)) f0 (hw.cover hc) hr1 (hF.fits_cover _) hpar
      (by rw [← hlist]; exact hsame.seg hty hseg)
      (fun h => hrl (List.mem_cons_of_mem _ h))
      (fun x hx => by rw [hsame.type]; exact hty x (by rw [hlist]; exact hx))
      (fun m hm => by rw [hsame.parent]; exact hpn m (List.mem_cons_of_mem _ hm))
      hnd2
      (fun m hm => mem_coverA_hs.2 ⟨hact m (List.mem_cons_of_mem _ hm),
        fun e => hnd1 (List.mem_map.2 ⟨m, hm, e⟩)⟩)
      (by simp at hfuel; omega)
    refine ⟨t, ?_, hrt, hwt, hFt, hsame.trans hsamet, ?_⟩
    · show for_nodes r _ _ (f0 + 1) n s = _
      have hb : (fun (s : Heap) node => cover_column F s (s.parent node)) s n = .ok t1 := by
        show cover_column F s (s.parent n) = _
        rw [hpn n (List.mem_cons_self _ _)]; exact hcov
      rw [for_nodes_step f0 hne hb]
      show for_nodes r _ _ f0 (t1.right n) t1 = _
      rw [hnext]; exact hloop
    · intro f
      have e : f + (n :: l).length = (f + 1) + l.length := by simp; omega
      rw [e, hlist, hff (f + 1)]
      simp only [List.getLastD_concat]
      have hb : (fun (s : Heap) node => uncover_column F s (s.parent node)) t1 n = .ok s := by
        show uncover_column F t1 (t1.parent n) = _
        rw [hsame.parent, hpn n (List.mem_cons_self _ _)]; exact hunc
      rw [for_nodes_step f hne hb]
      show for_nodes r _ _ f (s.left n) s = _
      rw [hprev]

theorem push_row_mk (h : Heap) (root : Nat) (a : Acc) (r : Nat) :
    push_row (State.mk' h root a) r = State.mk' h root (pushA a r) := by
  obtain ⟨b, sol⟩ := a
  cases b <;> rfl

theorem pop_row_mk (h : Heap) (root : Nat) (a : Acc) :
    pop_row (State.mk' h root a) =
      match popA a with
      | .ok a1 => .ok (State.mk' h root a1)
      | .error e => .error e := by
  obtain ⟨b, sol⟩ := a
  cases b
  · by_cases hs : sol = []
    · simp [pop_row, popA, State.mk', hs]
    · simp [pop_row, popA, State.mk', hs]
  · rfl

theorem Rep.right_root {s : Heap} {root : Nat} {sh : Shape} (hr : Rep s root sh) :
    s.right root = root ↔ sh.hs = [] := by
  have h := Seg.nxt_headD hr.hring
  constructor
  · intro e
    cases hl : sh.hs with
    | nil => rfl
    | cons c l =>
      rw [hl] at h
      exfalso
      apply hr.root_nmem
      rw [hl, ← e, h]; exact List.mem_cons_self _ _
  · intro e; rw [h, e]; rfl

@[simp] theorem mk'_heap (h : Heap) (root : Nat) (a : Acc) : (State.mk' h root a).heap = h := rfl
@[simp] theorem mk'_root (h : Heap) (root : Nat) (a : Acc) : (State.mk' h root a).root = root :=
  rfl
@[simp] theorem mk'_solved (h : Heap) (root : Nat) (a : Acc) :
    (State.mk' h root a).solved = a.1 := rfl
@[simp] theorem mk'_solution (h : Heap) (root : Nat) (a : Acc) :
    (State.mk' h root a).solution = a.2 := rfl

/-- The data of a state. -/
theorem State.eq_mk' (st : State) : st = State.mk' st.heap st.root (st.solved, st.solution) := rfl

/-- One iteration of the row loop of `dlx_solve_impl`, given what the
recursive call computes. -/
theorem solve_row_eq {F root c : Nat} {h h1 : Heap} {sh : Shape}
    {recurse : State → Except Err (Bool × State)}
    {recA : Shape → Acc → Except Err (Bool × Acc)}
    (hw : sh.WF) (hr : Rep h root sh) (hF : sh.Fits F) (hc : c ∈ sh.hs)
    (hr1 : Rep h1 root (coverA sh c)) (hsame : SameRows h h1)
    (hrec : ∀ (h2 : Heap) (sh2 : Shape) (a : Acc), sh2.WF → Rep h2 root sh2 → sh2.Fits F →
      recurse (State.mk' h2 root a) =
        match recA sh2 a with
        | .ok (b, a1) => .ok (b, State.mk' h2 root a1)
        | .error e => .error e)
    {r : Nat} (hrc : r ∈ sh.vs c) (a : Acc) :
    solve_row recurse F (State.mk' h1 root a) r =
      match solve_rowA recA (coverA sh c) a r with
      | .ok a1 => .ok (State.mk' h1 root a1)
      | .error e => .error e := by
  have hw1 := hw.cover hc
  have hrs : ∀ n ∈ sh.rs r, sh.par n ∈ (coverA sh c).hs := by
    intro n hn
    obtain ⟨d, hd, hdc, hnd⟩ := hw.removed_act hc r hrc n hn
    have : sh.par n = d := hw.vs_par d hd n hnd
    rw [this]; exact mem_coverA_hs.2 ⟨hd, hdc⟩
  have hty : ∀ x ∈ r :: sh.rs r, h1.type x = DLX_TYPE_DATA := by
    intro x hx; rw [hsame.type]; exact hr.row_type hw hc hrc hx
  have hseg : Seg h1.right h1.left r (sh.rs r) r :=
    hsame.seg (fun x hx => hr.row_type hw hc hrc hx) (hr.rring c hc r hrc)
  have hpar : ∀ n ∈ sh.rs r, h1.parent n = sh.par n := by
    intro n hn
    obtain ⟨p1, p2⟩ := hw.row_act c hc r hrc n hn
    rw [hsame.parent]; exact hr.node_par _ p1 n p2
  have hnd : ((sh.rs r).map sh.par).Nodup := (List.nodup_cons.1 (hw.row_nodup c hc r hrc)).2
  obtain ⟨h2, hcov, hr2, hw2, hF2, hsame2, hff⟩ := cover_row_loop sh.par (sh.rs r) [] h1
    (coverA sh c) F hw1 hr1 (hF.fits_cover c) rfl hseg (hw.not_mem_rs hc hrc) hty hpar hnd hrs
    (hF.2.2 c hc r hrc)
  have hcov' : cover_row F h1 r = .ok h2 := by
    unfold cover_row
    rw [Seg.nxt_headD hseg]; exact hcov
  have hlen := hF.2.2 c hc r hrc
  obtain ⟨f, hf⟩ : ∃ f, F = (f + 1) + (sh.rs r).length := ⟨F - (sh.rs r).length - 1, by omega⟩
  have hunc : uncover_row F h2 r = .ok h1 := by
    unfold uncover_row
    have e1 : h2.left r = (sh.rs r).getLastD r := by
      rw [hsame2.left r (hty r (List.mem_cons_self _ _))]; exact Seg.prv_getLastD hseg
    rw [e1]
    conv_lhs => arg 4; rw [hf]
    have := hff (f + 1)
    simp only [List.nil_append] at this
    rw [this]
    exact for_nodes_stop _ _ _ _ _
  unfold solve_row solve_rowA
  simp only [push_row_mk, mk'_heap, hcov']
  have e0 : ({ State.mk' h1 root (pushA a r) with heap := h2 } : State)
      = State.mk' h2 root (pushA a r) := rfl
  rw [e0, hrec h2 (selectA (coverA sh c) r) (pushA a r) hw2 hr2 hF2]
  cases hres : recA (selectA (coverA sh c) r) (pushA a r) with
  | error e => rfl
  | ok res =>
    obtain ⟨b, a3⟩ := res
    have e2 : (if b = true then { State.mk' h2 root a3 with solved := true }
        else State.mk' h2 root a3) = State.mk' h2 root (if b = true then (true, a3.2) else a3) := by
      cases b <;> rfl
    simp only [e2, pop_row_mk]
    cases hpop : popA (if b = true then (true, a3.2) else a3) with
    | error e => rfl
    | ok a5 =>
      simp only [mk'_heap, hunc]
      rfl

/-- On a heap that holds the matrix `sh`, `dlx_solve_impl` computes what the
search on shapes computes and leaves the heap as it was. -/
theorem dlx_solve_impl_eq {F root : Nat} : ∀ (d : Nat) (h : Heap) (sh : Shape) (a : Acc),
    sh.WF → Rep h root sh → sh.Fits F →
    dlx_solve_impl F d (State.mk' h root a) =
      match solveA d sh a with
      | .ok (b, a1) => .ok (b, State.mk' h root a1)
      | .error e => .error e
  | 0, _, _, _, _, _, _ => rfl
  | d + 1, h, sh, a, hw, hr, hF => by
    unfold dlx_solve_impl solveA
    simp only [mk'_heap, mk'_root]
    by_cases hs : sh.hs = []
    · rw [if_pos (hr.right_root.2 hs), if_pos hs]
    · rw [if_neg (fun e => hs (hr.right_root.1 e)), if_neg hs]
      simp only [choose_eq hr hF]
      by_cases h0 : chooseA sh = 0
      · rw [if_pos h0, if_pos h0]
      · rw [if_neg h0, if_neg h0]
        have hc : chooseA sh ∈ sh.hs := by
          rcases chooseL_mem (fun c => (sh.vs c).length) sh.hs 0 MIN_COUNT_INIT with e | e
          · exact absurd e h0
          · exact e
        obtain ⟨h1, hcov, hr1, hv1, hsame, hunc⟩ := cover_column_spec hw hr hc hF
        simp only [hcov]
        -- the loop over the rows of the chosen column
        have hloop : ∀ (rows pre : List Nat) (a : Acc) (fuel : Nat),
            sh.vs (chooseA sh) = pre ++ rows → rows.length < fuel →
            for_nodes (chooseA sh) (fun (st2 : State) row => st2.heap.down row)
                (solve_row (fun st2 => dlx_solve_impl F d st2) F) fuel
                (rows.headD (chooseA sh)) (State.mk' h1 root a) =
              match foldRows (solve_rowA (solveA d) (coverA sh (chooseA sh))) rows a with
              | .ok a1 => .ok (State.mk' h1 root a1)
              | .error e => .error e := by
          intro rows
          induction rows with
          | nil =>
            intro pre a fuel _ hfuel
            obtain ⟨f, rfl⟩ : ∃ f, fuel = f + 1 := ⟨fuel - 1, by simp at hfuel; omega⟩
            exact for_nodes_stop _ _ _ _ _
          | cons r rows ih =>
            intro pre a fuel hvs hfuel
            obtain ⟨f, rfl⟩ : ∃ f, fuel = f + 1 := ⟨fuel - 1, by simp at hfuel; omega⟩
            have hrc : r ∈ sh.vs (chooseA sh) := by rw [hvs]; simp
            have hne : r ≠ chooseA sh := by
              intro e
              have := hr.node_type _ hc r hrc
              rw [e, hr.col_type _ hc] at this; exact absurd this (by decide)
            have hbody := solve_row_eq hw hr hF hc hr1 hsame
              (fun h2 sh2 a hw2 hr2 hF2 => dlx_solve_impl_eq d h2 sh2 a hw2 hr2 hF2) hrc a
            show for_nodes _ _ _ (f + 1) r _ = _
            unfold foldRows
            cases hres : solve_rowA (solveA d) (coverA sh (chooseA sh)) a r with
            | error e =>
              rw [hres] at hbody
              simp [for_nodes, hne, hbody]
            | ok a1 =>
              rw [hres] at hbody
              rw [for_nodes_step f hne hbody]
              have hcs := hv1.vring _ hc
              rw [hw.coverA_vs_self hc, hvs, Seg.append] at hcs
              show for_nodes _ _ _ f (h1.down r) _ = _
              rw [Seg.nxt_headD hcs.2]
              exact ih (pre ++ [r]) a1 f (by rw [hvs]; simp) (by simp at hfuel; omega)
        have hstart : h1.down (chooseA sh) = (sh.vs (chooseA sh)).headD (chooseA sh) := by
          have hcs := hv1.vring _ hc
          rw [hw.coverA_vs_self hc] at hcs
          exact Seg.nxt_headD hcs
        have e0 : State.mk h1 root (State.mk' h root a).solved (State.mk' h root a).solution
            = State.mk' h1 root a := rfl
        rw [e0, hstart, hloop (sh.vs (chooseA sh)) [] a F rfl (hF.2.1 _ hc)]
        cases hres : foldRows (solve_rowA (solveA d) (coverA sh (chooseA sh)))
            (sh.vs (chooseA sh)) a with
        | error e => rfl
        | ok a3 =>
          simp only [mk'_heap, hunc]
          rfl

/-! ## The matrix after selecting a row -/

@[simp] theorem coverA_rs (sh : Shape) (c : Nat) : (coverA sh c).rs = sh.rs := rfl
@[simp] theorem coverA_par (sh : Shape) (c : Nat) : (coverA sh c).par = sh.par := rfl
@[simp] theorem coverA_rowCols (sh : Shape) (c n : Nat) :
    (coverA sh c).rowCols n = sh.rowCols n := rfl

/-- A linked node of another column is removed by covering `c` exactly when
its row meets `c`. -/
theorem Shape.WF.mem_removed_iff {sh : Shape} (h : sh.WF) {c d x : Nat} (hc : c ∈ sh.hs)
    (hd : d ∈ sh.hs) (hdc : d ≠ c) (hx : x ∈ sh.vs d) :
    x ∈ sh.removed c ↔ c ∈ sh.rowCols x := by
  constructor
  · intro hr
    obtain ⟨r, hr1, hr2⟩ := mem_removed.1 hr
    have : r ∈ x :: sh.rs x := by
      rw [h.row_eq hc hr1 (List.mem_cons_of_mem _ hr2)]; exact List.mem_cons_self _ _
    exact List.mem_map.2 ⟨r, this, h.vs_par c hc r hr1⟩
  · intro hm
    obtain ⟨y, hy, hyc⟩ := List.mem_map.1 hm
    have hyx : y ≠ x := by
      rintro rfl
      exact hdc ((h.vs_par d hd y hx).symm.trans hyc)
    obtain ⟨p1, p2⟩ := h.row_linked hd hx hy
    rw [hyc] at p2
    have hxy : x ∈ y :: sh.rs y := by
      rw [h.row_eq hd hx hy]; exact List.mem_cons_self _ _
    rcases List.mem_cons.1 hxy with e | e
    · exact absurd e.symm hyx
    · exact mem_removed.2 ⟨y, p2, e⟩

/-- The matrix after covering a list of distinct linked columns. -/
theorem foldl_coverA_spec : ∀ (cs : List Nat) (sh : Shape), sh.WF → cs.Nodup →
    (∀ c ∈ cs, c ∈ sh.hs) →
    (cs.foldl coverA sh).WF ∧ (cs.foldl coverA sh).rs = sh.rs ∧
      (cs.foldl coverA sh).par = sh.par ∧
      (∀ d, d ∈ (cs.foldl coverA sh).hs ↔ d ∈ sh.hs ∧ d ∉ cs) ∧
      (∀ d ∈ (cs.foldl coverA sh).hs, ∀ x,
        x ∈ (cs.foldl coverA sh).vs d ↔ x ∈ sh.vs d ∧ ∀ e ∈ cs, e ∉ sh.rowCols x)
  | [], sh, hw, _, _ => by simp [hw]
  | c :: cs, sh, hw, hnd, hcs => by
    obtain ⟨hc1, hnd'⟩ := List.nodup_cons.1 hnd
    have hc : c ∈ sh.hs := hcs c (List.mem_cons_self _ _)
    have hcs' : ∀ e ∈ cs, e ∈ (coverA sh c).hs := fun e he =>
      mem_coverA_hs.2 ⟨hcs e (List.mem_cons_of_mem _ he), fun h => hc1 (h ▸ he)⟩
    obtain ⟨i1, i2, i3, i4, i5⟩ := foldl_coverA_spec cs (coverA sh c) (hw.cover hc) hnd' hcs'
    refine ⟨i1, i2, i3, ?_, ?_⟩
    · intro d
      rw [List.foldl_cons, i4, mem_coverA_hs]
      simp only [List.mem_cons, not_or]
      tauto
    · intro d hd x
      rw [List.foldl_cons] at hd ⊢
      rw [i5 d hd, mem_coverA_vs]
      obtain ⟨hd1, hd2⟩ := (i4 d).1 hd
      obtain ⟨hd3, hd4⟩ := mem_coverA_hs.1 hd1
      constructor
      · rintro ⟨⟨h1, h2⟩, h3⟩
        refine ⟨h1, fun e he => ?_⟩
        rcases List.mem_cons.1 he with rfl | he
        · exact fun hm => h2 ((hw.mem_removed_iff hc hd3 hd4 h1).2 hm)
        · exact h3 e he
      · rintro ⟨h1, h2⟩
        refine ⟨⟨h1, fun hm => h2 c (List.mem_cons_self _ _)
          ((hw.mem_removed_iff hc hd3 hd4 h1).1 hm)⟩, fun e he => h2 e (List.mem_cons_of_mem _ he)⟩

/-- Selecting row `r` of column `c` covers the columns of the row. -/
theorem selectA_eq (sh : Shape) (c r : Nat) (h : sh.par r = c) :
    selectA (coverA sh c) r = (sh.rowCols r).foldl coverA sh := by
  unfold selectA Shape.rowCols
  rw [List.map_cons, List.foldl_cons, h, List.foldl_map]
  rfl

/-- The matrix after selecting row `r` of the linked column `c`: the columns
of the row are gone, and so are all rows that meet one of them. -/
theorem selectA_spec {sh : Shape} (hw : sh.WF) {c r : Nat} (hc : c ∈ sh.hs) (hr : r ∈ sh.vs c) :
    (selectA (coverA sh c) r).WF ∧ (selectA (coverA sh c) r).rs = sh.rs ∧
      (selectA (coverA sh c) r).par = sh.par ∧
      (∀ d, d ∈ (selectA (coverA sh c) r).hs ↔ d ∈ sh.hs ∧ d ∉ sh.rowCols r) ∧
      (∀ d ∈ (selectA (coverA sh c) r).hs, ∀ x,
        x ∈ (selectA (coverA sh c) r).vs d ↔ x ∈ sh.vs d ∧ ∀ e ∈ sh.rowCols r, e ∉ sh.rowCols x) := by
  rw [selectA_eq sh c r (hw.vs_par c hc r hr)]
  refine foldl_coverA_spec (sh.rowCols r) sh hw (hw.row_nodup c hc r hr) ?_
  intro e he
  obtain ⟨y, hy, rfl⟩ := List.mem_map.1 he
  exact (hw.row_linked hc hr hy).1

theorem length_coverA_hs_le (sh : Shape) (c : Nat) :
    (coverA sh c).hs.length ≤ sh.hs.length := List.length_filter_le _ _

theorem length_coverA_hs_lt {sh : Shape} {c : Nat} (hc : c ∈ sh.hs) :
    (coverA sh c).hs.length < sh.hs.length := by
  unfold coverA
  apply List.length_filter_lt_length_iff_exists.2
  exact ⟨c, hc, by simp⟩

theorem length_foldl_coverA_le : ∀ (l : List Nat) (sh : Shape) (f : Nat → Nat),
    (l.foldl (fun a n => coverA a (f n)) sh).hs.length ≤ sh.hs.length
  | [], _, _ => le_refl _
  | n :: l, sh, f =>
    le_trans (length_foldl_coverA_le l (coverA sh (f n)) f) (length_coverA_hs_le sh (f n))

/-- Selecting a row of a linked column leaves fewer columns. -/
theorem length_selectA_lt {sh : Shape} {c : Nat} (hc : c ∈ sh.hs) (r : Nat) :
    (selectA (coverA sh c) r).hs.length < sh.hs.length :=
  lt_of_le_of_lt (length_foldl_coverA_le _ _ _) (length_coverA_hs_lt hc)

/-! ## Exact covers and selected rows -/

theorem filter_length_one_unique {p : Nat → Bool} {l : List Nat} (h : (l.filter p).length = 1)
    {x y : Nat} (hx : x ∈ l) (hy : y ∈ l) (px : p x = true) (py : p y = true) : x = y := by
  obtain ⟨z, hz⟩ := List.length_eq_one.1 h
  have h1 : x ∈ l.filter p := List.mem_filter.2 ⟨hx, px⟩
  have h2 : y ∈ l.filter p := List.mem_filter.2 ⟨hy, py⟩
  rw [hz] at h1 h2
  rw [List.mem_singleton.1 h1, List.mem_singleton.1 h2]

theorem filter_length_one_exists {p : Nat → Bool} {l : List Nat} (h : (l.filter p).length = 1) :
    ∃ x ∈ l, p x = true := by
  obtain ⟨z, hz⟩ := List.length_eq_one.1 h
  have : z ∈ l.filter p := by rw [hz]; exact List.mem_singleton_self _
  exact ⟨z, (List.mem_filter.1 this).1, (List.mem_filter.1 this).2⟩

/-- The nodes of one row meet the same columns. -/
theorem Shape.WF.rowCols_eq {sh : Shape} (h : sh.WF) {c n m : Nat} (hc : c ∈ sh.hs)
    (hn : n ∈ sh.vs c) (hm : m ∈ n :: sh.rs n) (e : Nat) :
    e ∈ sh.rowCols m ↔ e ∈ sh.rowCols n := by
  unfold Shape.rowCols
  simp only [List.mem_map]
  constructor
  · rintro ⟨x, hx, rfl⟩; exact ⟨x, (h.row_eq hc hn hm x).1 hx, rfl⟩
  · rintro ⟨x, hx, rfl⟩; exact ⟨x, (h.row_eq hc hn hm x).2 hx, rfl⟩

theorem Shape.par_mem_rowCols (sh : Shape) (n : Nat) : sh.par n ∈ sh.rowCols n :=
  List.mem_map.2 ⟨n, List.mem_cons_self _ _, rfl⟩

/-- The columns met by a linked row are linked. -/
theorem Shape.WF.rowCols_sub {sh : Shape} (h : sh.WF) {c n e : Nat} (hc : c ∈ sh.hs)
    (hn : n ∈ sh.vs c) (he : e ∈ sh.rowCols n) : e ∈ sh.hs := by
  obtain ⟨y, hy, rfl⟩ := List.mem_map.1 he
  exact (h.row_linked hc hn hy).1

theorem rowCols_congr {sh sh' : Shape} (h1 : sh'.rs = sh.rs) (h2 : sh'.par = sh.par) (n : Nat) :
    sh'.rowCols n = sh.rowCols n := by
  unfold Shape.rowCols; rw [h1, h2]

/-- The empty selection covers the matrix without columns. -/
theorem exactCover_nil {sh : Shape} (h : sh.hs = []) : ExactCover sh [] := by
  refine ⟨fun n hn => absurd hn (List.not_mem_nil _), fun c hc => ?_⟩
  rw [h] at hc; exact absurd hc (List.not_mem_nil _)

/-- A matrix with a column and an exact cover: the cover is not empty. -/
theorem ExactCover.hs_nil_of_nil {sh : Shape} (h : ExactCover sh []) : sh.hs = [] := by
  cases hl : sh.hs with
  | nil => rfl
  | cons c l =>
    have := h.2 c (by rw [hl]; exact List.mem_cons_self _ _)
    simp at this

/-- Soundness step: a row of column `c` together with an exact cover of the
matrix left after selecting it is an exact cover. -/
theorem exactCover_cons {sh : Shape} (hw : sh.WF) {c r : Nat} (hc : c ∈ sh.hs)
    (hr : r ∈ sh.vs c) {p : List Nat} (hp : ExactCover (selectA (coverA sh c) r) p) :
    ExactCover sh (r :: p) := by
  obtain ⟨-, i2, i3, i4, i5⟩ := selectA_spec hw hc hr
  have hrc : ∀ n, (selectA (coverA sh c) r).rowCols n = sh.rowCols n := rowCols_congr i2 i3
  have hact : ∀ n ∈ p, sh.par n ∈ sh.hs ∧ n ∈ sh.vs (sh.par n) ∧
      ∀ e ∈ sh.rowCols r, e ∉ sh.rowCols n := by
    intro n hn
    obtain ⟨a1, a2⟩ := hp.1 n hn
    rw [i3] at a1 a2
    obtain ⟨b1, b2⟩ := (i5 _ a1 n).1 a2
    exact ⟨((i4 _).1 a1).1, b1, b2⟩
  constructor
  · intro n hn
    rcases List.mem_cons.1 hn with rfl | hn
    · rw [hw.vs_par c hc n hr]; exact ⟨hc, hr⟩
    · exact ⟨(hact n hn).1, (hact n hn).2.1⟩
  · intro d hd
    by_cases hdr : d ∈ sh.rowCols r
    · rw [List.filter_cons, if_pos (by simpa using hdr)]
      have : p.filter (fun n => d ∈ sh.rowCols n) = [] := by
        apply List.filter_eq_nil_iff.2
        intro n hn
        simpa using (hact n hn).2.2 d hdr
      rw [this]; rfl
    · rw [List.filter_cons, if_neg (by simpa using hdr)]
      have := hp.2 d ((i4 d).2 ⟨hd, hdr⟩)
      simpa only [hrc] using this

/-- Completeness step: a matrix with an exact cover has, in every linked
column, a row after whose selection an exact cover is left. -/
theorem exactCover_select {sh : Shape} (hw : sh.WF) {c : Nat} (hc : c ∈ sh.hs)
    {q : List Nat} (hq : ExactCover sh q) :
    ∃ r ∈ sh.vs c, ∃ q', ExactCover (selectA (coverA sh c) r) q' := by
  obtain ⟨n, hn, hcn⟩ := filter_length_one_exists (hq.2 c hc)
  have hcn' : c ∈ sh.rowCols n := by simpa using hcn
  obtain ⟨hn1, hn2⟩ := hq.1 n hn
  obtain ⟨y, hy, hyc⟩ := List.mem_map.1 hcn'
  obtain ⟨hy1, hy2⟩ := hw.row_linked hn1 hn2 hy
  rw [hyc] at hy2
  have hcols : ∀ e, e ∈ sh.rowCols y ↔ e ∈ sh.rowCols n := hw.rowCols_eq hn1 hn2 hy
  obtain ⟨-, i2, i3, i4, i5⟩ := selectA_spec hw hc hy2
  have hrc : ∀ m, (selectA (coverA sh c) y).rowCols m = sh.rowCols m := rowCols_congr i2 i3
  -- two selected rows meeting a common column are equal
  have huniq : ∀ m ∈ q, ∀ e, e ∈ sh.rowCols n → e ∈ sh.rowCols m → m = n := by
    intro m hm e he1 he2
    have he : e ∈ sh.hs := hw.rowCols_sub hn1 hn2 he1
    exact filter_length_one_unique (hq.2 e he) hm hn (by simpa using he2) (by simpa using he1)
  refine ⟨y, hy2, q.filter (fun m => c ∉ sh.rowCols m), ?_, ?_⟩
  · intro m hm
    obtain ⟨hm1, hm2⟩ := List.mem_filter.1 hm
    have hm2' : c ∉ sh.rowCols m := by simpa using hm2
    have hmn : m ≠ n := fun e => hm2' (e ▸ hcn')
    obtain ⟨a1, a2⟩ := hq.1 m hm1
    have hdis : ∀ e ∈ sh.rowCols y, e ∉ sh.rowCols m := by
      intro e he1 he2
      exact hmn (huniq m hm1 e ((hcols e).1 he1) he2)
    have hp : sh.par m ∈ (selectA (coverA sh c) y).hs :=
      (i4 _).2 ⟨a1, fun h => hdis _ h (sh.par_mem_rowCols m)⟩
    rw [i3]
    exact ⟨hp, (i5 _ hp m).2 ⟨a2, hdis⟩⟩
  · intro d hd
    obtain ⟨hd1, hd2⟩ := (i4 d).1 hd
    rw [List.filter_filter]
    have : q.filter (fun a => decide (d ∈ (selectA (coverA sh c) y).rowCols a) &&
        decide (c ∉ sh.rowCols a)) = q.filter (fun a => d ∈ sh.rowCols a) := by
      apply List.filter_congr
      intro m hm
      rw [hrc]
      by_cases hdm : d ∈ sh.rowCols m
      · have : c ∉ sh.rowCols m := by
          intro hcm
          have := huniq m hm c hcn' hcm
          rw [this] at hdm
          exact hd2 ((hcols d).2 hdm)
        simp [hdm, this]
      · simp [hdm]
    rw [this]
    exact hq.2 d hd1

/-! ## What the search computes -/

theorem popA_push (sol : List Nat) (r : Nat) : popA (false, sol ++ [r]) = .ok (false, sol) := by
  simp [popA]

theorem chooseA_mem {sh : Shape} (h : chooseA sh ≠ 0) : chooseA sh ∈ sh.hs := by
  rcases chooseL_mem (fun c => (sh.vs c).length) sh.hs 0 MIN_COUNT_INIT with e | e
  · exact absurd e h
  · exact e

/-- The row loop started with the flag set changes nothing, provided the
recursive call does not. -/
theorem foldRows_solved {recA : Shape → Acc → Except Err (Bool × Acc)} {sh1 : Shape}
    (hrec : ∀ sh2 sol b a1, recA sh2 (true, sol) = .ok (b, a1) → b = true ∧ a1 = (true, sol)) :
    ∀ (rows : List Nat) (sol : List Nat) (a3 : Acc),
      foldRows (solve_rowA recA sh1) rows (true, sol) = .ok a3 → a3 = (true, sol)
  | [], sol, a3, h => by
    simp only [foldRows, Except.ok.injEq] at h; exact h.symm
  | r :: rows, sol, a3, h => by
    unfold foldRows at h
    cases hb : solve_rowA recA sh1 (true, sol) r with
    | error e => rw [hb] at h; cases h
    | ok a1 =>
      rw [hb] at h
      have : a1 = (true, sol) := by
        unfold solve_rowA at hb
        cases hr : recA (selectA sh1 r) (pushA (true, sol) r) with
        | error e => rw [hr] at hb; cases hb
        | ok res =>
          obtain ⟨b, a2⟩ := res
          rw [hr] at hb
          obtain ⟨rfl, rfl⟩ := hrec _ _ _ _ (show recA (selectA sh1 r) (true, sol) = _ from hr)
          simp only [if_true, popA, Except.ok.injEq] at hb
          exact hb.symm
      rw [this] at h
      exact foldRows_solved hrec rows sol a3 h

/-- With the flag set at entry, the search changes neither the flag nor the
solution array and returns true. -/
theorem solveA_solved : ∀ (d : Nat) (sh : Shape) (sol : List Nat) (b : Bool) (a1 : Acc),
    solveA d sh (true, sol) = .ok (b, a1) → b = true ∧ a1 = (true, sol)
  | 0, _, _, _, _, h => by cases h
  | d + 1, sh, sol, b, a1, h => by
    unfold solveA at h
    by_cases hs : sh.hs = []
    · rw [if_pos hs] at h
      simp only [Except.ok.injEq, Prod.mk.injEq] at h
      exact ⟨h.1.symm, h.2.symm⟩
    · rw [if_neg hs] at h
      by_cases h0 : chooseA sh = 0
      · rw [if_pos h0] at h; cases h
      · rw [if_neg h0] at h
        cases hl : foldRows (solve_rowA (solveA d) (coverA sh (chooseA sh)))
            (sh.vs (chooseA sh)) (true, sol) with
        | error e => rw [hl] at h; cases h
        | ok a3 =>
          rw [hl] at h
          have := foldRows_solved (solveA_solved d) _ _ _ hl
          subst this
          simp only [Except.ok.injEq, Prod.mk.injEq] at h
          exact ⟨h.1.symm, h.2.symm⟩

/-- The row loop started with the flag clear: either every row failed and
nothing changed, or the first row that succeeded stays recorded in front of an
exact cover of the matrix left after selecting it. -/
theorem foldRows_unsolved {recA : Shape → Acc → Except Err (Bool × Acc)} {sh1 : Shape}
    (hsolved : ∀ sh2 sol b a1, recA sh2 (true, sol) = .ok (b, a1) → b = true ∧ a1 = (true, sol))
    {rows0 : List Nat}
    (hrec : ∀ r ∈ rows0, ∀ sol b a1, recA (selectA sh1 r) (false, sol) = .ok (b, a1) →
      (b = false ∧ a1 = (false, sol) ∧ ¬ ∃ q, ExactCover (selectA sh1 r) q) ∨
      (b = true ∧ ∃ p, a1.2 = sol ++ p ∧ ExactCover (selectA sh1 r) p)) :
    ∀ (rows : List Nat) (sol : List Nat) (a3 : Acc), (∀ r ∈ rows, r ∈ rows0) →
      foldRows (solve_rowA recA sh1) rows (false, sol) = .ok a3 →
      (a3 = (false, sol) ∧ ∀ r ∈ rows, ¬ ∃ q, ExactCover (selectA sh1 r) q) ∨
      (a3.1 = true ∧ ∃ r ∈ rows, ∃ p, a3.2 = sol ++ r :: p ∧ ExactCover (selectA sh1 r) p)
  | [], sol, a3, _, h => by
    simp only [foldRows, Except.ok.injEq] at h
    exact Or.inl ⟨h.symm, fun r hr => absurd hr (List.not_mem_nil _)⟩
  | r :: rows, sol, a3, hsub, h => by
    unfold foldRows at h
    cases hb : solve_rowA recA sh1 (false, sol) r with
    | error e => rw [hb] at h; cases h
    | ok a1 =>
      rw [hb] at h
      unfold solve_rowA at hb
      cases hr : recA (selectA sh1 r) (pushA (false, sol) r) with
      | error e => rw [hr] at hb; cases hb
      | ok res =>
        obtain ⟨b, a2⟩ := res
        rw [hr] at hb
        have hr' : recA (selectA sh1 r) (false, sol ++ [r]) = .ok (b, a2) := hr
        rcases hrec r (hsub r (List.mem_cons_self _ _)) _ _ _ hr' with
          ⟨rfl, rfl, hno⟩ | ⟨rfl, p, hp1, hp2⟩
        · simp only [Bool.false_eq_true, if_false, popA_push, Except.ok.injEq] at hb
          subst hb
          rcases foldRows_unsolved hsolved hrec rows sol a3
            (fun x hx => hsub x (List.mem_cons_of_mem _ hx)) h with ⟨e, hall⟩ | ⟨e, x, hx, q, hq⟩
          · refine Or.inl ⟨e, fun x hx => ?_⟩
            rcases List.mem_cons.1 hx with rfl | hx
            · exact hno
            · exact hall x hx
          · exact Or.inr ⟨e, x, List.mem_cons_of_mem _ hx, q, hq⟩
        · simp only [if_true, popA, Except.ok.injEq] at hb
          subst hb
          have := foldRows_solved hsolved rows _ a3 h
          subst this
          refine Or.inr ⟨rfl, r, List.mem_cons_self _ _, p, ?_, hp2⟩
          rw [hp1, List.append_assoc]; rfl

/-- What the search returns when started with the flag clear on a sparse
matrix: false, with flag and solution array unchanged, when the matrix has no
exact cover; true, with an exact cover appended to the solution array,
otherwise. -/
theorem solveA_unsolved : ∀ (d : Nat) (sh : Shape) (sol : List Nat) (b : Bool) (a1 : Acc),
    sh.WF → solveA d sh (false, sol) = .ok (b, a1) →
    (b = false ∧ a1 = (false, sol) ∧ ¬ ∃ q, ExactCover sh q) ∨
    (b = true ∧ ∃ p, a1.2 = sol ++ p ∧ ExactCover sh p)
  | 0, _, _, _, _, _, h => by cases h
  | d + 1, sh, sol, b, a1, hw, h => by
    unfold solveA at h
    by_cases hs : sh.hs = []
    · rw [if_pos hs] at h
      simp only [Except.ok.injEq, Prod.mk.injEq] at h
      obtain ⟨rfl, rfl⟩ := h
      exact Or.inr ⟨rfl, [], by simp, exactCover_nil hs⟩
    · rw [if_neg hs] at h
      by_cases h0 : chooseA sh = 0
      · rw [if_pos h0] at h; cases h
      · rw [if_neg h0] at h
        have hc := chooseA_mem h0
        cases hl : foldRows (solve_rowA (solveA d) (coverA sh (chooseA sh)))
            (sh.vs (chooseA sh)) (false, sol) with
        | error e => rw [hl] at h; cases h
        | ok a3 =>
          rw [hl] at h
          simp only [Except.ok.injEq, Prod.mk.injEq] at h
          obtain ⟨rfl, rfl⟩ := h
          have hrec : ∀ r ∈ sh.vs (chooseA sh), ∀ sol b a1,
              solveA d (selectA (coverA sh (chooseA sh)) r) (false, sol) = .ok (b, a1) →
              (b = false ∧ a1 = (false, sol) ∧
                ¬ ∃ q, ExactCover (selectA (coverA sh (chooseA sh)) r) q) ∨
              (b = true ∧ ∃ p, a1.2 = sol ++ p ∧
                ExactCover (selectA (coverA sh (chooseA sh)) r) p) :=
            fun r hr sol b a1 hh =>
              solveA_unsolved d _ sol b a1 (selectA_spec hw hc hr).1 hh
          rcases foldRows_unsolved (solveA_solved d) hrec _ sol a3 (fun r hr => hr) hl with
            ⟨e, hall⟩ | ⟨e, r, hr, p, hp1, hp2⟩
          · subst e
            refine Or.inl ⟨rfl, rfl, ?_⟩
            rintro ⟨q, hq⟩
            obtain ⟨r, hr, q', hq'⟩ := exactCover_select hw hc hq
            exact hall r hr ⟨q', hq'⟩
          · exact Or.inr ⟨e, r :: p, hp1, exactCover_cons hw hc hr hp2⟩

/-! ## Termination of the search -/

theorem Shape.fits_bound (sh : Shape) {F : Nat} (h : sh.bound ≤ F) : sh.Fits F := by
  unfold Shape.bound at h
  have key : ∀ c ∈ sh.hs, (sh.vs c).length + ((sh.vs c).map (fun n => (sh.rs n).length)).sum
      ≤ (sh.hs.map (fun c => (sh.vs c).length +
        ((sh.vs c).map (fun n => (sh.rs n).length)).sum)).sum := by
    intro c hc
    exact List.single_le_sum (fun _ _ => Nat.zero_le _) _
      (List.mem_map.2 ⟨c, hc, rfl⟩)
  refine ⟨by omega, fun c hc => ?_, fun c hc n hn => ?_⟩
  · have := key c hc; omega
  · have := key c hc
    have h2 : (sh.rs n).length ≤ ((sh.vs c).map (fun n => (sh.rs n).length)).sum :=
      List.single_le_sum (fun _ _ => Nat.zero_le _) _ (List.mem_map.2 ⟨n, hn, rfl⟩)
    omega

/-- Under a property that the search keeps and that always lets a column be
chosen, the row loop returns. -/
theorem foldRows_ok {d : Nat} {sh1 : Shape} {rows0 : List Nat}
    (hwf : ∀ r ∈ rows0, (selectA sh1 r).WF)
    (hrec : ∀ r ∈ rows0, ∀ a, ∃ b a1, solveA d (selectA sh1 r) a = .ok (b, a1)) :
    ∀ (rows : List Nat) (a : Acc), (∀ r ∈ rows, r ∈ rows0) →
      ∃ a3, foldRows (solve_rowA (solveA d) sh1) rows a = .ok a3
  | [], a, _ => ⟨a, rfl⟩
  | r :: rows, a, hsub => by
    have hr0 := hsub r (List.mem_cons_self _ _)
    have hbody : ∃ a1, solve_rowA (solveA d) sh1 a r = .ok a1 := by
      obtain ⟨b, a2, h2⟩ := hrec r hr0 (pushA a r)
      unfold solve_rowA
      rw [h2]
      obtain ⟨s, sol⟩ := a
      cases s
      · have h2' : solveA d (selectA sh1 r) (false, sol ++ [r]) = .ok (b, a2) := h2
        rcases solveA_unsolved d _ _ _ _ (hwf r hr0) h2' with ⟨rfl, rfl, -⟩ | ⟨rfl, -⟩
        · exact ⟨(false, sol), by simp [popA]⟩
        · exact ⟨(true, a2.2), by simp [popA]⟩
      · have h2' : solveA d (selectA sh1 r) (true, sol) = .ok (b, a2) := h2
        obtain ⟨rfl, rfl⟩ := solveA_solved d _ _ _ _ h2'
        exact ⟨(true, sol), by simp [popA]⟩
    obtain ⟨a1, h1⟩ := hbody
    obtain ⟨a3, h3⟩ := foldRows_ok hwf hrec rows a1 (fun x hx => hsub x (List.mem_cons_of_mem _ hx))
    exact ⟨a3, by unfold foldRows; rw [h1]; exact h3⟩

/-- Under a property that the search keeps and that always lets a column be
chosen, the search returns once the depth budget exceeds the number of
columns. -/
theorem solveA_ok {P : Shape → Prop} (hP : Closed P) : ∀ (d : Nat) (sh : Shape) (a : Acc),
    sh.WF → P sh → sh.hs.length < d → ∃ b a1, solveA d sh a = .ok (b, a1)
  | 0, _, _, _, _, h => absurd h (Nat.not_lt_zero _)
  | d + 1, sh, a, hw, hp, hd => by
    unfold solveA
    by_cases hs : sh.hs = []
    · rw [if_pos hs]; exact ⟨_, _, rfl⟩
    · rw [if_neg hs]
      have h0 := hP.choose_ne sh hw hp hs
      rw [if_neg h0]
      have hc := chooseA_mem h0
      have hwf : ∀ r ∈ sh.vs (chooseA sh), (selectA (coverA sh (chooseA sh)) r).WF :=
        fun r hr => (selectA_spec hw hc hr).1
      have hrec : ∀ r ∈ sh.vs (chooseA sh), ∀ a,
          ∃ b a1, solveA d (selectA (coverA sh (chooseA sh)) r) a = .ok (b, a1) := by
        intro r hr a
        refine solveA_ok hP d _ a (hwf r hr) (hP.step sh hw hp hs r hr) ?_
        have := length_selectA_lt hc r
        omega
      obtain ⟨a3, h3⟩ := foldRows_ok hwf hrec (sh.vs (chooseA sh)) a (fun r hr => hr)
      rw [h3]; exact ⟨_, _, rfl⟩

/-! ## A larger step budget does not change a result -/

theorem for_nodes_mono {σ : Type} {stop : Nat} {next : σ → Nat → Nat}
    {body body' : σ → Nat → Except Err σ}
    (hb : ∀ s x t, body s x = .ok t → body' s x = .ok t) :
    ∀ (f f' x : Nat) (s t : σ), f ≤ f' → for_nodes stop next body f x s = .ok t →
      for_nodes stop next body' f' x s = .ok t
  | 0, _, _, _, _, _, h => by cases h
  | f + 1, f', x, s, t, hf, h => by
    obtain ⟨g, rfl⟩ : ∃ g, f' = g + 1 := ⟨f' - 1, by omega⟩
    unfold for_nodes at h ⊢
    by_cases hx : x = stop
    · rw [if_pos hx] at h ⊢; exact h
    · rw [if_neg hx] at h ⊢
      cases hbody : body s x with
      | error e => rw [hbody] at h; cases h
      | ok s1 =>
        rw [hbody] at h
        rw [hb s x s1 hbody]
        exact for_nodes_mono hb f g _ s1 t (by omega) h

theorem cover_inner_mono {F F' : Nat} (hF : F ≤ F') (s : Heap) (r : Nat) (t : Heap)
    (h : cover_inner F s r = .ok t) : cover_inner F' s r = .ok t :=
  for_nodes_mono (fun _ _ _ h => h) F F' _ s t hF h

theorem cover_outer_mono {F F' : Nat} (hF : F ≤ F') (s : Heap) (c : Nat) (t : Heap)
    (h : cover_outer F s c = .ok t) : cover_outer F' s c = .ok t :=
  for_nodes_mono (cover_inner_mono hF) F F' _ s t hF h

theorem cover_column_mono {F F' : Nat} (hF : F ≤ F') (s : Heap) (c : Nat) (t : Heap)
    (h : cover_column F s c = .ok t) : cover_column F' s c = .ok t := by
  unfold cover_column at h ⊢
  by_cases h0 : c = 0
  · rw [if_pos h0] at h; cases h
  · rw [if_neg h0] at h ⊢
    by_cases h1 : s.type c ≠ DLX_TYPE_COLUMN
    · rw [if_pos h1] at h; cases h
    · rw [if_neg h1] at h ⊢
      exact cover_outer_mono hF _ _ _ h

theorem uncover_inner_mono {F F' : Nat} (hF : F ≤ F') (s : Heap) (r : Nat) (t : Heap)
    (h : uncover_inner F s r = .ok t) : uncover_inner F' s r = .ok t :=
  for_nodes_mono (fun _ _ _ h => h) F F' _ s t hF h

theorem uncover_outer_mono {F F' : Nat} (hF : F ≤ F') (s : Heap) (c : Nat) (t : Heap)
    (h : uncover_outer F s c = .ok t) : uncover_outer F' s c = .ok t :=
  for_nodes_mono (uncover_inner_mono hF) F F' _ s t hF h

theorem uncover_column_mono {F F' : Nat} (hF : F ≤ F') (s : Heap) (c : Nat) (t : Heap)
    (h : uncover_column F s c = .ok t) : uncover_column F' s c = .ok t := by
  unfold uncover_column at h ⊢
  by_cases h0 : c = 0
  · rw [if_pos h0] at h; cases h
  · rw [if_neg h0] at h ⊢
    by_cases h1 : s.type c ≠ DLX_TYPE_COLUMN
    · rw [if_pos h1] at h; cases h
    · rw [if_neg h1] at h ⊢
      cases ho : uncover_outer F s c with
      | error e => rw [ho] at h; cases h
      | ok s1 =>
        rw [ho] at h
        rw [uncover_outer_mono hF _ _ _ ho]
        exact h

theorem cover_row_mono {F F' : Nat} (hF : F ≤ F') (s : Heap) (r : Nat) (t : Heap)
    (h : cover_row F s r = .ok t) : cover_row F' s r = .ok t :=
  for_nodes_mono (fun s _ t h => cover_column_mono hF s _ t h) F F' _ s t hF h

theorem uncover_row_mono {F F' : Nat} (hF : F ≤ F') (s : Heap) (r : Nat) (t : Heap)
    (h : uncover_row F s r = .ok t) : uncover_row F' s r = .ok t :=
  for_nodes_mono (fun s _ t h => uncover_column_mono hF s _ t h) F F' _ s t hF h

theorem choose_loop_mono (s : Heap) (root : Nat) : ∀ (f f' x best m r : Nat), f ≤ f' →
    choose_loop s root f x best m = .ok r → choose_loop s root f' x best m = .ok r
  | 0, _, _, _, _, _, _, h => by cases h
  | f + 1, f', x, best, m, r, hf, h => by
    obtain ⟨g, rfl⟩ : ∃ g, f' = g + 1 := ⟨f' - 1, by omega⟩
    unfold choose_loop at h ⊢
    by_cases hx : x = root
    · rw [if_pos hx] at h ⊢; exact h
    · rw [if_neg hx] at h ⊢
      by_cases hc : s.count x < m
      · rw [if_pos hc] at h ⊢; exact choose_loop_mono s root f g _ _ _ r (by omega) h
      · rw [if_neg hc] at h ⊢; exact choose_loop_mono s root f g _ _ _ r (by omega) h

theorem solve_row_mono {F F' : Nat} (hF : F ≤ F')
    {rec rec' : State → Except Err (Bool × State)}
    (hrec : ∀ st r, rec st = .ok r → rec' st = .ok r) (st : State) (row : Nat) (t : State)
    (h : solve_row rec F st row = .ok t) : solve_row rec' F' st row = .ok t := by
  unfold solve_row at h ⊢
  cases h1 : cover_row F (push_row st row).heap row with
  | error e => simp only [h1] at h; cases h
  | ok h2 =>
    simp only [h1] at h
    simp only [cover_row_mono hF _ _ _ h1]
    cases h3 : rec { push_row st row with heap := h2 } with
    | error e => simp only [h3] at h; cases h
    | ok res =>
      obtain ⟨b, st3⟩ := res
      simp only [h3] at h
      simp only [hrec _ _ h3]
      cases h4 : pop_row (if b = true then { st3 with solved := true } else st3) with
      | error e => simp only [h4] at h; cases h
      | ok st5 =>
        simp only [h4] at h ⊢
        cases h5 : uncover_row F st5.heap row with
        | error e => simp only [h5] at h; cases h
        | ok h6 =>
          simp only [h5] at h
          simp only [uncover_row_mono hF _ _ _ h5]
          exact h

theorem dlx_solve_impl_mono {F F' : Nat} (hF : F ≤ F') : ∀ (d d' : Nat) (st : State)
    (r : Bool × State), d ≤ d' → dlx_solve_impl F d st = .ok r → dlx_solve_impl F' d' st = .ok r
  | 0, _, _, _, _, h => by cases h
  | d + 1, d', st, r, hd, h => by
    obtain ⟨e, rfl⟩ : ∃ e, d' = e + 1 := ⟨d' - 1, by omega⟩
    unfold dlx_solve_impl at h ⊢
    by_cases hs : st.heap.right st.root = st.root
    · rw [if_pos hs] at h ⊢; exact h
    · rw [if_neg hs] at h ⊢
      cases h1 : choose_min_length_column F st.heap st.root with
      | error e => simp only [h1] at h; cases h
      | ok col =>
        simp only [h1] at h
        have h1' : choose_min_length_column F' st.heap st.root = .ok col :=
          choose_loop_mono _ _ F F' _ _ _ _ hF h1
        simp only [h1']
        by_cases h0 : col = 0
        · rw [if_pos h0] at h; cases h
        · rw [if_neg h0] at h ⊢
          cases h2 : cover_column F st.heap col with
          | error e => simp only [h2] at h; cases h
          | ok hp1 =>
            simp only [h2] at h
            simp only [cover_column_mono hF _ _ _ h2]
            cases h3 : for_nodes col (fun (st2 : State) row => st2.heap.down row)
                (solve_row (fun st2 => dlx_solve_impl F d st2) F) F (hp1.down col)
                { st with heap := hp1 } with
            | error e => simp only [h3] at h; cases h
            | ok st3 =>
              simp only [h3] at h
              have h3' := for_nodes_mono
                (fun s x t hh => solve_row_mono hF
                  (fun st r hr => dlx_solve_impl_mono hF d e st r (by omega) hr) s x t hh)
                F F' _ _ _ hF h3
              simp only [h3']
              cases h4 : uncover_column F st3.heap col with
              | error e => simp only [h4] at h; cases h
              | ok h5 =>
                simp only [h4] at h
                simp only [uncover_column_mono hF _ _ _ h4]
                exact h

/-- A result of `dlx_solve` is the same under every larger budget. -/
theorem dlx_solve_mono {F F' : Nat} (hF : F ≤ F') (st : State) (r : Bool × State)
    (h : dlx_solve F st = .ok r) : dlx_solve F' st = .ok r :=
  dlx_solve_impl_mono hF F F' st r hF h

/-! ## The small matrices are well formed -/

theorem seg_range' (nxt prv : Nat → Nat) : ∀ (n a s b : Nat),
    (nxt a = if n = 0 then b else s) → (prv (if n = 0 then b else s) = a) →
    (∀ i, i + 1 < n → nxt (s + i) = s + i + 1 ∧ prv (s + i + 1) = s + i) →
    (0 < n → nxt (s + n - 1) = b ∧ prv b = s + n - 1) →
    Seg nxt prv a (List.range' s n) b
  | 0, a, s, b, h1, h2, _, _ => by
    simp at h1 h2
    exact ⟨h1, h2⟩
  | n + 1, a, s, b, h1, h2, h3, h4 => by
    simp at h1 h2
    rw [List.range'_succ]
    refine ⟨h1, h2, seg_range' nxt prv n s (s + 1) b ?_ ?_ ?_ ?_⟩
    · by_cases hn : n = 0
      · subst hn; simpa using (h4 (by omega)).1
      · rw [if_neg hn]; simpa using (h3 0 (by omega)).1
    · by_cases hn : n = 0
      · subst hn; simpa using (h4 (by omega)).2
      · rw [if_neg hn]; simpa using (h3 0 (by omega)).2
    · intro i hi
      have := h3 (i + 1) (by omega)
      rw [show s + 1 + i = s + (i + 1) by omega]
      exact this
    · intro hn
      have := h4 (by omega)
      rw [show s + 1 + n - 1 = s + (n + 1) - 1 by omega]
      exact this

theorem columnShape_wf (n : Nat) : (columnShape n).WF := by
  refine ⟨by simp [columnShape], ?_, ?_, ?_, ?_, ?_, ?_⟩
  · intro c hc
    simp only [columnShape, List.mem_singleton] at hc
    subst hc
    simp [columnShape, List.nodup_range']
  · intro c hc n _
    simp only [columnShape, List.mem_singleton] at hc
    rw [hc]; rfl
  · intro c _ n _; simp [Shape.rowCols, columnShape]
  · intro c _ n _ m hm; simp [columnShape] at hm
  · intro c _ n _ m hm; simp [columnShape] at hm
  · intro c _ n _ m hm; simp [columnShape] at hm

theorem columnHeap_rep (n : Nat) (hn : n < SIZE_MOD) :
    Rep (columnHeap n) 1 (columnShape n) := by
  have hmem : ∀ c ∈ (columnShape n).hs, c = 2 := by
    intro c hc; simpa [columnShape] using hc
  have hvs : (columnShape n).vs 2 = List.range' 3 n := by simp [columnShape]
  refine ⟨by decide, by simp [columnHeap], by simp [columnShape], ?_, ?_, ?_, ?_, ?_, ?_, ?_, ?_, ?_⟩
  · intro c hc; rw [hmem c hc]; decide
  · simp [columnShape, columnHeap, Seg]
  · intro c hc; rw [hmem c hc]; simp [columnHeap]
  · intro c hc
    rw [hmem c hc, hvs]
    apply seg_range'
    · by_cases h0 : n = 0
      · simp [columnHeap, h0]
      · simp [columnHeap, h0]
    · by_cases h0 : n = 0
      · simp [columnHeap, h0]
      · simp [columnHeap, h0]
    · intro i hi
      simp only [columnHeap]
      constructor
      · rw [if_neg (by omega)]
      · rw [if_neg (by omega)]; omega
    · intro h0
      simp only [columnHeap]
      constructor
      · rw [if_pos (by omega)]
      · simp; omega
  · intro c hc; rw [hmem c hc, hvs]; simp [columnHeap]
  · intro c hc; rw [hmem c hc, hvs]; simpa using hn
  · intro c hc m hm
    rw [hmem c hc, hvs] at hm
    have := List.mem_range'_1.1 hm
    simp only [columnHeap]
    rw [if_neg (by omega)]
  · intro c hc m _; rw [hmem c hc]; rfl
  · intro c hc m hm
    rw [hmem c hc, hvs] at hm
    have := List.mem_range'_1.1 hm
    simp only [columnShape, columnHeap, Seg]
    constructor
    · rw [if_neg (by omega), if_neg (by omega)]
    · rw [if_neg (by omega), if_neg (by omega)]

theorem columnState_wf (n : Nat) (hn : n < SIZE_MOD) :
    WellFormed (columnState n) (columnShape n) :=
  ⟨columnShape_wf n, columnHeap_rep n hn⟩

/-! ## The search on a well-formed matrix: top-level statements -/

/-- On a well-formed matrix and with a budget that fits it, `dlx_solve`
computes what the search on shapes computes and restores the heap. -/
theorem dlx_solve_eq {F : Nat} {st : State} {sh : Shape} (hw : WellFormed st sh)
    (hF : sh.Fits F) :
    dlx_solve F st =
      match solveA F sh (st.solved, st.solution) with
      | .ok (b, a1) => .ok (b, State.mk' st.heap st.root a1)
      | .error e => .error e :=
  dlx_solve_impl_eq F st.heap sh (st.solved, st.solution) hw.1 hw.2 hF

/-- A result of `dlx_solve` on a well-formed matrix is a result of the search
on shapes, and the heap is the one before the call. -/
theorem dlx_solve_result {F : Nat} {st : State} {sh : Shape} (hw : WellFormed st sh)
    {b : Bool} {st' : State} (h : dlx_solve F st = .ok (b, st')) :
    ∃ F' a1, solveA F' sh (st.solved, st.solution) = .ok (b, a1) ∧
      st' = State.mk' st.heap st.root a1 := by
  have hF : sh.Fits (max F sh.bound) := sh.fits_bound (le_max_right _ _)
  have h' := dlx_solve_mono (le_max_left F sh.bound) st _ h
  rw [dlx_solve_eq hw hF] at h'
  cases hs : solveA (max F sh.bound) sh (st.solved, st.solution) with
  | error e => rw [hs] at h'; cases h'
  | ok res =>
    obtain ⟨b', a1⟩ := res
    rw [hs] at h'
    simp only [Except.ok.injEq, Prod.mk.injEq] at h'
    exact ⟨_, a1, by rw [hs, h'.1], h'.2.symm⟩

/-- C1: soundness of the search.  On a well-formed matrix, started with the
flag clear and an empty solution array, a run of `dlx_solve` that returns
true leaves in the solution array an exact cover: every selected node is a
linked data node and every column of the matrix is met by the row of exactly
one selected node. -/
theorem dlx_solve_sound (F : Nat) (st st' : State) (sh : Shape) (hw : WellFormed st sh)
    (hs : st.solved = false) (he : st.solution = [])
    (h : dlx_solve F st = .ok (true, st')) : ExactCover sh st'.solution := by
  obtain ⟨F', a1, h1, rfl⟩ := dlx_solve_result hw h
  rw [hs, he] at h1
  rcases solveA_unsolved F' sh [] true a1 hw.1 h1 with ⟨hb, -⟩ | ⟨-, p, hp1, hp2⟩
  · cases hb
  · show ExactCover sh a1.2
    rw [hp1]; exact hp2

theorem columnShape_fits (n : Nat) : (columnShape n).Fits (n + 2) := by
  refine (columnShape n).fits_bound ?_
  simp [Shape.bound, columnShape]
  omega

theorem solveA_column_one : solveA 3 (columnShape 1) (false, []) = .ok (true, (true, [3])) := by
  rfl

/-- Witness for C1: the matrix with one column and one row. -/
theorem dlx_solve_sound_witness :
    WellFormed (columnState 1) (columnShape 1) ∧
      dlx_solve 3 (columnState 1) = .ok (true, State.mk' (columnHeap 1) 1 (true, [3])) ∧
      ExactCover (columnShape 1) [3] := by
  have hw := columnState_wf 1 (by norm_num [SIZE_MOD])
  have hrun : dlx_solve 3 (columnState 1)
      = .ok (true, State.mk' (columnHeap 1) 1 (true, [3])) := by
    rw [dlx_solve_eq hw (columnShape_fits 1)]
    show (match solveA 3 (columnShape 1) (false, []) with
      | .ok (b, a1) => Except.ok (b, State.mk' (columnHeap 1) 1 a1)
      | .error e => .error e) = _
    rw [solveA_column_one]
  exact ⟨hw, hrun, dlx_solve_sound 3 _ _ _ hw rfl rfl hrun⟩

/-- C10: no partial result on failure.  On a well-formed matrix, a run of
`dlx_solve` that starts with an empty solution array and returns false leaves
the solution array empty. -/
theorem dlx_solve_false_empty (F : Nat) (st st' : State) (sh : Shape)
    (hw : WellFormed st sh) (he : st.solution = [])
    (h : dlx_solve F st = .ok (false, st')) : st'.solution = [] := by
  obtain ⟨F', a1, h1, rfl⟩ := dlx_solve_result hw h
  rw [he] at h1
  cases hs : st.solved with
  | true =>
    rw [hs] at h1
    have := (solveA_solved F' sh [] false a1 h1).1
    cases this
  | false =>
    rw [hs] at h1
    rcases solveA_unsolved F' sh [] false a1 hw.1 h1 with ⟨-, ha, -⟩ | ⟨hb, -⟩
    · show a1.2 = []
      rw [ha]
    · cases hb

theorem solveA_column_zero : solveA 2 (columnShape 0) (false, []) = .ok (false, (false, [])) := by
  rfl

/-- Witness for C10: the matrix with one column and no row. -/
theorem dlx_solve_false_empty_witness :
    WellFormed (columnState 0) (columnShape 0) ∧
      dlx_solve 2 (columnState 0) = .ok (false, State.mk' (columnHeap 0) 1 (false, [])) ∧
      (State.mk' (columnHeap 0) 1 (false, [])).solution = [] := by
  have hw := columnState_wf 0 (by norm_num [SIZE_MOD])
  have hrun : dlx_solve 2 (columnState 0)
      = .ok (false, State.mk' (columnHeap 0) 1 (false, [])) := by
    rw [dlx_solve_eq hw (columnShape_fits 0)]
    show (match solveA 2 (columnShape 0) (false, []) with
      | .ok (b, a1) => Except.ok (b, State.mk' (columnHeap 0) 1 a1)
      | .error e => .error e) = _
    rw [solveA_column_zero]
  exact ⟨hw, hrun, dlx_solve_false_empty 2 _ _ _ hw rfl hrun⟩

/-- C7: cover/uncover inverse law.  For a well-formed matrix and a column
linked in its header list, `cover_column` returns (under every budget from
some budget on), and `uncover_column` right after it returns the heap as it
was before: every link and every count is restored. -/
theorem cover_uncover_inverse (st : State) (sh : Shape) (c : Nat) (hw : WellFormed st sh)
    (hc : c ∈ sh.hs) :
    ∃ F0, ∀ F, F0 ≤ F → ∃ t, cover_column F st.heap c = .ok t ∧
      uncover_column F t c = .ok st.heap := by
  refine ⟨sh.bound, fun F hF => ?_⟩
  obtain ⟨t, h1, -, -, -, h2⟩ := cover_column_spec hw.1 hw.2 hc (sh.fits_bound hF)
  exact ⟨t, h1, h2⟩

/-- Witness for C7: the column of the matrix with one column and three rows. -/
theorem cover_uncover_inverse_witness :
    WellFormed (columnState 3) (columnShape 3) ∧ 2 ∈ (columnShape 3).hs ∧
      ∃ F0, ∀ F, F0 ≤ F → ∃ t, cover_column F (columnState 3).heap 2 = .ok t ∧
        uncover_column F t 2 = .ok (columnState 3).heap :=
  ⟨columnState_wf 3 (by norm_num [SIZE_MOD]), by simp [columnShape],
    cover_uncover_inverse (columnState 3) (columnShape 3) 2
      (columnState_wf 3 (by norm_num [SIZE_MOD])) (by simp [columnShape])⟩

/-! ## Column selection on a well-formed matrix -/

/-- On a well-formed matrix `choose_min_length_column` returns once the budget
exceeds the number of columns, and returns the column chosen on the shape. -/
theorem choose_wf {st : State} {sh : Shape} (hw : WellFormed st sh) {F : Nat}
    (hF : sh.hs.length < F) :
    choose_min_length_column F st.heap st.root = .ok (chooseA sh) := by
  unfold choose_min_length_column chooseA
  rw [choose_loop_eq st.heap st.root sh.hs _ _ _ F (Seg.path _ _ _ hw.2.hring) hw.2.root_nmem hF]
  rw [chooseL_congr sh.hs _ _ (fun c hc => hw.2.cnt c hc)]

/-- What is chosen: `NULL` exactly when no linked column has fewer than 511
nodes; otherwise the first of the linked columns with the fewest nodes. -/
theorem chooseA_spec {st : State} {sh : Shape} (hw : WellFormed st sh) :
    (chooseA sh = 0 ↔ ∀ c ∈ sh.hs, MIN_COUNT_INIT ≤ (sh.vs c).length) ∧
    (chooseA sh ≠ 0 → ∃ l1 l2, sh.hs = l1 ++ chooseA sh :: l2 ∧
      (sh.vs (chooseA sh)).length < MIN_COUNT_INIT ∧
      (∀ d ∈ l1, (sh.vs (chooseA sh)).length < (sh.vs d).length) ∧
      (∀ d ∈ l2, (sh.vs (chooseA sh)).length ≤ (sh.vs d).length)) := by
  have h0 : (0 : Nat) ∉ sh.hs := fun h => hw.2.hs_ne 0 h rfl
  exact ⟨chooseL_eq_best _ sh.hs 0 MIN_COUNT_INIT h0,
    fun h => chooseL_min _ sh.hs 0 MIN_COUNT_INIT hw.1.hs_nodup h0 h⟩

/-- C8 fails on the code: on the well-formed matrix with one column of 600
data nodes the header list is not empty, and `choose_min_length_column`
returns `NULL` instead of the column with the smallest count. -/
theorem choose_min_misses_column :
    WellFormed (columnState 600) (columnShape 600) ∧
      (columnState 600).heap.right (columnState 600).root ≠ (columnState 600).root ∧
      ∀ F, 2 ≤ F → ∃ r, choose_min_length_column F (columnState 600).heap
          (columnState 600).root = .ok r ∧ r ∉ (columnShape 600).hs := by
  have hw := columnState_wf 600 (by norm_num [SIZE_MOD])
  refine ⟨hw, by decide, fun F hF => ⟨0, ?_, by simp [columnShape]⟩⟩
  rw [choose_wf hw (by simpa [columnShape] using hF)]
  simp [chooseA, chooseL, columnShape, MIN_COUNT_INIT]

/-- C9 fails on the code: on the well-formed matrix with one column of 511
data nodes `choose_min_length_column` returns `NULL` although the header list
is not empty. -/
theorem choose_null_on_nonempty :
    WellFormed (columnState 511) (columnShape 511) ∧
      (columnState 511).heap.right (columnState 511).root ≠ (columnState 511).root ∧
      ∀ F, 2 ≤ F → choose_min_length_column F (columnState 511).heap
          (columnState 511).root = .ok 0 := by
  have hw := columnState_wf 511 (by norm_num [SIZE_MOD])
  refine ⟨hw, by decide, fun F hF => ?_⟩
  rw [choose_wf hw (by simpa [columnShape] using hF)]
  simp [chooseA, chooseL, columnShape, MIN_COUNT_INIT]

/-! ## Field writes -/

@[simp] theorem setLeft_left (s : Heap) (a v : Nat) : (s.setLeft a v).left = upd s.left a v := rfl
@[simp] theorem setLeft_right (s : Heap) (a v : Nat) : (s.setLeft a v).right = s.right := rfl
@[simp] theorem setLeft_up (s : Heap) (a v : Nat) : (s.setLeft a v).up = s.up := rfl
@[simp] theorem setLeft_down (s : Heap) (a v : Nat) : (s.setLeft a v).down = s.down := rfl
@[simp] theorem setLeft_type (s : Heap) (a v : Nat) : (s.setLeft a v).type = s.type := rfl
@[simp] theorem setLeft_parent (s : Heap) (a v : Nat) : (s.setLeft a v).parent = s.parent := rfl
@[simp] theorem setLeft_row_id (s : Heap) (a v : Nat) : (s.setLeft a v).row_id = s.row_id := rfl
@[simp] theorem setLeft_id (s : Heap) (a v : Nat) : (s.setLeft a v).id = s.id := rfl
@[simp] theorem setLeft_count (s : Heap) (a v : Nat) : (s.setLeft a v).count = s.count := rfl
@[simp] theorem setLeft_next (s : Heap) (a v : Nat) : (s.setLeft a v).next = s.next := rfl

@[simp] theorem setRight_left (s : Heap) (a v : Nat) : (s.setRight a v).left = s.left := rfl
@[simp] theorem setRight_right (s : Heap) (a v : Nat) :
    (s.setRight a v).right = upd s.right a v := rfl
@[simp] theorem setRight_up (s : Heap) (a v : Nat) : (s.setRight a v).up = s.up := rfl
@[simp] theorem setRight_down (s : Heap) (a v : Nat) : (s.setRight a v).down = s.down := rfl
@[simp] theorem setRight_type (s : Heap) (a v : Nat) : (s.setRight a v).type = s.type := rfl
@[simp] theorem setRight_parent (s : Heap) (a v : Nat) : (s.setRight a v).parent = s.parent := rfl
@[simp] theorem setRight_row_id (s : Heap) (a v : Nat) : (s.setRight a v).row_id = s.row_id := rfl
@[simp] theorem setRight_id (s : Heap) (a v : Nat) : (s.setRight a v).id = s.id := rfl
@[simp] theorem setRight_count (s : Heap) (a v : Nat) : (s.setRight a v).count = s.count := rfl
@[simp] theorem setRight_next (s : Heap) (a v : Nat) : (s.setRight a v).next = s.next := rfl

@[simp] theorem setUp_left (s : Heap) (a v : Nat) : (s.setUp a v).left = s.left := rfl
@[simp] theorem setUp_right (s : Heap) (a v : Nat) : (s.setUp a v).right = s.right := rfl
@[simp] theorem setUp_up (s : Heap) (a v : Nat) : (s.setUp a v).up = upd s.up a v := rfl
@[simp] theorem setUp_down (s : Heap) (a v : Nat) : (s.setUp a v).down = s.down := rfl
@[simp] theorem setUp_type (s : Heap) (a v : Nat) : (s.setUp a v).type = s.type := rfl
@[simp] theorem setUp_parent (s : Heap) (a v : Nat) : (s.setUp a v).parent = s.parent := rfl
@[simp] theorem setUp_row_id (s : Heap) (a v : Nat) : (s.setUp a v).row_id = s.row_id := rfl
@[simp] theorem setUp_id (s : Heap) (a v : Nat) : (s.setUp a v).id = s.id := rfl
@[simp] theorem setUp_count (s : Heap) (a v : Nat) : (s.setUp a v).count = s.count := rfl
@[simp] theorem setUp_next (s : Heap) (a v : Nat) : (s.setUp a v).next = s.next := rfl

@[simp] theorem setDown_left (s : Heap) (a v : Nat) : (s.setDown a v).left = s.left := rfl
@[simp] theorem setDown_right (s : Heap) (a v : Nat) : (s.setDown a v).right = s.right := rfl
@[simp] theorem setDown_up (s : Heap) (a v : Nat) : (s.setDown a v).up = s.up := rfl
@[simp] theorem setDown_down (s : Heap) (a v : Nat) : (s.setDown a v).down = upd s.down a v := rfl
@[simp] theorem setDown_type (s : Heap) (a v : Nat) : (s.setDown a v).type = s.type := rfl
@[simp] theorem setDown_parent (s : Heap) (a v : Nat) : (s.setDown a v).parent = s.parent := rfl
@[simp] theorem setDown_row_id (s : Heap) (a v : Nat) : (s.setDown a v).row_id = s.row_id := rfl
@[simp] theorem setDown_id (s : Heap) (a v : Nat) : (s.setDown a v).id = s.id := rfl
@[simp] theorem setDown_count (s : Heap) (a v : Nat) : (s.setDown a v).count = s.count := rfl
@[simp] theorem setDown_next (s : Heap) (a v : Nat) : (s.setDown a v).next = s.next := rfl

@[simp] theorem setCount_left (s : Heap) (a v : Nat) : (s.setCount a v).left = s.left := rfl
@[simp] theorem setCount_right (s : Heap) (a v : Nat) : (s.setCount a v).right = s.right := rfl
@[simp] theorem setCount_up (s : Heap) (a v : Nat) : (s.setCount a v).up = s.up := rfl
@[simp] theorem setCount_down (s : Heap) (a v : Nat) : (s.setCount a v).down = s.down := rfl
@[simp] theorem setCount_type (s : Heap) (a v : Nat) : (s.setCount a v).type = s.type := rfl
@[simp] theorem setCount_parent (s : Heap) (a v : Nat) : (s.setCount a v).parent = s.parent := rfl
@[simp] theorem setCount_row_id (s : Heap) (a v : Nat) : (s.setCount a v).row_id = s.row_id := rfl
@[simp] theorem setCount_id (s : Heap) (a v : Nat) : (s.setCount a v).id = s.id := rfl
@[simp] theorem setCount_count (s : Heap) (a v : Nat) :
    (s.setCount a v).count = upd s.count a v := rfl
@[simp] theorem setCount_next (s : Heap) (a v : Nat) : (s.setCount a v).next = s.next := rfl

theorem link_nodes_down (s : Heap) {a b : Nat} (ha : a ≠ 0) (hb : b ≠ 0) :
    link_nodes s a b LINK_DOWN = (s.setDown a b).setUp b a := by
  have e1 : (4 : Nat) &&& 2 = 0 := by decide
  have e2 : (4 : Nat) &&& 8 = 0 := by decide
  have e3 : (2 : Nat) &&& 4 = 0 := by decide
  have e4 : (2 : Nat) &&& 8 = 0 := by decide
  have e5 : (1 : Nat) &&& 2 = 0 := by decide
  have e6 : (1 : Nat) &&& 4 = 0 := by decide
  have e7 : (1 : Nat) &&& 8 = 0 := by decide
  have e8 : (4 : Nat) &&& 1 = 0 := by decide
  have e9 : (2 : Nat) &&& 1 = 0 := by decide
  simp [link_nodes, ha, hb, LINK_DOWN, LINK_UP, LINK_LEFT, LINK_RIGHT, e1, e2, e3, e4, e5, e6,
    e7, e8, e9]

theorem link_nodes_up (s : Heap) {a b : Nat} (ha : a ≠ 0) (hb : b ≠ 0) :
    link_nodes s a b LINK_UP = (s.setUp a b).setDown b a := by
  have e1 : (4 : Nat) &&& 2 = 0 := by decide
  have e2 : (4 : Nat) &&& 8 = 0 := by decide
  have e3 : (2 : Nat) &&& 4 = 0 := by decide
  have e4 : (2 : Nat) &&& 8 = 0 := by decide
  have e5 : (1 : Nat) &&& 2 = 0 := by decide
  have e6 : (1 : Nat) &&& 4 = 0 := by decide
  have e7 : (1 : Nat) &&& 8 = 0 := by decide
  have e8 : (4 : Nat) &&& 1 = 0 := by decide
  have e9 : (2 : Nat) &&& 1 = 0 := by decide
  simp [link_nodes, ha, hb, LINK_DOWN, LINK_UP, LINK_LEFT, LINK_RIGHT, e1, e2, e3, e4, e5, e6,
    e7, e8, e9]

theorem link_nodes_right (s : Heap) {a b : Nat} (ha : a ≠ 0) (hb : b ≠ 0) :
    link_nodes s a b LINK_RIGHT = (s.setRight a b).setLeft b a := by
  have e1 : (4 : Nat) &&& 2 = 0 := by decide
  have e2 : (4 : Nat) &&& 8 = 0 := by decide
  have e3 : (2 : Nat) &&& 4 = 0 := by decide
  have e4 : (2 : Nat) &&& 8 = 0 := by decide
  have e5 : (1 : Nat) &&& 2 = 0 := by decide
  have e6 : (1 : Nat) &&& 4 = 0 := by decide
  have e7 : (1 : Nat) &&& 8 = 0 := by decide
  have e8 : (4 : Nat) &&& 1 = 0 := by decide
  have e9 : (2 : Nat) &&& 1 = 0 := by decide
  simp [link_nodes, ha, hb, LINK_DOWN, LINK_UP, LINK_LEFT, LINK_RIGHT, e1, e2, e3, e4, e5, e6,
    e7, e8, e9]

theorem node_create_data (s : Heap) (parent id : Nat) :
    node_create s DLX_TYPE_DATA parent id = (s.next, newData s parent id) := rfl

/-! ## One iteration of the row loop of `matrix_create` -/

theorem create_row_nodes_next (s : Heap) (row c0 c1 c2 c3 : Nat)
    (h0 : c0 < s.next) (h1 : c1 < s.next) (h2 : c2 < s.next) (h3 : c3 < s.next)
    (z0 : c0 ≠ 0) (z1 : c1 ≠ 0) (z2 : c2 ≠ 0) (z3 : c3 ≠ 0)
    (u0 : s.up c0 ≠ 0) (u1 : s.up c1 ≠ 0) (u2 : s.up c2 ≠ 0) (u3 : s.up c3 ≠ 0)
    (d01 : c0 ≠ c1) (d02 : c0 ≠ c2) (d03 : c0 ≠ c3) (d12 : c1 ≠ c2) (d13 : c1 ≠ c3)
    (d23 : c2 ≠ c3) :
    (create_row_nodes s row c0 c1 c2 c3).next =
      s.next + 4 := by
  have hn : s.next ≠ 0 := by omega
  have a00 : c0 ≠ s.next := by omega
  have a01 : c0 ≠ s.next + 1 := by omega
  have a02 : c0 ≠ s.next + 2 := by omega
  have a03 : c0 ≠ s.next + 3 := by omega
  have a10 : c1 ≠ s.next := by omega
  have a11 : c1 ≠ s.next + 1 := by omega
  have a12 : c1 ≠ s.next + 2 := by omega
  have a13 : c1 ≠ s.next + 3 := by omega
  have a20 : c2 ≠ s.next := by omega
  have a21 : c2 ≠ s.next + 1 := by omega
  have a22 : c2 ≠ s.next + 2 := by omega
  have a23 : c2 ≠ s.next + 3 := by omega
  have a30 : c3 ≠ s.next := by omega
  have a31 : c3 ≠ s.next + 1 := by omega
  have a32 : c3 ≠ s.next + 2 := by omega
  have a33 : c3 ≠ s.next + 3 := by omega
  have g1 : s.next + 1 + 1 = s.next + 2 := rfl
  have g2 : s.next + 2 + 1 = s.next + 3 := rfl
  simp only [create_row_nodes, node_create_data]
  simp [newData, upd_ne, upd_same, link_nodes_down, link_nodes_up, link_nodes_right, g1, g2, hn, z0, z1, z2, z3, u0, u1, u2, u3, d01, d02, d03, d12, d13, d23, d01.symm, d02.symm, d03.symm, d12.symm, d13.symm, d23.symm, a00, a01, a02, a03, a10, a11, a12, a13, a20, a21, a22, a23, a30, a31, a32, a33]

theorem create_row_nodes_id (s : Heap) (row c0 c1 c2 c3 : Nat)
    (h0 : c0 < s.next) (h1 : c1 < s.next) (h2 : c2 < s.next) (h3 : c3 < s.next)
    (z0 : c0 ≠ 0) (z1 : c1 ≠ 0) (z2 : c2 ≠ 0) (z3 : c3 ≠ 0)
    (u0 : s.up c0 ≠ 0) (u1 : s.up c1 ≠ 0) (u2 : s.up c2 ≠ 0) (u3 : s.up c3 ≠ 0)
    (d01 : c0 ≠ c1) (d02 : c0 ≠ c2) (d03 : c0 ≠ c3) (d12 : c1 ≠ c2) (d13 : c1 ≠ c3)
    (d23 : c2 ≠ c3) :
    (create_row_nodes s row c0 c1 c2 c3).id =
      s.id := by
  have hn : s.next ≠ 0 := by omega
  have a00 : c0 ≠ s.next := by omega
  have a01 : c0 ≠ s.next + 1 := by omega
  have a02 : c0 ≠ s.next + 2 := by omega
  have a03 : c0 ≠ s.next + 3 := by omega
  have a10 : c1 ≠ s.next := by omega
  have a11 : c1 ≠ s.next + 1 := by omega
  have a12 : c1 ≠ s.next + 2 := by omega
  have a13 : c1 ≠ s.next + 3 := by omega
  have a20 : c2 ≠ s.next := by omega
  have a21 : c2 ≠ s.next + 1 := by omega
  have a22 : c2 ≠ s.next + 2 := by omega
  have a23 : c2 ≠ s.next + 3 := by omega
  have a30 : c3 ≠ s.next := by omega
  have a31 : c3 ≠ s.next + 1 := by omega
  have a32 : c3 ≠ s.next + 2 := by omega
  have a33 : c3 ≠ s.next + 3 := by omega
  have g1 : s.next + 1 + 1 = s.next + 2 := rfl
  have g2 : s.next + 2 + 1 = s.next + 3 := rfl
  simp only [create_row_nodes, node_create_data]
  simp [newData, upd_ne, upd_same, link_nodes_down, link_nodes_up, link_nodes_right, g1, g2, hn, z0, z1, z2, z3, u0, u1, u2, u3, d01, d02, d03, d12, d13, d23, d01.symm, d02.symm, d03.symm, d12.symm, d13.symm, d23.symm, a00, a01, a02, a03, a10, a11, a12, a13, a20, a21, a22, a23, a30, a31, a32, a33]

theorem create_row_nodes_type (s : Heap) (row c0 c1 c2 c3 : Nat)
    (h0 : c0 < s.next) (h1 : c1 < s.next) (h2 : c2 < s.next) (h3 : c3 < s.next)
    (z0 : c0 ≠ 0) (z1 : c1 ≠ 0) (z2 : c2 ≠ 0) (z3 : c3 ≠ 0)
    (u0 : s.up c0 ≠ 0) (u1 : s.up c1 ≠ 0) (u2 : s.up c2 ≠ 0) (u3 : s.up c3 ≠ 0)
    (d01 : c0 ≠ c1) (d02 : c0 ≠ c2) (d03 : c0 ≠ c3) (d12 : c1 ≠ c2) (d13 : c1 ≠ c3)
    (d23 : c2 ≠ c3) :
    (create_row_nodes s row c0 c1 c2 c3).type =
      upd (upd (upd (upd (s.type) s.next DLX_TYPE_DATA) (s.next + 1) DLX_TYPE_DATA) (s.next + 2) DLX_TYPE_DATA) (s.next + 3) DLX_TYPE_DATA := by
  have hn : s.next ≠ 0 := by omega
  have a00 : c0 ≠ s.next := by omega
  have a01 : c0 ≠ s.next + 1 := by omega
  have a02 : c0 ≠ s.next + 2 := by omega
  have a03 : c0 ≠ s.next + 3 := by omega
  have a10 : c1 ≠ s.next := by omega
  have a11 : c1 ≠ s.next + 1 := by omega
  have a12 : c1 ≠ s.next + 2 := by omega
  have a13 : c1 ≠ s.next + 3 := by omega
  have a20 : c2 ≠ s.next := by omega
  have a21 : c2 ≠ s.next + 1 := by omega
  have a22 : c2 ≠ s.next + 2 := by omega
  have a23 : c2 ≠ s.next + 3 := by omega
  have a30 : c3 ≠ s.next := by omega
  have a31 : c3 ≠ s.next + 1 := by omega
  have a32 : c3 ≠ s.next + 2 := by omega
  have a33 : c3 ≠ s.next + 3 := by omega
  have g1 : s.next + 1 + 1 = s.next + 2 := rfl
  have g2 : s.next + 2 + 1 = s.next + 3 := rfl
  simp only [create_row_nodes, node_create_data]
  simp [newData, upd_ne, upd_same, link_nodes_down, link_nodes_up, link_nodes_right, g1, g2, hn, z0, z1, z2, z3, u0, u1, u2, u3, d01, d02, d03, d12, d13, d23, d01.symm, d02.symm, d03.symm, d12.symm, d13.symm, d23.symm, a00, a01, a02, a03, a10, a11, a12, a13, a20, a21, a22, a23, a30, a31, a32, a33]

theorem create_row_nodes_row_id (s : Heap) (row c0 c1 c2 c3 : Nat)
    (h0 : c0 < s.next) (h1 : c1 < s.next) (h2 : c2 < s.next) (h3 : c3 < s.next)
    (z0 : c0 ≠ 0) (z1 : c1 ≠ 0) (z2 : c2 ≠ 0) (z3 : c3 ≠ 0)
    (u0 : s.up c0 ≠ 0) (u1 : s.up c1 ≠ 0) (u2 : s.up c2 ≠ 0) (u3 : s.up c3 ≠ 0)
    (d01 : c0 ≠ c1) (d02 : c0 ≠ c2) (d03 : c0 ≠ c3) (d12 : c1 ≠ c2) (d13 : c1 ≠ c3)
    (d23 : c2 ≠ c3) :
    (create_row_nodes s row c0 c1 c2 c3).row_id =
      upd (upd (upd (upd (s.row_id) s.next row) (s.next + 1) row) (s.next + 2) row) (s.next + 3) row := by
  have hn : s.next ≠ 0 := by omega
  have a00 : c0 ≠ s.next := by omega
  have a01 : c0 ≠ s.next + 1 := by omega
  have a02 : c0 ≠ s.next + 2 := by omega
  have a03 : c0 ≠ s.next + 3 := by omega
  have a10 : c1 ≠ s.next := by omega
  have a11 : c1 ≠ s.next + 1 := by omega
  have a12 : c1 ≠ s.next + 2 := by omega
  have a13 : c1 ≠ s.next + 3 := by omega
  have a20 : c2 ≠ s.next := by omega
  have a21 : c2 ≠ s.next + 1 := by omega
  have a22 : c2 ≠ s.next + 2 := by omega
  have a23 : c2 ≠ s.next + 3 := by omega
  have a30 : c3 ≠ s.next := by omega
  have a31 : c3 ≠ s.next + 1 := by omega
  have a32 : c3 ≠ s.next + 2 := by omega
  have a33 : c3 ≠ s.next + 3 := by omega
  have g1 : s.next + 1 + 1 = s.next + 2 := rfl
  have g2 : s.next + 2 + 1 = s.next + 3 := rfl
  simp only [create_row_nodes, node_create_data]
  simp [newData, upd_ne, upd_same, link_nodes_down, link_nodes_up, link_nodes_right, g1, g2, hn, z0, z1, z2, z3, u0, u1, u2, u3, d01, d02, d03, d12, d13, d23, d01.symm, d02.symm, d03.symm, d12.symm, d13.symm, d23.symm, a00, a01, a02, a03, a10, a11, a12, a13, a20, a21, a22, a23, a30, a31, a32, a33]

theorem create_row_nodes_parent (s : Heap) (row c0 c1 c2 c3 : Nat)
    (h0 : c0 < s.next) (h1 : c1 < s.next) (h2 : c2 < s.next) (h3 : c3 < s.next)
    (z0 : c0 ≠ 0) (z1 : c1 ≠ 0) (z2 : c2 ≠ 0) (z3 : c3 ≠ 0)
    (u0 : s.up c0 ≠ 0) (u1 : s.up c1 ≠ 0) (u2 : s.up c2 ≠ 0) (u3 : s.up c3 ≠ 0)
    (d01 : c0 ≠ c1) (d02 : c0 ≠ c2) (d03 : c0 ≠ c3) (d12 : c1 ≠ c2) (d13 : c1 ≠ c3)
    (d23 : c2 ≠ c3) :
    (create_row_nodes s row c0 c1 c2 c3).parent =
      upd (upd (upd (upd (s.parent) s.next c0) (s.next + 1) c1) (s.next + 2) c2) (s.next + 3) c3 := by
  have hn : s.next ≠ 0 := by omega
  have a00 : c0 ≠ s.next := by omega
  have a01 : c0 ≠ s.next + 1 := by omega
  have a02 : c0 ≠ s.next + 2 := by omega
  have a03 : c0 ≠ s.next + 3 := by omega
  have a10 : c1 ≠ s.next := by omega
  have a11 : c1 ≠ s.next + 1 := by omega
  have a12 : c1 ≠ s.next + 2 := by omega
  have a13 : c1 ≠ s.next + 3 := by omega
  have a20 : c2 ≠ s.next := by omega
  have a21 : c2 ≠ s.next + 1 := by omega
  have a22 : c2 ≠ s.next + 2 := by omega
  have a23 : c2 ≠ s.next + 3 := by omega
  have a30 : c3 ≠ s.next := by omega
  have a31 : c3 ≠ s.next + 1 := by omega
  have a32 : c3 ≠ s.next + 2 := by omega
  have a33 : c3 ≠ s.next + 3 := by omega
  have g1 : s.next + 1 + 1 = s.next + 2 := rfl
  have g2 : s.next + 2 + 1 = s.next + 3 := rfl
  simp only [create_row_nodes, node_create_data]
  simp [newData, upd_ne, upd_same, link_nodes_down, link_nodes_up, link_nodes_right, g1, g2, hn, z0, z1, z2, z3, u0, u1, u2, u3, d01, d02, d03, d12, d13, d23, d01.symm, d02.symm, d03.symm, d12.symm, d13.symm, d23.symm, a00, a01, a02, a03, a10, a11, a12, a13, a20, a21, a22, a23, a30, a31, a32, a33]

theorem create_row_nodes_count (s : Heap) (row c0 c1 c2 c3 : Nat)
    (h0 : c0 < s.next) (h1 : c1 < s.next) (h2 : c2 < s.next) (h3 : c3 < s.next)
    (z0 : c0 ≠ 0) (z1 : c1 ≠ 0) (z2 : c2 ≠ 0) (z3 : c3 ≠ 0)
    (u0 : s.up c0 ≠ 0) (u1 : s.up c1 ≠ 0) (u2 : s.up c2 ≠ 0) (u3 : s.up c3 ≠ 0)
    (d01 : c0 ≠ c1) (d02 : c0 ≠ c2) (d03 : c0 ≠ c3) (d12 : c1 ≠ c2) (d13 : c1 ≠ c3)
    (d23 : c2 ≠ c3) :
    (create_row_nodes s row c0 c1 c2 c3).count =
      upd (upd (upd (upd (s.count) c0 ((s.count c0 + 1) % SIZE_MOD)) c1 ((s.count c1 + 1) % SIZE_MOD)) c2 ((s.count c2 + 1) % SIZE_MOD)) c3 ((s.count c3 + 1) % SIZE_MOD) := by
  have hn : s.next ≠ 0 := by omega
  have a00 : c0 ≠ s.next := by omega
  have a01 : c0 ≠ s.next + 1 := by omega
  have a02 : c0 ≠ s.next + 2 := by omega
  have a03 : c0 ≠ s.next + 3 := by omega
  have a10 : c1 ≠ s.next := by omega
  have a11 : c1 ≠ s.next + 1 := by omega
  have a12 : c1 ≠ s.next + 2 := by omega
  have a13 : c1 ≠ s.next + 3 := by omega
  have a20 : c2 ≠ s.next := by omega
  have a21 : c2 ≠ s.next + 1 := by omega
  have a22 : c2 ≠ s.next + 2 := by omega
  have a23 : c2 ≠ s.next + 3 := by omega
  have a30 : c3 ≠ s.next := by omega
  have a31 : c3 ≠ s.next + 1 := by omega
  have a32 : c3 ≠ s.next + 2 := by omega
  have a33 : c3 ≠ s.next + 3 := by omega
  have g1 : s.next + 1 + 1 = s.next + 2 := rfl
  have g2 : s.next + 2 + 1 = s.next + 3 := rfl
  simp only [create_row_nodes, node_create_data]
  simp [newData, upd_ne, upd_same, link_nodes_down, link_nodes_up, link_nodes_right, g1, g2, hn, z0, z1, z2, z3, u0, u1, u2, u3, d01, d02, d03, d12, d13, d23, d01.symm, d02.symm, d03.symm, d12.symm, d13.symm, d23.symm, a00, a01, a02, a03, a10, a11, a12, a13, a20, a21, a22, a23, a30, a31, a32, a33]

theorem create_row_nodes_down (s : Heap) (row c0 c1 c2 c3 : Nat)
    (h0 : c0 < s.next) (h1 : c1 < s.next) (h2 : c2 < s.next) (h3 : c3 < s.next)
    (z0 : c0 ≠ 0) (z1 : c1 ≠ 0) (z2 : c2 ≠ 0) (z3 : c3 ≠ 0)
    (u0 : s.up c0 ≠ 0) (u1 : s.up c1 ≠ 0) (u2 : s.up c2 ≠ 0) (u3 : s.up c3 ≠ 0)
    (d01 : c0 ≠ c1) (d02 : c0 ≠ c2) (d03 : c0 ≠ c3) (d12 : c1 ≠ c2) (d13 : c1 ≠ c3)
    (d23 : c2 ≠ c3) :
    (create_row_nodes s row c0 c1 c2 c3).down =
      upd (upd (upd (upd (upd (upd (upd (upd (upd (upd (upd (upd (s.down) s.next 0) (s.next + 1) 0) (s.next + 2) 0) (s.next + 3) 0) (s.up c0) s.next) (s.up c1) (s.next + 1)) (s.up c2) (s.next + 2)) (s.up c3) (s.next + 3)) s.next c0) (s.next + 1) c1) (s.next + 2) c2) (s.next + 3) c3 := by
  have hn : s.next ≠ 0 := by omega
  have a00 : c0 ≠ s.next := by omega
  have a01 : c0 ≠ s.next + 1 := by omega
  have a02 : c0 ≠ s.next + 2 := by omega
  have a03 : c0 ≠ s.next + 3 := by omega
  have a10 : c1 ≠ s.next := by omega
  have a11 : c1 ≠ s.next + 1 := by omega
  have a12 : c1 ≠ s.next + 2 := by omega
  have a13 : c1 ≠ s.next + 3 := by omega
  have a20 : c2 ≠ s.next := by omega
  have a21 : c2 ≠ s.next + 1 := by omega
  have a22 : c2 ≠ s.next + 2 := by omega
  have a23 : c2 ≠ s.next + 3 := by omega
  have a30 : c3 ≠ s.next := by omega
  have a31 : c3 ≠ s.next + 1 := by omega
  have a32 : c3 ≠ s.next + 2 := by omega
  have a33 : c3 ≠ s.next + 3 := by omega
  have g1 : s.next + 1 + 1 = s.next + 2 := rfl
  have g2 : s.next + 2 + 1 = s.next + 3 := rfl
  simp only [create_row_nodes, node_create_data]
  simp [newData, upd_ne, upd_same, link_nodes_down, link_nodes_up, link_nodes_right, g1, g2, hn, z0, z1, z2, z3, u0, u1, u2, u3, d01, d02, d03, d12, d13, d23, d01.symm, d02.symm, d03.symm, d12.symm, d13.symm, d23.symm, a00, a01, a02, a03, a10, a11, a12, a13, a20, a21, a22, a23, a30, a31, a32, a33]

theorem create_row_nodes_up (s : Heap) (row c0 c1 c2 c3 : Nat)
    (h0 : c0 < s.next) (h1 : c1 < s.next) (h2 : c2 < s.next) (h3 : c3 < s.next)
    (z0 : c0 ≠ 0) (z1 : c1 ≠ 0) (z2 : c2 ≠ 0) (z3 : c3 ≠ 0)
    (u0 : s.up c0 ≠ 0) (u1 : s.up c1 ≠ 0) (u2 : s.up c2 ≠ 0) (u3 : s.up c3 ≠ 0)
    (d01 : c0 ≠ c1) (d02 : c0 ≠ c2) (d03 : c0 ≠ c3) (d12 : c1 ≠ c2) (d13 : c1 ≠ c3)
    (d23 : c2 ≠ c3) :
    (create_row_nodes s row c0 c1 c2 c3).up =
      upd (upd (upd (upd (upd (upd (upd (upd (upd (upd (upd (upd (s.up) s.next 0) (s.next + 1) 0) (s.next + 2) 0) (s.next + 3) 0) s.next (s.up c0)) (s.next + 1) (s.up c1)) (s.next + 2) (s.up c2)) (s.next + 3) (s.up c3)) c0 s.next) c1 (s.next + 1)) c2 (s.next + 2)) c3 (s.next + 3) := by
  have hn : s.next ≠ 0 := by omega
  have a00 : c0 ≠ s.next := by omega
  have a01 : c0 ≠ s.next + 1 := by omega
  have a02 : c0 ≠ s.next + 2 := by omega
  have a03 : c0 ≠ s.next + 3 := by omega
  have a10 : c1 ≠ s.next := by omega
  have a11 : c1 ≠ s.next + 1 := by omega
  have a12 : c1 ≠ s.next + 2 := by omega
  have a13 : c1 ≠ s.next + 3 := by omega
  have a20 : c2 ≠ s.next := by omega
  have a21 : c2 ≠ s.next + 1 := by omega
  have a22 : c2 ≠ s.next + 2 := by omega
  have a23 : c2 ≠ s.next + 3 := by omega
  have a30 : c3 ≠ s.next := by omega
  have a31 : c3 ≠ s.next + 1 := by omega
  have a32 : c3 ≠ s.next + 2 := by omega
  have a33 : c3 ≠ s.next + 3 := by omega
  have g1 : s.next + 1 + 1 = s.next + 2 := rfl
  have g2 : s.next + 2 + 1 = s.next + 3 := rfl
  simp only [create_row_nodes, node_create_data]
  simp [newData, upd_ne, upd_same, link_nodes_down, link_nodes_up, link_nodes_right, g1, g2, hn, z0, z1, z2, z3, u0, u1, u2, u3, d01, d02, d03, d12, d13, d23, d01.symm, d02.symm, d03.symm, d12.symm, d13.symm, d23.symm, a00, a01, a02, a03, a10, a11, a12, a13, a20, a21, a22, a23, a30, a31, a32, a33]

theorem create_row_nodes_right (s : Heap) (row c0 c1 c2 c3 : Nat)
    (h0 : c0 < s.next) (h1 : c1 < s.next) (h2 : c2 < s.next) (h3 : c3 < s.next)
    (z0 : c0 ≠ 0) (z1 : c1 ≠ 0) (z2 : c2 ≠ 0) (z3 : c3 ≠ 0)
    (u0 : s.up c0 ≠ 0) (u1 : s.up c1 ≠ 0) (u2 : s.up c2 ≠ 0) (u3 : s.up c3 ≠ 0)
    (d01 : c0 ≠ c1) (d02 : c0 ≠ c2) (d03 : c0 ≠ c3) (d12 : c1 ≠ c2) (d13 : c1 ≠ c3)
    (d23 : c2 ≠ c3) :
    (create_row_nodes s row c0 c1 c2 c3).right =
      upd (upd (upd (upd (upd (upd (upd (upd (s.right) s.next 0) (s.next + 1) 0) (s.next + 2) 0) (s.next + 3) 0) s.next (s.next + 1)) (s.next + 1) (s.next + 2)) (s.next + 2) (s.next + 3)) (s.next + 3) s.next := by
  have hn : s.next ≠ 0 := by omega
  have a00 : c0 ≠ s.next := by omega
  have a01 : c0 ≠ s.next + 1 := by omega
  have a02 : c0 ≠ s.next + 2 := by omega
  have a03 : c0 ≠ s.next + 3 := by omega
  have a10 : c1 ≠ s.next := by omega
  have a11 : c1 ≠ s.next + 1 := by omega
  have a12 : c1 ≠ s.next + 2 := by omega
  have a13 : c1 ≠ s.next + 3 := by omega
  have a20 : c2 ≠ s.next := by omega
  have a21 : c2 ≠ s.next + 1 := by omega
  have a22 : c2 ≠ s.next + 2 := by omega
  have a23 : c2 ≠ s.next + 3 := by omega
  have a30 : c3 ≠ s.next := by omega
  have a31 : c3 ≠ s.next + 1 := by omega
  have a32 : c3 ≠ s.next + 2 := by omega
  have a33 : c3 ≠ s.next + 3 := by omega
  have g1 : s.next + 1 + 1 = s.next + 2 := rfl
  have g2 : s.next + 2 + 1 = s.next + 3 := rfl
  simp only [create_row_nodes, node_create_data]
  simp [newData, upd_ne, upd_same, link_nodes_down, link_nodes_up, link_nodes_right, g1, g2, hn, z0, z1, z2, z3, u0, u1, u2, u3, d01, d02, d03, d12, d13, d23, d01.symm, d02.symm, d03.symm, d12.symm, d13.symm, d23.symm, a00, a01, a02, a03, a10, a11, a12, a13, a20, a21, a22, a23, a30, a31, a32, a33]

theorem create_row_nodes_left (s : Heap) (row c0 c1 c2 c3 : Nat)
    (h0 : c0 < s.next) (h1 : c1 < s.next) (h2 : c2 < s.next) (h3 : c3 < s.next)
    (z0 : c0 ≠ 0) (z1 : c1 ≠ 0) (z2 : c2 ≠ 0) (z3 : c3 ≠ 0)
    (u0 : s.up c0 ≠ 0) (u1 : s.up c1 ≠ 0) (u2 : s.up c2 ≠ 0) (u3 : s.up c3 ≠ 0)
    (d01 : c0 ≠ c1) (d02 : c0 ≠ c2) (d03 : c0 ≠ c3) (d12 : c1 ≠ c2) (d13 : c1 ≠ c3)
    (d23 : c2 ≠ c3) :
    (create_row_nodes s row c0 c1 c2 c3).left =
      upd (upd (upd (upd (upd (upd (upd (upd (s.left) s.next 0) (s.next + 1) 0) (s.next + 2) 0) (s.next + 3) 0) (s.next + 1) s.next) (s.next + 2) (s.next + 1)) (s.next + 3) (s.next + 2)) s.next (s.next + 3) := by
  have hn : s.next ≠ 0 := by omega
  have a00 : c0 ≠ s.next := by omega
  have a01 : c0 ≠ s.next + 1 := by omega
  have a02 : c0 ≠ s.next + 2 := by omega
  have a03 : c0 ≠ s.next + 3 := by omega
  have a10 : c1 ≠ s.next := by omega
  have a11 : c1 ≠ s.next + 1 := by omega
  have a12 : c1 ≠ s.next + 2 := by omega
  have a13 : c1 ≠ s.next + 3 := by omega
  have a20 : c2 ≠ s.next := by omega
  have a21 : c2 ≠ s.next + 1 := by omega
  have a22 : c2 ≠ s.next + 2 := by omega
  have a23 : c2 ≠ s.next + 3 := by omega
  have a30 : c3 ≠ s.next := by omega
  have a31 : c3 ≠ s.next + 1 := by omega
  have a32 : c3 ≠ s.next + 2 := by omega
  have a33 : c3 ≠ s.next + 3 := by omega
  have g1 : s.next + 1 + 1 = s.next + 2 := rfl
  have g2 : s.next + 2 + 1 = s.next + 3 := rfl
  simp only [create_row_nodes, node_create_data]
  simp [newData, upd_ne, upd_same, link_nodes_down, link_nodes_up, link_nodes_right, g1, g2, hn, z0, z1, z2, z3, u0, u1, u2, u3, d01, d02, d03, d12, d13, d23, d01.symm, d02.symm, d03.symm, d12.symm, d13.symm, d23.symm, a00, a01, a02, a03, a10, a11, a12, a13, a20, a21, a22, a23, a30, a31, a32, a33]

theorem create_row_nodes_spec (s : Heap) (row c0 c1 c2 c3 : Nat)
    (h0 : c0 < s.next) (h1 : c1 < s.next) (h2 : c2 < s.next) (h3 : c3 < s.next)
    (z0 : c0 ≠ 0) (z1 : c1 ≠ 0) (z2 : c2 ≠ 0) (z3 : c3 ≠ 0)
    (u0 : s.up c0 ≠ 0) (u1 : s.up c1 ≠ 0) (u2 : s.up c2 ≠ 0) (u3 : s.up c3 ≠ 0)
    (v0 : s.up c0 < s.next) (v1 : s.up c1 < s.next) (v2 : s.up c2 < s.next)
    (v3 : s.up c3 < s.next)
    (d01 : c0 ≠ c1) (d02 : c0 ≠ c2) (d03 : c0 ≠ c3) (d12 : c1 ≠ c2) (d13 : c1 ≠ c3)
    (d23 : c2 ≠ c3)
    (w01 : s.up c0 ≠ s.up c1) (w02 : s.up c0 ≠ s.up c2) (w03 : s.up c0 ≠ s.up c3)
    (w12 : s.up c1 ≠ s.up c2) (w13 : s.up c1 ≠ s.up c3) (w23 : s.up c2 ≠ s.up c3) :
    RowAdded s (create_row_nodes s row c0 c1 c2 c3) row c0 c1 c2 c3 := by
  have a00 : c0 ≠ s.next := by omega
  have b00 : s.up c0 ≠ s.next := by omega
  have a01 : c0 ≠ s.next + 1 := by omega
  have b01 : s.up c0 ≠ s.next + 1 := by omega
  have a02 : c0 ≠ s.next + 2 := by omega
  have b02 : s.up c0 ≠ s.next + 2 := by omega
  have a03 : c0 ≠ s.next + 3 := by omega
  have b03 : s.up c0 ≠ s.next + 3 := by omega
  have a10 : c1 ≠ s.next := by omega
  have b10 : s.up c1 ≠ s.next := by omega
  have a11 : c1 ≠ s.next + 1 := by omega
  have b11 : s.up c1 ≠ s.next + 1 := by omega
  have a12 : c1 ≠ s.next + 2 := by omega
  have b12 : s.up c1 ≠ s.next + 2 := by omega
  have a13 : c1 ≠ s.next + 3 := by omega
  have b13 : s.up c1 ≠ s.next + 3 := by omega
  have a20 : c2 ≠ s.next := by omega
  have b20 : s.up c2 ≠ s.next := by omega
  have a21 : c2 ≠ s.next + 1 := by omega
  have b21 : s.up c2 ≠ s.next + 1 := by omega
  have a22 : c2 ≠ s.next + 2 := by omega
  have b22 : s.up c2 ≠ s.next + 2 := by omega
  have a23 : c2 ≠ s.next + 3 := by omega
  have b23 : s.up c2 ≠ s.next + 3 := by omega
  have a30 : c3 ≠ s.next := by omega
  have b30 : s.up c3 ≠ s.next := by omega
  have a31 : c3 ≠ s.next + 1 := by omega
  have b31 : s.up c3 ≠ s.next + 1 := by omega
  have a32 : c3 ≠ s.next + 2 := by omega
  have b32 : s.up c3 ≠ s.next + 2 := by omega
  have a33 : c3 ≠ s.next + 3 := by omega
  have b33 : s.up c3 ≠ s.next + 3 := by omega
  have key : ∀ (x : Nat), x < s.next → x ≠ s.next ∧ x ≠ s.next + 1 ∧ x ≠ s.next + 2 ∧
      x ≠ s.next + 3 := fun x hx => ⟨by omega, by omega, by omega, by omega⟩
  constructor
  · exact create_row_nodes_next s row c0 c1 c2 c3 h0 h1 h2 h3 z0 z1 z2 z3 u0 u1 u2 u3 d01 d02 d03 d12 d13 d23
  · exact create_row_nodes_id s row c0 c1 c2 c3 h0 h1 h2 h3 z0 z1 z2 z3 u0 u1 u2 u3 d01 d02 d03 d12 d13 d23
  ·
    intro x hx
    obtain ⟨k0, k1, k2, k3⟩ := key x hx
    rw [create_row_nodes_type s row c0 c1 c2 c3 h0 h1 h2 h3 z0 z1 z2 z3 u0 u1 u2 u3 d01 d02 d03 d12 d13 d23]
    simp [upd, d01, d02, d03, d12, d13, d23, w01, w02, w03, w12, w13, w23, d01.symm, d02.symm, d03.symm, d12.symm, d13.symm, d23.symm, w01.symm, w02.symm, w03.symm, w12.symm, w13.symm, w23.symm, a00, b00, a00.symm, b00.symm, a01, b01, a01.symm, b01.symm, a02, b02, a02.symm, b02.symm, a03, b03, a03.symm, b03.symm, a10, b10, a10.symm, b10.symm, a11, b11, a11.symm, b11.symm, a12, b12, a12.symm, b12.symm, a13, b13, a13.symm, b13.symm, a20, b20, a20.symm, b20.symm, a21, b21, a21.symm, b21.symm, a22, b22, a22.symm, b22.symm, a23, b23, a23.symm, b23.symm, a30, b30, a30.symm, b30.symm, a31, b31, a31.symm, b31.symm, a32, b32, a32.symm, b32.symm, a33, b33, a33.symm, b33.symm, k0, k1, k2, k3]
  ·
    intro x hx
    obtain ⟨k0, k1, k2, k3⟩ := key x hx
    rw [create_row_nodes_parent s row c0 c1 c2 c3 h0 h1 h2 h3 z0 z1 z2 z3 u0 u1 u2 u3 d01 d02 d03 d12 d13 d23]
    simp [upd, d01, d02, d03, d12, d13, d23, w01, w02, w03, w12, w13, w23, d01.symm, d02.symm, d03.symm, d12.symm, d13.symm, d23.symm, w01.symm, w02.symm, w03.symm, w12.symm, w13.symm, w23.symm, a00, b00, a00.symm, b00.symm, a01, b01, a01.symm, b01.symm, a02, b02, a02.symm, b02.symm, a03, b03, a03.symm, b03.symm, a10, b10, a10.symm, b10.symm, a11, b11, a11.symm, b11.symm, a12, b12, a12.symm, b12.symm, a13, b13, a13.symm, b13.symm, a20, b20, a20.symm, b20.symm, a21, b21, a21.symm, b21.symm, a22, b22, a22.symm, b22.symm, a23, b23, a23.symm, b23.symm, a30, b30, a30.symm, b30.symm, a31, b31, a31.symm, b31.symm, a32, b32, a32.symm, b32.symm, a33, b33, a33.symm, b33.symm, k0, k1, k2, k3]
  ·
    intro x hx
    obtain ⟨k0, k1, k2, k3⟩ := key x hx
    rw [create_row_nodes_row_id s row c0 c1 c2 c3 h0 h1 h2 h3 z0 z1 z2 z3 u0 u1 u2 u3 d01 d02 d03 d12 d13 d23]
    simp [upd, d01, d02, d03, d12, d13, d23, w01, w02, w03, w12, w13, w23, d01.symm, d02.symm, d03.symm, d12.symm, d13.symm, d23.symm, w01.symm, w02.symm, w03.symm, w12.symm, w13.symm, w23.symm, a00, b00, a00.symm, b00.symm, a01, b01, a01.symm, b01.symm, a02, b02, a02.symm, b02.symm, a03, b03, a03.symm, b03.symm, a10, b10, a10.symm, b10.symm, a11, b11, a11.symm, b11.symm, a12, b12, a12.symm, b12.symm, a13, b13, a13.symm, b13.symm, a20, b20, a20.symm, b20.symm, a21, b21, a21.symm, b21.symm, a22, b22, a22.symm, b22.symm, a23, b23, a23.symm, b23.symm, a30, b30, a30.symm, b30.symm, a31, b31, a31.symm, b31.symm, a32, b32, a32.symm, b32.symm, a33, b33, a33.symm, b33.symm, k0, k1, k2, k3]
  ·
    intro x hx
    obtain ⟨k0, k1, k2, k3⟩ := key x hx
    rw [create_row_nodes_right s row c0 c1 c2 c3 h0 h1 h2 h3 z0 z1 z2 z3 u0 u1 u2 u3 d01 d02 d03 d12 d13 d23]
    simp [upd, d01, d02, d03, d12, d13, d23, w01, w02, w03, w12, w13, w23, d01.symm, d02.symm, d03.symm, d12.symm, d13.symm, d23.symm, w01.symm, w02.symm, w03.symm, w12.symm, w13.symm, w23.symm, a00, b00, a00.symm, b00.symm, a01, b01, a01.symm, b01.symm, a02, b02, a02.symm, b02.symm, a03, b03, a03.symm, b03.symm, a10, b10, a10.symm, b10.symm, a11, b11, a11.symm, b11.symm, a12, b12, a12.symm, b12.symm, a13, b13, a13.symm, b13.symm, a20, b20, a20.symm, b20.symm, a21, b21, a21.symm, b21.symm, a22, b22, a22.symm, b22.symm, a23, b23, a23.symm, b23.symm, a30, b30, a30.symm, b30.symm, a31, b31, a31.symm, b31.symm, a32, b32, a32.symm, b32.symm, a33, b33, a33.symm, b33.symm, k0, k1, k2, k3]
  ·
    intro x hx
    obtain ⟨k0, k1, k2, k3⟩ := key x hx
    rw [create_row_nodes_left s row c0 c1 c2 c3 h0 h1 h2 h3 z0 z1 z2 z3 u0 u1 u2 u3 d01 d02 d03 d12 d13 d23]
    simp [upd, d01, d02, d03, d12, d13, d23, w01, w02, w03, w12, w13, w23, d01.symm, d02.symm, d03.symm, d12.symm, d13.symm, d23.symm, w01.symm, w02.symm, w03.symm, w12.symm, w13.symm, w23.symm, a00, b00, a00.symm, b00.symm, a01, b01, a01.symm, b01.symm, a02, b02, a02.symm, b02.symm, a03, b03, a03.symm, b03.symm, a10, b10, a10.symm, b10.symm, a11, b11, a11.symm, b11.symm, a12, b12, a12.symm, b12.symm, a13, b13, a13.symm, b13.symm, a20, b20, a20.symm, b20.symm, a21, b21, a21.symm, b21.symm, a22, b22, a22.symm, b22.symm, a23, b23, a23.symm, b23.symm, a30, b30, a30.symm, b30.symm, a31, b31, a31.symm, b31.symm, a32, b32, a32.symm, b32.symm, a33, b33, a33.symm, b33.symm, k0, k1, k2, k3]
  ·
    rw [create_row_nodes_type s row c0 c1 c2 c3 h0 h1 h2 h3 z0 z1 z2 z3 u0 u1 u2 u3 d01 d02 d03 d12 d13 d23]
    simp [upd, d01, d02, d03, d12, d13, d23, w01, w02, w03, w12, w13, w23, d01.symm, d02.symm, d03.symm, d12.symm, d13.symm, d23.symm, w01.symm, w02.symm, w03.symm, w12.symm, w13.symm, w23.symm, a00, b00, a00.symm, b00.symm, a01, b01, a01.symm, b01.symm, a02, b02, a02.symm, b02.symm, a03, b03, a03.symm, b03.symm, a10, b10, a10.symm, b10.symm, a11, b11, a11.symm, b11.symm, a12, b12, a12.symm, b12.symm, a13, b13, a13.symm, b13.symm, a20, b20, a20.symm, b20.symm, a21, b21, a21.symm, b21.symm, a22, b22, a22.symm, b22.symm, a23, b23, a23.symm, b23.symm, a30, b30, a30.symm, b30.symm, a31, b31, a31.symm, b31.symm, a32, b32, a32.symm, b32.symm, a33, b33, a33.symm, b33.symm]
  ·
    rw [create_row_nodes_row_id s row c0 c1 c2 c3 h0 h1 h2 h3 z0 z1 z2 z3 u0 u1 u2 u3 d01 d02 d03 d12 d13 d23]
    simp [upd, d01, d02, d03, d12, d13, d23, w01, w02, w03, w12, w13, w23, d01.symm, d02.symm, d03.symm, d12.symm, d13.symm, d23.symm, w01.symm, w02.symm, w03.symm, w12.symm, w13.symm, w23.symm, a00, b00, a00.symm, b00.symm, a01, b01, a01.symm, b01.symm, a02, b02, a02.symm, b02.symm, a03, b03, a03.symm, b03.symm, a10, b10, a10.symm, b10.symm, a11, b11, a11.symm, b11.symm, a12, b12, a12.symm, b12.symm, a13, b13, a13.symm, b13.symm, a20, b20, a20.symm, b20.symm, a21, b21, a21.symm, b21.symm, a22, b22, a22.symm, b22.symm, a23, b23, a23.symm, b23.symm, a30, b30, a30.symm, b30.symm, a31, b31, a31.symm, b31.symm, a32, b32, a32.symm, b32.symm, a33, b33, a33.symm, b33.symm]
  ·
    rw [create_row_nodes_parent s row c0 c1 c2 c3 h0 h1 h2 h3 z0 z1 z2 z3 u0 u1 u2 u3 d01 d02 d03 d12 d13 d23]
    simp [upd, d01, d02, d03, d12, d13, d23, w01, w02, w03, w12, w13, w23, d01.symm, d02.symm, d03.symm, d12.symm, d13.symm, d23.symm, w01.symm, w02.symm, w03.symm, w12.symm, w13.symm, w23.symm, a00, b00, a00.symm, b00.symm, a01, b01, a01.symm, b01.symm, a02, b02, a02.symm, b02.symm, a03, b03, a03.symm, b03.symm, a10, b10, a10.symm, b10.symm, a11, b11, a11.symm, b11.symm, a12, b12, a12.symm, b12.symm, a13, b13, a13.symm, b13.symm, a20, b20, a20.symm, b20.symm, a21, b21, a21.symm, b21.symm, a22, b22, a22.symm, b22.symm, a23, b23, a23.symm, b23.symm, a30, b30, a30.symm, b30.symm, a31, b31, a31.symm, b31.symm, a32, b32, a32.symm, b32.symm, a33, b33, a33.symm, b33.symm]
  ·
    rw [create_row_nodes_right s row c0 c1 c2 c3 h0 h1 h2 h3 z0 z1 z2 z3 u0 u1 u2 u3 d01 d02 d03 d12 d13 d23]
    simp [upd, d01, d02, d03, d12, d13, d23, w01, w02, w03, w12, w13, w23, d01.symm, d02.symm, d03.symm, d12.symm, d13.symm, d23.symm, w01.symm, w02.symm, w03.symm, w12.symm, w13.symm, w23.symm, a00, b00, a00.symm, b00.symm, a01, b01, a01.symm, b01.symm, a02, b02, a02.symm, b02.symm, a03, b03, a03.symm, b03.symm, a10, b10, a10.symm, b10.symm, a11, b11, a11.symm, b11.symm, a12, b12, a12.symm, b12.symm, a13, b13, a13.symm, b13.symm, a20, b20, a20.symm, b20.symm, a21, b21, a21.symm, b21.symm, a22, b22, a22.symm, b22.symm, a23, b23, a23.symm, b23.symm, a30, b30, a30.symm, b30.symm, a31, b31, a31.symm, b31.symm, a32, b32, a32.symm, b32.symm, a33, b33, a33.symm, b33.symm]
  ·
    rw [create_row_nodes_left s row c0 c1 c2 c3 h0 h1 h2 h3 z0 z1 z2 z3 u0 u1 u2 u3 d01 d02 d03 d12 d13 d23]
    simp [upd, d01, d02, d03, d12, d13, d23, w01, w02, w03, w12, w13, w23, d01.symm, d02.symm, d03.symm, d12.symm, d13.symm, d23.symm, w01.symm, w02.symm, w03.symm, w12.symm, w13.symm, w23.symm, a00, b00, a00.symm, b00.symm, a01, b01, a01.symm, b01.symm, a02, b02, a02.symm, b02.symm, a03, b03, a03.symm, b03.symm, a10, b10, a10.symm, b10.symm, a11, b11, a11.symm, b11.symm, a12, b12, a12.symm, b12.symm, a13, b13, a13.symm, b13.symm, a20, b20, a20.symm, b20.symm, a21, b21, a21.symm, b21.symm, a22, b22, a22.symm, b22.symm, a23, b23, a23.symm, b23.symm, a30, b30, a30.symm, b30.symm, a31, b31, a31.symm, b31.symm, a32, b32, a32.symm, b32.symm, a33, b33, a33.symm, b33.symm]
  ·
    rw [create_row_nodes_down s row c0 c1 c2 c3 h0 h1 h2 h3 z0 z1 z2 z3 u0 u1 u2 u3 d01 d02 d03 d12 d13 d23]
    simp [upd, d01, d02, d03, d12, d13, d23, w01, w02, w03, w12, w13, w23, d01.symm, d02.symm, d03.symm, d12.symm, d13.symm, d23.symm, w01.symm, w02.symm, w03.symm, w12.symm, w13.symm, w23.symm, a00, b00, a00.symm, b00.symm, a01, b01, a01.symm, b01.symm, a02, b02, a02.symm, b02.symm, a03, b03, a03.symm, b03.symm, a10, b10, a10.symm, b10.symm, a11, b11, a11.symm, b11.symm, a12, b12, a12.symm, b12.symm, a13, b13, a13.symm, b13.symm, a20, b20, a20.symm, b20.symm, a21, b21, a21.symm, b21.symm, a22, b22, a22.symm, b22.symm, a23, b23, a23.symm, b23.symm, a30, b30, a30.symm, b30.symm, a31, b31, a31.symm, b31.symm, a32, b32, a32.symm, b32.symm, a33, b33, a33.symm, b33.symm]
  ·
    rw [create_row_nodes_down s row c0 c1 c2 c3 h0 h1 h2 h3 z0 z1 z2 z3 u0 u1 u2 u3 d01 d02 d03 d12 d13 d23]
    simp [upd, d01, d02, d03, d12, d13, d23, w01, w02, w03, w12, w13, w23, d01.symm, d02.symm, d03.symm, d12.symm, d13.symm, d23.symm, w01.symm, w02.symm, w03.symm, w12.symm, w13.symm, w23.symm, a00, b00, a00.symm, b00.symm, a01, b01, a01.symm, b01.symm, a02, b02, a02.symm, b02.symm, a03, b03, a03.symm, b03.symm, a10, b10, a10.symm, b10.symm, a11, b11, a11.symm, b11.symm, a12, b12, a12.symm, b12.symm, a13, b13, a13.symm, b13.symm, a20, b20, a20.symm, b20.symm, a21, b21, a21.symm, b21.symm, a22, b22, a22.symm, b22.symm, a23, b23, a23.symm, b23.symm, a30, b30, a30.symm, b30.symm, a31, b31, a31.symm, b31.symm, a32, b32, a32.symm, b32.symm, a33, b33, a33.symm, b33.symm]
  ·
    rw [create_row_nodes_up s row c0 c1 c2 c3 h0 h1 h2 h3 z0 z1 z2 z3 u0 u1 u2 u3 d01 d02 d03 d12 d13 d23]
    simp [upd, d01, d02, d03, d12, d13, d23, w01, w02, w03, w12, w13, w23, d01.symm, d02.symm, d03.symm, d12.symm, d13.symm, d23.symm, w01.symm, w02.symm, w03.symm, w12.symm, w13.symm, w23.symm, a00, b00, a00.symm, b00.symm, a01, b01, a01.symm, b01.symm, a02, b02, a02.symm, b02.symm, a03, b03, a03.symm, b03.symm, a10, b10, a10.symm, b10.symm, a11, b11, a11.symm, b11.symm, a12, b12, a12.symm, b12.symm, a13, b13, a13.symm, b13.symm, a20, b20, a20.symm, b20.symm, a21, b21, a21.symm, b21.symm, a22, b22, a22.symm, b22.symm, a23, b23, a23.symm, b23.symm, a30, b30, a30.symm, b30.symm, a31, b31, a31.symm, b31.symm, a32, b32, a32.symm, b32.symm, a33, b33, a33.symm, b33.symm]
  ·
    rw [create_row_nodes_up s row c0 c1 c2 c3 h0 h1 h2 h3 z0 z1 z2 z3 u0 u1 u2 u3 d01 d02 d03 d12 d13 d23]
    simp [upd, d01, d02, d03, d12, d13, d23, w01, w02, w03, w12, w13, w23, d01.symm, d02.symm, d03.symm, d12.symm, d13.symm, d23.symm, w01.symm, w02.symm, w03.symm, w12.symm, w13.symm, w23.symm, a00, b00, a00.symm, b00.symm, a01, b01, a01.symm, b01.symm, a02, b02, a02.symm, b02.symm, a03, b03, a03.symm, b03.symm, a10, b10, a10.symm, b10.symm, a11, b11, a11.symm, b11.symm, a12, b12, a12.symm, b12.symm, a13, b13, a13.symm, b13.symm, a20, b20, a20.symm, b20.symm, a21, b21, a21.symm, b21.symm, a22, b22, a22.symm, b22.symm, a23, b23, a23.symm, b23.symm, a30, b30, a30.symm, b30.symm, a31, b31, a31.symm, b31.symm, a32, b32, a32.symm, b32.symm, a33, b33, a33.symm, b33.symm]
  ·
    rw [create_row_nodes_count s row c0 c1 c2 c3 h0 h1 h2 h3 z0 z1 z2 z3 u0 u1 u2 u3 d01 d02 d03 d12 d13 d23]
    simp [upd, d01, d02, d03, d12, d13, d23, w01, w02, w03, w12, w13, w23, d01.symm, d02.symm, d03.symm, d12.symm, d13.symm, d23.symm, w01.symm, w02.symm, w03.symm, w12.symm, w13.symm, w23.symm, a00, b00, a00.symm, b00.symm, a01, b01, a01.symm, b01.symm, a02, b02, a02.symm, b02.symm, a03, b03, a03.symm, b03.symm, a10, b10, a10.symm, b10.symm, a11, b11, a11.symm, b11.symm, a12, b12, a12.symm, b12.symm, a13, b13, a13.symm, b13.symm, a20, b20, a20.symm, b20.symm, a21, b21, a21.symm, b21.symm, a22, b22, a22.symm, b22.symm, a23, b23, a23.symm, b23.symm, a30, b30, a30.symm, b30.symm, a31, b31, a31.symm, b31.symm, a32, b32, a32.symm, b32.symm, a33, b33, a33.symm, b33.symm]
  ·
    rw [create_row_nodes_type s row c0 c1 c2 c3 h0 h1 h2 h3 z0 z1 z2 z3 u0 u1 u2 u3 d01 d02 d03 d12 d13 d23]
    simp [upd, d01, d02, d03, d12, d13, d23, w01, w02, w03, w12, w13, w23, d01.symm, d02.symm, d03.symm, d12.symm, d13.symm, d23.symm, w01.symm, w02.symm, w03.symm, w12.symm, w13.symm, w23.symm, a00, b00, a00.symm, b00.symm, a01, b01, a01.symm, b01.symm, a02, b02, a02.symm, b02.symm, a03, b03, a03.symm, b03.symm, a10, b10, a10.symm, b10.symm, a11, b11, a11.symm, b11.symm, a12, b12, a12.symm, b12.symm, a13, b13, a13.symm, b13.symm, a20, b20, a20.symm, b20.symm, a21, b21, a21.symm, b21.symm, a22, b22, a22.symm, b22.symm, a23, b23, a23.symm, b23.symm, a30, b30, a30.symm, b30.symm, a31, b31, a31.symm, b31.symm, a32, b32, a32.symm, b32.symm, a33, b33, a33.symm, b33.symm]
  ·
    rw [create_row_nodes_row_id s row c0 c1 c2 c3 h0 h1 h2 h3 z0 z1 z2 z3 u0 u1 u2 u3 d01 d02 d03 d12 d13 d23]
    simp [upd, d01, d02, d03, d12, d13, d23, w01, w02, w03, w12, w13, w23, d01.symm, d02.symm, d03.symm, d12.symm, d13.symm, d23.symm, w01.symm, w02.symm, w03.symm, w12.symm, w13.symm, w23.symm, a00, b00, a00.symm, b00.symm, a01, b01, a01.symm, b01.symm, a02, b02, a02.symm, b02.symm, a03, b03, a03.symm, b03.symm, a10, b10, a10.symm, b10.symm, a11, b11, a11.symm, b11.symm, a12, b12, a12.symm, b12.symm, a13, b13, a13.symm, b13.symm, a20, b20, a20.symm, b20.symm, a21, b21, a21.symm, b21.symm, a22, b22, a22.symm, b22.symm, a23, b23, a23.symm, b23.symm, a30, b30, a30.symm, b30.symm, a31, b31, a31.symm, b31.symm, a32, b32, a32.symm, b32.symm, a33, b33, a33.symm, b33.symm]
  ·
    rw [create_row_nodes_parent s row c0 c1 c2 c3 h0 h1 h2 h3 z0 z1 z2 z3 u0 u1 u2 u3 d01 d02 d03 d12 d13 d23]
    simp [upd, d01, d02, d03, d12, d13, d23, w01, w02, w03, w12, w13, w23, d01.symm, d02.symm, d03.symm, d12.symm, d13.symm, d23.symm, w01.symm, w02.symm, w03.symm, w12.symm, w13.symm, w23.symm, a00, b00, a00.symm, b00.symm, a01, b01, a01.symm, b01.symm, a02, b02, a02.symm, b02.symm, a03, b03, a03.symm, b03.symm, a10, b10, a10.symm, b10.symm, a11, b11, a11.symm, b11.symm, a12, b12, a12.symm, b12.symm, a13, b13, a13.symm, b13.symm, a20, b20, a20.symm, b20.symm, a21, b21, a21.symm, b21.symm, a22, b22, a22.symm, b22.symm, a23, b23, a23.symm, b23.symm, a30, b30, a30.symm, b30.symm, a31, b31, a31.symm, b31.symm, a32, b32, a32.symm, b32.symm, a33, b33, a33.symm, b33.symm]
  ·
    rw [create_row_nodes_right s row c0 c1 c2 c3 h0 h1 h2 h3 z0 z1 z2 z3 u0 u1 u2 u3 d01 d02 d03 d12 d13 d23]
    simp [upd, d01, d02, d03, d12, d13, d23, w01, w02, w03, w12, w13, w23, d01.symm, d02.symm, d03.symm, d12.symm, d13.symm, d23.symm, w01.symm, w02.symm, w03.symm, w12.symm, w13.symm, w23.symm, a00, b00, a00.symm, b00.symm, a01, b01, a01.symm, b01.symm, a02, b02, a02.symm, b02.symm, a03, b03, a03.symm, b03.symm, a10, b10, a10.symm, b10.symm, a11, b11, a11.symm, b11.symm, a12, b12, a12.symm, b12.symm, a13, b13, a13.symm, b13.symm, a20, b20, a20.symm, b20.symm, a21, b21, a21.symm, b21.symm, a22, b22, a22.symm, b22.symm, a23, b23, a23.symm, b23.symm, a30, b30, a30.symm, b30.symm, a31, b31, a31.symm, b31.symm, a32, b32, a32.symm, b32.symm, a33, b33, a33.symm, b33.symm]
  ·
    rw [create_row_nodes_left s row c0 c1 c2 c3 h0 h1 h2 h3 z0 z1 z2 z3 u0 u1 u2 u3 d01 d02 d03 d12 d13 d23]
    simp [upd, d01, d02, d03, d12, d13, d23, w01, w02, w03, w12, w13, w23, d01.symm, d02.symm, d03.symm, d12.symm, d13.symm, d23.symm, w01.symm, w02.symm, w03.symm, w12.symm, w13.symm, w23.symm, a00, b00, a00.symm, b00.symm, a01, b01, a01.symm, b01.symm, a02, b02, a02.symm, b02.symm, a03, b03, a03.symm, b03.symm, a10, b10, a10.symm, b10.symm, a11, b11, a11.symm, b11.symm, a12, b12, a12.symm, b12.symm, a13, b13, a13.symm, b13.symm, a20, b20, a20.symm, b20.symm, a21, b21, a21.symm, b21.symm, a22, b22, a22.symm, b22.symm, a23, b23, a23.symm, b23.symm, a30, b30, a30.symm, b30.symm, a31, b31, a31.symm, b31.symm, a32, b32, a32.symm, b32.symm, a33, b33, a33.symm, b33.symm]
  ·
    rw [create_row_nodes_down s row c0 c1 c2 c3 h0 h1 h2 h3 z0 z1 z2 z3 u0 u1 u2 u3 d01 d02 d03 d12 d13 d23]
    simp [upd, d01, d02, d03, d12, d13, d23, w01, w02, w03, w12, w13, w23, d01.symm, d02.symm, d03.symm, d12.symm, d13.symm, d23.symm, w01.symm, w02.symm, w03.symm, w12.symm, w13.symm, w23.symm, a00, b00, a00.symm, b00.symm, a01, b01, a01.symm, b01.symm, a02, b02, a02.symm, b02.symm, a03, b03, a03.symm, b03.symm, a10, b10, a10.symm, b10.symm, a11, b11, a11.symm, b11.symm, a12, b12, a12.symm, b12.symm, a13, b13, a13.symm, b13.symm, a20, b20, a20.symm, b20.symm, a21, b21, a21.symm, b21.symm, a22, b22, a22.symm, b22.symm, a23, b23, a23.symm, b23.symm, a30, b30, a30.symm, b30.symm, a31, b31, a31.symm, b31.symm, a32, b32, a32.symm, b32.symm, a33, b33, a33.symm, b33.symm]
  ·
    rw [create_row_nodes_down s row c0 c1 c2 c3 h0 h1 h2 h3 z0 z1 z2 z3 u0 u1 u2 u3 d01 d02 d03 d12 d13 d23]
    simp [upd, d01, d02, d03, d12, d13, d23, w01, w02, w03, w12, w13, w23, d01.symm, d02.symm, d03.symm, d12.symm, d13.symm, d23.symm, w01.symm, w02.symm, w03.symm, w12.symm, w13.symm, w23.symm, a00, b00, a00.symm, b00.symm, a01, b01, a01.symm, b01.symm, a02, b02, a02.symm, b02.symm, a03, b03, a03.symm, b03.symm, a10, b10, a10.symm, b10.symm, a11, b11, a11.symm, b11.symm, a12, b12, a12.symm, b12.symm, a13, b13, a13.symm, b13.symm, a20, b20, a20.symm, b20.symm, a21, b21, a21.symm, b21.symm, a22, b22, a22.symm, b22.symm, a23, b23, a23.symm, b23.symm, a30, b30, a30.symm, b30.symm, a31, b31, a31.symm, b31.symm, a32, b32, a32.symm, b32.symm, a33, b33, a33.symm, b33.symm]
  ·
    rw [create_row_nodes_up s row c0 c1 c2 c3 h0 h1 h2 h3 z0 z1 z2 z3 u0 u1 u2 u3 d01 d02 d03 d12 d13 d23]
    simp [upd, d01, d02, d03, d12, d13, d23, w01, w02, w03, w12, w13, w23, d01.symm, d02.symm, d03.symm, d12.symm, d13.symm, d23.symm, w01.symm, w02.symm, w03.symm, w12.symm, w13.symm, w23.symm, a00, b00, a00.symm, b00.symm, a01, b01, a01.symm, b01.symm, a02, b02, a02.symm, b02.symm, a03, b03, a03.symm, b03.symm, a10, b10, a10.symm, b10.symm, a11, b11, a11.symm, b11.symm, a12, b12, a12.symm, b12.symm, a13, b13, a13.symm, b13.symm, a20, b20, a20.symm, b20.symm, a21, b21, a21.symm, b21.symm, a22, b22, a22.symm, b22.symm, a23, b23, a23.symm, b23.symm, a30, b30, a30.symm, b30.symm, a31, b31, a31.symm, b31.symm, a32, b32, a32.symm, b32.symm, a33, b33, a33.symm, b33.symm]
  ·
    rw [create_row_nodes_up s row c0 c1 c2 c3 h0 h1 h2 h3 z0 z1 z2 z3 u0 u1 u2 u3 d01 d02 d03 d12 d13 d23]
    simp [upd, d01, d02, d03, d12, d13, d23, w01, w02, w03, w12, w13, w23, d01.symm, d02.symm, d03.symm, d12.symm, d13.symm, d23.symm, w01.symm, w02.symm, w03.symm, w12.symm, w13.symm, w23.symm, a00, b00, a00.symm, b00.symm, a01, b01, a01.symm, b01.symm, a02, b02, a02.symm, b02.symm, a03, b03, a03.symm, b03.symm, a10, b10, a10.symm, b10.symm, a11, b11, a11.symm, b11.symm, a12, b12, a12.symm, b12.symm, a13, b13, a13.symm, b13.symm, a20, b20, a20.symm, b20.symm, a21, b21, a21.symm, b21.symm, a22, b22, a22.symm, b22.symm, a23, b23, a23.symm, b23.symm, a30, b30, a30.symm, b30.symm, a31, b31, a31.symm, b31.symm, a32, b32, a32.symm, b32.symm, a33, b33, a33.symm, b33.symm]
  ·
    rw [create_row_nodes_count s row c0 c1 c2 c3 h0 h1 h2 h3 z0 z1 z2 z3 u0 u1 u2 u3 d01 d02 d03 d12 d13 d23]
    simp [upd, d01, d02, d03, d12, d13, d23, w01, w02, w03, w12, w13, w23, d01.symm, d02.symm, d03.symm, d12.symm, d13.symm, d23.symm, w01.symm, w02.symm, w03.symm, w12.symm, w13.symm, w23.symm, a00, b00, a00.symm, b00.symm, a01, b01, a01.symm, b01.symm, a02, b02, a02.symm, b02.symm, a03, b03, a03.symm, b03.symm, a10, b10, a10.symm, b10.symm, a11, b11, a11.symm, b11.symm, a12, b12, a12.symm, b12.symm, a13, b13, a13.symm, b13.symm, a20, b20, a20.symm, b20.symm, a21, b21, a21.symm, b21.symm, a22, b22, a22.symm, b22.symm, a23, b23, a23.symm, b23.symm, a30, b30, a30.symm, b30.symm, a31, b31, a31.symm, b31.symm, a32, b32, a32.symm, b32.symm, a33, b33, a33.symm, b33.symm]
  ·
    rw [create_row_nodes_type s row c0 c1 c2 c3 h0 h1 h2 h3 z0 z1 z2 z3 u0 u1 u2 u3 d01 d02 d03 d12 d13 d23]
    simp [upd, d01, d02, d03, d12, d13, d23, w01, w02, w03, w12, w13, w23, d01.symm, d02.symm, d03.symm, d12.symm, d13.symm, d23.symm, w01.symm, w02.symm, w03.symm, w12.symm, w13.symm, w23.symm, a00, b00, a00.symm, b00.symm, a01, b01, a01.symm, b01.symm, a02, b02, a02.symm, b02.symm, a03, b03, a03.symm, b03.symm, a10, b10, a10.symm, b10.symm, a11, b11, a11.symm, b11.symm, a12, b12, a12.symm, b12.symm, a13, b13, a13.symm, b13.symm, a20, b20, a20.symm, b20.symm, a21, b21, a21.symm, b21.symm, a22, b22, a22.symm, b22.symm, a23, b23, a23.symm, b23.symm, a30, b30, a30.symm, b30.symm, a31, b31, a31.symm, b31.symm, a32, b32, a32.symm, b32.symm, a33, b33, a33.symm, b33.symm]
  ·
    rw [create_row_nodes_row_id s row c0 c1 c2 c3 h0 h1 h2 h3 z0 z1 z2 z3 u0 u1 u2 u3 d01 d02 d03 d12 d13 d23]
    simp [upd, d01, d02, d03, d12, d13, d23, w01, w02, w03, w12, w13, w23, d01.symm, d02.symm, d03.symm, d12.symm, d13.symm, d23.symm, w01.symm, w02.symm, w03.symm, w12.symm, w13.symm, w23.symm, a00, b00, a00.symm, b00.symm, a01, b01, a01.symm, b01.symm, a02, b02, a02.symm, b02.symm, a03, b03, a03.symm, b03.symm, a10, b10, a10.symm, b10.symm, a11, b11, a11.symm, b11.symm, a12, b12, a12.symm, b12.symm, a13, b13, a13.symm, b13.symm, a20, b20, a20.symm, b20.symm, a21, b21, a21.symm, b21.symm, a22, b22, a22.symm, b22.symm, a23, b23, a23.symm, b23.symm, a30, b30, a30.symm, b30.symm, a31, b31, a31.symm, b31.symm, a32, b32, a32.symm, b32.symm, a33, b33, a33.symm, b33.symm]
  ·
    rw [create_row_nodes_parent s row c0 c1 c2 c3 h0 h1 h2 h3 z0 z1 z2 z3 u0 u1 u2 u3 d01 d02 d03 d12 d13 d23]
    simp [upd, d01, d02, d03, d12, d13, d23, w01, w02, w03, w12, w13, w23, d01.symm, d02.symm, d03.symm, d12.symm, d13.symm, d23.symm, w01.symm, w02.symm, w03.symm, w12.symm, w13.symm, w23.symm, a00, b00, a00.symm, b00.symm, a01, b01, a01.symm, b01.symm, a02, b02, a02.symm, b02.symm, a03, b03, a03.symm, b03.symm, a10, b10, a10.symm, b10.symm, a11, b11, a11.symm, b11.symm, a12, b12, a12.symm, b12.symm, a13, b13, a13.symm, b13.symm, a20, b20, a20.symm, b20.symm, a21, b21, a21.symm, b21.symm, a22, b22, a22.symm, b22.symm, a23, b23, a23.symm, b23.symm, a30, b30, a30.symm, b30.symm, a31, b31, a31.symm, b31.symm, a32, b32, a32.symm, b32.symm, a33, b33, a33.symm, b33.symm]
  ·
    rw [create_row_nodes_right s row c0 c1 c2 c3 h0 h1 h2 h3 z0 z1 z2 z3 u0 u1 u2 u3 d01 d02 d03 d12 d13 d23]
    simp [upd, d01, d02, d03, d12, d13, d23, w01, w02, w03, w12, w13, w23, d01.symm, d02.symm, d03.symm, d12.symm, d13.symm, d23.symm, w01.symm, w02.symm, w03.symm, w12.symm, w13.symm, w23.symm, a00, b00, a00.symm, b00.symm, a01, b01, a01.symm, b01.symm, a02, b02, a02.symm, b02.symm, a03, b03, a03.symm, b03.symm, a10, b10, a10.symm, b10.symm, a11, b11, a11.symm, b11.symm, a12, b12, a12.symm, b12.symm, a13, b13, a13.symm, b13.symm, a20, b20, a20.symm, b20.symm, a21, b21, a21.symm, b21.symm, a22, b22, a22.symm, b22.symm, a23, b23, a23.symm, b23.symm, a30, b30, a30.symm, b30.symm, a31, b31, a31.symm, b31.symm, a32, b32, a32.symm, b32.symm, a33, b33, a33.symm, b33.symm]
  ·
    rw [create_row_nodes_left s row c0 c1 c2 c3 h0 h1 h2 h3 z0 z1 z2 z3 u0 u1 u2 u3 d01 d02 d03 d12 d13 d23]
    simp [upd, d01, d02, d03, d12, d13, d23, w01, w02, w03, w12, w13, w23, d01.symm, d02.symm, d03.symm, d12.symm, d13.symm, d23.symm, w01.symm, w02.symm, w03.symm, w12.symm, w13.symm, w23.symm, a00, b00, a00.symm, b00.symm, a01, b01, a01.symm, b01.symm, a02, b02, a02.symm, b02.symm, a03, b03, a03.symm, b03.symm, a10, b10, a10.symm, b10.symm, a11, b11, a11.symm, b11.symm, a12, b12, a12.symm, b12.symm, a13, b13, a13.symm, b13.symm, a20, b20, a20.symm, b20.symm, a21, b21, a21.symm, b21.symm, a22, b22, a22.symm, b22.symm, a23, b23, a23.symm, b23.symm, a30, b30, a30.symm, b30.symm, a31, b31, a31.symm, b31.symm, a32, b32, a32.symm, b32.symm, a33, b33, a33.symm, b33.symm]
  ·
    rw [create_row_nodes_down s row c0 c1 c2 c3 h0 h1 h2 h3 z0 z1 z2 z3 u0 u1 u2 u3 d01 d02 d03 d12 d13 d23]
    simp [upd, d01, d02, d03, d12, d13, d23, w01, w02, w03, w12, w13, w23, d01.symm, d02.symm, d03.symm, d12.symm, d13.symm, d23.symm, w01.symm, w02.symm, w03.symm, w12.symm, w13.symm, w23.symm, a00, b00, a00.symm, b00.symm, a01, b01, a01.symm, b01.symm, a02, b02, a02.symm, b02.symm, a03, b03, a03.symm, b03.symm, a10, b10, a10.symm, b10.symm, a11, b11, a11.symm, b11.symm, a12, b12, a12.symm, b12.symm, a13, b13, a13.symm, b13.symm, a20, b20, a20.symm, b20.symm, a21, b21, a21.symm, b21.symm, a22, b22, a22.symm, b22.symm, a23, b23, a23.symm, b23.symm, a30, b30, a30.symm, b30.symm, a31, b31, a31.symm, b31.symm, a32, b32, a32.symm, b32.symm, a33, b33, a33.symm, b33.symm]
  ·
    rw [create_row_nodes_down s row c0 c1 c2 c3 h0 h1 h2 h3 z0 z1 z2 z3 u0 u1 u2 u3 d01 d02 d03 d12 d13 d23]
    simp [upd, d01, d02, d03, d12, d13, d23, w01, w02, w03, w12, w13, w23, d01.symm, d02.symm, d03.symm, d12.symm, d13.symm, d23.symm, w01.symm, w02.symm, w03.symm, w12.symm, w13.symm, w23.symm, a00, b00, a00.symm, b00.symm, a01, b01, a01.symm, b01.symm, a02, b02, a02.symm, b02.symm, a03, b03, a03.symm, b03.symm, a10, b10, a10.symm, b10.symm, a11, b11, a11.symm, b11.symm, a12, b12, a12.symm, b12.symm, a13, b13, a13.symm, b13.symm, a20, b20, a20.symm, b20.symm, a21, b21, a21.symm, b21.symm, a22, b22, a22.symm, b22.symm, a23, b23, a23.symm, b23.symm, a30, b30, a30.symm, b30.symm, a31, b31, a31.symm, b31.symm, a32, b32, a32.symm, b32.symm, a33, b33, a33.symm, b33.symm]
  ·
    rw [create_row_nodes_up s row c0 c1 c2 c3 h0 h1 h2 h3 z0 z1 z2 z3 u0 u1 u2 u3 d01 d02 d03 d12 d13 d23]
    simp [upd, d01, d02, d03, d12, d13, d23, w01, w02, w03, w12, w13, w23, d01.symm, d02.symm, d03.symm, d12.symm, d13.symm, d23.symm, w01.symm, w02.symm, w03.symm, w12.symm, w13.symm, w23.symm, a00, b00, a00.symm, b00.symm, a01, b01, a01.symm, b01.symm, a02, b02, a02.symm, b02.symm, a03, b03, a03.symm, b03.symm, a10, b10, a10.symm, b10.symm, a11, b11, a11.symm, b11.symm, a12, b12, a12.symm, b12.symm, a13, b13, a13.symm, b13.symm, a20, b20, a20.symm, b20.symm, a21, b21, a21.symm, b21.symm, a22, b22, a22.symm, b22.symm, a23, b23, a23.symm, b23.symm, a30, b30, a30.symm, b30.symm, a31, b31, a31.symm, b31.symm, a32, b32, a32.symm, b32.symm, a33, b33, a33.symm, b33.symm]
  ·
    rw [create_row_nodes_up s row c0 c1 c2 c3 h0 h1 h2 h3 z0 z1 z2 z3 u0 u1 u2 u3 d01 d02 d03 d12 d13 d23]
    simp [upd, d01, d02, d03, d12, d13, d23, w01, w02, w03, w12, w13, w23, d01.symm, d02.symm, d03.symm, d12.symm, d13.symm, d23.symm, w01.symm, w02.symm, w03.symm, w12.symm, w13.symm, w23.symm, a00, b00, a00.symm, b00.symm, a01, b01, a01.symm, b01.symm, a02, b02, a02.symm, b02.symm, a03, b03, a03.symm, b03.symm, a10, b10, a10.symm, b10.symm, a11, b11, a11.symm, b11.symm, a12, b12, a12.symm, b12.symm, a13, b13, a13.symm, b13.symm, a20, b20, a20.symm, b20.symm, a21, b21, a21.symm, b21.symm, a22, b22, a22.symm, b22.symm, a23, b23, a23.symm, b23.symm, a30, b30, a30.symm, b30.symm, a31, b31, a31.symm, b31.symm, a32, b32, a32.symm, b32.symm, a33, b33, a33.symm, b33.symm]
  ·
    rw [create_row_nodes_count s row c0 c1 c2 c3 h0 h1 h2 h3 z0 z1 z2 z3 u0 u1 u2 u3 d01 d02 d03 d12 d13 d23]
    simp [upd, d01, d02, d03, d12, d13, d23, w01, w02, w03, w12, w13, w23, d01.symm, d02.symm, d03.symm, d12.symm, d13.symm, d23.symm, w01.symm, w02.symm, w03.symm, w12.symm, w13.symm, w23.symm, a00, b00, a00.symm, b00.symm, a01, b01, a01.symm, b01.symm, a02, b02, a02.symm, b02.symm, a03, b03, a03.symm, b03.symm, a10, b10, a10.symm, b10.symm, a11, b11, a11.symm, b11.symm, a12, b12, a12.symm, b12.symm, a13, b13, a13.symm, b13.symm, a20, b20, a20.symm, b20.symm, a21, b21, a21.symm, b21.symm, a22, b22, a22.symm, b22.symm, a23, b23, a23.symm, b23.symm, a30, b30, a30.symm, b30.symm, a31, b31, a31.symm, b31.symm, a32, b32, a32.symm, b32.symm, a33, b33, a33.symm, b33.symm]
  ·
    rw [create_row_nodes_type s row c0 c1 c2 c3 h0 h1 h2 h3 z0 z1 z2 z3 u0 u1 u2 u3 d01 d02 d03 d12 d13 d23]
    simp [upd, d01, d02, d03, d12, d13, d23, w01, w02, w03, w12, w13, w23, d01.symm, d02.symm, d03.symm, d12.symm, d13.symm, d23.symm, w01.symm, w02.symm, w03.symm, w12.symm, w13.symm, w23.symm, a00, b00, a00.symm, b00.symm, a01, b01, a01.symm, b01.symm, a02, b02, a02.symm, b02.symm, a03, b03, a03.symm, b03.symm, a10, b10, a10.symm, b10.symm, a11, b11, a11.symm, b11.symm, a12, b12, a12.symm, b12.symm, a13, b13, a13.symm, b13.symm, a20, b20, a20.symm, b20.symm, a21, b21, a21.symm, b21.symm, a22, b22, a22.symm, b22.symm, a23, b23, a23.symm, b23.symm, a30, b30, a30.symm, b30.symm, a31, b31, a31.symm, b31.symm, a32, b32, a32.symm, b32.symm, a33, b33, a33.symm, b33.symm]
  ·
    rw [create_row_nodes_row_id s row c0 c1 c2 c3 h0 h1 h2 h3 z0 z1 z2 z3 u0 u1 u2 u3 d01 d02 d03 d12 d13 d23]
    simp [upd, d01, d02, d03, d12, d13, d23, w01, w02, w03, w12, w13, w23, d01.symm, d02.symm, d03.symm, d12.symm, d13.symm, d23.symm, w01.symm, w02.symm, w03.symm, w12.symm, w13.symm, w23.symm, a00, b00, a00.symm, b00.symm, a01, b01, a01.symm, b01.symm, a02, b02, a02.symm, b02.symm, a03, b03, a03.symm, b03.symm, a10, b10, a10.symm, b10.symm, a11, b11, a11.symm, b11.symm, a12, b12, a12.symm, b12.symm, a13, b13, a13.symm, b13.symm, a20, b20, a20.symm, b20.symm, a21, b21, a21.symm, b21.symm, a22, b22, a22.symm, b22.symm, a23, b23, a23.symm, b23.symm, a30, b30, a30.symm, b30.symm, a31, b31, a31.symm, b31.symm, a32, b32, a32.symm, b32.symm, a33, b33, a33.symm, b33.symm]
  ·
    rw [create_row_nodes_parent s row c0 c1 c2 c3 h0 h1 h2 h3 z0 z1 z2 z3 u0 u1 u2 u3 d01 d02 d03 d12 d13 d23]
    simp [upd, d01, d02, d03, d12, d13, d23, w01, w02, w03, w12, w13, w23, d01.symm, d02.symm, d03.symm, d12.symm, d13.symm, d23.symm, w01.symm, w02.symm, w03.symm, w12.symm, w13.symm, w23.symm, a00, b00, a00.symm, b00.symm, a01, b01, a01.symm, b01.symm, a02, b02, a02.symm, b02.symm, a03, b03, a03.symm, b03.symm, a10, b10, a10.symm, b10.symm, a11, b11, a11.symm, b11.symm, a12, b12, a12.symm, b12.symm, a13, b13, a13.symm, b13.symm, a20, b20, a20.symm, b20.symm, a21, b21, a21.symm, b21.symm, a22, b22, a22.symm, b22.symm, a23, b23, a23.symm, b23.symm, a30, b30, a30.symm, b30.symm, a31, b31, a31.symm, b31.symm, a32, b32, a32.symm, b32.symm, a33, b33, a33.symm, b33.symm]
  ·
    rw [create_row_nodes_right s row c0 c1 c2 c3 h0 h1 h2 h3 z0 z1 z2 z3 u0 u1 u2 u3 d01 d02 d03 d12 d13 d23]
    simp [upd, d01, d02, d03, d12, d13, d23, w01, w02, w03, w12, w13, w23, d01.symm, d02.symm, d03.symm, d12.symm, d13.symm, d23.symm, w01.symm, w02.symm, w03.symm, w12.symm, w13.symm, w23.symm, a00, b00, a00.symm, b00.symm, a01, b01, a01.symm, b01.symm, a02, b02, a02.symm, b02.symm, a03, b03, a03.symm, b03.symm, a10, b10, a10.symm, b10.symm, a11, b11, a11.symm, b11.symm, a12, b12, a12.symm, b12.symm, a13, b13, a13.symm, b13.symm, a20, b20, a20.symm, b20.symm, a21, b21, a21.symm, b21.symm, a22, b22, a22.symm, b22.symm, a23, b23, a23.symm, b23.symm, a30, b30, a30.symm, b30.symm, a31, b31, a31.symm, b31.symm, a32, b32, a32.symm, b32.symm, a33, b33, a33.symm, b33.symm]
  ·
    rw [create_row_nodes_left s row c0 c1 c2 c3 h0 h1 h2 h3 z0 z1 z2 z3 u0 u1 u2 u3 d01 d02 d03 d12 d13 d23]
    simp [upd, d01, d02, d03, d12, d13, d23, w01, w02, w03, w12, w13, w23, d01.symm, d02.symm, d03.symm, d12.symm, d13.symm, d23.symm, w01.symm, w02.symm, w03.symm, w12.symm, w13.symm, w23.symm, a00, b00, a00.symm, b00.symm, a01, b01, a01.symm, b01.symm, a02, b02, a02.symm, b02.symm, a03, b03, a03.symm, b03.symm, a10, b10, a10.symm, b10.symm, a11, b11, a11.symm, b11.symm, a12, b12, a12.symm, b12.symm, a13, b13, a13.symm, b13.symm, a20, b20, a20.symm, b20.symm, a21, b21, a21.symm, b21.symm, a22, b22, a22.symm, b22.symm, a23, b23, a23.symm, b23.symm, a30, b30, a30.symm, b30.symm, a31, b31, a31.symm, b31.symm, a32, b32, a32.symm, b32.symm, a33, b33, a33.symm, b33.symm]
  ·
    rw [create_row_nodes_down s row c0 c1 c2 c3 h0 h1 h2 h3 z0 z1 z2 z3 u0 u1 u2 u3 d01 d02 d03 d12 d13 d23]
    simp [upd, d01, d02, d03, d12, d13, d23, w01, w02, w03, w12, w13, w23, d01.symm, d02.symm, d03.symm, d12.symm, d13.symm, d23.symm, w01.symm, w02.symm, w03.symm, w12.symm, w13.symm, w23.symm, a00, b00, a00.symm, b00.symm, a01, b01, a01.symm, b01.symm, a02, b02, a02.symm, b02.symm, a03, b03, a03.symm, b03.symm, a10, b10, a10.symm, b10.symm, a11, b11, a11.symm, b11.symm, a12, b12, a12.symm, b12.symm, a13, b13, a13.symm, b13.symm, a20, b20, a20.symm, b20.symm, a21, b21, a21.symm, b21.symm, a22, b22, a22.symm, b22.symm, a23, b23, a23.symm, b23.symm, a30, b30, a30.symm, b30.symm, a31, b31, a31.symm, b31.symm, a32, b32, a32.symm, b32.symm, a33, b33, a33.symm, b33.symm]
  ·
    rw [create_row_nodes_down s row c0 c1 c2 c3 h0 h1 h2 h3 z0 z1 z2 z3 u0 u1 u2 u3 d01 d02 d03 d12 d13 d23]
    simp [upd, d01, d02, d03, d12, d13, d23, w01, w02, w03, w12, w13, w23, d01.symm, d02.symm, d03.symm, d12.symm, d13.symm, d23.symm, w01.symm, w02.symm, w03.symm, w12.symm, w13.symm, w23.symm, a00, b00, a00.symm, b00.symm, a01, b01, a01.symm, b01.symm, a02, b02, a02.symm, b02.symm, a03, b03, a03.symm, b03.symm, a10, b10, a10.symm, b10.symm, a11, b11, a11.symm, b11.symm, a12, b12, a12.symm, b12.symm, a13, b13, a13.symm, b13.symm, a20, b20, a20.symm, b20.symm, a21, b21, a21.symm, b21.symm, a22, b22, a22.symm, b22.symm, a23, b23, a23.symm, b23.symm, a30, b30, a30.symm, b30.symm, a31, b31, a31.symm, b31.symm, a32, b32, a32.symm, b32.symm, a33, b33, a33.symm, b33.symm]
  ·
    rw [create_row_nodes_up s row c0 c1 c2 c3 h0 h1 h2 h3 z0 z1 z2 z3 u0 u1 u2 u3 d01 d02 d03 d12 d13 d23]
    simp [upd, d01, d02, d03, d12, d13, d23, w01, w02, w03, w12, w13, w23, d01.symm, d02.symm, d03.symm, d12.symm, d13.symm, d23.symm, w01.symm, w02.symm, w03.symm, w12.symm, w13.symm, w23.symm, a00, b00, a00.symm, b00.symm, a01, b01, a01.symm, b01.symm, a02, b02, a02.symm, b02.symm, a03, b03, a03.symm, b03.symm, a10, b10, a10.symm, b10.symm, a11, b11, a11.symm, b11.symm, a12, b12, a12.symm, b12.symm, a13, b13, a13.symm, b13.symm, a20, b20, a20.symm, b20.symm, a21, b21, a21.symm, b21.symm, a22, b22, a22.symm, b22.symm, a23, b23, a23.symm, b23.symm, a30, b30, a30.symm, b30.symm, a31, b31, a31.symm, b31.symm, a32, b32, a32.symm, b32.symm, a33, b33, a33.symm, b33.symm]
  ·
    rw [create_row_nodes_up s row c0 c1 c2 c3 h0 h1 h2 h3 z0 z1 z2 z3 u0 u1 u2 u3 d01 d02 d03 d12 d13 d23]
    simp [upd, d01, d02, d03, d12, d13, d23, w01, w02, w03, w12, w13, w23, d01.symm, d02.symm, d03.symm, d12.symm, d13.symm, d23.symm, w01.symm, w02.symm, w03.symm, w12.symm, w13.symm, w23.symm, a00, b00, a00.symm, b00.symm, a01, b01, a01.symm, b01.symm, a02, b02, a02.symm, b02.symm, a03, b03, a03.symm, b03.symm, a10, b10, a10.symm, b10.symm, a11, b11, a11.symm, b11.symm, a12, b12, a12.symm, b12.symm, a13, b13, a13.symm, b13.symm, a20, b20, a20.symm, b20.symm, a21, b21, a21.symm, b21.symm, a22, b22, a22.symm, b22.symm, a23, b23, a23.symm, b23.symm, a30, b30, a30.symm, b30.symm, a31, b31, a31.symm, b31.symm, a32, b32, a32.symm, b32.symm, a33, b33, a33.symm, b33.symm]
  ·
    rw [create_row_nodes_count s row c0 c1 c2 c3 h0 h1 h2 h3 z0 z1 z2 z3 u0 u1 u2 u3 d01 d02 d03 d12 d13 d23]
    simp [upd, d01, d02, d03, d12, d13, d23, w01, w02, w03, w12, w13, w23, d01.symm, d02.symm, d03.symm, d12.symm, d13.symm, d23.symm, w01.symm, w02.symm, w03.symm, w12.symm, w13.symm, w23.symm, a00, b00, a00.symm, b00.symm, a01, b01, a01.symm, b01.symm, a02, b02, a02.symm, b02.symm, a03, b03, a03.symm, b03.symm, a10, b10, a10.symm, b10.symm, a11, b11, a11.symm, b11.symm, a12, b12, a12.symm, b12.symm, a13, b13, a13.symm, b13.symm, a20, b20, a20.symm, b20.symm, a21, b21, a21.symm, b21.symm, a22, b22, a22.symm, b22.symm, a23, b23, a23.symm, b23.symm, a30, b30, a30.symm, b30.symm, a31, b31, a31.symm, b31.symm, a32, b32, a32.symm, b32.symm, a33, b33, a33.symm, b33.symm]
  ·
    intro x hx y0 y1 y2 y3
    obtain ⟨k0, k1, k2, k3⟩ := key x hx
    rw [create_row_nodes_down s row c0 c1 c2 c3 h0 h1 h2 h3 z0 z1 z2 z3 u0 u1 u2 u3 d01 d02 d03 d12 d13 d23]
    simp [upd, d01, d02, d03, d12, d13, d23, w01, w02, w03, w12, w13, w23, d01.symm, d02.symm, d03.symm, d12.symm, d13.symm, d23.symm, w01.symm, w02.symm, w03.symm, w12.symm, w13.symm, w23.symm, a00, b00, a00.symm, b00.symm, a01, b01, a01.symm, b01.symm, a02, b02, a02.symm, b02.symm, a03, b03, a03.symm, b03.symm, a10, b10, a10.symm, b10.symm, a11, b11, a11.symm, b11.symm, a12, b12, a12.symm, b12.symm, a13, b13, a13.symm, b13.symm, a20, b20, a20.symm, b20.symm, a21, b21, a21.symm, b21.symm, a22, b22, a22.symm, b22.symm, a23, b23, a23.symm, b23.symm, a30, b30, a30.symm, b30.symm, a31, b31, a31.symm, b31.symm, a32, b32, a32.symm, b32.symm, a33, b33, a33.symm, b33.symm, k0, k1, k2, k3, y0, y1, y2, y3]
  ·
    intro x hx y0 y1 y2 y3
    obtain ⟨k0, k1, k2, k3⟩ := key x hx
    rw [create_row_nodes_up s row c0 c1 c2 c3 h0 h1 h2 h3 z0 z1 z2 z3 u0 u1 u2 u3 d01 d02 d03 d12 d13 d23]
    simp [upd, d01, d02, d03, d12, d13, d23, w01, w02, w03, w12, w13, w23, d01.symm, d02.symm, d03.symm, d12.symm, d13.symm, d23.symm, w01.symm, w02.symm, w03.symm, w12.symm, w13.symm, w23.symm, a00, b00, a00.symm, b00.symm, a01, b01, a01.symm, b01.symm, a02, b02, a02.symm, b02.symm, a03, b03, a03.symm, b03.symm, a10, b10, a10.symm, b10.symm, a11, b11, a11.symm, b11.symm, a12, b12, a12.symm, b12.symm, a13, b13, a13.symm, b13.symm, a20, b20, a20.symm, b20.symm, a21, b21, a21.symm, b21.symm, a22, b22, a22.symm, b22.symm, a23, b23, a23.symm, b23.symm, a30, b30, a30.symm, b30.symm, a31, b31, a31.symm, b31.symm, a32, b32, a32.symm, b32.symm, a33, b33, a33.symm, b33.symm, k0, k1, k2, k3, y0, y1, y2, y3]
  ·
    intro x y0 y1 y2 y3
    rw [create_row_nodes_count s row c0 c1 c2 c3 h0 h1 h2 h3 z0 z1 z2 z3 u0 u1 u2 u3 d01 d02 d03 d12 d13 d23]
    simp [upd, d01, d02, d03, d12, d13, d23, w01, w02, w03, w12, w13, w23, d01.symm, d02.symm, d03.symm, d12.symm, d13.symm, d23.symm, w01.symm, w02.symm, w03.symm, w12.symm, w13.symm, w23.symm, a00, b00, a00.symm, b00.symm, a01, b01, a01.symm, b01.symm, a02, b02, a02.symm, b02.symm, a03, b03, a03.symm, b03.symm, a10, b10, a10.symm, b10.symm, a11, b11, a11.symm, b11.symm, a12, b12, a12.symm, b12.symm, a13, b13, a13.symm, b13.symm, a20, b20, a20.symm, b20.symm, a21, b21, a21.symm, b21.symm, a22, b22, a22.symm, b22.symm, a23, b23, a23.symm, b23.symm, a30, b30, a30.symm, b30.symm, a31, b31, a31.symm, b31.symm, a32, b32, a32.symm, b32.symm, a33, b33, a33.symm, b33.symm, y0, y1, y2, y3]

/-! ## Adding a row to a matrix -/

section AddRow

variable {sh : Shape} {n0 c0 c1 c2 c3 : Nat}

theorem mem_addRow_vs {c n : Nat} (d01 : c0 ≠ c1) (d02 : c0 ≠ c2) (d03 : c0 ≠ c3)
    (d12 : c1 ≠ c2) (d13 : c1 ≠ c3) (d23 : c2 ≠ c3) :
    n ∈ (addRow sh n0 c0 c1 c2 c3).vs c ↔
      n ∈ sh.vs c ∨ (c = c0 ∧ n = n0) ∨ (c = c1 ∧ n = n0 + 1) ∨ (c = c2 ∧ n = n0 + 2) ∨
        (c = c3 ∧ n = n0 + 3) := by
  simp only [addRow]
  by_cases e0 : c = c0
  · subst e0; simp [d01, d02, d03]
  · by_cases e1 : c = c1
    · subst e1; simp [e0, d12, d13]
    · by_cases e2 : c = c2
      · subst e2; simp [e0, e1, d23]
      · by_cases e3 : c = c3
        · subst e3; simp [e0, e1, e2]
        · simp [e0, e1, e2, e3]

theorem addRow_par_old {n : Nat} (h : n < n0) : (addRow sh n0 c0 c1 c2 c3).par n = sh.par n := by
  simp only [addRow]
  rw [if_neg (by omega), if_neg (by omega), if_neg (by omega), if_neg (by omega)]

theorem addRow_rs_old {n : Nat} (h : n < n0) : (addRow sh n0 c0 c1 c2 c3).rs n = sh.rs n := by
  simp only [addRow]
  rw [if_neg (by omega), if_neg (by omega), if_neg (by omega), if_neg (by omega)]

theorem addRow_par0 : (addRow sh n0 c0 c1 c2 c3).par n0 = c0 := by simp [addRow]
theorem addRow_par1 : (addRow sh n0 c0 c1 c2 c3).par (n0 + 1) = c1 := by simp [addRow]
theorem addRow_par2 : (addRow sh n0 c0 c1 c2 c3).par (n0 + 2) = c2 := by simp [addRow]
theorem addRow_par3 : (addRow sh n0 c0 c1 c2 c3).par (n0 + 3) = c3 := by simp [addRow]
theorem addRow_rs0 : (addRow sh n0 c0 c1 c2 c3).rs n0 = [n0 + 1, n0 + 2, n0 + 3] := by
  simp [addRow]
theorem addRow_rs1 : (addRow sh n0 c0 c1 c2 c3).rs (n0 + 1) = [n0 + 2, n0 + 3, n0] := by
  simp [addRow]
theorem addRow_rs2 : (addRow sh n0 c0 c1 c2 c3).rs (n0 + 2) = [n0 + 3, n0, n0 + 1] := by
  simp [addRow]
theorem addRow_rs3 : (addRow sh n0 c0 c1 c2 c3).rs (n0 + 3) = [n0, n0 + 1, n0 + 2] := by
  simp [addRow]

/-- The row of a new node consists of the four new nodes. -/
theorem new_row_mem {j : Nat} (hj : j < 4) {x : Nat} :
    x ∈ (n0 + j) :: (addRow sh n0 c0 c1 c2 c3).rs (n0 + j) ↔
      x = n0 ∨ x = n0 + 1 ∨ x = n0 + 2 ∨ x = n0 + 3 := by
  have e : j = 0 ∨ j = 1 ∨ j = 2 ∨ j = 3 := by omega
  rcases e with rfl | rfl | rfl | rfl
  · rw [Nat.add_zero, addRow_rs0]; simp
  · rw [addRow_rs1]; simp; tauto
  · rw [addRow_rs2]; simp; tauto
  · rw [addRow_rs3]; simp; tauto

theorem new_row_rs {j : Nat} (hj : j < 4) {m : Nat}
    (hm : m ∈ (addRow sh n0 c0 c1 c2 c3).rs (n0 + j)) : ∃ i, i < 4 ∧ m = n0 + i := by
  have := (@new_row_mem sh n0 c0 c1 c2 c3 j hj m).1 (List.mem_cons_of_mem _ hm)
  rcases this with rfl | rfl | rfl | rfl
  exacts [⟨0, by omega, rfl⟩, ⟨1, by omega, rfl⟩, ⟨2, by omega, rfl⟩, ⟨3, by omega, rfl⟩]

/-- The rows of the nodes that were there before are unchanged. -/
theorem addRow_rowCols_old (hw : sh.WF) (hlt : ∀ c ∈ sh.hs, ∀ n ∈ sh.vs c, n < n0) {c n : Nat}
    (hc : c ∈ sh.hs) (hn : n ∈ sh.vs c) :
    (addRow sh n0 c0 c1 c2 c3).rowCols n = sh.rowCols n := by
  unfold Shape.rowCols
  rw [addRow_rs_old (hlt c hc n hn)]
  apply List.map_congr_left
  intro m hm
  obtain ⟨h1, h2⟩ := hw.row_linked hc hn hm
  exact addRow_par_old (hlt _ h1 m h2)

/-- Adding a row of four fresh nodes in four distinct columns to a sparse
matrix gives a sparse matrix. -/
theorem addRow_wf (hw : sh.WF) (hlt : ∀ c ∈ sh.hs, ∀ n ∈ sh.vs c, n < n0)
    (h0 : c0 ∈ sh.hs) (h1 : c1 ∈ sh.hs) (h2 : c2 ∈ sh.hs) (h3 : c3 ∈ sh.hs)
    (d01 : c0 ≠ c1) (d02 : c0 ≠ c2) (d03 : c0 ≠ c3) (d12 : c1 ≠ c2) (d13 : c1 ≠ c3)
    (d23 : c2 ≠ c3) : (addRow sh n0 c0 c1 c2 c3).WF := by
  have hmem := @mem_addRow_vs sh n0 c0 c1 c2 c3
  have hfresh : ∀ c ∈ sh.hs, ∀ j, n0 + j ∉ sh.vs c := by
    intro c hc j hm
    have := hlt c hc _ hm; omega
  have hfresh0 : ∀ c ∈ sh.hs, n0 ∉ sh.vs c := fun c hc => hfresh c hc 0
  refine ⟨hw.hs_nodup, ?_, ?_, ?_, ?_, ?_, ?_⟩
  · -- vs_nodup
    intro c hc
    simp only [addRow]
    split_ifs
    · exact List.nodup_append.2 ⟨hw.vs_nodup c hc, List.nodup_singleton _,
        by simpa using hfresh0 c hc⟩
    · exact List.nodup_append.2 ⟨hw.vs_nodup c hc, List.nodup_singleton _,
        by simpa using hfresh c hc 1⟩
    · exact List.nodup_append.2 ⟨hw.vs_nodup c hc, List.nodup_singleton _,
        by simpa using hfresh c hc 2⟩
    · exact List.nodup_append.2 ⟨hw.vs_nodup c hc, List.nodup_singleton _,
        by simpa using hfresh c hc 3⟩
    · exact hw.vs_nodup c hc
  · -- vs_par
    intro c hc n hn
    rcases (hmem d01 d02 d03 d12 d13 d23).1 hn with h | ⟨rfl, rfl⟩ | ⟨rfl, rfl⟩ | ⟨rfl, rfl⟩ |
      ⟨rfl, rfl⟩
    · rw [addRow_par_old (hlt c hc n h)]; exact hw.vs_par c hc n h
    · exact addRow_par0
    · exact addRow_par1
    · exact addRow_par2
    · exact addRow_par3
  · -- row_nodup
    intro c hc n hn
    rcases (hmem d01 d02 d03 d12 d13 d23).1 hn with h | ⟨rfl, rfl⟩ | ⟨rfl, rfl⟩ | ⟨rfl, rfl⟩ |
      ⟨rfl, rfl⟩
    · rw [addRow_rowCols_old hw hlt hc h]; exact hw.row_nodup c hc n h
    · simp [Shape.rowCols, addRow, d01, d02, d03, d12, d13, d23, d01.symm, d02.symm, d03.symm,
        d12.symm, d13.symm, d23.symm]
    · simp [Shape.rowCols, addRow, d01, d02, d03, d12, d13, d23, d01.symm, d02.symm, d03.symm,
        d12.symm, d13.symm, d23.symm]
    · simp [Shape.rowCols, addRow, d01, d02, d03, d12, d13, d23, d01.symm, d02.symm, d03.symm,
        d12.symm, d13.symm, d23.symm]
    · simp [Shape.rowCols, addRow, d01, d02, d03, d12, d13, d23, d01.symm, d02.symm, d03.symm,
        d12.symm, d13.symm, d23.symm]
  · -- row_act
    intro c hc n hn m hm
    have new0 : n0 ∈ (addRow sh n0 c0 c1 c2 c3).vs c0 :=
      (hmem d01 d02 d03 d12 d13 d23).2 (Or.inr (Or.inl ⟨rfl, rfl⟩))
    have new1 : n0 + 1 ∈ (addRow sh n0 c0 c1 c2 c3).vs c1 :=
      (hmem d01 d02 d03 d12 d13 d23).2 (Or.inr (Or.inr (Or.inl ⟨rfl, rfl⟩)))
    have new2 : n0 + 2 ∈ (addRow sh n0 c0 c1 c2 c3).vs c2 :=
      (hmem d01 d02 d03 d12 d13 d23).2 (Or.inr (Or.inr (Or.inr (Or.inl ⟨rfl, rfl⟩))))
    have new3 : n0 + 3 ∈ (addRow sh n0 c0 c1 c2 c3).vs c3 :=
      (hmem d01 d02 d03 d12 d13 d23).2 (Or.inr (Or.inr (Or.inr (Or.inr ⟨rfl, rfl⟩))))
    have r0 : (addRow sh n0 c0 c1 c2 c3).par n0 ∈ sh.hs ∧
        n0 ∈ (addRow sh n0 c0 c1 c2 c3).vs ((addRow sh n0 c0 c1 c2 c3).par n0) := by
      rw [addRow_par0]; exact ⟨h0, new0⟩
    have r1 : (addRow sh n0 c0 c1 c2 c3).par (n0 + 1) ∈ sh.hs ∧
        n0 + 1 ∈ (addRow sh n0 c0 c1 c2 c3).vs ((addRow sh n0 c0 c1 c2 c3).par (n0 + 1)) := by
      rw [addRow_par1]; exact ⟨h1, new1⟩
    have r2 : (addRow sh n0 c0 c1 c2 c3).par (n0 + 2) ∈ sh.hs ∧
        n0 + 2 ∈ (addRow sh n0 c0 c1 c2 c3).vs ((addRow sh n0 c0 c1 c2 c3).par (n0 + 2)) := by
      rw [addRow_par2]; exact ⟨h2, new2⟩
    have r3 : (addRow sh n0 c0 c1 c2 c3).par (n0 + 3) ∈ sh.hs ∧
        n0 + 3 ∈ (addRow sh n0 c0 c1 c2 c3).vs ((addRow sh n0 c0 c1 c2 c3).par (n0 + 3)) := by
      rw [addRow_par3]; exact ⟨h3, new3⟩
    rcases (hmem d01 d02 d03 d12 d13 d23).1 hn with h | ⟨rfl, rfl⟩ | ⟨rfl, rfl⟩ | ⟨rfl, rfl⟩ |
      ⟨rfl, rfl⟩
    · rw [addRow_rs_old (hlt c hc n h)] at hm
      obtain ⟨p1, p2⟩ := hw.row_act c hc n h m hm
      rw [addRow_par_old (hlt _ p1 m p2)]
      exact ⟨p1, (hmem d01 d02 d03 d12 d13 d23).2 (Or.inl p2)⟩
    · rw [addRow_rs0] at hm
      simp only [List.mem_cons, List.mem_singleton, List.not_mem_nil, or_false] at hm
      rcases hm with rfl | rfl | rfl
      · exact r1
      · exact r2
      · exact r3
    · rw [addRow_rs1] at hm
      simp only [List.mem_cons, List.mem_singleton, List.not_mem_nil, or_false] at hm
      rcases hm with rfl | rfl | rfl
      · exact r2
      · exact r3
      · exact r0
    · rw [addRow_rs2] at hm
      simp only [List.mem_cons, List.mem_singleton, List.not_mem_nil, or_false] at hm
      rcases hm with rfl | rfl | rfl
      · exact r3
      · exact r0
      · exact r1
    · rw [addRow_rs3] at hm
      simp only [List.mem_cons, List.mem_singleton, List.not_mem_nil, or_false] at hm
      rcases hm with rfl | rfl | rfl
      · exact r0
      · exact r1
      · exact r2
  · -- row_sub
    intro c hc n hn m hm x hx
    rcases (hmem d01 d02 d03 d12 d13 d23).1 hn with h | h
    · rw [addRow_rs_old (hlt c hc n h)] at hm ⊢
      obtain ⟨p1, p2⟩ := hw.row_act c hc n h m hm
      rw [addRow_rs_old (hlt _ p1 m p2)] at hx
      exact hw.row_sub c hc n h m hm x hx
    · obtain ⟨j, hj, rfl⟩ : ∃ j, j < 4 ∧ n = n0 + j := by
        rcases h with ⟨-, rfl⟩ | ⟨-, rfl⟩ | ⟨-, rfl⟩ | ⟨-, rfl⟩
        exacts [⟨0, by omega, rfl⟩, ⟨1, by omega, rfl⟩, ⟨2, by omega, rfl⟩, ⟨3, by omega, rfl⟩]
      obtain ⟨i, hi, rfl⟩ := new_row_rs hj hm
      rw [new_row_mem hj]
      exact (new_row_mem hi).1 hx
  · -- row_sup
    intro c hc n hn m hm x hx
    rcases (hmem d01 d02 d03 d12 d13 d23).1 hn with h | h
    · rw [addRow_rs_old (hlt c hc n h)] at hm hx
      obtain ⟨p1, p2⟩ := hw.row_act c hc n h m hm
      rw [addRow_rs_old (hlt _ p1 m p2)]
      exact hw.row_sup c hc n h m hm x hx
    · obtain ⟨j, hj, rfl⟩ : ∃ j, j < 4 ∧ n = n0 + j := by
        rcases h with ⟨-, rfl⟩ | ⟨-, rfl⟩ | ⟨-, rfl⟩ | ⟨-, rfl⟩
        exacts [⟨0, by omega, rfl⟩, ⟨1, by omega, rfl⟩, ⟨2, by omega, rfl⟩, ⟨3, by omega, rfl⟩]
      obtain ⟨i, hi, rfl⟩ := new_row_rs hj hm
      rw [new_row_mem hi]
      exact (new_row_mem hj).1 hx

end AddRow

theorem Seg.retarget {nxt prv nxt' prv' : Nat → Nat} : ∀ (l : List Nat) (a b b' : Nat),
    Seg nxt prv a l b → (a :: l).Nodup →
    (∀ x ∈ a :: l, x ≠ l.getLastD a → nxt' x = nxt x) → nxt' (l.getLastD a) = b' →
    (∀ x ∈ l, prv' x = prv x) → prv' b' = l.getLastD a → Seg nxt' prv' a l b'
  | [], _, _, _, _, _, _, h2, _, h4 => ⟨h2, h4⟩
  | x :: l, a, b, b', h, hnd, h1, h2, h3, h4 => by
    obtain ⟨e1, e2, e3⟩ := h
    rw [List.getLastD_cons] at h1 h2 h4
    have hlast : l.getLastD x ∈ x :: l := by
      cases l using List.reverseRecOn with
      | nil => simp
      | append_singleton l y _ => simp
    refine ⟨?_, ?_, Seg.retarget l x b b' e3 (List.nodup_cons.1 hnd).2 ?_ h2 ?_ h4⟩
    · rw [h1 a (List.mem_cons_self _ _) ?_, e1]
      intro e
      exact (List.nodup_cons.1 hnd).1 (e ▸ hlast)
    · rw [h3 x (List.mem_cons_self _ _), e2]
    · intro y hy hne
      exact h1 y (List.mem_cons_of_mem _ hy) hne
    · intro y hy
      exact h3 y (List.mem_cons_of_mem _ hy)

theorem getLastD_mem (l : List Nat) (a : Nat) : l.getLastD a ∈ a :: l := by
  cases l using List.reverseRecOn with
  | nil => simp
  | append_singleton l y _ => simp

/-- Nodes of two different columns are different. -/
theorem Rep.col_disjoint {s : Heap} {root : Nat} {sh : Shape} (hr : Rep s root sh)
    {c d x y : Nat} (hc : c ∈ sh.hs) (hd : d ∈ sh.hs) (hcd : c ≠ d) (hx : x ∈ c :: sh.vs c)
    (hy : y ∈ d :: sh.vs d) : x ≠ y := by
  rintro rfl
  rcases List.mem_cons.1 hx with rfl | hx
  · rcases List.mem_cons.1 hy with h | h
    · exact hcd h
    · have := hr.node_type d hd _ h
      rw [hr.col_type _ hc] at this; exact absurd this (by decide)
  · rcases List.mem_cons.1 hy with rfl | h
    · have := hr.node_type c hc _ hx
      rw [hr.col_type _ hd] at this; exact absurd this (by decide)
    · exact hcd ((hr.node_par c hc x hx).symm.trans (hr.node_par d hd x h))

theorem Rep.up_mem {s : Heap} {root : Nat} {sh : Shape} (hr : Rep s root sh) {c : Nat}
    (hc : c ∈ sh.hs) : s.up c ∈ c :: sh.vs c := by
  rw [Seg.prv_getLastD (hr.vring c hc)]; exact getLastD_mem _ _

theorem Alloc.col_lt {s : Heap} {root : Nat} {sh : Shape} (ha : Alloc s root sh) {c x : Nat}
    (hc : c ∈ sh.hs) (hx : x ∈ c :: sh.vs c) : x < s.next := by
  rcases List.mem_cons.1 hx with rfl | hx
  · exact ha.hs_lt x hc
  · exact ha.vs_lt c hc x hx

theorem Alloc.col_ne {s : Heap} {root : Nat} {sh : Shape} (hr : Rep s root sh)
    (ha : Alloc s root sh) {c x : Nat} (hc : c ∈ sh.hs) (hx : x ∈ c :: sh.vs c) : x ≠ 0 := by
  rcases List.mem_cons.1 hx with rfl | hx
  · exact hr.hs_ne x hc
  · exact ha.vs_ne c hc x hx

/-- One iteration of the row loop of `matrix_create` on a heap that holds a
matrix: the heap then holds the matrix with the new row. -/
theorem addRow_rep {s t : Heap} {root : Nat} {sh : Shape} {row c0 c1 c2 c3 : Nat}
    (hw : sh.WF) (hr : Rep s root sh) (ha : Alloc s root sh)
    (h0 : c0 ∈ sh.hs) (h1 : c1 ∈ sh.hs) (h2 : c2 ∈ sh.hs) (h3 : c3 ∈ sh.hs)
    (d01 : c0 ≠ c1) (d02 : c0 ≠ c2) (d03 : c0 ≠ c3) (d12 : c1 ≠ c2) (d13 : c1 ≠ c3)
    (d23 : c2 ≠ c3)
    (hlen : ∀ c ∈ sh.hs, (sh.vs c).length + 1 < SIZE_MOD)
    (hadd : RowAdded s t row c0 c1 c2 c3) :
    Rep t root (addRow sh s.next c0 c1 c2 c3) ∧ Alloc t root (addRow sh s.next c0 c1 c2 c3) := by
  have hmem := @mem_addRow_vs sh s.next c0 c1 c2 c3
  have hdt : ∀ c ∈ sh.hs, ∀ x ∈ sh.vs c, ∀ d ∈ sh.hs, x ≠ d := by
    intro c hc x hx d hd e
    have := hr.node_type c hc x hx
    rw [e, hr.col_type d hd] at this; exact absurd this (by decide)
  have hndc : ∀ c ∈ sh.hs, (c :: sh.vs c).Nodup := fun c hc =>
    List.nodup_cons.2 ⟨fun h => hdt c hc c h c hc rfl, hw.vs_nodup c hc⟩
  have hl : ∀ c ∈ sh.hs, (sh.vs c).getLastD c = s.up c := fun c hc =>
    (Seg.prv_getLastD (hr.vring c hc)).symm
  -- links of old nodes
  have hdown : ∀ c ∈ sh.hs, ∀ x ∈ c :: sh.vs c, x ≠ s.up c → t.down x = s.down x := by
    intro c hc x hx hne
    have key : ∀ d ∈ sh.hs, x ≠ s.up d := by
      intro d hd
      by_cases e : c = d
      · subst e; exact hne
      · exact hr.col_disjoint hc hd e hx (hr.up_mem hd)
    exact hadd.old_down x (ha.col_lt hc hx) (key c0 h0) (key c1 h1) (key c2 h2) (key c3 h3)
  have hup : ∀ c ∈ sh.hs, ∀ x ∈ sh.vs c, t.up x = s.up x := by
    intro c hc x hx
    exact hadd.old_up x (ha.vs_lt c hc x hx) (hdt c hc x hx c0 h0) (hdt c hc x hx c1 h1)
      (hdt c hc x hx c2 h2) (hdt c hc x hx c3 h3)
  have colj : ∀ c nj, c ∈ sh.hs → t.down (s.up c) = nj → t.up nj = s.up c → t.down nj = c →
      t.up c = nj → Seg t.down t.up c (sh.vs c ++ [nj]) c := by
    intro c nj hc e1 e2 e3 e4
    rw [Seg.snoc]
    refine ⟨Seg.retarget (sh.vs c) c c nj (hr.vring c hc) (hndc c hc) ?_ ?_ (hup c hc) ?_, e3, e4⟩
    · intro x hx hne
      rw [hl c hc] at hne
      exact hdown c hc x hx hne
    · rw [hl c hc]; exact e1
    · rw [hl c hc]; exact e2
  have hlt4 : ∀ x, x < s.next → x < t.next := fun x hx => by rw [hadd.next]; omega
  have hnext : 0 < s.next := lt_of_le_of_lt (Nat.zero_le _) ha.root_lt
  have cntj : ∀ c ∈ sh.hs, t.count c = (s.count c + 1) % SIZE_MOD →
      t.count c = (sh.vs c ++ [s.next]).length := by
    intro c hc e
    rw [e, hr.cnt c hc, Nat.mod_eq_of_lt (hlen c hc)]; simp
  constructor
  · refine ⟨hr.root_ne, ?_, hr.root_nmem, hr.hs_ne, ?_, ?_, ?_, ?_, ?_, ?_, ?_, ?_⟩
    · rw [hadd.old_type root ha.root_lt]; exact hr.root_type
    · -- header ring
      refine Seg.congr sh.hs root root ?_ ?_ hr.hring
      · intro x hx
        refine hadd.old_right x ?_
        rcases List.mem_cons.1 hx with rfl | hx
        · exact ha.root_lt
        · exact ha.hs_lt x hx
      · intro x hx
        refine hadd.old_left x ?_
        rcases List.mem_append.1 hx with hx | hx
        · exact ha.hs_lt x hx
        · rw [List.mem_singleton.1 hx]; exact ha.root_lt
    · intro c hc
      rw [hadd.old_type c (ha.hs_lt c hc)]; exact hr.col_type c hc
    · -- column rings
      intro c hc
      have hc' : c ∈ sh.hs := hc
      simp only [addRow]
      split_ifs with e0 e1 e2 e3
      · subst e0; exact colj c _ hc' hadd.last0 hadd.up0 hadd.down0 hadd.col0
      · subst e1; exact colj c _ hc' hadd.last1 hadd.up1 hadd.down1 hadd.col1
      · subst e2; exact colj c _ hc' hadd.last2 hadd.up2 hadd.down2 hadd.col2
      · subst e3; exact colj c _ hc' hadd.last3 hadd.up3 hadd.down3 hadd.col3
      · refine Seg.congr (sh.vs c) c c ?_ ?_ (hr.vring c hc')
        · intro x hx
          have key : ∀ d ∈ sh.hs, c ≠ d → x ≠ s.up d := fun d hd e =>
            hr.col_disjoint hc' hd e hx (hr.up_mem hd)
          exact hadd.old_down x (ha.col_lt hc' hx) (key c0 h0 e0) (key c1 h1 e1) (key c2 h2 e2)
            (key c3 h3 e3)
        · intro x hx
          rcases List.mem_append.1 hx with hx | hx
          · exact hup c hc' x hx
          · rw [List.mem_singleton.1 hx]
            exact hadd.old_up c (ha.hs_lt c hc') e0 e1 e2 e3
    · -- counts
      intro c hc
      have hc' : c ∈ sh.hs := hc
      simp only [addRow]
      split_ifs with e0 e1 e2 e3
      · subst e0; exact cntj c hc' hadd.count0
      · subst e1; rw [cntj c hc' hadd.count1]; simp
      · subst e2; rw [cntj c hc' hadd.count2]; simp
      · subst e3; rw [cntj c hc' hadd.count3]; simp
      · rw [hadd.old_count c e0 e1 e2 e3]; exact hr.cnt c hc'
    · intro c hc
      have hc' : c ∈ sh.hs := hc
      have := hlen c hc'
      simp only [addRow]
      split_ifs <;> simp <;> omega
    · -- node types
      intro c hc n hn
      have hc' : c ∈ sh.hs := hc
      rcases (hmem d01 d02 d03 d12 d13 d23).1 hn with h | ⟨-, rfl⟩ | ⟨-, rfl⟩ | ⟨-, rfl⟩ | ⟨-, rfl⟩
      · rw [hadd.old_type n (ha.vs_lt c hc' n h)]; exact hr.node_type c hc' n h
      · exact hadd.type0
      · exact hadd.type1
      · exact hadd.type2
      · exact hadd.type3
    · -- node parents
      intro c hc n hn
      have hc' : c ∈ sh.hs := hc
      rcases (hmem d01 d02 d03 d12 d13 d23).1 hn with h | ⟨rfl, rfl⟩ | ⟨rfl, rfl⟩ | ⟨rfl, rfl⟩ |
        ⟨rfl, rfl⟩
      · rw [hadd.old_parent n (ha.vs_lt c hc' n h)]; exact hr.node_par c hc' n h
      · exact hadd.parent0
      · exact hadd.parent1
      · exact hadd.parent2
      · exact hadd.parent3
    · -- row rings
      intro c hc n hn
      have hc' : c ∈ sh.hs := hc
      rcases (hmem d01 d02 d03 d12 d13 d23).1 hn with h | ⟨-, rfl⟩ | ⟨-, rfl⟩ | ⟨-, rfl⟩ | ⟨-, rfl⟩
      · rw [addRow_rs_old (ha.vs_lt c hc' n h)]
        have hold : ∀ x ∈ n :: sh.rs n, x < s.next := by
          intro x hx
          obtain ⟨p1, p2⟩ := hw.row_linked hc' h hx
          exact ha.vs_lt _ p1 x p2
        refine Seg.congr (sh.rs n) n n (fun x hx => hadd.old_right x (hold x hx)) ?_
          (hr.rring c hc' n h)
        intro x hx
        refine hadd.old_left x (hold x ?_)
        rcases List.mem_append.1 hx with hx | hx
        · exact List.mem_cons_of_mem _ hx
        · rw [List.mem_singleton.1 hx]; exact List.mem_cons_self _ _
      · rw [addRow_rs0]
        exact ⟨hadd.right0, hadd.left1, hadd.right1, hadd.left2, hadd.right2, hadd.left3,
          hadd.right3, hadd.left0⟩
      · rw [addRow_rs1]
        exact ⟨hadd.right1, hadd.left2, hadd.right2, hadd.left3, hadd.right3, hadd.left0,
          hadd.right0, hadd.left1⟩
      · rw [addRow_rs2]
        exact ⟨hadd.right2, hadd.left3, hadd.right3, hadd.left0, hadd.right0, hadd.left1,
          hadd.right1, hadd.left2⟩
      · rw [addRow_rs3]
        exact ⟨hadd.right3, hadd.left0, hadd.right0, hadd.left1, hadd.right1, hadd.left2,
          hadd.right2, hadd.left3⟩
  · refine ⟨hlt4 _ ha.root_lt, fun c hc => hlt4 _ (ha.hs_lt c hc), ?_, ?_⟩
    · intro c hc n hn
      rcases (hmem d01 d02 d03 d12 d13 d23).1 hn with h | ⟨-, rfl⟩ | ⟨-, rfl⟩ | ⟨-, rfl⟩ | ⟨-, rfl⟩
      · exact hlt4 _ (ha.vs_lt c hc n h)
      all_goals rw [hadd.next]; omega
    · intro c hc n hn
      rcases (hmem d01 d02 d03 d12 d13 d23).1 hn with h | ⟨-, rfl⟩ | ⟨-, rfl⟩ | ⟨-, rfl⟩ | ⟨-, rfl⟩
      · exact ha.vs_ne c hc n h
      all_goals omega

/-! ## The column loop of `matrix_create` -/

theorem node_create_column (s : Heap) (parent id : Nat) :
    node_create s DLX_TYPE_COLUMN parent id = (s.next, newColumn s id) := rfl

/-- One iteration of the column loop. -/
theorem create_column_step (s : Heap) (col prev : Nat) (hn : s.next ≠ 0) (hp : prev ≠ 0)
    (hlt : prev < s.next) :
    ColsCreated s (link_nodes (link_nodes (newColumn s col) s.next s.next LINK_DOWN) prev s.next
      LINK_RIGHT) 1 col prev := by
  have e1 : prev ≠ s.next := by omega
  rw [link_nodes_down _ hn hn, link_nodes_right _ hp hn]
  constructor
  · rfl
  · intro x hx; have : x ≠ s.next := by omega
    simp [newColumn, upd, this]
  · intro x hx; have : x ≠ s.next := by omega
    simp [newColumn, upd, this]
  · intro x hx hxp; have : x ≠ s.next := by omega
    simp [newColumn, upd, this, hxp]
  · intro x hx; have : x ≠ s.next := by omega
    simp [newColumn, upd, this]
  · intro x hx; have : x ≠ s.next := by omega
    simp [newColumn, upd, this]
  · intro x hx; have : x ≠ s.next := by omega
    simp [newColumn, upd, this]
  · intro x hx; have : x ≠ s.next := by omega
    simp [newColumn, upd, this]
  · intro _; simp [newColumn, upd]
  · intro h; cases h
  · intro i hi; obtain rfl : i = 0 := by omega
    simp [newColumn, upd]
  · intro i hi; obtain rfl : i = 0 := by omega
    simp [newColumn, upd]
  · intro i hi; obtain rfl : i = 0 := by omega
    simp [newColumn, upd]
  · intro i hi; obtain rfl : i = 0 := by omega
    simp [newColumn, upd]
  · intro i hi; obtain rfl : i = 0 := by omega
    simp [newColumn, upd]
  · intro _; simp [newColumn, upd]
  · intro i hi; omega
  · intro i hi; omega

/-- Creating one column and then `n` more behind it. -/
theorem ColsCreated.cons {s t u : Heap} {n col prev : Nat} (hlt : prev < s.next)
    (h1 : ColsCreated s t 1 col prev) (h2 : ColsCreated t u n (col + 1) s.next) :
    ColsCreated s u (n + 1) col prev := by
  have hn1 : t.next = s.next + 1 := h1.next
  have lt1 : ∀ x, x < s.next → x < t.next := fun x hx => by omega
  have sl : s.next < t.next := by omega
  constructor
  · rw [h2.next, hn1]; omega
  · intro x hx; rw [h2.old_type x (lt1 x hx), h1.old_type x hx]
  · intro x hx; rw [h2.old_left x (lt1 x hx), h1.old_left x hx]
  · intro x hx hxp
    rw [h2.old_right x (lt1 x hx) (by omega), h1.old_right x hx hxp]
  · intro x hx; rw [h2.old_up x (lt1 x hx), h1.old_up x hx]
  · intro x hx; rw [h2.old_down x (lt1 x hx), h1.old_down x hx]
  · intro x hx; rw [h2.old_count x (lt1 x hx), h1.old_count x hx]
  · intro x hx; rw [h2.old_id x (lt1 x hx), h1.old_id x hx]
  · intro _
    rw [h2.old_right prev (lt1 _ hlt) (by omega), h1.prev_right (by omega)]
  · intro h; omega
  · intro i hi
    rcases Nat.eq_zero_or_pos i with rfl | hpos
    · rw [Nat.add_zero, h2.old_type _ sl]; exact h1.new_type 0 (by omega)
    · have := h2.new_type (i - 1) (by omega)
      rw [hn1] at this
      rw [show s.next + i = s.next + 1 + (i - 1) by omega]; exact this
  · intro i hi
    rcases Nat.eq_zero_or_pos i with rfl | hpos
    · rw [Nat.add_zero, h2.old_id _ sl]; exact h1.new_id 0 (by omega)
    · have := h2.new_id (i - 1) (by omega)
      rw [hn1] at this
      rw [show s.next + i = s.next + 1 + (i - 1) by omega, this]; omega
  · intro i hi
    rcases Nat.eq_zero_or_pos i with rfl | hpos
    · rw [Nat.add_zero, h2.old_count _ sl]; exact h1.new_count 0 (by omega)
    · have := h2.new_count (i - 1) (by omega)
      rw [hn1] at this
      rw [show s.next + i = s.next + 1 + (i - 1) by omega]; exact this
  · intro i hi
    rcases Nat.eq_zero_or_pos i with rfl | hpos
    · rw [Nat.add_zero, h2.old_down _ sl]; exact h1.new_down 0 (by omega)
    · have := h2.new_down (i - 1) (by omega)
      rw [hn1] at this
      rw [show s.next + i = s.next + 1 + (i - 1) by omega]; exact this
  · intro i hi
    rcases Nat.eq_zero_or_pos i with rfl | hpos
    · rw [Nat.add_zero, h2.old_up _ sl]; exact h1.new_up 0 (by omega)
    · have := h2.new_up (i - 1) (by omega)
      rw [hn1] at this
      rw [show s.next + i = s.next + 1 + (i - 1) by omega]; exact this
  · intro _
    rw [h2.old_left _ sl]; exact h1.first_left (by omega)
  · intro i hi
    rcases Nat.eq_zero_or_pos i with rfl | hpos
    · have := h2.first_left (by omega)
      rw [hn1] at this
      rw [Nat.add_zero]; exact this
    · have := h2.new_left (i - 1) (by omega)
      rw [hn1] at this
      rw [show s.next + i + 1 = s.next + 1 + (i - 1) + 1 by omega, this]; omega
  · intro i hi
    rcases Nat.eq_zero_or_pos i with rfl | hpos
    · have := h2.prev_right (by omega)
      rw [hn1] at this
      rw [Nat.add_zero]; exact this
    · have := h2.new_right (i - 1) (by omega)
      rw [hn1] at this
      rw [show s.next + i = s.next + 1 + (i - 1) by omega, this]

/-- The column loop creates `n` empty columns chained behind `prev`. -/
theorem create_columns_spec : ∀ (n col : Nat) (s : Heap) (prev : Nat) (cs : List Nat),
    s.next ≠ 0 → prev ≠ 0 → prev < s.next →
    ∃ t, create_columns n col s prev cs
        = (t, (if n = 0 then prev else s.next + n - 1), cs ++ List.range' s.next n) ∧
      ColsCreated s t n col prev
  | 0, col, s, prev, cs, _, _, _ => by
    refine ⟨s, by simp [create_columns], ?_⟩
    constructor <;> first
      | rfl
      | (intros; rfl)
      | (intros; omega)
  | n + 1, col, s, prev, cs, hn, hp, hlt => by
    have h1 := create_column_step s col prev hn hp hlt
    obtain ⟨t, e, h2⟩ := create_columns_spec n (col + 1)
      (link_nodes (link_nodes (newColumn s col) s.next s.next LINK_DOWN) prev s.next LINK_RIGHT)
      s.next (cs ++ [s.next]) (by rw [h1.next]; omega) hn (by rw [h1.next]; omega)
    refine ⟨t, ?_, ColsCreated.cons hlt h1 h2⟩
    have hx : (link_nodes (link_nodes (newColumn s col) s.next s.next LINK_DOWN) prev s.next
      LINK_RIGHT).next = s.next + 1 := h1.next
    rw [hx] at e
    have step : create_columns (n + 1) col s prev cs = create_columns n (col + 1)
        (link_nodes (link_nodes (newColumn s col) s.next s.next LINK_DOWN) prev s.next LINK_RIGHT)
        s.next (cs ++ [s.next]) := rfl
    rw [step, e, List.range'_succ]
    simp only [Nat.succ_ne_zero, if_false, List.append_assoc, List.singleton_append]
    by_cases h0 : n = 0
    · simp [h0]
    · simp only [h0, if_false]
      congr 2
      omega

/-! ## The matrix after the column loop -/

theorem mem_range'_two {c n : Nat} : c ∈ List.range' 2 n ↔ ∃ j, j < n ∧ c = 2 + j := by
  rw [List.mem_range'_1]
  constructor
  · intro h; exact ⟨c - 2, by omega, by omega⟩
  · rintro ⟨j, hj, rfl⟩; omega

/-- The heap after the header, the column loop and the closing link of
`matrix_create` holds the empty matrix with `cols` columns. -/
theorem matrix_columns (cols : Nat) :
    ∃ s2, create_columns cols 0 (newColumn Heap.empty 0) 1 []
        = (s2, (if cols = 0 then 1 else cols + 1), List.range' 2 cols) ∧
      Rep (link_nodes s2 (if cols = 0 then 1 else cols + 1) 1 LINK_RIGHT) 1 (emptyShape cols) ∧
      Alloc (link_nodes s2 (if cols = 0 then 1 else cols + 1) 1 LINK_RIGHT) 1 (emptyShape cols) ∧
      (link_nodes s2 (if cols = 0 then 1 else cols + 1) 1 LINK_RIGHT).next = cols + 2 ∧
      ∀ j, j < cols →
        (link_nodes s2 (if cols = 0 then 1 else cols + 1) 1 LINK_RIGHT).id (2 + j) = j := by
  have hnext : (newColumn Heap.empty 0).next = 2 := rfl
  obtain ⟨s2, e, h⟩ := create_columns_spec cols 0 (newColumn Heap.empty 0) 1 []
    (by rw [hnext]; omega) (by omega) (by rw [hnext]; omega)
  rw [hnext] at e
  have hp : (if cols = 0 then 1 else 2 + cols - 1) = (if cols = 0 then 1 else cols + 1) := by
    split <;> omega
  rw [hp, List.nil_append] at e
  refine ⟨s2, e, ?_⟩
  have hp0 : (if cols = 0 then 1 else cols + 1) ≠ 0 := by split <;> omega
  rw [link_nodes_right _ hp0 (by omega)]
  have hn := h.next
  have ot := h.old_type; have ol := h.old_left; have orr := h.old_right
  have pr := h.prev_right; have pr0 := h.prev_right0
  have nt := h.new_type; have nid := h.new_id; have nc := h.new_count
  have nd := h.new_down; have nu := h.new_up; have fl := h.first_left
  have nl := h.new_left; have nr := h.new_right
  rw [hnext] at hn ot ol orr pr nt nid nc nd nu fl nl nr
  refine ⟨?_, ?_, ?_, ?_⟩
  · constructor
    · omega
    · simp only [setLeft_type, setRight_type]
      rw [ot 1 (by omega)]; rfl
    · simp [emptyShape, List.mem_range'_1]
    · intro c hc
      simp only [emptyShape, List.mem_range'_1] at hc; omega
    · show Seg _ _ 1 (List.range' 2 cols) 1
      apply seg_range'
      · simp only [setLeft_right, setRight_right, upd]
        by_cases h0 : cols = 0
        · simp [h0]
        · simp only [h0, if_false]
          rw [if_neg (by omega)]
          exact pr (by omega)
      · simp only [setLeft_left, upd]
        by_cases h0 : cols = 0
        · simp [h0]
        · simp only [h0, if_false]
          rw [if_neg (by omega)]
          rw [setRight_left]
          exact fl (by omega)
      · intro i hi
        have h0 : cols ≠ 0 := by omega
        simp only [setLeft_right, setRight_right, setLeft_left, setRight_left, upd, h0, if_false]
        rw [if_neg (by omega), if_neg (by omega)]
        exact ⟨nr i hi, nl i hi⟩
      · intro hpos
        have h0 : cols ≠ 0 := by omega
        simp only [setLeft_right, setRight_right, setLeft_left, setRight_left, upd, h0, if_false]
        rw [if_pos (by omega)]
        simp
        omega
    · intro c hc
      obtain ⟨j, hj, rfl⟩ := mem_range'_two.1 hc
      simp only [setLeft_type, setRight_type]
      exact nt j hj
    · intro c hc
      obtain ⟨j, hj, rfl⟩ := mem_range'_two.1 hc
      show Seg _ _ (2 + j) [] (2 + j)
      simp only [Seg, setLeft_down, setRight_down, setLeft_up, setRight_up]
      exact ⟨nd j hj, nu j hj⟩
    · intro c hc
      obtain ⟨j, hj, rfl⟩ := mem_range'_two.1 hc
      simp only [setLeft_count, setRight_count]
      rw [nc j hj]; rfl
    · intro c _
      simp [emptyShape, SIZE_MOD]
    · intro c _ n hn; simp [emptyShape] at hn
    · intro c _ n hn; simp [emptyShape] at hn
    · intro c _ n hn; simp [emptyShape] at hn
  · constructor
    · simp only [setLeft_next, setRight_next]; omega
    · intro c hc
      obtain ⟨j, hj, rfl⟩ := mem_range'_two.1 hc
      simp only [setLeft_next, setRight_next]; omega
    · intro c _ n hn; simp [emptyShape] at hn
    · intro c _ n hn; simp [emptyShape] at hn
  · simp only [setLeft_next, setRight_next]; omega
  · intro j hj
    simp only [setLeft_id, setRight_id]
    rw [nid j hj]; omega

/-! ## Index arithmetic of `matrix_create` -/

theorem mul_add_lt {hi lo n w : Nat} (hhi : hi < n) (hlo : lo < w) : hi * w + lo < n * w := by
  have h1 : (hi + 1) * w ≤ n * w := Nat.mul_le_mul_right w hhi
  rw [Nat.add_mul, Nat.one_mul] at h1
  omega

theorem IsBoard.line_pos {b : Board} {k : Nat} (hb : IsBoard b k) : 0 < k * k :=
  Nat.mul_pos hb.k_pos hb.k_pos

theorem IsBoard.line_lt {b : Board} {k : Nat} (hb : IsBoard b k) : k * k < 2 ^ 16 := by
  by_contra h
  have h1 : 2 ^ 16 ≤ k * k := by omega
  have h2 : 2 ^ 16 * 2 ^ 16 ≤ k * k * (k * k) := Nat.mul_le_mul h1 h1
  have h3 := hb.fits
  have e : UINT_MOD = 4294967296 := by norm_num [UINT_MOD]
  rw [e] at h3
  norm_num at h2
  omega

theorem IsBoard.rows_lt {b : Board} {k : Nat} (hb : IsBoard b k) :
    k * k * (k * k * (k * k)) < 2 ^ 48 := by
  have h1 := hb.line_lt
  have h2 := hb.fits
  have e : UINT_MOD = 2 ^ 32 := rfl
  rw [e] at h2
  calc k * k * (k * k * (k * k)) < 2 ^ 16 * (k * k * (k * k)) :=
        Nat.mul_lt_mul_of_pos_right h1 (Nat.mul_pos hb.line_pos hb.line_pos)
    _ ≤ 2 ^ 16 * 2 ^ 32 := Nat.mul_le_mul_left _ h2.le
    _ = 2 ^ 48 := by norm_num

theorem IsBoard.css {b : Board} {k : Nat} (hb : IsBoard b k) :
    (b.board_line_size * b.board_line_size) % UINT_MOD = k * k * (k * k) := by
  rw [hb.line_size, Nat.mod_eq_of_lt hb.fits]

/-- The parts of a row id below `N * N * N`. -/
theorem row_parts {N row : Nat} (hN : 0 < N) (h : row < N * (N * N)) :
    row / (N * N) < N ∧ (row / N) % N < N ∧ row % N < N ∧ row / N < N * N := by
  refine ⟨?_, Nat.mod_lt _ hN, Nat.mod_lt _ hN, ?_⟩
  · rw [Nat.div_lt_iff_lt_mul (Nat.mul_pos hN hN)]; exact h
  · rw [Nat.div_lt_iff_lt_mul hN]
    calc row < N * (N * N) := h
      _ = N * N * N := by ring

theorem box_lt {k r c : Nat} (hk : 0 < k) (hr : r < k * k) (hc : c < k * k) :
    k * (r / k) + c / k < k * k := by
  have h1 : r / k < k := by rw [Nat.div_lt_iff_lt_mul hk]; exact hr
  have h2 : c / k < k := by rw [Nat.div_lt_iff_lt_mul hk]; exact hc
  rw [Nat.mul_comm k (r / k)]
  exact mul_add_lt h1 h2

/-- The four constraint indices of a row lie in the four quarters of the
constraint array. -/
theorem index_ranges {b : Board} {k : Nat} (hb : IsBoard b k) {row : Nat}
    (h : row < k * k * (k * k * (k * k))) :
    num_index b (k * k * (k * k)) row < k * k * (k * k) ∧
    k * k * (k * k) ≤ row_index b (k * k * (k * k)) row ∧
    row_index b (k * k * (k * k)) row < 2 * (k * k * (k * k)) ∧
    2 * (k * k * (k * k)) ≤ col_index b (k * k * (k * k)) row ∧
    col_index b (k * k * (k * k)) row < 3 * (k * k * (k * k)) ∧
    3 * (k * k * (k * k)) ≤ box_index b (k * k * (k * k)) row ∧
    box_index b (k * k * (k * k)) row < 4 * (k * k * (k * k)) := by
  obtain ⟨p1, p2, p3, p4⟩ := row_parts hb.line_pos h
  have q1 := mul_add_lt p1 p3
  have q2 := mul_add_lt p2 p3
  have q3 := mul_add_lt (box_lt hb.k_pos p1 p2) p3
  simp only [num_index, row_index, col_index, box_index, hb.line_size, hb.grid_size,
    hb.cell_size]
  refine ⟨by omega, by omega, by omega, by omega, by omega, by omega, by omega⟩

theorem getD_range' (s n j : Nat) (h : j < n) : (List.range' s n).getD j 0 = s + j := by
  rw [List.getD_eq_getElem?_getD, List.getElem?_range' _ _ h]
  simp

/-! ## The row loop of `matrix_create` -/

/-- The columns of a row of the matrix are columns of the matrix. -/
theorem IsRow.cols_mem {b : Board} {k : Nat} (hb : IsBoard b k) {s : Heap} {sh : Shape}
    {n0 : Nat} (h : IsRow b (k * k * (k * k)) s sh n0)
    (hs : sh.hs = List.range' 2 (4 * (k * k * (k * k))))
    (hlt : s.row_id n0 < k * k * (k * k * (k * k))) :
    sh.par n0 ∈ sh.hs ∧ sh.par (n0 + 1) ∈ sh.hs ∧ sh.par (n0 + 2) ∈ sh.hs ∧
      sh.par (n0 + 3) ∈ sh.hs := by
  obtain ⟨i1, i2, i3, i4, i5, i6, i7⟩ := index_ranges hb hlt
  rw [h.par0, h.par1, h.par2, h.par3, hs]
  simp only [List.mem_range'_1]
  omega

/-- A row of the matrix stays a row when another row is added. -/
theorem IsRow.add {b : Board} {k : Nat} (hb : IsBoard b k) {s t : Heap} {sh : Shape}
    {n0 row c0 c1 c2 c3 : Nat} (h : IsRow b (k * k * (k * k)) s sh n0)
    (hs : sh.hs = List.range' 2 (4 * (k * k * (k * k))))
    (hlt : s.row_id n0 < k * k * (k * k * (k * k)))
    (ha : Alloc s 1 sh)
    (d01 : c0 ≠ c1) (d02 : c0 ≠ c2) (d03 : c0 ≠ c3) (d12 : c1 ≠ c2) (d13 : c1 ≠ c3)
    (d23 : c2 ≠ c3)
    (hadd : RowAdded s t row c0 c1 c2 c3) :
    IsRow b (k * k * (k * k)) t (addRow sh s.next c0 c1 c2 c3) n0 ∧ t.row_id n0 = s.row_id n0 := by
  obtain ⟨m0, m1, m2, m3⟩ := h.cols_mem hb hs hlt
  have l0 := ha.vs_lt _ m0 _ h.mem0
  have l1 := ha.vs_lt _ m1 _ h.mem1
  have l2 := ha.vs_lt _ m2 _ h.mem2
  have l3 := ha.vs_lt _ m3 _ h.mem3
  have r0 := hadd.old_row_id _ l0
  have r1 := hadd.old_row_id _ l1
  have r2 := hadd.old_row_id _ l2
  have r3 := hadd.old_row_id _ l3
  have hm := @mem_addRow_vs sh s.next c0 c1 c2 c3
  refine ⟨?_, r0⟩
  constructor
  · rw [r1, r0]; exact h.id1
  · rw [r2, r0]; exact h.id2
  · rw [r3, r0]; exact h.id3
  · rw [addRow_par_old l0, r0]; exact h.par0
  · rw [addRow_par_old l1, r0]; exact h.par1
  · rw [addRow_par_old l2, r0]; exact h.par2
  · rw [addRow_par_old l3, r0]; exact h.par3
  · rw [addRow_rs_old l0]; exact h.rs0
  · rw [addRow_rs_old l1]; exact h.rs1
  · rw [addRow_rs_old l2]; exact h.rs2
  · rw [addRow_rs_old l3]; exact h.rs3
  · rw [addRow_par_old l0]; exact (hm d01 d02 d03 d12 d13 d23).2 (Or.inl h.mem0)
  · rw [addRow_par_old l1]; exact (hm d01 d02 d03 d12 d13 d23).2 (Or.inl h.mem1)
  · rw [addRow_par_old l2]; exact (hm d01 d02 d03 d12 d13 d23).2 (Or.inl h.mem2)
  · rw [addRow_par_old l3]; exact (hm d01 d02 d03 d12 d13 d23).2 (Or.inl h.mem3)

/-- The four new nodes are a row of the matrix. -/
theorem IsRow.new {b : Board} {css : Nat} {s t : Heap} {sh : Shape} {row : Nat}
    (d01 : 2 + num_index b css row ≠ 2 + row_index b css row)
    (d02 : 2 + num_index b css row ≠ 2 + col_index b css row)
    (d03 : 2 + num_index b css row ≠ 2 + box_index b css row)
    (d12 : 2 + row_index b css row ≠ 2 + col_index b css row)
    (d13 : 2 + row_index b css row ≠ 2 + box_index b css row)
    (d23 : 2 + col_index b css row ≠ 2 + box_index b css row)
    (hadd : RowAdded s t row (2 + num_index b css row) (2 + row_index b css row)
      (2 + col_index b css row) (2 + box_index b css row)) :
    IsRow b css t (addRow sh s.next (2 + num_index b css row) (2 + row_index b css row)
      (2 + col_index b css row) (2 + box_index b css row)) s.next := by
  have hm := fun c n => (@mem_addRow_vs sh s.next _ _ _ _ c n d01 d02 d03 d12 d13 d23).2
  constructor
  · rw [hadd.row_id1, hadd.row_id0]
  · rw [hadd.row_id2, hadd.row_id0]
  · rw [hadd.row_id3, hadd.row_id0]
  · rw [addRow_par0, hadd.row_id0]
  · rw [addRow_par1, hadd.row_id0]
  · rw [addRow_par2, hadd.row_id0]
  · rw [addRow_par3, hadd.row_id0]
  · exact addRow_rs0
  · exact addRow_rs1
  · exact addRow_rs2
  · exact addRow_rs3
  · rw [addRow_par0]; exact hm _ _ (Or.inr (Or.inl ⟨rfl, rfl⟩))
  · rw [addRow_par1]; exact hm _ _ (Or.inr (Or.inr (Or.inl ⟨rfl, rfl⟩)))
  · rw [addRow_par2]; exact hm _ _ (Or.inr (Or.inr (Or.inr (Or.inl ⟨rfl, rfl⟩))))
  · rw [addRow_par3]; exact hm _ _ (Or.inr (Or.inr (Or.inr (Or.inr ⟨rfl, rfl⟩))))

/-- The matrix after iteration `i` of the row loop. -/
theorem rows_shape_succ (b : Board) (css n row next : Nat) (sh : Shape) :
    rows_shape b css (n + 1) row next sh =
      if row_skipped b row then rows_shape b css n (row + 1) next sh
      else rows_shape b css n (row + 1) (next + 4)
        (addRow sh next (2 + num_index b css row) (2 + row_index b css row)
          (2 + col_index b css row) (2 + box_index b css row)) := rfl

/-- A skipped iteration of the row loop keeps the invariant. -/
theorem RowsInv.skip {b : Board} {css : Nat} {s : Heap} {sh : Shape} {i : Nat}
    (h : RowsInv b css s sh i) (hskip : row_skipped b i) : RowsInv b css s sh (i + 1) := by
  refine ⟨h.wf, h.rep, h.alloc, h.hs, ?_, h.ids, ?_, ?_, h.uniq⟩
  · intro c hc; have := h.len c hc; omega
  · intro c hc n hn
    obtain ⟨n0, r1, r2, r3, r4⟩ := h.row c hc n hn
    exact ⟨n0, r1, by omega, r3, r4⟩
  · intro r hr hns
    have : r ≠ i := by rintro rfl; exact hns hskip
    exact h.has r (by omega) hns

/-- An iteration of the row loop that creates a row keeps the invariant. -/
theorem RowsInv.step {b : Board} {k : Nat} (hb : IsBoard b k) {s : Heap} {sh : Shape} {i : Nat}
    (h : RowsInv b (k * k * (k * k)) s sh i) (hi : i < k * k * (k * k * (k * k)))
    (hkeep : ¬ row_skipped b i) :
    RowsInv b (k * k * (k * k))
      (create_row b (List.range' 2 (4 * (k * k * (k * k)))) (k * k * (k * k)) s i)
      (addRow sh s.next (2 + num_index b (k * k * (k * k)) i)
        (2 + row_index b (k * k * (k * k)) i) (2 + col_index b (k * k * (k * k)) i)
        (2 + box_index b (k * k * (k * k)) i)) (i + 1) ∧
    (create_row b (List.range' 2 (4 * (k * k * (k * k)))) (k * k * (k * k)) s i).next
      = s.next + 4 := by
  obtain ⟨i1, i2, i3, i4, i5, i6, i7⟩ := index_ranges hb hi
  have hcr : create_row b (List.range' 2 (4 * (k * k * (k * k)))) (k * k * (k * k)) s i
      = create_row_nodes s i (2 + num_index b (k * k * (k * k)) i)
        (2 + row_index b (k * k * (k * k)) i) (2 + col_index b (k * k * (k * k)) i)
        (2 + box_index b (k * k * (k * k)) i) := by
    unfold create_row
    rw [if_neg hkeep]
    simp only []
    rw [getD_range' _ _ _ (by omega), getD_range' _ _ _ (by omega),
      getD_range' _ _ _ (by omega), getD_range' _ _ _ (by omega)]
  rw [hcr]
  generalize e0 : 2 + num_index b (k * k * (k * k)) i = c0 at *
  generalize e1 : 2 + row_index b (k * k * (k * k)) i = c1 at *
  generalize e2 : 2 + col_index b (k * k * (k * k)) i = c2 at *
  generalize e3 : 2 + box_index b (k * k * (k * k)) i = c3 at *
  have d01 : c0 ≠ c1 := by omega
  have d02 : c0 ≠ c2 := by omega
  have d03 : c0 ≠ c3 := by omega
  have d12 : c1 ≠ c2 := by omega
  have d13 : c1 ≠ c3 := by omega
  have d23 : c2 ≠ c3 := by omega
  have m0 : c0 ∈ sh.hs := by rw [h.hs, List.mem_range'_1]; omega
  have m1 : c1 ∈ sh.hs := by rw [h.hs, List.mem_range'_1]; omega
  have m2 : c2 ∈ sh.hs := by rw [h.hs, List.mem_range'_1]; omega
  have m3 : c3 ∈ sh.hs := by rw [h.hs, List.mem_range'_1]; omega
  have u0 := h.rep.up_mem m0
  have u1 := h.rep.up_mem m1
  have u2 := h.rep.up_mem m2
  have u3 := h.rep.up_mem m3
  have hadd : RowAdded s (create_row_nodes s i c0 c1 c2 c3) i c0 c1 c2 c3 :=
    create_row_nodes_spec s i c0 c1 c2 c3 (h.alloc.hs_lt _ m0) (h.alloc.hs_lt _ m1)
      (h.alloc.hs_lt _ m2) (h.alloc.hs_lt _ m3) (h.rep.hs_ne _ m0) (h.rep.hs_ne _ m1)
      (h.rep.hs_ne _ m2) (h.rep.hs_ne _ m3)
      (h.alloc.col_ne h.rep m0 u0) (h.alloc.col_ne h.rep m1 u1) (h.alloc.col_ne h.rep m2 u2)
      (h.alloc.col_ne h.rep m3 u3)
      (h.alloc.col_lt m0 u0) (h.alloc.col_lt m1 u1) (h.alloc.col_lt m2 u2)
      (h.alloc.col_lt m3 u3) d01 d02 d03 d12 d13 d23
      (h.rep.col_disjoint m0 m1 d01 u0 u1) (h.rep.col_disjoint m0 m2 d02 u0 u2)
      (h.rep.col_disjoint m0 m3 d03 u0 u3) (h.rep.col_disjoint m1 m2 d12 u1 u2)
      (h.rep.col_disjoint m1 m3 d13 u1 u3) (h.rep.col_disjoint m2 m3 d23 u2 u3)
  have hrows := hb.rows_lt
  have hlen : ∀ c ∈ sh.hs, (sh.vs c).length + 1 < SIZE_MOD := by
    intro c hc
    have := h.len c hc
    have e : SIZE_MOD = 18446744073709551616 := by norm_num [SIZE_MOD]
    rw [e]
    norm_num at hrows
    omega
  obtain ⟨hrep, halloc⟩ := addRow_rep h.wf h.rep h.alloc m0 m1 m2 m3 d01 d02 d03 d12 d13 d23
    hlen hadd
  have hwf := @addRow_wf sh s.next c0 c1 c2 c3 h.wf h.alloc.vs_lt m0 m1 m2 m3 d01 d02 d03 d12
    d13 d23
  have hm := @mem_addRow_vs sh s.next c0 c1 c2 c3
  have hnew : IsRow b (k * k * (k * k)) (create_row_nodes s i c0 c1 c2 c3)
      (addRow sh s.next c0 c1 c2 c3) s.next := by
    subst e0 e1 e2 e3
    exact IsRow.new d01 d02 d03 d12 d13 d23 hadd
  refine ⟨⟨hwf, hrep, halloc, h.hs, ?_, ?_, ?_, ?_, ?_⟩, hadd.next⟩
  · intro c hc
    have := h.len c hc
    simp only [addRow]
    split_ifs <;> simp <;> omega
  · intro j hj; rw [hadd.id]; exact h.ids j hj
  · intro c hc n hn
    rcases (hm d01 d02 d03 d12 d13 d23).1 hn with hold | hnw
    · obtain ⟨n0, r1, r2, r3, r4⟩ := h.row c hc n hold
      obtain ⟨q1, q2⟩ := r1.add hb h.hs (by omega) h.alloc d01 d02 d03 d12 d13 d23 hadd
      exact ⟨n0, q1, by rw [q2]; omega, by rw [q2]; exact r3, r4⟩
    · refine ⟨s.next, hnew, by rw [hadd.row_id0]; omega, by rw [hadd.row_id0]; exact hkeep, ?_⟩
      rcases hnw with ⟨_, rfl⟩ | ⟨_, rfl⟩ | ⟨_, rfl⟩ | ⟨_, rfl⟩ <;> simp
  · intro r hr hns
    rcases Nat.lt_succ_iff_lt_or_eq.1 hr with hlt | rfl
    · obtain ⟨n0, r1, r2⟩ := h.has r hlt hns
      obtain ⟨q1, q2⟩ := r1.add hb h.hs (by omega) h.alloc d01 d02 d03 d12 d13 d23 hadd
      exact ⟨n0, q1, by rw [q2]; exact r2⟩
    · exact ⟨s.next, hnew, hadd.row_id0⟩
  · -- the row id of a node of the matrix
    have hrid : ∀ c ∈ sh.hs, ∀ n ∈ sh.vs c,
        (create_row_nodes s i c0 c1 c2 c3).row_id n = s.row_id n ∧ s.row_id n < i := by
      intro c hc n hn
      obtain ⟨n0, r1, r2, _, r4⟩ := h.row c hc n hn
      refine ⟨hadd.old_row_id _ (h.alloc.vs_lt c hc n hn), ?_⟩
      rcases r4 with rfl | rfl | rfl | rfl
      · exact r2
      · rw [r1.id1]; exact r2
      · rw [r1.id2]; exact r2
      · rw [r1.id3]; exact r2
    have hridn : ∀ c n, ((c = c0 ∧ n = s.next) ∨ (c = c1 ∧ n = s.next + 1) ∨
        (c = c2 ∧ n = s.next + 2) ∨ (c = c3 ∧ n = s.next + 3)) →
        (create_row_nodes s i c0 c1 c2 c3).row_id n = i := by
      intro c n hcn
      rcases hcn with ⟨_, rfl⟩ | ⟨_, rfl⟩ | ⟨_, rfl⟩ | ⟨_, rfl⟩
      exacts [hadd.row_id0, hadd.row_id1, hadd.row_id2, hadd.row_id3]
    intro c hc n hn m hm2 heq
    rcases (hm d01 d02 d03 d12 d13 d23).1 hn with hn1 | hn1 <;>
      rcases (hm d01 d02 d03 d12 d13 d23).1 hm2 with hm1 | hm1
    · rw [(hrid c hc n hn1).1, (hrid c hc m hm1).1] at heq
      exact h.uniq c hc n hn1 m hm1 heq
    · rw [(hrid c hc n hn1).1, hridn c m hm1] at heq
      have := (hrid c hc n hn1).2; omega
    · rw [(hrid c hc m hm1).1, hridn c n hn1] at heq
      have := (hrid c hc m hm1).2; omega
    · rcases hn1 with ⟨a, rfl⟩ | ⟨a, rfl⟩ | ⟨a, rfl⟩ | ⟨a, rfl⟩ <;>
        rcases hm1 with ⟨a2, rfl⟩ | ⟨a2, rfl⟩ | ⟨a2, rfl⟩ | ⟨a2, rfl⟩ <;>
        first
          | rfl
          | (exfalso; omega)

theorem emptyShape_wf (cols : Nat) : (emptyShape cols).WF := by
  refine ⟨List.nodup_range' _ _, ?_, ?_, ?_, ?_, ?_, ?_⟩ <;>
    · intro c _
      simp [emptyShape]

/-- The row loop of `matrix_create` keeps its invariant. -/
theorem create_rows_inv {b : Board} {k : Nat} (hb : IsBoard b k) :
    ∀ (n i : Nat) (s : Heap) (sh : Shape), RowsInv b (k * k * (k * k)) s sh i →
      i + n ≤ k * k * (k * k * (k * k)) →
      RowsInv b (k * k * (k * k))
        (create_rows b (List.range' 2 (4 * (k * k * (k * k)))) (k * k * (k * k)) n i s)
        (rows_shape b (k * k * (k * k)) n i s.next sh) (i + n)
  | 0, i, s, sh, h, _ => h
  | n + 1, i, s, sh, h, hle => by
    rw [rows_shape_succ]
    show RowsInv b _ (create_rows b _ _ n (i + 1) (create_row b _ _ s i)) _ _
    rw [show i + (n + 1) = i + 1 + n by omega]
    by_cases hskip : row_skipped b i
    · rw [if_pos hskip]
      have e : create_row b (List.range' 2 (4 * (k * k * (k * k)))) (k * k * (k * k)) s i = s := by
        unfold create_row; rw [if_pos hskip]
      rw [e]
      exact create_rows_inv hb n (i + 1) s sh (h.skip hskip) (by omega)
    · rw [if_neg hskip]
      obtain ⟨h1, h2⟩ := h.step hb (by omega) hskip
      have := create_rows_inv hb n (i + 1) _ _ h1 (by omega)
      rw [h2] at this
      exact this

/-- The matrix built by `matrix_create` for a board: the heap holds
`matrix_shape b` below the root `1`, and its rows are exactly the rows that the
row loop does not skip. -/
theorem matrix_create_inv {b : Board} {k : Nat} (hb : IsBoard b k) :
    RowsInv b (k * k * (k * k)) (matrix_create b).heap (matrix_shape b)
      (k * k * (k * k * (k * k))) ∧
    (matrix_create b).root = 1 ∧ (matrix_create b).solved = false ∧
    (matrix_create b).solution = [] := by
  refine ⟨?_, rfl, rfl, rfl⟩
  obtain ⟨s2, e, hrep, halloc, hnext, hid⟩ := matrix_columns (4 * (k * k * (k * k)))
  have hinit : RowsInv b (k * k * (k * k))
      (link_nodes s2 (if 4 * (k * k * (k * k)) = 0 then 1 else 4 * (k * k * (k * k)) + 1) 1
        LINK_RIGHT) (emptyShape (4 * (k * k * (k * k)))) 0 := by
    refine ⟨emptyShape_wf _, hrep, halloc, rfl, ?_, hid, ?_, ?_, ?_⟩
    · intro c _; simp [emptyShape]
    · intro c _ n hn; simp [emptyShape] at hn
    · intro r hr; omega
    · intro c _ n hn; simp [emptyShape] at hn
  have := create_rows_inv hb (k * k * (k * k * (k * k))) 0 _ _ hinit (by omega)
  rw [hnext, Nat.zero_add] at this
  have e1 : (matrix_create b).heap = create_rows b (List.range' 2 (4 * (k * k * (k * k))))
      (k * k * (k * k)) (k * k * (k * k * (k * k))) 0
      (link_nodes s2 (if 4 * (k * k * (k * k)) = 0 then 1 else 4 * (k * k * (k * k)) + 1) 1
        LINK_RIGHT) := by
    simp only [matrix_create, matrix_create_on, node_create_column, hb.line_size,
      hb.grid_size, Nat.mod_eq_of_lt hb.fits]
    have hh : Heap.empty.next = 1 := rfl
    rw [hh, e]
  have e2 : matrix_shape b = rows_shape b (k * k * (k * k)) (k * k * (k * k * (k * k))) 0
      (4 * (k * k * (k * k)) + 2) (emptyShape (4 * (k * k * (k * k)))) := by
    simp only [matrix_shape, hb.line_size, hb.grid_size, Nat.mod_eq_of_lt hb.fits]
  rw [e1, e2]
  exact this

/-! ## The search leaves the matrix as it was -/

/-- The run of the search on the matrix with one column and one row. -/
theorem columnState_one_run :
    dlx_solve 3 (columnState 1) = .ok (true, State.mk' (columnHeap 1) 1 (true, [3])) := by
  rw [dlx_solve_eq (columnState_wf 1 (by norm_num [SIZE_MOD])) (columnShape_fits 1)]
  show (match solveA 3 (columnShape 1) (false, []) with
    | .ok (b, a1) => Except.ok (b, State.mk' (columnHeap 1) 1 a1)
    | .error e => .error e) = _
  rw [solveA_column_one]

/-- The run of the search on the matrix with one column and no row. -/
theorem columnState_zero_run :
    dlx_solve 2 (columnState 0) = .ok (false, State.mk' (columnHeap 0) 1 (false, [])) := by
  rw [dlx_solve_eq (columnState_wf 0 (by norm_num [SIZE_MOD])) (columnShape_fits 0)]
  show (match solveA 2 (columnShape 0) (false, []) with
    | .ok (b, a1) => Except.ok (b, State.mk' (columnHeap 0) 1 a1)
    | .error e => .error e) = _
  rw [solveA_column_zero]

/-- C18: the search leaves the matrix intact.  When `dlx_solve` returns on a
well-formed matrix, with either verdict, the heap is the heap before the call:
every `up`, `down`, `left` and `right` link and every column count has its
old value (and so has every other field of every node). -/
theorem dlx_solve_restores (F : Nat) (st st' : State) (sh : Shape) (b : Bool)
    (hw : WellFormed st sh) (h : dlx_solve F st = .ok (b, st')) :
    st'.heap.up = st.heap.up ∧ st'.heap.down = st.heap.down ∧ st'.heap.left = st.heap.left ∧
      st'.heap.right = st.heap.right ∧ st'.heap.count = st.heap.count ∧
      st'.heap = st.heap ∧ st'.root = st.root := by
  obtain ⟨F', a1, -, rfl⟩ := dlx_solve_result hw h
  exact ⟨rfl, rfl, rfl, rfl, rfl, rfl, rfl⟩

/-- Witness for C18: a run with verdict true on the matrix with one column and
one row. -/
theorem dlx_solve_restores_witness :
    WellFormed (columnState 1) (columnShape 1) ∧
      dlx_solve 3 (columnState 1) = .ok (true, State.mk' (columnHeap 1) 1 (true, [3])) ∧
      (State.mk' (columnHeap 1) 1 (true, [3])).heap = (columnState 1).heap :=
  ⟨columnState_wf 1 (by norm_num [SIZE_MOD]), columnState_one_run,
    (dlx_solve_restores 3 _ _ _ _ (columnState_wf 1 (by norm_num [SIZE_MOD]))
      columnState_one_run).2.2.2.2.2.1⟩

/-! ## Termination on every well-formed matrix -/

theorem Shape.length_lt_bound (sh : Shape) : sh.hs.length < sh.bound := by
  unfold Shape.bound; omega

/-- The matrix built by `matrix_create` for a board is well formed. -/
theorem matrix_create_wf {b : Board} {k : Nat} (hb : IsBoard b k) :
    WellFormed (matrix_create b) (matrix_shape b) := by
  obtain ⟨h, hroot, -, -⟩ := matrix_create_inv hb
  refine ⟨h.wf, ?_⟩
  rw [hroot]; exact h.rep

/-- Walking `j` steps along a segment arrives at the `j`-th node of the
segment. -/
theorem Seg.iterate_getD {nxt prv : Nat → Nat} : ∀ (l : List Nat) (a b : Nat),
    Seg nxt prv a l b → ∀ j, j ≤ l.length + 1 → nxt^[j] a = (a :: (l ++ [b])).getD j 0
  | [], a, b, h, j, hj => by
    rcases Nat.eq_zero_or_pos j with rfl | hpos
    · rfl
    · obtain rfl : j = 1 := by simp at hj; omega
      simpa using h.1
  | x :: l, a, b, h, j, hj => by
    rcases Nat.eq_zero_or_pos j with rfl | hpos
    · rfl
    · obtain ⟨i, rfl⟩ : ∃ i, j = i + 1 := ⟨j - 1, by omega⟩
      rw [Function.iterate_succ_apply, h.1,
        Seg.iterate_getD l x b h.2.2 i (by simp at hj; omega)]
      simp

theorem Seg.iterate_inner {nxt prv : Nat → Nat} {l : List Nat} {a b : Nat}
    (h : Seg nxt prv a l b) {j : Nat} (h1 : 1 ≤ j) (h2 : j ≤ l.length) :
    nxt^[j] a = l.getD (j - 1) 0 ∧ nxt^[j] a ∈ l := by
  obtain ⟨i, rfl⟩ : ∃ i, j = i + 1 := ⟨j - 1, by omega⟩
  have e := Seg.iterate_getD l a b h (i + 1) (by omega)
  have hi : i < l.length := by omega
  have e2 : nxt^[i + 1] a = l[i] := by
    rw [e]
    simp [List.getD_eq_getElem?_getD, List.getElem?_append_left hi, hi]
  have e3 : l.getD (i + 1 - 1) 0 = l[i] := by
    simp [List.getD_eq_getElem?_getD, hi]
  exact ⟨by rw [e2, e3], by rw [e2]; exact List.getElem_mem _⟩

theorem Seg.iterate_end {nxt prv : Nat → Nat} {l : List Nat} {a b : Nat}
    (h : Seg nxt prv a l b) : nxt^[l.length + 1] a = b := by
  rw [Seg.iterate_getD l a b h (l.length + 1) (by omega)]
  simp [List.getD_eq_getElem?_getD]

/-- Walking once around a ring from any of its nodes arrives back at the
node. -/
theorem Seg.iterate_ring {nxt prv : Nat → Nat} {l : List Nat} {a x : Nat}
    (h : Seg nxt prv a l a) (hx : x ∈ a :: l) : nxt^[l.length + 1] x = x := by
  have hend := h.iterate_end
  rcases List.mem_cons.1 hx with rfl | hx
  · exact hend
  · obtain ⟨i, hi, rfl⟩ := List.getElem_of_mem hx
    have e : nxt^[i + 1] a = l[i] := by
      rw [Seg.iterate_getD l a a h (i + 1) (by omega)]
      simp [List.getD_eq_getElem?_getD, List.getElem?_append_left hi, hi]
    rw [← e, ← Function.iterate_add_apply, Nat.add_comm, Function.iterate_add_apply, hend]

theorem unitBoard_isBoard : IsBoard unitBoard 1 := by
  constructor <;> simp [unitBoard, UINT_MOD]

/-- A matched `cover_column`/`uncover_column` pair on a linked column gives
back the heap it started from. -/
theorem cover_uncover_pair {s : Heap} {root : Nat} {sh : Shape} {c F : Nat} {t1 t2 : Heap}
    (hw : sh.WF) (hr : Rep s root sh) (hc : c ∈ sh.hs) (h1 : cover_column F s c = .ok t1)
    (h2 : uncover_column F t1 c = .ok t2) : t2 = s := by
  obtain ⟨t, e1, -, -, -, e2⟩ := cover_column_spec hw hr hc
    (sh.fits_bound (Nat.le_max_right F sh.bound))
  have e3 := cover_column_mono (Nat.le_max_left F sh.bound) _ _ _ h1
  rw [e1] at e3
  obtain rfl : t = t1 := by injection e3
  have e4 := uncover_column_mono (Nat.le_max_left F sh.bound) _ _ _ h2
  rw [e2] at e4
  injection e4 with e5
  exact e5.symm

/-- The vertical torus of every linked column of a well-formed matrix. -/
theorem Rep.vtorus {s : Heap} {root : Nat} {sh : Shape} (hw : sh.WF) (hr : Rep s root sh)
    {c : Nat} (hc : c ∈ sh.hs) : VTorus s c := by
  have hseg := hr.vring c hc
  have hcnt := hr.cnt c hc
  refine ⟨?_, ?_, ?_⟩
  · intro j h1 h2
    rw [hcnt] at h2
    obtain ⟨-, hm⟩ := hseg.iterate_inner h1 h2
    exact ⟨hr.node_type c hc _ hm, hr.node_par c hc _ hm⟩
  · intro i j h1 hij h2 he
    rw [hcnt] at h2
    rw [(hseg.iterate_inner h1 (by omega)).1, (hseg.iterate_inner (by omega) h2).1] at he
    have hi : i - 1 < (sh.vs c).length := by omega
    have hj : j - 1 < (sh.vs c).length := by omega
    simp only [List.getD_eq_getElem?_getD, List.getElem?_eq_getElem hi,
      List.getElem?_eq_getElem hj, Option.getD_some] at he
    have := (List.Nodup.getElem_inj_iff (hw.vs_nodup c hc)).1 he
    omega
  · rw [hcnt]; exact hseg.iterate_end

/-- The column headers of the matrix of a board are the nodes `2`, ...,
`4 * N * N + 1`. -/
theorem matrix_headers {b : Board} {k : Nat} (hb : IsBoard b k) (c : Nat) :
    c ∈ (matrix_shape b).hs ↔ 2 ≤ c ∧ c < 4 * (k * k * (k * k)) + 2 := by
  rw [(matrix_create_inv hb).1.hs, List.mem_range'_1]
  omega

/-- C15: vertical torus and count consistency.  In the matrix built by
`matrix_create` for a board, every node `c` among the `4 * N * N` column
headers is a column node whose `down` walk visits `count` different data nodes
of that column and then arrives back at the header; and a matched
`cover_column`/`uncover_column` pair on any header returns (from some budget
on) and leaves a heap with the same property. -/
theorem vertical_torus (b : Board) (k c : Nat) (hb : IsBoard b k) (h2 : 2 ≤ c)
    (hc : c < 4 * (k * k * (k * k)) + 2) :
    (matrix_create b).heap.type c = DLX_TYPE_COLUMN ∧ VTorus (matrix_create b).heap c ∧
    ∀ c', 2 ≤ c' → c' < 4 * (k * k * (k * k)) + 2 →
      (∃ F0, ∀ F, F0 ≤ F → ∃ t1, cover_column F (matrix_create b).heap c' = .ok t1 ∧
        ∃ t2, uncover_column F t1 c' = .ok t2) ∧
      ∀ F t1 t2, cover_column F (matrix_create b).heap c' = .ok t1 →
        uncover_column F t1 c' = .ok t2 → VTorus t2 c := by
  have hw := matrix_create_wf hb
  have hroot : (matrix_create b).root = 1 := rfl
  have hmem := (matrix_headers hb c).2 ⟨h2, hc⟩
  refine ⟨hw.2.col_type c hmem, hw.2.vtorus hw.1 hmem, ?_⟩
  intro c' h2' hc'
  have hmem' := (matrix_headers hb c').2 ⟨h2', hc'⟩
  refine ⟨⟨(matrix_shape b).bound, fun F hF => ?_⟩, ?_⟩
  · obtain ⟨t, e1, -, -, -, e2⟩ := cover_column_spec hw.1 hw.2 hmem' ((matrix_shape b).fits_bound hF)
    exact ⟨t, e1, _, e2⟩
  · intro F t1 t2 e1 e2
    rw [cover_uncover_pair hw.1 hw.2 hmem' e1 e2]
    exact hw.2.vtorus hw.1 hmem

/-- Witness for C15: the first column of the board with one cell. -/
theorem vertical_torus_witness :
    IsBoard unitBoard 1 ∧ VTorus (matrix_create unitBoard).heap 2 :=
  ⟨unitBoard_isBoard,
    (vertical_torus unitBoard 1 2 unitBoard_isBoard (by decide) (by decide)).2.1⟩

/-- The horizontal torus of a well-formed matrix: the ring of headers also
contains the root, so a walk around it takes one step more than there are
columns. -/
theorem Rep.htorus {s : Heap} {root : Nat} {sh : Shape} (hr : Rep s root sh)
    {c : Nat} (hc : c ∈ sh.hs) : HTorus s (sh.hs.length + 1) c :=
  hr.hring.iterate_ring (List.mem_cons_of_mem _ hc)

/-- C14 fails as stated: in the matrix of the board with one cell, which has
4 column headers, walking `right` 4 times from the first header arrives at the
root, not back at the header. -/
theorem horizontal_torus_short :
    IsBoard unitBoard 1 ∧ (matrix_create unitBoard).heap.right^[4] 2 = 1 ∧
      ¬ HTorus (matrix_create unitBoard).heap 4 2 := by
  have hw := matrix_create_wf unitBoard_isBoard
  have hseg := hw.2.hring
  have hroot : (matrix_create unitBoard).root = 1 := rfl
  rw [hroot, (matrix_create_inv unitBoard_isBoard).1.hs] at hseg
  have e1 := Seg.iterate_getD _ _ _ hseg 1 (by simp)
  have e5 := Seg.iterate_getD _ _ _ hseg 5 (by simp)
  have l : List.range' 2 (4 * (1 * 1 * (1 * 1))) = [2, 3, 4, 5] := by decide
  rw [l] at e1 e5
  have e : (matrix_create unitBoard).heap.right^[4] 2 = 1 := by
    have : (2 : Nat) = (matrix_create unitBoard).heap.right^[1] 1 := by rw [e1]; rfl
    rw [this, ← Function.iterate_add_apply, e5]; rfl
  refine ⟨unitBoard_isBoard, e, ?_⟩
  unfold HTorus
  rw [e]; decide

/-- C14, amended: horizontal torus.  In the matrix built by `matrix_create`
for a board, which has `4 * N * N` column headers, walking `right` exactly
`4 * N * N + 1` times from any column header arrives back at that header (the
ring of headers also holds the root); and a matched
`cover_column`/`uncover_column` pair on any header returns (from some budget
on) and leaves a heap with the same property. -/
theorem horizontal_torus (b : Board) (k c : Nat) (hb : IsBoard b k) (h2 : 2 ≤ c)
    (hc : c < 4 * (k * k * (k * k)) + 2) :
    (matrix_create b).heap.type c = DLX_TYPE_COLUMN ∧
    HTorus (matrix_create b).heap (4 * (k * k * (k * k)) + 1) c ∧
    ∀ c', 2 ≤ c' → c' < 4 * (k * k * (k * k)) + 2 →
      (∃ F0, ∀ F, F0 ≤ F → ∃ t1, cover_column F (matrix_create b).heap c' = .ok t1 ∧
        ∃ t2, uncover_column F t1 c' = .ok t2) ∧
      ∀ F t1 t2, cover_column F (matrix_create b).heap c' = .ok t1 →
        uncover_column F t1 c' = .ok t2 → HTorus t2 (4 * (k * k * (k * k)) + 1) c := by
  have hw := matrix_create_wf hb
  have hmem := (matrix_headers hb c).2 ⟨h2, hc⟩
  have hlen : (matrix_shape b).hs.length = 4 * (k * k * (k * k)) := by
    rw [(matrix_create_inv hb).1.hs, List.length_range']
  have ht : HTorus (matrix_create b).heap (4 * (k * k * (k * k)) + 1) c := by
    rw [← hlen]; exact hw.2.htorus hmem
  refine ⟨hw.2.col_type c hmem, ht, ?_⟩
  intro c' h2' hc'
  have hmem' := (matrix_headers hb c').2 ⟨h2', hc'⟩
  refine ⟨⟨(matrix_shape b).bound, fun F hF => ?_⟩, ?_⟩
  · obtain ⟨t, e1, -, -, -, e2⟩ := cover_column_spec hw.1 hw.2 hmem' ((matrix_shape b).fits_bound hF)
    exact ⟨t, e1, _, e2⟩
  · intro F t1 t2 e1 e2
    rw [cover_uncover_pair hw.1 hw.2 hmem' e1 e2]
    exact ht

/-- Witness for C14: the first column of the board with one cell. -/
theorem horizontal_torus_witness :
    IsBoard unitBoard 1 ∧ HTorus (matrix_create unitBoard).heap 5 2 :=
  ⟨unitBoard_isBoard,
    (horizontal_torus unitBoard 1 2 unitBoard_isBoard (by decide) (by decide)).2.1⟩

/-! ## Decoding row ids -/

theorem write_solution_row_eq (h : Heap) (b : Board) (node : Nat) :
    write_solution_row h b node =
      board_set b ((decode_row b (h.row_id node)).2.1 % UINT_MOD)
        ((decode_row b (h.row_id node)).1 % UINT_MOD) (decode_row b (h.row_id node)).2.2 := rfl

theorem row_skipped_eq (b : Board) (row : Nat) :
    row_skipped b row ↔
      board_get b ((split_row b row).2.1 % UINT_MOD) ((split_row b row).1 % UINT_MOD) ≠ 0 ∧
      board_get b ((split_row b row).2.1 % UINT_MOD) ((split_row b row).1 % UINT_MOD)
        ≠ (split_row b row).2.2 + 1 := Iff.rfl

/-- The row index, column index and offset of a row id. -/
theorem row_of_parts {N r c d : Nat} (hc : c < N) (h1 : 1 ≤ d) (hd : d ≤ N) :
    row_of N r c d / (N * N) = r ∧ (row_of N r c d / N) % N = c ∧
      row_of N r c d % N = d - 1 := by
  have hN : 0 < N := by omega
  have e1 : row_of N r c d = (d - 1) + N * (c + N * r) := by unfold row_of; ring
  have e2 : row_of N r c d / N = c + N * r := by
    rw [e1, Nat.add_mul_div_left _ _ hN, Nat.div_eq_of_lt (by omega), Nat.zero_add]
  refine ⟨?_, ?_, ?_⟩
  · rw [← Nat.div_div_eq_div_mul, e2, Nat.add_mul_div_left _ _ hN, Nat.div_eq_of_lt hc,
      Nat.zero_add]
  · rw [e2, Nat.add_mul_mod_self_left, Nat.mod_eq_of_lt hc]
  · rw [e1, Nat.add_mul_mod_self_left, Nat.mod_eq_of_lt (by omega)]

theorem row_of_lt {N r c d : Nat} (hr : r < N) (hc : c < N) (h1 : 1 ≤ d) (hd : d ≤ N) :
    row_of N r c d < N * (N * N) := by
  have h2 := mul_add_lt hc (show d - 1 < N by omega)
  have h3 := mul_add_lt hr h2
  calc row_of N r c d = r * (N * N) + (c * N + (d - 1)) := by unfold row_of; ring
    _ < N * (N * N) := h3

/-- The splitting in `matrix_create` inverts `row_of` on every board. -/
theorem split_row_of {b : Board} {k : Nat} (hb : IsBoard b k) {r c d : Nat}
    (hc : c < k * k) (h1 : 1 ≤ d) (hd : d ≤ k * k) :
    split_row b (row_of (k * k) r c d) = (r, c, d - 1) := by
  obtain ⟨p1, p2, p3⟩ := @row_of_parts (k * k) r c d hc h1 hd
  simp only [split_row, hb.grid_size, hb.line_size, p1, p2, p3]

/-- The decoding in `main` inverts `row_of` as long as the row ids fit an
`unsigned int`. -/
theorem decode_row_of {b : Board} {k : Nat} (hb : IsBoard b k)
    (hfit : k * k * (k * k * (k * k)) ≤ UINT_MOD) {r c d : Nat}
    (hr : r < k * k) (hc : c < k * k) (h1 : 1 ≤ d) (hd : d ≤ k * k) :
    decode_row b (row_of (k * k) r c d) = (r, c, d) := by
  obtain ⟨p1, p2, p3⟩ := @row_of_parts (k * k) r c d hc h1 hd
  have hlt := row_of_lt hr hc h1 hd
  simp only [decode_row, hb.grid_size, hb.line_size,
    Nat.mod_eq_of_lt (lt_of_lt_of_le hlt hfit), p1, p2, p3]
  congr 2
  omega

/-! ## The rows of the matrix of a board -/

/-- The row id of every node of a row is the row id of its first node. -/
theorem IsRow.row_id_eq {b : Board} {css : Nat} {s : Heap} {sh : Shape} {n0 n : Nat}
    (h : IsRow b css s sh n0) (hn : n = n0 ∨ n = n0 + 1 ∨ n = n0 + 2 ∨ n = n0 + 3) :
    s.row_id n = s.row_id n0 := by
  rcases hn with rfl | rfl | rfl | rfl
  exacts [rfl, h.id1, h.id2, h.id3]

/-- The matrix of a board contains the row with id `row` exactly when the row
loop does not skip `row`. -/
theorem has_row_iff {b : Board} {k : Nat} (hb : IsBoard b k) {row : Nat}
    (hlt : row < k * k * (k * k * (k * k))) :
    has_row (matrix_create b).heap (matrix_shape b) row ↔ ¬ row_skipped b row := by
  have hinv := (matrix_create_inv hb).1
  constructor
  · rintro ⟨c, hc, n, hn, rfl⟩
    obtain ⟨n0, r1, -, r3, r4⟩ := hinv.row c hc n hn
    rw [r1.row_id_eq r4]; exact r3
  · intro hns
    obtain ⟨n0, r1, r2⟩ := hinv.has row hlt hns
    obtain ⟨m0, -, -, -⟩ := r1.cols_mem hb hinv.hs (by rw [r2]; exact hlt)
    exact ⟨_, m0, n0, r1.mem0, r2⟩

theorem IsBoard.uint_lt {b : Board} {k : Nat} (hb : IsBoard b k) {x : Nat} (hx : x < k * k) :
    x % UINT_MOD = x := by
  have := hb.line_lt
  apply Nat.mod_eq_of_lt
  have e : UINT_MOD = 4294967296 := by norm_num [UINT_MOD]
  rw [e]
  norm_num at this
  omega

/-- The skip test of `matrix_create` on the row of `(r, c, d)`. -/
theorem row_skipped_row_of {b : Board} {k : Nat} (hb : IsBoard b k) {r c d : Nat}
    (hr : r < k * k) (hc : c < k * k) (h1 : 1 ≤ d) (hd : d ≤ k * k) :
    row_skipped b (row_of (k * k) r c d) ↔ board_get b c r ≠ 0 ∧ board_get b c r ≠ d := by
  rw [row_skipped_eq, split_row_of hb hc h1 hd]
  simp only [hb.uint_lt hr, hb.uint_lt hc]
  rw [show d - 1 + 1 = d by omega]

/-- Every cell of a board holds `0` or a digit up to `N`. -/
theorem IsBoard.board_get_le {b : Board} {k : Nat} (hb : IsBoard b k) (i j : Nat) :
    board_get b i j ≤ k * k := by
  simp only [board_get]
  split
  · rename_i hlt
    rw [List.getD_eq_getElem?_getD]
    rw [hb.size, ← hb.len] at hlt
    rw [List.getElem?_eq_getElem hlt]
    exact hb.cells_le _ (List.getElem_mem _)
  · omega

/-- C11: clue encoding.  For a board and a triple `(r, c, d)` with
`r, c < N` and `1 ≤ d ≤ N`, the matrix built by `matrix_create` contains the
row with id `r * N * N + c * N + (d - 1)` exactly when cell `(r, c)` is empty
or holds `d`.  So a pre-filled cell has the row of its own value and of no
other digit, an empty cell has the rows of all `N` digits, and no row id
occurs twice in a column. -/
theorem clue_encoding (b : Board) (k r c d : Nat) (hb : IsBoard b k) (hr : r < k * k)
    (hc : c < k * k) (h1 : 1 ≤ d) (hd : d ≤ k * k) :
    (has_row (matrix_create b).heap (matrix_shape b) (r * (k * k) * (k * k) + c * (k * k) + (d - 1))
      ↔ board_get b c r = 0 ∨ board_get b c r = d) ∧
    (board_get b c r ≠ 0 → (1 ≤ board_get b c r ∧ board_get b c r ≤ k * k) ∧
      ∀ e, 1 ≤ e → e ≤ k * k →
        (has_row (matrix_create b).heap (matrix_shape b) (row_of (k * k) r c e)
          ↔ e = board_get b c r)) ∧
    (board_get b c r = 0 → ∀ e, 1 ≤ e → e ≤ k * k →
      has_row (matrix_create b).heap (matrix_shape b) (row_of (k * k) r c e)) ∧
    ∀ col ∈ (matrix_shape b).hs, ∀ n ∈ (matrix_shape b).vs col, ∀ m ∈ (matrix_shape b).vs col,
      (matrix_create b).heap.row_id n = (matrix_create b).heap.row_id m → n = m := by
  have key : ∀ e, 1 ≤ e → e ≤ k * k →
      (has_row (matrix_create b).heap (matrix_shape b) (row_of (k * k) r c e)
        ↔ board_get b c r = 0 ∨ board_get b c r = e) := by
    intro e he1 he2
    rw [has_row_iff hb (row_of_lt hr hc he1 he2), row_skipped_row_of hb hr hc he1 he2]
    tauto
  have hval := hb.board_get_le c r
  refine ⟨key d h1 hd, ?_, ?_, (matrix_create_inv hb).1.uniq⟩
  · intro hne
    refine ⟨⟨by omega, hval⟩, fun e he1 he2 => ?_⟩
    rw [key e he1 he2]
    constructor
    · rintro (h | h)
      · exact absurd h hne
      · exact h.symm
    · intro h; exact Or.inr h.symm
  · intro h0 e he1 he2
    exact (key e he1 he2).2 (Or.inl h0)

/-- Witness for C11: the empty cell of the board with one cell. -/
theorem clue_encoding_witness :
    IsBoard unitBoard 1 ∧
      (has_row (matrix_create unitBoard).heap (matrix_shape unitBoard) 0
        ↔ board_get unitBoard 0 0 = 0 ∨ board_get unitBoard 0 0 = 1) :=
  ⟨unitBoard_isBoard,
    (clue_encoding unitBoard 1 0 0 1 unitBoard_isBoard (by decide) (by decide) (by decide)
      (by decide)).1⟩

/-- The four constraint indices of the row of `(r, c, d)`. -/
theorem index_row_of {b : Board} {k : Nat} (hb : IsBoard b k) (r : Nat) {c d : Nat}
    (hc : c < k * k) (h1 : 1 ≤ d) (hd : d ≤ k * k) :
    num_index b (k * k * (k * k)) (row_of (k * k) r c d) = r * (k * k) + c ∧
    row_index b (k * k * (k * k)) (row_of (k * k) r c d)
      = k * k * (k * k) + r * (k * k) + (d - 1) ∧
    col_index b (k * k * (k * k)) (row_of (k * k) r c d)
      = 2 * (k * k * (k * k)) + c * (k * k) + (d - 1) ∧
    box_index b (k * k * (k * k)) (row_of (k * k) r c d)
      = 3 * (k * k * (k * k)) + (k * (r / k) + c / k) * (k * k) + (d - 1) := by
  obtain ⟨p1, p2, p3⟩ := @row_of_parts (k * k) r c d hc h1 hd
  have hN : 0 < k * k := by omega
  have e1 : row_of (k * k) r c d = (d - 1) + (k * k) * (c + (k * k) * r) := by
    unfold row_of; ring
  have e2 : row_of (k * k) r c d / (k * k) = r * (k * k) + c := by
    rw [e1, Nat.add_mul_div_left _ _ hN, Nat.div_eq_of_lt (by omega), Nat.zero_add]; ring
  simp only [num_index, row_index, col_index, box_index, hb.line_size, hb.grid_size,
    hb.cell_size, p1, p2, p3]
  refine ⟨by rw [e2, Nat.zero_mul, Nat.zero_add], by rw [Nat.one_mul]; exact ⟨rfl, trivial, trivial⟩⟩

/-- The links of a row of the matrix in the heap. -/
theorem IsRow.links {b : Board} {k : Nat} (hb : IsBoard b k) {s : Heap} {sh : Shape}
    {n0 : Nat} (h : IsRow b (k * k * (k * k)) s sh n0) (hr : Rep s 1 sh)
    (hs : sh.hs = List.range' 2 (4 * (k * k * (k * k))))
    (hlt : s.row_id n0 < k * k * (k * k * (k * k))) :
    (s.right n0 = n0 + 1 ∧ s.right (n0 + 1) = n0 + 2 ∧ s.right (n0 + 2) = n0 + 3 ∧
      s.right (n0 + 3) = n0) ∧
    (s.type n0 = DLX_TYPE_DATA ∧ s.type (n0 + 1) = DLX_TYPE_DATA ∧
      s.type (n0 + 2) = DLX_TYPE_DATA ∧ s.type (n0 + 3) = DLX_TYPE_DATA) ∧
    (s.parent n0 = 2 + num_index b (k * k * (k * k)) (s.row_id n0) ∧
      s.parent (n0 + 1) = 2 + row_index b (k * k * (k * k)) (s.row_id n0) ∧
      s.parent (n0 + 2) = 2 + col_index b (k * k * (k * k)) (s.row_id n0) ∧
      s.parent (n0 + 3) = 2 + box_index b (k * k * (k * k)) (s.row_id n0)) := by
  obtain ⟨m0, m1, m2, m3⟩ := h.cols_mem hb hs hlt
  have hseg := hr.rring _ m0 _ h.mem0
  rw [h.rs0] at hseg
  obtain ⟨a1, -, a2, -, a3, -, a4, -⟩ := hseg
  refine ⟨⟨a1, a2, a3, a4⟩, ⟨hr.node_type _ m0 _ h.mem0, hr.node_type _ m1 _ h.mem1,
    hr.node_type _ m2 _ h.mem2, hr.node_type _ m3 _ h.mem3⟩, ?_, ?_, ?_, ?_⟩
  · rw [hr.node_par _ m0 _ h.mem0, h.par0]
  · rw [hr.node_par _ m1 _ h.mem1, h.par1]
  · rw [hr.node_par _ m2 _ h.mem2, h.par2]
  · rw [hr.node_par _ m3 _ h.mem3, h.par3]

/-- C16: row-to-constraint mapping.  For every row `(r, c, d)` that
`matrix_create` creates for a board, the matrix holds four data nodes
`n0, ..., n0 + 3` with that row id, linked circularly by `right` in this
order, whose column headers have the ids `r * N + c`, `N * N + r * N + (d - 1)`,
`2 * N * N + c * N + (d - 1)` and `3 * N * N + b * N + (d - 1)` with
`b = k * (r / k) + c / k`; the four ids are pairwise distinct and below
`4 * N * N`; and every linked node with that row id is one of the four. -/
theorem row_constraints (b : Board) (k r c d : Nat) (hb : IsBoard b k) (hr : r < k * k)
    (hc : c < k * k) (h1 : 1 ≤ d) (hd : d ≤ k * k)
    (hcell : board_get b c r = 0 ∨ board_get b c r = d) :
    ∃ n0,
      ((matrix_create b).heap.row_id n0 = r * (k * k) * (k * k) + c * (k * k) + (d - 1) ∧
        (matrix_create b).heap.row_id (n0 + 1) = (matrix_create b).heap.row_id n0 ∧
        (matrix_create b).heap.row_id (n0 + 2) = (matrix_create b).heap.row_id n0 ∧
        (matrix_create b).heap.row_id (n0 + 3) = (matrix_create b).heap.row_id n0) ∧
      ((matrix_create b).heap.type n0 = DLX_TYPE_DATA ∧
        (matrix_create b).heap.type (n0 + 1) = DLX_TYPE_DATA ∧
        (matrix_create b).heap.type (n0 + 2) = DLX_TYPE_DATA ∧
        (matrix_create b).heap.type (n0 + 3) = DLX_TYPE_DATA) ∧
      ((matrix_create b).heap.right n0 = n0 + 1 ∧
        (matrix_create b).heap.right (n0 + 1) = n0 + 2 ∧
        (matrix_create b).heap.right (n0 + 2) = n0 + 3 ∧
        (matrix_create b).heap.right (n0 + 3) = n0) ∧
      ((matrix_create b).heap.id ((matrix_create b).heap.parent n0) = r * (k * k) + c ∧
        (matrix_create b).heap.id ((matrix_create b).heap.parent (n0 + 1))
          = k * k * (k * k) + r * (k * k) + (d - 1) ∧
        (matrix_create b).heap.id ((matrix_create b).heap.parent (n0 + 2))
          = 2 * (k * k * (k * k)) + c * (k * k) + (d - 1) ∧
        (matrix_create b).heap.id ((matrix_create b).heap.parent (n0 + 3))
          = 3 * (k * k * (k * k)) + (k * (r / k) + c / k) * (k * k) + (d - 1)) ∧
      (r * (k * k) + c < k * k * (k * k) ∧
        k * k * (k * k) + r * (k * k) + (d - 1) < 2 * (k * k * (k * k)) ∧
        2 * (k * k * (k * k)) ≤ 2 * (k * k * (k * k)) + c * (k * k) + (d - 1) ∧
        2 * (k * k * (k * k)) + c * (k * k) + (d - 1) < 3 * (k * k * (k * k)) ∧
        3 * (k * k * (k * k)) ≤ 3 * (k * k * (k * k)) + (k * (r / k) + c / k) * (k * k) + (d - 1) ∧
        3 * (k * k * (k * k)) + (k * (r / k) + c / k) * (k * k) + (d - 1)
          < 4 * (k * k * (k * k))) ∧
      ∀ col ∈ (matrix_shape b).hs, ∀ n ∈ (matrix_shape b).vs col,
        (matrix_create b).heap.row_id n = r * (k * k) * (k * k) + c * (k * k) + (d - 1) →
        n = n0 ∨ n = n0 + 1 ∨ n = n0 + 2 ∨ n = n0 + 3 := by
  have hinv := (matrix_create_inv hb).1
  have hlt := row_of_lt hr hc h1 hd
  have hns : ¬ row_skipped b (row_of (k * k) r c d) := by
    rw [row_skipped_row_of hb hr hc h1 hd]; tauto
  obtain ⟨n0, hrow, hid⟩ := hinv.has _ hlt hns
  have hlt0 : (matrix_create b).heap.row_id n0 < k * k * (k * k * (k * k)) := by
    rw [hid]; exact hlt
  obtain ⟨hl, ht, p0, p1, p2, p3⟩ := hrow.links hb hinv.rep hinv.hs hlt0
  obtain ⟨i1, i2, i3, i4, i5, i6, i7⟩ := index_ranges hb hlt
  obtain ⟨j0, j1, j2, j3⟩ := index_row_of hb r hc h1 hd
  rw [hid] at p0 p1 p2 p3
  refine ⟨n0, ⟨hid, hrow.id1, hrow.id2, hrow.id3⟩, ht, hl, ⟨?_, ?_, ?_, ?_⟩, ?_, ?_⟩
  · rw [p0, hinv.ids _ (by omega), j0]
  · rw [p1, hinv.ids _ (by omega), j1]
  · rw [p2, hinv.ids _ (by omega), j2]
  · rw [p3, hinv.ids _ (by omega), j3]
  · rw [j0] at i1; rw [j1] at i2 i3; rw [j2] at i4 i5; rw [j3] at i6 i7
    exact ⟨i1, i3, i4, i5, i6, i7⟩
  · intro col hcol n hn hnid
    obtain ⟨m0, r1, r2, -, r4⟩ := hinv.row col hcol n hn
    have e : (matrix_create b).heap.row_id m0 = (matrix_create b).heap.row_id n0 := by
      rw [← r1.row_id_eq r4, hnid]; exact hid.symm
    obtain ⟨c0, -, -, -⟩ := hrow.cols_mem hb hinv.hs hlt0
    have hm0 : m0 ∈ (matrix_shape b).vs ((matrix_shape b).par n0) := by
      have := r1.mem0
      rw [r1.par0, e, ← hrow.par0] at this
      exact this
    have : m0 = n0 := hinv.uniq _ c0 m0 hm0 n0 hrow.mem0 e
    rw [← this]; exact r4

/-- Witness for C16: the only row of the board with one cell. -/
theorem row_constraints_witness :
    IsBoard unitBoard 1 ∧ ∃ n0, (matrix_create unitBoard).heap.row_id n0 = 0 ∧
      (matrix_create unitBoard).heap.right n0 = n0 + 1 := by
  obtain ⟨n0, h1, -, h3, -⟩ := row_constraints unitBoard 1 0 0 1 unitBoard_isBoard (by decide)
    (by decide) (by decide) (by decide) (Or.inl (by decide))
  exact ⟨unitBoard_isBoard, n0, h1.1, h3.1⟩

/-! ## At most `N` rows in a column -/

theorem mul_add_inj {hi lo hi2 lo2 w : Nat} (hlo : lo < w) (hlo2 : lo2 < w)
    (h : hi * w + lo = hi2 * w + lo2) : hi = hi2 ∧ lo = lo2 := by
  have hw : 0 < w := by omega
  have h1 : (hi * w + lo) / w = hi := by
    rw [Nat.add_comm, Nat.add_mul_div_right _ _ hw, Nat.div_eq_of_lt hlo, Nat.zero_add]
  have h2 : (hi2 * w + lo2) / w = hi2 := by
    rw [Nat.add_comm, Nat.add_mul_div_right _ _ hw, Nat.div_eq_of_lt hlo2, Nat.zero_add]
  have h3 : hi = hi2 := by rw [← h1, ← h2, h]
  subst h3
  exact ⟨rfl, by omega⟩

/-- A row id is determined by its row index, column index and offset. -/
theorem parts_inj {N x y : Nat} (h1 : x / (N * N) = y / (N * N))
    (h2 : (x / N) % N = (y / N) % N) (h3 : x % N = y % N) : x = y := by
  have e : x / N = y / N := by
    rw [← Nat.div_add_mod (x / N) N, ← Nat.div_add_mod (y / N) N, Nat.div_div_eq_div_mul,
      Nat.div_div_eq_div_mul, h1, h2]
  rw [← Nat.div_add_mod x N, ← Nat.div_add_mod y N, e, h3]

/-- A list of different numbers below `N` has at most `N` elements. -/
theorem length_le_of_nodup_lt {l : List Nat} {N : Nat} (hn : l.Nodup) (h : ∀ x ∈ l, x < N) :
    l.length ≤ N := by
  have h1 : l.toFinset ⊆ Finset.range N := by
    intro x hx
    rw [List.mem_toFinset] at hx
    exact Finset.mem_range.2 (h x hx)
  have h2 := Finset.card_le_card h1
  rw [List.toFinset_card_of_nodup hn, Finset.card_range] at h2
  exact h2

/-- A list on which a map into the numbers below `N` is injective has at most
`N` elements. -/
theorem length_le_of_inj {l : List Nat} {N : Nat} (f : Nat → Nat) (hn : l.Nodup)
    (hlt : ∀ x ∈ l, f x < N) (hinj : ∀ x ∈ l, ∀ y ∈ l, f x = f y → x = y) : l.length ≤ N := by
  have h1 : (l.map f).Nodup := by
    rw [List.nodup_map_iff_inj_on hn]
    exact hinj
  have h2 := length_le_of_nodup_lt h1 (by
    intro y hy
    obtain ⟨x, hx, rfl⟩ := List.mem_map.1 hy
    exact hlt x hx)
  rwa [List.length_map] at h2

/-- Two row ids with the same constraint index of one kind and the same
remaining part are equal. -/
theorem index_inj {b : Board} {k : Nat} (hb : IsBoard b k) {x y : Nat}
    (hx : x < k * k * (k * k * (k * k))) (hy : y < k * k * (k * k * (k * k))) :
    (num_index b (k * k * (k * k)) x = num_index b (k * k * (k * k)) y →
      x % (k * k) = y % (k * k) → x = y) ∧
    (row_index b (k * k * (k * k)) x = row_index b (k * k * (k * k)) y →
      (x / (k * k)) % (k * k) = (y / (k * k)) % (k * k) → x = y) ∧
    (col_index b (k * k * (k * k)) x = col_index b (k * k * (k * k)) y →
      x / (k * k * (k * k)) = y / (k * k * (k * k)) → x = y) ∧
    (box_index b (k * k * (k * k)) x = box_index b (k * k * (k * k)) y →
      (x / (k * k * (k * k))) % k * k + ((x / (k * k)) % (k * k)) % k
        = (y / (k * k * (k * k))) % k * k + ((y / (k * k)) % (k * k)) % k → x = y) := by
  have hk := hb.k_pos
  have hN := hb.line_pos
  obtain ⟨p1, p2, p3, p4⟩ := row_parts hN hx
  obtain ⟨q1, q2, q3, q4⟩ := row_parts hN hy
  simp only [num_index, row_index, col_index, box_index, hb.line_size, hb.grid_size,
    hb.cell_size]
  refine ⟨?_, ?_, ?_, ?_⟩
  · intro h1 h2
    have e : x / (k * k) = y / (k * k) := by omega
    rw [← Nat.div_add_mod x (k * k), ← Nat.div_add_mod y (k * k), e, h2]
  · intro h1 h2
    have h1' : x / (k * k * (k * k)) * (k * k) + x % (k * k)
        = y / (k * k * (k * k)) * (k * k) + y % (k * k) := by omega
    obtain ⟨e1, e2⟩ := mul_add_inj p3 q3 h1'
    exact parts_inj e1 h2 e2
  · intro h1 h2
    have h1' : x / (k * k) % (k * k) * (k * k) + x % (k * k)
        = y / (k * k) % (k * k) * (k * k) + y % (k * k) := by omega
    obtain ⟨e1, e2⟩ := mul_add_inj p3 q3 h1'
    exact parts_inj h2 e1 e2
  · intro h1 h2
    have h1' : (k * (x / (k * k * (k * k)) / k) + x / (k * k) % (k * k) / k) * (k * k)
          + x % (k * k)
        = (k * (y / (k * k * (k * k)) / k) + y / (k * k) % (k * k) / k) * (k * k)
          + y % (k * k) := by omega
    obtain ⟨e1, e2⟩ := mul_add_inj p3 q3 h1'
    have dx : x / (k * k) % (k * k) / k < k := by
      rw [Nat.div_lt_iff_lt_mul hk]; exact p2
    have dy : y / (k * k) % (k * k) / k < k := by
      rw [Nat.div_lt_iff_lt_mul hk]; exact q2
    rw [Nat.mul_comm k (x / (k * k * (k * k)) / k), Nat.mul_comm k (y / (k * k * (k * k)) / k)] at e1
    obtain ⟨f1, f2⟩ := mul_add_inj dx dy e1
    obtain ⟨g1, g2⟩ := mul_add_inj (Nat.mod_lt _ hk) (Nat.mod_lt _ hk) h2
    have er : x / (k * k * (k * k)) = y / (k * k * (k * k)) := by
      rw [← Nat.div_add_mod (x / (k * k * (k * k))) k,
        ← Nat.div_add_mod (y / (k * k * (k * k))) k, f1, g1]
    have ec : x / (k * k) % (k * k) = y / (k * k) % (k * k) := by
      rw [← Nat.div_add_mod (x / (k * k) % (k * k)) k,
        ← Nat.div_add_mod (y / (k * k) % (k * k)) k, f2, g2]
    exact parts_inj er ec e2

/-- The column of a node of the matrix is one of the four columns of its row
id. -/
theorem RowsInv.node_col {b : Board} {css : Nat} {s : Heap} {sh : Shape} {i : Nat}
    (h : RowsInv b css s sh i) {c n : Nat} (hc : c ∈ sh.hs) (hn : n ∈ sh.vs c) :
    s.row_id n < i ∧ ¬ row_skipped b (s.row_id n) ∧
      (c = 2 + num_index b css (s.row_id n) ∨ c = 2 + row_index b css (s.row_id n) ∨
        c = 2 + col_index b css (s.row_id n) ∨ c = 2 + box_index b css (s.row_id n)) := by
  obtain ⟨n0, r1, r2, r3, r4⟩ := h.row c hc n hn
  have hp := h.wf.vs_par c hc n hn
  rw [r1.row_id_eq r4]
  refine ⟨r2, r3, ?_⟩
  rcases r4 with rfl | rfl | rfl | rfl
  · left; rw [← hp, r1.par0]
  · right; left; rw [← hp, r1.par1]
  · right; right; left; rw [← hp, r1.par2]
  · right; right; right; rw [← hp, r1.par3]

/-- Every column of the matrix of a board holds at most `N` nodes. -/
theorem matrix_count_le {b : Board} {k : Nat} (hb : IsBoard b k) {c : Nat}
    (hc : c ∈ (matrix_shape b).hs) : ((matrix_shape b).vs c).length ≤ k * k := by
  have hinv := (matrix_create_inv hb).1
  have hk := hb.k_pos
  have hN := hb.line_pos
  have hnd := hinv.wf.vs_nodup c hc
  have hcol := fun n (hn : n ∈ (matrix_shape b).vs c) => hinv.node_col hc hn
  have hidx := fun n hn => index_ranges hb (hcol n hn).1
  have hinj := fun n hn m hm => index_inj hb (hcol n hn).1 (hcol m hm).1
  have hparts := fun n hn => row_parts hN (hcol n hn).1
  by_cases q0 : c < 2 + k * k * (k * k)
  · refine length_le_of_inj (fun n => (matrix_create b).heap.row_id n % (k * k)) hnd ?_ ?_
    · intro n _; exact Nat.mod_lt _ hN
    · intro n hn m hm he
      obtain ⟨i1, i2, i3, i4, i5, i6, i7⟩ := hidx n hn
      obtain ⟨j1, j2, j3, j4, j5, j6, j7⟩ := hidx m hm
      have e1 : c = 2 + num_index b (k * k * (k * k)) ((matrix_create b).heap.row_id n) := by
        rcases (hcol n hn).2.2 with h | h | h | h <;> omega
      have e2 : c = 2 + num_index b (k * k * (k * k)) ((matrix_create b).heap.row_id m) := by
        rcases (hcol m hm).2.2 with h | h | h | h <;> omega
      exact hinv.uniq c hc n hn m hm ((hinj n hn m hm).1 (by omega) he)
  · by_cases q1 : c < 2 + 2 * (k * k * (k * k))
    · refine length_le_of_inj
        (fun n => ((matrix_create b).heap.row_id n / (k * k)) % (k * k)) hnd ?_ ?_
      · intro n _; exact Nat.mod_lt _ hN
      · intro n hn m hm he
        obtain ⟨i1, i2, i3, i4, i5, i6, i7⟩ := hidx n hn
        obtain ⟨j1, j2, j3, j4, j5, j6, j7⟩ := hidx m hm
        have e1 : c = 2 + row_index b (k * k * (k * k)) ((matrix_create b).heap.row_id n) := by
          rcases (hcol n hn).2.2 with h | h | h | h <;> omega
        have e2 : c = 2 + row_index b (k * k * (k * k)) ((matrix_create b).heap.row_id m) := by
          rcases (hcol m hm).2.2 with h | h | h | h <;> omega
        exact hinv.uniq c hc n hn m hm ((hinj n hn m hm).2.1 (by omega) he)
    · by_cases q2 : c < 2 + 3 * (k * k * (k * k))
      · refine length_le_of_inj
          (fun n => (matrix_create b).heap.row_id n / (k * k * (k * k))) hnd ?_ ?_
        · intro n hn; exact (hparts n hn).1
        · intro n hn m hm he
          obtain ⟨i1, i2, i3, i4, i5, i6, i7⟩ := hidx n hn
          obtain ⟨j1, j2, j3, j4, j5, j6, j7⟩ := hidx m hm
          have e1 : c = 2 + col_index b (k * k * (k * k)) ((matrix_create b).heap.row_id n) := by
            rcases (hcol n hn).2.2 with h | h | h | h <;> omega
          have e2 : c = 2 + col_index b (k * k * (k * k)) ((matrix_create b).heap.row_id m) := by
            rcases (hcol m hm).2.2 with h | h | h | h <;> omega
          exact hinv.uniq c hc n hn m hm ((hinj n hn m hm).2.2.1 (by omega) he)
      · refine length_le_of_inj
          (fun n => ((matrix_create b).heap.row_id n / (k * k * (k * k))) % k * k
            + (((matrix_create b).heap.row_id n / (k * k)) % (k * k)) % k) hnd ?_ ?_
        · intro n _
          exact mul_add_lt (Nat.mod_lt _ hk) (Nat.mod_lt _ hk)
        · intro n hn m hm he
          obtain ⟨i1, i2, i3, i4, i5, i6, i7⟩ := hidx n hn
          obtain ⟨j1, j2, j3, j4, j5, j6, j7⟩ := hidx m hm
          have e1 : c = 2 + box_index b (k * k * (k * k)) ((matrix_create b).heap.row_id n) := by
            rcases (hcol n hn).2.2 with h | h | h | h <;> omega
          have e2 : c = 2 + box_index b (k * k * (k * k)) ((matrix_create b).heap.row_id m) := by
            rcases (hcol m hm).2.2 with h | h | h | h <;> omega
          exact hinv.uniq c hc n hn m hm ((hinj n hn m hm).2.2.2 (by omega) he)

/-! ## The search on the matrix of a board of declared size -/

/-- With every count below the initial `min_count`, a column is chosen, and the
search keeps the counts below it. -/
theorem closed_smallCols : Closed SmallCols := by
  constructor
  · intro sh _ hp hs h0
    unfold chooseA at h0
    have := (chooseL_eq_best (fun c => (sh.vs c).length) sh.hs 0 MIN_COUNT_INIT hp.1).1 h0
    obtain ⟨c, hc⟩ := List.exists_mem_of_ne_nil _ hs
    have h1 := this c hc
    have h2 := hp.2 c hc
    omega
  · intro sh hw hp hs r hr
    have h0 : chooseA sh ≠ 0 := by
      intro h0
      unfold chooseA at h0
      have := (chooseL_eq_best (fun c => (sh.vs c).length) sh.hs 0 MIN_COUNT_INIT hp.1).1 h0
      obtain ⟨c, hc⟩ := List.exists_mem_of_ne_nil _ hs
      have h1 := this c hc
      have h2 := hp.2 c hc
      omega
    obtain ⟨hwf, -, -, i4, i5⟩ := selectA_spec hw (chooseA_mem h0) hr
    refine ⟨fun h => hp.1 ((i4 0).1 h).1, fun c hc => ?_⟩
    have hc' := ((i4 c).1 hc).1
    have hsub : (selectA (coverA sh (chooseA sh)) r).vs c ⊆ sh.vs c :=
      fun x hx => ((i5 c hc x).1 hx).1
    have := ((hwf.vs_nodup c hc).subperm hsub).length_le
    have := hp.2 c hc'
    omega

/-- The matrix of a board with `k ≤ 7` has small columns. -/
theorem matrix_smallCols {b : Board} {k : Nat} (hb : IsBoard b k)
    (hk : k ≤ BOARD_MAX_CELL_SIZE) : SmallCols (matrix_shape b) := by
  have hinv := (matrix_create_inv hb).1
  refine ⟨fun h => ?_, fun c hc => ?_⟩
  · rw [hinv.hs, List.mem_range'_1] at h; omega
  · have h1 := matrix_count_le hb hc
    have h2 : k * k ≤ 7 * 7 := Nat.mul_le_mul hk hk
    have e : MIN_COUNT_INIT = 511 := by decide
    rw [e]; omega

/-- On the matrix of a board with `k ≤ 7` the search returns under every
budget that fits the matrix, with the verdict and solution of the search on
shapes. -/
theorem board_solve_ok {b : Board} {k : Nat} (hb : IsBoard b k)
    (hk : k ≤ BOARD_MAX_CELL_SIZE) {F : Nat} (hF : (matrix_shape b).bound ≤ F) :
    ∃ v a1, solveA F (matrix_shape b) (false, []) = .ok (v, a1) ∧
      dlx_solve F (matrix_create b) = .ok (v, State.mk' (matrix_create b).heap 1 a1) := by
  have hw := matrix_create_wf hb
  have hlt : (matrix_shape b).hs.length < F :=
    lt_of_lt_of_le (matrix_shape b).length_lt_bound hF
  obtain ⟨v, a1, h⟩ := solveA_ok closed_smallCols F (matrix_shape b) (false, []) hw.1
    (matrix_smallCols hb hk) hlt
  refine ⟨v, a1, h, ?_⟩
  rw [dlx_solve_eq hw ((matrix_shape b).fits_bound hF)]
  show (match solveA F (matrix_shape b) (false, []) with
    | .ok (b', a1) => Except.ok (b', State.mk' (matrix_create b).heap 1 a1)
    | .error e => .error e) = _
  rw [h]

/-- C3: completeness of the search.  For a board with `1 ≤ k ≤ 7`, under
every budget from some budget on, `dlx_solve` on the matrix built by
`matrix_create` returns, and its verdict is false exactly when the matrix has
no exact cover. -/
theorem dlx_solve_complete (b : Board) (k : Nat) (hb : IsBoard b k)
    (hk : k ≤ BOARD_MAX_CELL_SIZE) :
    ∃ F0, ∀ F, F0 ≤ F → ∃ v st', dlx_solve F (matrix_create b) = .ok (v, st') ∧
      (v = false ↔ ¬ ∃ q, ExactCover (matrix_shape b) q) := by
  refine ⟨(matrix_shape b).bound, fun F hF => ?_⟩
  obtain ⟨v, a1, h1, h2⟩ := board_solve_ok hb hk hF
  refine ⟨v, _, h2, ?_⟩
  rcases solveA_unsolved F _ [] v a1 (matrix_create_wf hb).1 h1 with ⟨rfl, -, hno⟩ | ⟨rfl, p, -, hp⟩
  · exact ⟨fun _ => hno, fun _ => rfl⟩
  · exact ⟨fun h => (by cases h), fun h => absurd ⟨p, hp⟩ h⟩

/-- Witness for C3: the board with one cell. -/
theorem dlx_solve_complete_witness :
    IsBoard unitBoard 1 ∧ 1 ≤ BOARD_MAX_CELL_SIZE ∧
      ∃ F0, ∀ F, F0 ≤ F → ∃ v st', dlx_solve F (matrix_create unitBoard) = .ok (v, st') ∧
        (v = false ↔ ¬ ∃ q, ExactCover (matrix_shape unitBoard) q) :=
  ⟨unitBoard_isBoard, by decide, dlx_solve_complete unitBoard 1 unitBoard_isBoard (by decide)⟩

/-- C19: the selected column is never missing during a Sudoku search.  For a
board with `1 ≤ k ≤ 7`, every column of the matrix built by `matrix_create`
has a count of at most `N`, which is below 511, the initial `min_count`; and
under every budget from some budget on the whole run of `dlx_solve` returns:
no call of `choose_min_length_column` on a non-empty header list has returned
`NULL`, and `cover_column` has not been called on `NULL`. -/
theorem choose_never_null (b : Board) (k : Nat) (hb : IsBoard b k)
    (hk : k ≤ BOARD_MAX_CELL_SIZE) :
    (∀ c, 2 ≤ c → c < 4 * (k * k * (k * k)) + 2 →
      (matrix_create b).heap.count c ≤ k * k ∧ k * k < MIN_COUNT_INIT) ∧
    (∃ F0, ∀ F, F0 ≤ F → choose_min_length_column F (matrix_create b).heap 1 ≠ .ok 0 ∧
      ∃ res, dlx_solve F (matrix_create b) = .ok res) := by
  have hw := matrix_create_wf hb
  have hsmall := matrix_smallCols hb hk
  refine ⟨fun c h2 hc => ?_, (matrix_shape b).bound, fun F hF => ⟨?_, ?_⟩⟩
  · have hmem := (matrix_headers hb c).2 ⟨h2, hc⟩
    rw [hw.2.cnt c hmem]
    have h2 : k * k ≤ 7 * 7 := Nat.mul_le_mul hk hk
    have e : MIN_COUNT_INIT = 511 := by decide
    exact ⟨matrix_count_le hb hmem, by rw [e]; omega⟩
  · have hroot : (matrix_create b).root = 1 := rfl
    have := choose_eq hw.2 ((matrix_shape b).fits_bound hF)
    rw [hroot] at this
    rw [this]
    intro h
    injection h with h
    have hne : (matrix_shape b).hs ≠ [] := by
      rw [(matrix_create_inv hb).1.hs]
      have hpos := Nat.mul_pos hb.line_pos hb.line_pos
      intro h0
      have := congrArg List.length h0
      rw [List.length_range', List.length_nil] at this
      omega
    exact closed_smallCols.choose_ne _ hw.1 hsmall hne h
  · obtain ⟨v, a1, -, h2⟩ := board_solve_ok hb hk hF
    exact ⟨_, h2⟩

/-- Witness for C19: the board with one cell. -/
theorem choose_never_null_witness :
    IsBoard unitBoard 1 ∧ 1 ≤ BOARD_MAX_CELL_SIZE ∧
      ∃ F0, ∀ F, F0 ≤ F →
        choose_min_length_column F (matrix_create unitBoard).heap 1 ≠ .ok 0 ∧
        ∃ res, dlx_solve F (matrix_create unitBoard) = .ok res :=
  ⟨unitBoard_isBoard, by decide,
    (choose_never_null unitBoard 1 unitBoard_isBoard (by decide)).2⟩

/-! ## The logged search is the search -/

/-- Two loops of which one carries more state run alike. -/
theorem for_nodes_erase {σ τ : Type} (π : τ → σ) {stop : Nat} {next : σ → Nat → Nat}
    {next' : τ → Nat → Nat} {body : σ → Nat → Except Err σ} {body' : τ → Nat → Except Err τ}
    (hn : ∀ t x, next' t x = next (π t) x)
    (hb : ∀ t x, (body' t x).map π = body (π t) x) :
    ∀ (f x : Nat) (t : τ),
      (for_nodes stop next' body' f x t).map π = for_nodes stop next body f x (π t)
  | 0, _, _ => rfl
  | f + 1, x, t => by
    unfold for_nodes
    by_cases hx : x = stop
    · rw [if_pos hx, if_pos hx]; rfl
    · rw [if_neg hx, if_neg hx]
      have := hb t x
      cases h1 : body' t x with
      | error e =>
        rw [h1] at this
        rw [← this]; rfl
      | ok t1 =>
        rw [h1] at this
        rw [← this]
        show (for_nodes stop next' body' f (next' t1 x) t1).map π = _
        rw [hn]
        exact for_nodes_erase π hn hb f _ t1

theorem cover_row_log_erase (F : Nat) (s : Heap) (row : Nat) (log : List Ev) :
    (cover_row_log F s row log).map Prod.fst = cover_row F s row := by
  unfold cover_row_log cover_row
  refine @for_nodes_erase Heap (Heap × List Ev) Prod.fst row (fun s node => s.right node) _
    (fun s node => cover_column F s (s.parent node)) _ (fun _ _ => rfl) ?_ F _ (s, log)
  intro t x
  cases h : cover_column F t.1 (t.1.parent x) <;> simp only [h, Except.map]

theorem solve_row_log_erase {rec' : State × List Ev → Except Err (Bool × State × List Ev)}
    {rec : State → Except Err (Bool × State)}
    (hrec : ∀ q, (rec' q).map (fun r => (r.1, r.2.1)) = rec q.1) (F : Nat)
    (p : State × List Ev) (row : Nat) :
    (solve_row_log rec' F p row).map Prod.fst = solve_row rec F p.1 row := by
  unfold solve_row_log solve_row
  dsimp only
  have h1 := cover_row_log_erase F (push_row p.1 row).heap row p.2
  cases hc : cover_row_log F (push_row p.1 row).heap row p.2 with
  | error e =>
    rw [hc] at h1
    rw [← h1]; rfl
  | ok r =>
    obtain ⟨h2, log2⟩ := r
    rw [hc] at h1
    rw [← h1]
    simp only [Except.map]
    have h3 := hrec ({ push_row p.1 row with heap := h2 }, log2)
    cases hr : rec' ({ push_row p.1 row with heap := h2 }, log2) with
    | error e =>
      rw [hr] at h3
      simp only [Except.map] at h3
      rw [← h3]
    | ok r3 =>
      obtain ⟨b, st3, log3⟩ := r3
      rw [hr] at h3
      simp only [Except.map] at h3
      rw [← h3]
      dsimp only
      cases hp : pop_row (if b = true then { st3 with solved := true } else st3) with
      | error e => rfl
      | ok st5 =>
        dsimp only
        cases hu : uncover_row F st5.heap row <;> rfl

/-- Forgetting the log of the logged search gives the search. -/
theorem dlx_solve_impl_log_erase (F : Nat) : ∀ (d : Nat) (p : State × List Ev),
    (dlx_solve_impl_log F d p).map (fun r => (r.1, r.2.1)) = dlx_solve_impl F d p.1
  | 0, _ => rfl
  | d + 1, p => by
    unfold dlx_solve_impl_log dlx_solve_impl
    simp only []
    by_cases hs : p.1.heap.right p.1.root = p.1.root
    · rw [if_pos hs, if_pos hs]; rfl
    · rw [if_neg hs, if_neg hs]
      cases hch : choose_min_length_column F p.1.heap p.1.root with
      | error e => rfl
      | ok col =>
        simp only []
        by_cases h0 : col = 0
        · rw [if_pos h0, if_pos h0]; rfl
        · rw [if_neg h0, if_neg h0]
          cases hcv : cover_column F p.1.heap col with
          | error e => rfl
          | ok h1 =>
            simp only []
            have hloop := @for_nodes_erase State (State × List Ev) Prod.fst col
              (fun st2 row => st2.heap.down row)
              (fun (q : State × List Ev) row => q.1.heap.down row)
              (solve_row (fun st2 => dlx_solve_impl F d st2) F)
              (solve_row_log (fun q => dlx_solve_impl_log F d q) F)
              (fun _ _ => rfl)
              (fun t x => solve_row_log_erase (fun q => dlx_solve_impl_log_erase F d q) F t x)
              F (h1.down col) ({ p.1 with heap := h1 }, p.2 ++ [Ev.call] ++ [Ev.cover col])
            cases hl : for_nodes col (fun (q : State × List Ev) row => q.1.heap.down row)
                (solve_row_log (fun q => dlx_solve_impl_log F d q) F) F (h1.down col)
                ({ p.1 with heap := h1 }, p.2 ++ [Ev.call] ++ [Ev.cover col]) with
            | error e =>
              rw [hl] at hloop
              simp only [Except.map] at hloop
              rw [← hloop]; rfl
            | ok r =>
              obtain ⟨st3, log3⟩ := r
              rw [hl] at hloop
              simp only [Except.map] at hloop
              rw [← hloop]
              simp only []
              cases hu : uncover_column F st3.heap col <;> rfl

/-! ## After the first solution -/

/-- C17 fails on the code: on the matrix with one column and two rows the
first row gives a solution (the first `found` of the log), and the row loop
then goes on to the second row and makes another recursive call. -/
theorem search_goes_on :
    WellFormed (columnState 2) (columnShape 2) ∧
      dlx_solve_log 4 (columnState 2)
        = .ok [Ev.call, Ev.cover 2, Ev.call, Ev.found, Ev.call, Ev.found] ∧
      ∃ l1 l2, dlx_solve_log 4 (columnState 2) = .ok (l1 ++ Ev.found :: l2) ∧ Ev.call ∈ l2 :=
  ⟨columnState_wf 2 (by norm_num [SIZE_MOD]), rfl,
    [Ev.call, Ev.cover 2, Ev.call], [Ev.call, Ev.found], rfl, by decide⟩

/-- C17, amended: once success has been reported the flag `matrix->solved` is
set, and every call of `dlx_solve_impl` made with the flag set (the calls for
the remaining rows, which the code still makes) returns true, leaves the flag
set and leaves the solution array as it is. -/
theorem solved_stays (F d : Nat) (st st' : State) (sh : Shape) (v : Bool)
    (hw : WellFormed st sh) (hs : st.solved = true)
    (h : dlx_solve_impl F d st = .ok (v, st')) :
    v = true ∧ st'.solved = true ∧ st'.solution = st.solution ∧ st'.heap = st.heap := by
  have h1 := dlx_solve_impl_mono (Nat.le_max_left F sh.bound) d d st _ (le_refl d) h
  have e : st = State.mk' st.heap st.root (st.solved, st.solution) := rfl
  rw [e, dlx_solve_impl_eq d st.heap sh _ hw.1 hw.2
    (sh.fits_bound (Nat.le_max_right F sh.bound)), hs] at h1
  cases h2 : solveA d sh (true, st.solution) with
  | error e => rw [h2] at h1; cases h1
  | ok r =>
    obtain ⟨v', a1⟩ := r
    rw [h2] at h1
    obtain ⟨rfl, rfl⟩ := solveA_solved d sh _ _ _ h2
    simp only [Except.ok.injEq, Prod.mk.injEq] at h1
    obtain ⟨rfl, rfl⟩ := h1
    exact ⟨rfl, rfl, rfl, rfl⟩

/-- Witness for C17: a call with the flag set on the matrix with one column
and one row. -/
theorem solved_stays_witness :
    WellFormed (State.mk' (columnHeap 1) 1 (true, [7])) (columnShape 1) ∧
      dlx_solve_impl 3 3 (State.mk' (columnHeap 1) 1 (true, [7]))
        = .ok (true, State.mk' (columnHeap 1) 1 (true, [7])) ∧
      (State.mk' (columnHeap 1) 1 (true, [7])).solution = [7] := by
  have hw : WellFormed (State.mk' (columnHeap 1) 1 (true, [7])) (columnShape 1) :=
    columnState_wf 1 (by norm_num [SIZE_MOD])
  have hrun : dlx_solve_impl 3 3 (State.mk' (columnHeap 1) 1 (true, [7]))
      = .ok (true, State.mk' (columnHeap 1) 1 (true, [7])) := by
    have hr : Rep (columnHeap 1) 1 (columnShape 1) := hw.2
    have := @dlx_solve_impl_eq 3 1 3 (columnHeap 1) (columnShape 1) (true, [7]) hw.1 hr
      (columnShape_fits 1)
    rw [this]
    rfl
  exact ⟨hw, hrun, (solved_stays 3 3 _ _ _ _ hw rfl hrun).2.2.1⟩

/-! ## The search as written and the search with early exit -/

/-- The row loop as written and the row loop with early exit give the same
verdict and solution. -/
theorem foldRows_early {d : Nat} {sh1 : Shape} {rows0 : List Nat}
    (hwf : ∀ r ∈ rows0, (selectA sh1 r).WF)
    (hrec : ∀ r ∈ rows0, ∀ sol v a1, solveA d (selectA sh1 r) (false, sol) = .ok (v, a1) →
      searchEarly d (selectA sh1 r) sol = .ok (if v then some a1.2 else none)) :
    ∀ (rows : List Nat) (sol : List Nat) (a3 : Acc), (∀ r ∈ rows, r ∈ rows0) →
      foldRows (solve_rowA (solveA d) sh1) rows (false, sol) = .ok a3 →
      searchEarlyRows (searchEarly d) sh1 sol rows = .ok (if a3.1 then some a3.2 else none)
  | [], sol, a3, _, h => by
    simp only [foldRows, Except.ok.injEq] at h
    subst h; rfl
  | r :: rows, sol, a3, hsub, h => by
    have hr0 := hsub r (List.mem_cons_self _ _)
    unfold foldRows at h
    unfold searchEarlyRows
    cases hb : solve_rowA (solveA d) sh1 (false, sol) r with
    | error e => rw [hb] at h; cases h
    | ok a1 =>
      rw [hb] at h
      unfold solve_rowA at hb
      have hpush : pushA (false, sol) r = (false, sol ++ [r]) := rfl
      rw [hpush] at hb
      cases hrc : solveA d (selectA sh1 r) (false, sol ++ [r]) with
      | error e => rw [hrc] at hb; cases hb
      | ok res =>
        obtain ⟨v, a2⟩ := res
        rw [hrc] at hb
        rw [hrec r hr0 _ _ _ hrc]
        rcases solveA_unsolved d _ _ _ _ (hwf r hr0) hrc with ⟨rfl, rfl, -⟩ | ⟨rfl, -⟩
        · simp only [popA_push, Bool.false_eq_true, if_false, Except.ok.injEq] at hb
          subst hb
          exact foldRows_early hwf hrec rows sol a3
            (fun x hx => hsub x (List.mem_cons_of_mem _ hx)) h
        · simp only [if_true, popA, Except.ok.injEq] at hb
          subst hb
          have := foldRows_solved (solveA_solved d) rows a2.2 a3 h
          subst this
          rfl

/-- The search as written and the search with early exit give the same verdict
and solution, whenever the search as written returns. -/
theorem solveA_early : ∀ (d : Nat) (sh : Shape) (sol : List Nat) (v : Bool) (a1 : Acc),
    sh.WF → solveA d sh (false, sol) = .ok (v, a1) →
    searchEarly d sh sol = .ok (if v then some a1.2 else none)
  | 0, _, _, _, _, _, h => by cases h
  | d + 1, sh, sol, v, a1, hw, h => by
    unfold solveA at h
    unfold searchEarly
    by_cases hs : sh.hs = []
    · rw [if_pos hs] at h ⊢
      simp only [Except.ok.injEq, Prod.mk.injEq] at h
      obtain ⟨rfl, rfl⟩ := h
      rfl
    · rw [if_neg hs] at h ⊢
      by_cases h0 : chooseA sh = 0
      · rw [if_pos h0] at h; cases h
      · rw [if_neg h0] at h ⊢
        have hc := chooseA_mem h0
        cases hl : foldRows (solve_rowA (solveA d) (coverA sh (chooseA sh)))
            (sh.vs (chooseA sh)) (false, sol) with
        | error e => rw [hl] at h; cases h
        | ok a3 =>
          rw [hl] at h
          simp only [Except.ok.injEq, Prod.mk.injEq] at h
          obtain ⟨rfl, rfl⟩ := h
          exact foldRows_early (fun r hr => (selectA_spec hw hc hr).1)
            (fun r hr sol v a1 hh => solveA_early d _ sol v a1 (selectA_spec hw hc hr).1 hh)
            _ sol a3 (fun r hr => hr) hl

/-- The run of the search with early exit on the matrix with one column and
one row. -/
theorem searchEarly_column_one : searchEarly 3 (columnShape 1) [] = .ok (some [3]) := rfl

/-- C20: equivalence with an early-exit search.  When `dlx_solve`, called on a
well-formed matrix with the flag clear, returns, then the search with early
exit, under every budget from some budget on, returns the same verdict and, for
verdict true, the same sequence of selected nodes (hence of row ids): the
first exact cover met in depth-first order; and that sequence, from the
position where the solution array stood at the call, is an exact cover. -/
theorem early_exit_equiv (F : Nat) (st st' : State) (sh : Shape) (v : Bool)
    (hw : WellFormed st sh) (hs : st.solved = false) (h : dlx_solve F st = .ok (v, st')) :
    (∃ F0, ∀ F', F0 ≤ F' →
      searchEarly F' sh st.solution = .ok (if v then some st'.solution else none)) ∧
    (v = true → ∃ p, st'.solution = st.solution ++ p ∧ ExactCover sh p) ∧
    st'.solution.map st'.heap.row_id = st'.solution.map st.heap.row_id := by
  have key : ∀ F', max F sh.bound ≤ F' → ∃ a1, solveA F' sh (false, st.solution) = .ok (v, a1) ∧
      st' = State.mk' st.heap st.root a1 := by
    intro F' hF'
    have h1 := dlx_solve_mono (le_trans (Nat.le_max_left F sh.bound) hF') st _ h
    rw [dlx_solve_eq hw (sh.fits_bound (le_trans (Nat.le_max_right F sh.bound) hF')), hs] at h1
    cases h2 : solveA F' sh (false, st.solution) with
    | error e => rw [h2] at h1; cases h1
    | ok r =>
      obtain ⟨v', a1⟩ := r
      rw [h2] at h1
      simp only [Except.ok.injEq, Prod.mk.injEq] at h1
      obtain ⟨rfl, rfl⟩ := h1
      exact ⟨a1, rfl, rfl⟩
  refine ⟨⟨max F sh.bound, fun F' hF' => ?_⟩, ?_, ?_⟩
  · obtain ⟨a1, h1, rfl⟩ := key F' hF'
    exact solveA_early F' sh _ v a1 hw.1 h1
  · rintro rfl
    obtain ⟨a1, h1, rfl⟩ := key _ (le_refl _)
    rcases solveA_unsolved _ sh _ _ a1 hw.1 h1 with ⟨hb, -⟩ | ⟨-, p, hp1, hp2⟩
    · cases hb
    · exact ⟨p, hp1, hp2⟩
  · obtain ⟨a1, -, rfl⟩ := key _ (le_refl _)
    rfl

/-- Witness for C20: the matrix with one column and one row. -/
theorem early_exit_equiv_witness :
    WellFormed (columnState 1) (columnShape 1) ∧
      dlx_solve 3 (columnState 1) = .ok (true, State.mk' (columnHeap 1) 1 (true, [3])) ∧
      ∃ F0, ∀ F', F0 ≤ F' → searchEarly F' (columnShape 1) [] = .ok (some [3]) :=
  ⟨columnState_wf 1 (by norm_num [SIZE_MOD]), columnState_one_run,
    (early_exit_equiv 3 _ _ _ _ (columnState_wf 1 (by norm_num [SIZE_MOD])) rfl
      columnState_one_run).1⟩

/-! ## Exact covers of the matrix of a board -/

/-- The columns met by a node of a row of the matrix are the four columns of
its row id. -/
theorem IsRow.rowCols_iff {b : Board} {css : Nat} {s : Heap} {sh : Shape} {n0 n : Nat}
    (h : IsRow b css s sh n0) (hn : n = n0 ∨ n = n0 + 1 ∨ n = n0 + 2 ∨ n = n0 + 3) (e : Nat) :
    e ∈ sh.rowCols n ↔ e ∈ rowColsOf b css (s.row_id n0) := by
  unfold Shape.rowCols rowColsOf
  rcases hn with rfl | rfl | rfl | rfl
  · rw [h.rs0]
    simp only [List.map_cons, List.map_nil, h.par0, h.par1, h.par2, h.par3, List.mem_cons,
      List.mem_singleton, List.not_mem_nil, or_false]
  · rw [h.rs1]
    simp only [List.map_cons, List.map_nil, h.par0, h.par1, h.par2, h.par3, List.mem_cons,
      List.mem_singleton, List.not_mem_nil, or_false]
    tauto
  · rw [h.rs2]
    simp only [List.map_cons, List.map_nil, h.par0, h.par1, h.par2, h.par3, List.mem_cons,
      List.mem_singleton, List.not_mem_nil, or_false]
    tauto
  · rw [h.rs3]
    simp only [List.map_cons, List.map_nil, h.par0, h.par1, h.par2, h.par3, List.mem_cons,
      List.mem_singleton, List.not_mem_nil, or_false]
    tauto

/-- The columns met by a linked node of the matrix are the four columns of its
row id. -/
theorem RowsInv.node_rowCols {b : Board} {css : Nat} {s : Heap} {sh : Shape} {i : Nat}
    (h : RowsInv b css s sh i) {c n : Nat} (hc : c ∈ sh.hs) (hn : n ∈ sh.vs c) (e : Nat) :
    e ∈ sh.rowCols n ↔ e ∈ rowColsOf b css (s.row_id n) := by
  obtain ⟨n0, r1, -, -, r4⟩ := h.row c hc n hn
  rw [r1.row_id_eq r4]
  exact r1.rowCols_iff r4 e

/-- In an exact cover every column is met by a selected row. -/
theorem cover_has_row {b : Board} {k : Nat} (hb : IsBoard b k) {q : List Nat}
    (hq : ExactCover (matrix_shape b) q) {C : Nat} (hC : C ∈ (matrix_shape b).hs) :
    ∃ n ∈ q, C ∈ rowColsOf b (k * k * (k * k)) ((matrix_create b).heap.row_id n) ∧
      (matrix_create b).heap.row_id n < k * k * (k * k * (k * k)) ∧
      ¬ row_skipped b ((matrix_create b).heap.row_id n) := by
  have hinv := (matrix_create_inv hb).1
  obtain ⟨n, hn, hcn⟩ := filter_length_one_exists (hq.2 C hC)
  have hcn' : C ∈ (matrix_shape b).rowCols n := by simpa using hcn
  obtain ⟨h1, h2⟩ := hq.1 n hn
  obtain ⟨r1, r2, -⟩ := hinv.node_col h1 h2
  exact ⟨n, hn, (hinv.node_rowCols h1 h2 C).1 hcn', r1, r2⟩

/-- In an exact cover two selected rows that meet the same column are the same
selected node. -/
theorem cover_unique {b : Board} {k : Nat} (hb : IsBoard b k) {q : List Nat}
    (hq : ExactCover (matrix_shape b) q) {C n m : Nat} (hC : C ∈ (matrix_shape b).hs)
    (hn : n ∈ q) (hm : m ∈ q)
    (h1 : C ∈ rowColsOf b (k * k * (k * k)) ((matrix_create b).heap.row_id n))
    (h2 : C ∈ rowColsOf b (k * k * (k * k)) ((matrix_create b).heap.row_id m)) : n = m := by
  have hinv := (matrix_create_inv hb).1
  obtain ⟨n1, n2⟩ := hq.1 n hn
  obtain ⟨m1, m2⟩ := hq.1 m hm
  refine filter_length_one_unique (hq.2 C hC) hn hm ?_ ?_
  · simpa using (hinv.node_rowCols n1 n2 C).2 h1
  · simpa using (hinv.node_rowCols m1 m2 C).2 h2

/-- A row id below `N * N * N` is the row id of its parts. -/
theorem row_of_split {N row : Nat} :
    row = row_of N (row / (N * N)) ((row / N) % N) (row % N + 1) := by
  unfold row_of
  have h1 := Nat.div_add_mod row N
  have h2 := Nat.div_add_mod (row / N) N
  rw [Nat.div_div_eq_div_mul] at h2
  rw [Nat.add_sub_cancel]
  calc row = N * (row / N) + row % N := h1.symm
    _ = N * (N * (row / (N * N)) + row / N % N) + row % N := by rw [h2]
    _ = row / (N * N) * N * N + row / N % N * N + row % N := by ring

/-- The row ids with a given cell constraint. -/
theorem num_index_eq {b : Board} {k : Nat} (hb : IsBoard b k) {r c row : Nat}
    (hc : c < k * k) (h : num_index b (k * k * (k * k)) row = r * (k * k) + c) :
    row = row_of (k * k) r c (row % (k * k) + 1) := by
  have hN := hb.line_pos
  simp only [num_index, hb.line_size, Nat.zero_mul, Nat.zero_add] at h
  have e1 : row / (k * k * (k * k)) = r := by
    rw [← Nat.div_div_eq_div_mul, h, Nat.add_comm, Nat.add_mul_div_right _ _ hN,
      Nat.div_eq_of_lt hc, Nat.zero_add]
  have e2 : (row / (k * k)) % (k * k) = c := by
    rw [h, Nat.add_comm, Nat.add_mul_mod_self_right, Nat.mod_eq_of_lt hc]
  have := @row_of_split (k * k) row
  rw [e1, e2] at this
  exact this

/-- A clue forces its row: every exact cover of the matrix of a board selects
the row of every pre-filled cell. -/
theorem cover_has_clue {b : Board} {k : Nat} (hb : IsBoard b k) {q : List Nat}
    (hq : ExactCover (matrix_shape b) q) {r c : Nat} (hr : r < k * k) (hc : c < k * k)
    (hne : board_get b c r ≠ 0) :
    ∃ n ∈ q, (matrix_create b).heap.row_id n = row_of (k * k) r c (board_get b c r) := by
  have hinv := (matrix_create_inv hb).1
  have hlt : r * (k * k) + c < k * k * (k * k) := mul_add_lt hr hc
  have hC : 2 + (r * (k * k) + c) ∈ (matrix_shape b).hs := by
    rw [matrix_headers hb]; omega
  obtain ⟨n, hn, h1, h2, h3⟩ := cover_has_row hb hq hC
  obtain ⟨i1, i2, i3, i4, i5, i6, i7⟩ := index_ranges hb h2
  have hnum : num_index b (k * k * (k * k)) ((matrix_create b).heap.row_id n)
      = r * (k * k) + c := by
    simp only [rowColsOf, List.mem_cons, List.mem_singleton, List.not_mem_nil, or_false] at h1
    omega
  have hrow := num_index_eq hb hc hnum
  refine ⟨n, hn, ?_⟩
  have hoff : (matrix_create b).heap.row_id n % (k * k) < k * k := Nat.mod_lt _ hb.line_pos
  rw [hrow] at h3
  rw [row_skipped_row_of hb hr hc (by omega) (by omega)] at h3
  have : board_get b c r = (matrix_create b).heap.row_id n % (k * k) + 1 := by
    by_contra hd
    exact h3 ⟨hne, hd⟩
  rw [this]; exact hrow

/-! ## Contradictory clues -/

theorem length_le_one_of_eq {l : List Nat} {a : Nat} (hn : l.Nodup) (h : ∀ x ∈ l, x = a) :
    l.length ≤ 1 := by
  have hsub : l ⊆ [a] := fun x hx => List.mem_singleton.2 (h x hx)
  exact (hn.subperm hsub).length_le

/-- With a column of at most one node among the headers, a column is chosen. -/
theorem chooseA_ne_of_small {sh : Shape} (h0 : 0 ∉ sh.hs) {C : Nat} (hC : C ∈ sh.hs)
    (hlen : (sh.vs C).length ≤ 1) : chooseA sh ≠ 0 := by
  intro h
  unfold chooseA at h
  have := (chooseL_eq_best (fun c => (sh.vs c).length) sh.hs 0 MIN_COUNT_INIT h0).1 h C hC
  have e : MIN_COUNT_INIT = 511 := by decide
  rw [e] at this
  have h2 : 511 ≤ (sh.vs C).length := this
  omega

/-- A node of the selected row in a given column. -/
theorem Shape.WF.rowCols_node {sh : Shape} (hw : sh.WF) {c r A : Nat} (hc : c ∈ sh.hs)
    (hr : r ∈ sh.vs c) (hA : A ∈ sh.rowCols r) :
    ∃ y ∈ sh.vs A, y ∈ r :: sh.rs r := by
  obtain ⟨y, hy, rfl⟩ := List.mem_map.1 hA
  exact ⟨y, (hw.row_linked hc hr hy).2, hy⟩

/-- The search keeps a clash: a column is always chosen, and after every
selection of a row one of the two columns is still there with at most its own
node. -/
theorem closed_clash {sh0 : Shape} {A B a b : Nat} (hcl : Clash sh0 A B a b) :
    Closed (ClashInv sh0 A B a b) := by
  constructor
  · intro sh hw hp _
    obtain ⟨-, -, h0, h | h | h⟩ := hp
    · exact chooseA_ne_of_small h0 h.1 (length_le_one_of_eq (hw.vs_nodup A h.1) h.2.2.1)
    · exact chooseA_ne_of_small h0 h.1 (by rw [h.2]; simp)
    · exact chooseA_ne_of_small h0 h.1 (by rw [h.2]; simp)
  · intro sh hw hp hs r hr
    obtain ⟨e1, e2, h0, hcase⟩ := hp
    have hne : chooseA sh ≠ 0 := by
      rcases hcase with h | h | h
      · exact chooseA_ne_of_small h0 h.1 (length_le_one_of_eq (hw.vs_nodup A h.1) h.2.2.1)
      · exact chooseA_ne_of_small h0 h.1 (by rw [h.2]; simp)
      · exact chooseA_ne_of_small h0 h.1 (by rw [h.2]; simp)
    have hc := chooseA_mem hne
    obtain ⟨-, i2, i3, i4, i5⟩ := selectA_spec hw hc hr
    have hrc : ∀ n, sh.rowCols n = sh0.rowCols n := rowCols_congr e1 e2
    refine ⟨i2.trans e1, i3.trans e2, fun h => h0 ((i4 0).1 h).1, ?_⟩
    -- a column without nodes stays
    have hempty : ∀ C, C ∈ sh.hs → sh.vs C = [] →
        C ∈ (selectA (coverA sh (chooseA sh)) r).hs ∧
          (selectA (coverA sh (chooseA sh)) r).vs C = [] := by
      intro C hC hv
      have hCr : C ∉ sh.rowCols r := by
        intro hin
        obtain ⟨y, hy, -⟩ := hw.rowCols_node hc hr hin
        rw [hv] at hy; exact absurd hy (List.not_mem_nil _)
      have hC' := (i4 C).2 ⟨hC, hCr⟩
      refine ⟨hC', List.eq_nil_iff_forall_not_mem.2 fun x hx => ?_⟩
      have := ((i5 C hC' x).1 hx).1
      rw [hv] at this; exact absurd this (List.not_mem_nil _)
    -- selecting the row of one clashing node empties the column of the other
    have hclash : ∀ A' B' a' b', A' ∈ sh.hs → B' ∈ sh.hs → (∀ x ∈ sh.vs A', x = a') →
        (∀ x ∈ sh.vs B', x = b') → B' ∉ sh0.rowCols a' →
        (∃ Z, Z ∈ sh0.rowCols a' ∧ Z ∈ sh0.rowCols b') → A' ∈ sh.rowCols r →
        B' ∈ (selectA (coverA sh (chooseA sh)) r).hs ∧
          (selectA (coverA sh (chooseA sh)) r).vs B' = [] := by
      intro A' B' a' b' hA hB vA vB nA ⟨Z, z1, z2⟩ hin
      obtain ⟨y, hy, hyr⟩ := hw.rowCols_node hc hr hin
      have hya := vA y hy
      subst hya
      have hsame := hw.rowCols_eq hc hr hyr
      have hBr : B' ∉ sh.rowCols r := by
        intro hb
        exact nA (by rw [← hrc]; exact (hsame B').2 hb)
      have hB' := (i4 B').2 ⟨hB, hBr⟩
      refine ⟨hB', List.eq_nil_iff_forall_not_mem.2 fun x hx => ?_⟩
      obtain ⟨hx1, hx2⟩ := (i5 B' hB' x).1 hx
      have hxb := vB x hx1
      subst hxb
      have hZr : Z ∈ sh.rowCols r := (hsame Z).1 (by rw [hrc]; exact z1)
      exact hx2 Z hZr (by rw [hrc]; exact z2)
    rcases hcase with ⟨hA, hB, vA, vB⟩ | ⟨hA, vA⟩ | ⟨hB, vB⟩
    · by_cases hinA : A ∈ sh.rowCols r
      · exact Or.inr (Or.inr (hclash A B a b hA hB vA vB hcl.nA hcl.share hinA))
      · by_cases hinB : B ∈ sh.rowCols r
        · obtain ⟨Z, z1, z2⟩ := hcl.share
          exact Or.inr (Or.inl (hclash B A b a hB hA vB vA hcl.nB ⟨Z, z2, z1⟩ hinB))
        · have hA' := (i4 A).2 ⟨hA, hinA⟩
          have hB' := (i4 B).2 ⟨hB, hinB⟩
          exact Or.inl ⟨hA', hB', fun x hx => vA x ((i5 A hA' x).1 hx).1,
            fun x hx => vB x ((i5 B hB' x).1 hx).1⟩
    · exact Or.inr (Or.inl (hempty A hA vA))
    · exact Or.inr (Or.inr (hempty B hB vB))

/-- The column of a pre-filled cell holds the node of the row of its clue and no
other node. -/
theorem clue_column {b : Board} {k : Nat} (hb : IsBoard b k) {r c : Nat} (hr : r < k * k)
    (hc : c < k * k) (hne : board_get b c r ≠ 0) :
    2 + (r * (k * k) + c) ∈ (matrix_shape b).hs ∧
    ∃ a, IsRow b (k * k * (k * k)) (matrix_create b).heap (matrix_shape b) a ∧
      (matrix_create b).heap.row_id a = row_of (k * k) r c (board_get b c r) ∧
      (matrix_shape b).par a = 2 + (r * (k * k) + c) ∧
      ∀ x ∈ (matrix_shape b).vs (2 + (r * (k * k) + c)), x = a := by
  have hinv := (matrix_create_inv hb).1
  have hlt : r * (k * k) + c < k * k * (k * k) := mul_add_lt hr hc
  have hA : 2 + (r * (k * k) + c) ∈ (matrix_shape b).hs := by
    rw [matrix_headers hb]; omega
  have hd1 : 1 ≤ board_get b c r := by omega
  have hd2 := hb.board_get_le c r
  have hrow_lt := row_of_lt hr hc hd1 hd2
  have hns : ¬ row_skipped b (row_of (k * k) r c (board_get b c r)) := by
    rw [row_skipped_row_of hb hr hc hd1 hd2]; tauto
  obtain ⟨a, ha, hid⟩ := hinv.has _ hrow_lt hns
  have hpar : (matrix_shape b).par a = 2 + (r * (k * k) + c) := by
    rw [ha.par0, hid, (index_row_of hb r hc hd1 hd2).1]
  refine ⟨hA, a, ha, hid, hpar, fun x hx => ?_⟩
  obtain ⟨h1, h2, h3⟩ := hinv.node_col hA hx
  obtain ⟨i1, i2, i3, i4, i5, i6, i7⟩ := index_ranges hb h1
  have hnum : num_index b (k * k * (k * k)) ((matrix_create b).heap.row_id x)
      = r * (k * k) + c := by omega
  have hrow := num_index_eq hb hc hnum
  have hoff : (matrix_create b).heap.row_id x % (k * k) < k * k := Nat.mod_lt _ hb.line_pos
  rw [hrow, row_skipped_row_of hb hr hc (by omega) (by omega)] at h2
  have hval : board_get b c r = (matrix_create b).heap.row_id x % (k * k) + 1 := by
    by_contra hd
    exact h2 ⟨hne, hd⟩
  have hmem : a ∈ (matrix_shape b).vs (2 + (r * (k * k) + c)) := by
    rw [← hpar]; exact ha.mem0
  exact hinv.uniq _ hA x hx a hmem (by rw [hid, hval]; exact hrow)

/-- The row ids of two different cells are different. -/
theorem row_of_cell_inj {N r1 c1 d1 r2 c2 d2 : Nat} (h1 : c1 < N) (h2 : c2 < N)
    (e1 : 1 ≤ d1) (e2 : d1 ≤ N) (f1 : 1 ≤ d2) (f2 : d2 ≤ N)
    (h : row_of N r1 c1 d1 = row_of N r2 c2 d2) : r1 = r2 ∧ c1 = c2 := by
  obtain ⟨p1, p2, -⟩ := @row_of_parts N r1 c1 d1 h1 e1 e2
  obtain ⟨q1, q2, -⟩ := @row_of_parts N r2 c2 d2 h2 f1 f2
  rw [h] at p1 p2
  exact ⟨p1.symm.trans q1, p2.symm.trans q2⟩

/-- Two clues with the same digit in one row, column or box: their rows meet
in a column of the matrix. -/
theorem duplicate_share {b : Board} {k : Nat} (hb : IsBoard b k) {r1 c1 r2 c2 d : Nat}
    (hr1 : r1 < k * k) (hc1 : c1 < k * k) (hr2 : r2 < k * k) (hc2 : c2 < k * k)
    (hd1 : 1 ≤ d) (hd2 : d ≤ k * k)
    (hsame : r1 = r2 ∨ c1 = c2 ∨ (r1 / k = r2 / k ∧ c1 / k = c2 / k)) :
    ∃ Z, Z ∈ (matrix_shape b).hs ∧
      Z ∈ rowColsOf b (k * k * (k * k)) (row_of (k * k) r1 c1 d) ∧
      Z ∈ rowColsOf b (k * k * (k * k)) (row_of (k * k) r2 c2 d) := by
  obtain ⟨-, a1, a2, a3⟩ := index_row_of hb r1 hc1 hd1 hd2
  obtain ⟨-, b1, b2, b3⟩ := index_row_of hb r2 hc2 hd1 hd2
  obtain ⟨i1, i2, i3, i4, i5, i6, i7⟩ := index_ranges hb (row_of_lt hr1 hc1 hd1 hd2)
  have hmem : ∀ Z, Z ∈ (matrix_shape b).hs ↔ 2 ≤ Z ∧ Z < 4 * (k * k * (k * k)) + 2 :=
    matrix_headers hb
  simp only [rowColsOf, List.mem_cons, List.mem_singleton, List.not_mem_nil, or_false]
  rcases hsame with rfl | rfl | ⟨e1, e2⟩
  · exact ⟨2 + row_index b (k * k * (k * k)) (row_of (k * k) r1 c1 d),
      by rw [hmem]; omega, by tauto, by rw [a1, b1]; tauto⟩
  · exact ⟨2 + col_index b (k * k * (k * k)) (row_of (k * k) r1 c1 d),
      by rw [hmem]; omega, by tauto, by rw [a2, b2]; tauto⟩
  · exact ⟨2 + box_index b (k * k * (k * k)) (row_of (k * k) r1 c1 d),
      by rw [hmem]; omega, by tauto, by rw [a3, b3, e1, e2]; tauto⟩

/-- The matrix of a board with a duplicate clue has no exact cover. -/
theorem duplicate_no_cover {b : Board} {k : Nat} (hb : IsBoard b k) (hd : DuplicateClue b k) :
    ¬ ∃ q, ExactCover (matrix_shape b) q := by
  rintro ⟨q, hq⟩
  obtain ⟨r1, c1, r2, c2, hr1, hc1, hr2, hc2, hne, hv, heq, hsame⟩ := hd
  obtain ⟨n1, hn1, e1⟩ := cover_has_clue hb hq hr1 hc1 hv
  obtain ⟨n2, hn2, e2⟩ := cover_has_clue hb hq hr2 hc2 (by rw [← heq]; exact hv)
  have hd1 : 1 ≤ board_get b c1 r1 := by omega
  have hd2 := hb.board_get_le c1 r1
  obtain ⟨Z, hZ, z1, z2⟩ := duplicate_share hb hr1 hc1 hr2 hc2 hd1 hd2 hsame
  rw [← heq] at e2
  have : n1 = n2 := cover_unique hb hq hZ hn1 hn2 (by rw [e1]; exact z1) (by rw [e2]; exact z2)
  subst this
  rw [e1] at e2
  obtain ⟨h1, h2⟩ := row_of_cell_inj hc1 hc2 hd1 hd2 hd1 hd2 e2
  rcases hne with h | h
  · exact h h1
  · exact h h2

/-- The two clues of a duplicate clash in the matrix. -/
theorem duplicate_clash {b : Board} {k : Nat} (hb : IsBoard b k) (hd : DuplicateClue b k) :
    ∃ A B a a', Clash (matrix_shape b) A B a a' ∧
      ClashInv (matrix_shape b) A B a a' (matrix_shape b) := by
  have hinv := (matrix_create_inv hb).1
  obtain ⟨r1, c1, r2, c2, hr1, hc1, hr2, hc2, hne, hv, heq, hsame⟩ := hd
  have hv2 : board_get b c2 r2 ≠ 0 := by rw [← heq]; exact hv
  obtain ⟨hA, a, ha, ida, pa, ua⟩ := clue_column hb hr1 hc1 hv
  obtain ⟨hB, a', ha', ida', pa', ua'⟩ := clue_column hb hr2 hc2 hv2
  have hd1 : 1 ≤ board_get b c1 r1 := by omega
  have hd2 := hb.board_get_le c1 r1
  have hlt1 := row_of_lt hr1 hc1 hd1 hd2
  have hlt2 := row_of_lt hr2 hc2 hd1 hd2
  rw [← heq] at ida'
  obtain ⟨i1, i2, i3, i4, i5, i6, i7⟩ := index_ranges hb hlt1
  obtain ⟨j1, j2, j3, j4, j5, j6, j7⟩ := index_ranges hb hlt2
  obtain ⟨x0, -, -, -⟩ := index_row_of hb r1 hc1 hd1 hd2
  obtain ⟨y0, -, -, -⟩ := index_row_of hb r2 hc2 hd1 hd2
  have hABne : r1 * (k * k) + c1 ≠ r2 * (k * k) + c2 := by
    intro h
    obtain ⟨h1, h2⟩ := mul_add_inj hc1 hc2 h
    rcases hne with h' | h'
    · exact h' h1
    · exact h' h2
  obtain ⟨Z, -, z1, z2⟩ := duplicate_share hb hr1 hc1 hr2 hc2 hd1 hd2 hsame
  refine ⟨2 + (r1 * (k * k) + c1), 2 + (r2 * (k * k) + c2), a, a', ⟨by omega, ?_, ?_, ?_⟩,
    rfl, rfl, ?_, Or.inl ⟨hA, hB, ua, ua'⟩⟩
  · rw [ha.rowCols_iff (Or.inl rfl), ida]
    simp only [rowColsOf, List.mem_cons, List.mem_singleton, List.not_mem_nil, or_false]
    omega
  · rw [ha'.rowCols_iff (Or.inl rfl), ida']
    simp only [rowColsOf, List.mem_cons, List.mem_singleton, List.not_mem_nil, or_false]
    omega
  · exact ⟨Z, by rw [ha.rowCols_iff (Or.inl rfl), ida]; exact z1,
      by rw [ha'.rowCols_iff (Or.inl rfl), ida']; exact z2⟩
  · rw [hinv.hs, List.mem_range'_1]; omega

/-- C5: unsatisfiability detection.  For every board whose clues hold the same
digit twice in one row, one column or one box, `dlx_solve` on the matrix built
by `matrix_create` returns false, under every budget from some budget on. -/
theorem duplicate_clue_unsat (b : Board) (k : Nat) (hb : IsBoard b k)
    (hd : DuplicateClue b k) :
    ∃ F0, ∀ F, F0 ≤ F → ∃ st', dlx_solve F (matrix_create b) = .ok (false, st') := by
  have hw := matrix_create_wf hb
  obtain ⟨A, B, a, a', hcl, hinv⟩ := duplicate_clash hb hd
  refine ⟨(matrix_shape b).bound, fun F hF => ?_⟩
  have hlt : (matrix_shape b).hs.length < F :=
    lt_of_lt_of_le (matrix_shape b).length_lt_bound hF
  obtain ⟨v, a1, h⟩ := solveA_ok (closed_clash hcl) F (matrix_shape b) (false, []) hw.1 hinv hlt
  have hv : v = false := by
    rcases solveA_unsolved F _ [] v a1 hw.1 h with ⟨rfl, -, -⟩ | ⟨-, p, -, hp⟩
    · rfl
    · exact absurd ⟨p, hp⟩ (duplicate_no_cover hb hd)
  subst hv
  refine ⟨State.mk' (matrix_create b).heap 1 a1, ?_⟩
  rw [dlx_solve_eq hw ((matrix_shape b).fits_bound hF)]
  show (match solveA F (matrix_shape b) (false, []) with
    | .ok (b', a1) => Except.ok (b', State.mk' (matrix_create b).heap 1 a1)
    | .error e => .error e) = _
  rw [h]

theorem clashBoard_isBoard : IsBoard clashBoard 2 := by
  constructor <;> simp [clashBoard, UINT_MOD]

theorem clashBoard_duplicate : DuplicateClue clashBoard 2 :=
  ⟨0, 0, 0, 1, by decide, by decide, by decide, by decide, Or.inr (by decide), by decide,
    by decide, Or.inl rfl⟩

/-- Witness for C5: the 4 by 4 board with the digit 1 twice in its first
line. -/
theorem duplicate_clue_unsat_witness :
    IsBoard clashBoard 2 ∧ DuplicateClue clashBoard 2 ∧
      ∃ F0, ∀ F, F0 ≤ F → ∃ st', dlx_solve F (matrix_create clashBoard) = .ok (false, st') :=
  ⟨clashBoard_isBoard, clashBoard_duplicate,
    duplicate_clue_unsat clashBoard 2 clashBoard_isBoard clashBoard_duplicate⟩

/-! ## The scenario of the specification -/

/-- In an exact cover no selected row repeats the digit of a clue in the line,
column or box of the clue. -/
theorem cover_conflict {b : Board} {k : Nat} (hb : IsBoard b k) {q : List Nat}
    (hq : ExactCover (matrix_shape b) q) {n r1 c1 r2 c2 : Nat} (hn : n ∈ q)
    (hr1 : r1 < k * k) (hc1 : c1 < k * k) (hr2 : r2 < k * k) (hc2 : c2 < k * k)
    (hv : board_get b c2 r2 ≠ 0)
    (hid : (matrix_create b).heap.row_id n = row_of (k * k) r1 c1 (board_get b c2 r2))
    (hsame : r1 = r2 ∨ c1 = c2 ∨ (r1 / k = r2 / k ∧ c1 / k = c2 / k)) :
    r1 = r2 ∧ c1 = c2 := by
  obtain ⟨m, hm, e2⟩ := cover_has_clue hb hq hr2 hc2 hv
  have hd1 : 1 ≤ board_get b c2 r2 := by omega
  have hd2 := hb.board_get_le c2 r2
  obtain ⟨Z, hZ, z1, z2⟩ := duplicate_share hb hr1 hc1 hr2 hc2 hd1 hd2 hsame
  have : n = m := cover_unique hb hq hZ hn hm (by rw [hid]; exact z1) (by rw [e2]; exact z2)
  subst this
  rw [hid] at e2
  exact row_of_cell_inj hc1 hc2 hd1 hd2 hd1 hd2 e2

/-- The row ids with a given row-number constraint. -/
theorem row_index_eq {b : Board} {k : Nat} (hb : IsBoard b k) {r o row : Nat}
    (ho : o < k * k) (h : row_index b (k * k * (k * k)) row = k * k * (k * k) + r * (k * k) + o) :
    row = row_of (k * k) r ((row / (k * k)) % (k * k)) (o + 1) := by
  have hN := hb.line_pos
  simp only [row_index, hb.line_size, hb.grid_size, Nat.one_mul] at h
  have h' : row / (k * k * (k * k)) * (k * k) + row % (k * k) = r * (k * k) + o := by omega
  obtain ⟨e1, e2⟩ := mul_add_inj (Nat.mod_lt _ hN) ho h'
  have := @row_of_split (k * k) row
  rw [e1, e2] at this
  exact this

theorem scenarioBoard_isBoard : IsBoard scenarioBoard 2 := by
  constructor <;> simp [scenarioBoard, UINT_MOD]

/-- The clues of the scenario cannot be completed: the digit 1 has no place in
the last line. -/
theorem scenario_no_cover : ¬ ∃ q, ExactCover (matrix_shape scenarioBoard) q := by
  rintro ⟨q, hq⟩
  have hb := scenarioBoard_isBoard
  have hZ : 30 ∈ (matrix_shape scenarioBoard).hs := by
    rw [matrix_headers hb]; decide
  obtain ⟨n, hn, h1, h2, h3⟩ := cover_has_row hb hq hZ
  obtain ⟨i1, i2, i3, i4, i5, i6, i7⟩ := index_ranges hb h2
  have hidx : row_index scenarioBoard (2 * 2 * (2 * 2))
      ((matrix_create scenarioBoard).heap.row_id n) = 2 * 2 * (2 * 2) + 3 * (2 * 2) + 0 := by
    simp only [rowColsOf, List.mem_cons, List.mem_singleton, List.not_mem_nil, or_false] at h1
    omega
  have hrow := row_index_eq hb (by decide) hidx
  have hc : (matrix_create scenarioBoard).heap.row_id n / (2 * 2) % (2 * 2) < 4 :=
    Nat.mod_lt _ (by decide)
  generalize (matrix_create scenarioBoard).heap.row_id n / (2 * 2) % (2 * 2) = c at hrow hc
  have hcases : c = 0 ∨ c = 1 ∨ c = 2 ∨ c = 3 := by omega
  rcases hcases with rfl | rfl | rfl | rfl
  · have := @cover_conflict _ _ hb _ hq _ 3 0 0 0 hn (by decide)
      (by decide) (by decide) (by decide) (by decide) hrow (Or.inr (Or.inl rfl))
    exact absurd this.1 (by decide)
  · have := @cover_conflict _ _ hb _ hq _ 3 1 2 1 hn (by decide)
      (by decide) (by decide) (by decide) (by decide) hrow (Or.inr (Or.inl rfl))
    exact absurd this.1 (by decide)
  · have := @cover_conflict _ _ hb _ hq _ 3 2 1 2 hn (by decide)
      (by decide) (by decide) (by decide) (by decide) hrow (Or.inr (Or.inl rfl))
    exact absurd this.1 (by decide)
  · rw [hrow, row_skipped_row_of hb (by decide) (by decide) (by decide) (by decide)] at h3
    exact h3 (by decide)

/-- A run of `solve_board` that writes a grid has found an exact cover. -/
theorem solve_board_some {b : Board} {k : Nat} (hb : IsBoard b k) {F : Nat} {g : Board}
    (h : solve_board F b = .ok (some g)) :
    ∃ q, ExactCover (matrix_shape b) q ∧ g = write_solution (matrix_create b).heap b q := by
  unfold solve_board at h
  cases hrun : dlx_solve F (matrix_create b) with
  | error e => rw [hrun] at h; cases h
  | ok res =>
    obtain ⟨v, st'⟩ := res
    rw [hrun] at h
    cases v with
    | false => cases h
    | true =>
      simp only [Except.ok.injEq, Option.some.injEq] at h
      obtain ⟨F', a1, h1, rfl⟩ := dlx_solve_result (matrix_create_wf hb) hrun
      rcases solveA_unsolved F' _ [] true a1 (matrix_create_wf hb).1 h1 with ⟨hv, -⟩ | ⟨-, p, hp1, hp2⟩
      · cases hv
      · refine ⟨p, hp2, ?_⟩
        rw [← h]
        show write_solution (matrix_create b).heap b a1.2 = _
        rw [hp1]; rfl

/-- C4 fails on the code: the clue of the scenario at line 3, column 3 is 2
where the grid of the specification holds 1, and no run of the solver on the
scenario produces that grid (nor any other: no run succeeds). -/
theorem scenario_not_solved :
    board_get scenarioBoard 3 3 = 2 ∧ board_get scenarioGrid 3 3 = 1 ∧
      ∀ F g, solve_board F scenarioBoard ≠ .ok (some g) := by
  refine ⟨by decide, by decide, fun F g h => ?_⟩
  obtain ⟨q, hq, -⟩ := solve_board_some scenarioBoard_isBoard h
  exact scenario_no_cover ⟨q, hq⟩

/-- C4, amended: on the 4 by 4 board of the scenario, `matrix_create` followed
by `dlx_solve` reports failure under every budget from some budget on (the
exit "Failed to find a solution!"), and rightly so: the matrix has no exact
cover, the clues have no completion. -/
theorem scenario_unsat :
    (∃ F0, ∀ F, F0 ≤ F → solve_board F scenarioBoard = .ok none) ∧
      ¬ ∃ q, ExactCover (matrix_shape scenarioBoard) q := by
  refine ⟨⟨(matrix_shape scenarioBoard).bound, fun F hF => ?_⟩, scenario_no_cover⟩
  obtain ⟨v, a1, h1, h2⟩ := board_solve_ok scenarioBoard_isBoard (by decide) hF
  rcases solveA_unsolved F _ [] v a1 (matrix_create_wf scenarioBoard_isBoard).1 h1 with
    ⟨rfl, -, -⟩ | ⟨-, p, -, hp⟩
  · unfold solve_board
    rw [h2]
  · exact absurd ⟨p, hp⟩ scenario_no_cover

/-! ## Row ids above `2 ^ 32` -/

/-- Reading a cell of the pattern board. -/
theorem board_get_pattern (k i j : Nat) (h : i + j * (k * k) < k * k * (k * k))
    (hu : k * k * (k * k) < UINT_MOD) :
    board_get (patternBoard k) i j
      = (k * (((i + j * (k * k)) / (k * k)) % k) + ((i + j * (k * k)) / (k * k)) / k
          + (i + j * (k * k)) % (k * k)) % (k * k) + 1 := by
  simp only [board_get, patternBoard]
  rw [Nat.mod_eq_of_lt (lt_trans h hu), if_pos h, List.getD_eq_getElem?_getD,
    List.getElem?_map, List.getElem?_range h]
  rfl

/-- Reading the cell that `board_set` has just written. -/
theorem board_get_set_same (b : Board) (i j v : Nat)
    (h : (i + j * b.board_line_size) % UINT_MOD < b.board_size)
    (hl : b.board_size ≤ b.cells.length) : board_get (board_set b i j v) i j = v := by
  simp only [board_set, if_pos h, board_get]
  rw [List.getD_eq_getElem?_getD, List.getElem?_set_self (by omega)]
  rfl

/-- Reading another cell than the one `board_set` has just written. -/
theorem board_get_set_other (b : Board) (i j v i' j' : Nat)
    (h : (i + j * b.board_line_size) % UINT_MOD ≠ (i' + j' * b.board_line_size) % UINT_MOD) :
    board_get (board_set b i j v) i' j' = board_get b i' j' := by
  unfold board_set
  dsimp only
  split
  · simp only [board_get]
    rw [List.getD_eq_getElem?_getD, List.getElem?_set_ne h, ← List.getD_eq_getElem?_getD]
  · rfl

/-- The result loop of `main` on a single node whose row id is the row id of
line 1680, column 1680, digit 1680 on a board with `k = 41`. -/
theorem write_truncated (b : Board) (hl : b.board_line_size = 1681)
    (hg : b.board_grid_size = 2825761) :
    write_solution (rowIdHeap (row_of 1681 1680 1680 1680)) b [1] = board_set b 112 161 1151 := by
  simp only [write_solution, List.foldl, write_solution_row, rowIdHeap, row_of, hl, hg, UINT_MOD]
  norm_num

theorem patternBoard_isBoard {k : Nat} (hk : 1 ≤ k) (hu : k * k * (k * k) < UINT_MOD) :
    IsBoard (patternBoard k) k := by
  refine ⟨hk, rfl, rfl, rfl, rfl, by simp [patternBoard], hu, ?_⟩
  intro v hv
  simp only [patternBoard, List.mem_map] at hv
  obtain ⟨i, -, rfl⟩ := hv
  have := Nat.mod_lt (k * (i / (k * k) % k) + i / (k * k) / k + i % (k * k))
    (Nat.mul_pos hk hk)
  omega

/-- In the board `patternBoard 41` the cell in line 1680, column 1680 holds
1680 and the cell in line 161, column 112 holds 1674; the result loop of
`main`, given the node of the row of line 1680, column 1680, digit 1680 (row
id `1681 ^ 3 - 2`, above `2 ^ 32`), writes 1151 into line 161, column 112. -/
theorem round_trip_truncates :
    IsBoard (patternBoard 41) 41 ∧
    row_of 1681 1680 1680 1680 = 1681 ^ 3 - 2 ∧
    board_get (patternBoard 41) 1680 1680 = 1680 ∧
    board_get (patternBoard 41) 112 161 = 1674 ∧
    board_get (write_solution (rowIdHeap (row_of 1681 1680 1680 1680)) (patternBoard 41) [1])
      112 161 = 1151 := by
  have hu : 41 * 41 * (41 * 41) < UINT_MOD := by norm_num [UINT_MOD]
  refine ⟨patternBoard_isBoard (by norm_num) hu, by norm_num [row_of], ?_, ?_, ?_⟩
  · rw [board_get_pattern 41 1680 1680 (by norm_num) hu]
  · rw [board_get_pattern 41 112 161 (by norm_num) hu]
  · rw [write_truncated _ rfl rfl]
    exact board_get_set_same _ _ _ _ (by norm_num [patternBoard, UINT_MOD])
      (by simp [patternBoard])

/-- After the result loop of `main` has written the row of line 1680, column
1680, digit 1680 into `patternBoard 41`, line 161 of the grid holds the digit
1151 twice, in column 112 (a pre-filled cell that held 1674) and in column
1270. -/
theorem solved_grid_truncates :
    board_get (patternBoard 41) 112 161 = 1674 ∧
    board_get (write_solution (rowIdHeap (row_of 1681 1680 1680 1680)) (patternBoard 41) [1])
      112 161 = 1151 ∧
    board_get (write_solution (rowIdHeap (row_of 1681 1680 1680 1680)) (patternBoard 41) [1])
      1270 161 = 1151 := by
  have hu : 41 * 41 * (41 * 41) < UINT_MOD := by norm_num [UINT_MOD]
  refine ⟨?_, ?_, ?_⟩
  · rw [board_get_pattern 41 112 161 (by norm_num) hu]
  · rw [write_truncated _ rfl rfl]
    exact board_get_set_same _ _ _ _ (by norm_num [patternBoard, UINT_MOD])
      (by simp [patternBoard])
  · rw [write_truncated _ rfl rfl, board_get_set_other _ _ _ _ _ _
      (by norm_num [patternBoard, UINT_MOD])]
    rw [board_get_pattern 41 1270 161 (by norm_num) hu]

/-! ## The result loop of `main` -/

theorem IsBoard.dims {b : Board} {k : Nat} (hb : IsBoard b k) : Dims b k :=
  ⟨hb.line_size, hb.grid_size, hb.size, hb.len⟩

theorem Dims.set {b : Board} {k : Nat} (h : Dims b k) (i j v : Nat) :
    Dims (board_set b i j v) k := by
  unfold board_set
  dsimp only
  split
  · exact ⟨h.line_size, h.grid_size, h.size, by simp [h.len]⟩
  · exact h

/-- Reading a cell of a board with known sizes. -/
theorem Dims.get_set {b : Board} {k : Nat} (h : Dims b k) (hu : k * k * (k * k) < UINT_MOD)
    {r c r' c' : Nat} (hr : r < k * k) (hc : c < k * k) (hr' : r' < k * k) (hc' : c' < k * k)
    (v : Nat) :
    board_get (board_set b c' r' v) c r
      = if r' * (k * k) + c' = r * (k * k) + c then v else board_get b c r := by
  have l1 : r * (k * k) + c < k * k * (k * k) := mul_add_lt hr hc
  have l2 : r' * (k * k) + c' < k * k * (k * k) := mul_add_lt hr' hc'
  have e1 : (c + r * b.board_line_size) % UINT_MOD = r * (k * k) + c := by
    rw [h.line_size, Nat.add_comm, Nat.mod_eq_of_lt (lt_trans l1 hu)]
  have e2 : (c' + r' * b.board_line_size) % UINT_MOD = r' * (k * k) + c' := by
    rw [h.line_size, Nat.add_comm, Nat.mod_eq_of_lt (lt_trans l2 hu)]
  by_cases he : r' * (k * k) + c' = r * (k * k) + c
  · rw [if_pos he]
    obtain ⟨rfl, rfl⟩ := mul_add_inj hc' hc he
    exact board_get_set_same b _ _ v (by rw [e1, h.size]; exact l1) (by rw [h.size, h.len])
  · rw [if_neg he]
    exact board_get_set_other b _ _ v _ _ (by rw [e1, e2]; exact he)

/-- One iteration of the result loop on a node whose row id fits an
`unsigned int`: the digit `row_id % N + 1` is written into the cell with index
`row_id / N`. -/
theorem write_row_get {b : Board} {k : Nat} (hd : Dims b k) (hk : 1 ≤ k)
    (hu : k * k * (k * k) < UINT_MOD) (hfit : k * k * (k * k * (k * k)) ≤ UINT_MOD) (h : Heap)
    {n : Nat} (hn : h.row_id n < k * k * (k * k * (k * k))) {r c : Nat} (hr : r < k * k)
    (hc : c < k * k) :
    board_get (write_solution_row h b n) c r
      = if h.row_id n / (k * k) = r * (k * k) + c then h.row_id n % (k * k) + 1
        else board_get b c r := by
  have hN : 0 < k * k := Nat.mul_pos hk hk
  obtain ⟨p1, p2, p3, p4⟩ := row_parts hN hn
  have hU : ∀ x, x < k * k → x % UINT_MOD = x := by
    intro x hx
    apply Nat.mod_eq_of_lt
    have : k * k ≤ k * k * (k * k) := Nat.le_mul_of_pos_right _ hN
    omega
  have e : write_solution_row h b n
      = board_set b (h.row_id n / (k * k) % (k * k)) (h.row_id n / (k * k * (k * k)))
          (h.row_id n % (k * k) + 1) := by
    simp only [write_solution_row, hd.line_size, hd.grid_size,
      Nat.mod_eq_of_lt (lt_of_lt_of_le hn hfit), hU _ p1, hU _ p2]
  rw [e, hd.get_set hu hr hc p1 p2]
  have e2 : h.row_id n / (k * k * (k * k)) * (k * k) + h.row_id n / (k * k) % (k * k)
      = h.row_id n / (k * k) := by
    rw [← Nat.div_div_eq_div_mul, Nat.mul_comm]
    exact Nat.div_add_mod _ _
  rw [e2]

theorem write_row_dims {b : Board} {k : Nat} (hd : Dims b k) (h : Heap) (n : Nat) :
    Dims (write_solution_row h b n) k := by
  unfold write_solution_row
  exact hd.set _ _ _

/-- The result loop leaves a cell as it was when no selected row is a row of
that cell, and otherwise writes the digit of the selected rows of the cell, when
they all agree. -/
theorem write_solution_get {k : Nat} (hk : 1 ≤ k) (hu : k * k * (k * k) < UINT_MOD)
    (hfit : k * k * (k * k * (k * k)) ≤ UINT_MOD) (h : Heap) {r c : Nat} (hr : r < k * k)
    (hc : c < k * k) :
    ∀ (q : List Nat) (b : Board), Dims b k →
      (∀ n ∈ q, h.row_id n < k * k * (k * k * (k * k))) →
      ((∀ n ∈ q, h.row_id n / (k * k) ≠ r * (k * k) + c) →
        board_get (write_solution h b q) c r = board_get b c r) ∧
      ∀ d, (∃ n ∈ q, h.row_id n / (k * k) = r * (k * k) + c) →
        (∀ n ∈ q, h.row_id n / (k * k) = r * (k * k) + c → h.row_id n % (k * k) + 1 = d) →
        board_get (write_solution h b q) c r = d
  | [], b, _, _ => ⟨fun _ => rfl, fun d hex => by simp at hex⟩
  | n :: q, b, hd, hlt => by
    have ih := write_solution_get hk hu hfit h hr hc q (write_solution_row h b n)
      (write_row_dims hd h n) (fun m hm => hlt m (List.mem_cons_of_mem _ hm))
    have hstep := write_row_get hd hk hu hfit h (hlt n (List.mem_cons_self _ _)) hr hc
    have e : write_solution h b (n :: q) = write_solution h (write_solution_row h b n) q := rfl
    rw [e]
    refine ⟨fun hnone => ?_, fun d hex hall => ?_⟩
    · rw [ih.1 (fun m hm => hnone m (List.mem_cons_of_mem _ hm)), hstep,
        if_neg (hnone n (List.mem_cons_self _ _))]
    · by_cases hq : ∃ m ∈ q, h.row_id m / (k * k) = r * (k * k) + c
      · exact ih.2 d hq (fun m hm => hall m (List.mem_cons_of_mem _ hm))
      · have hnone : ∀ m ∈ q, h.row_id m / (k * k) ≠ r * (k * k) + c :=
          fun m hm he => hq ⟨m, hm, he⟩
        obtain ⟨m, hm, he⟩ := hex
        rcases List.mem_cons.1 hm with rfl | hm
        · rw [ih.1 hnone, hstep, if_pos he]
          exact hall m (List.mem_cons_self _ _) he
        · exact absurd he (hnone m hm)

/-! ## The grid written from an exact cover -/

/-- The row ids with a given column-number constraint. -/
theorem col_index_eq {b : Board} {k : Nat} (hb : IsBoard b k) {c o row : Nat}
    (ho : o < k * k)
    (h : col_index b (k * k * (k * k)) row = 2 * (k * k * (k * k)) + c * (k * k) + o) :
    row = row_of (k * k) (row / (k * k * (k * k))) c (o + 1) := by
  have hN := hb.line_pos
  simp only [col_index, hb.line_size] at h
  have h' : row / (k * k) % (k * k) * (k * k) + row % (k * k) = c * (k * k) + o := by omega
  obtain ⟨e1, e2⟩ := mul_add_inj (Nat.mod_lt _ hN) ho h'
  have := @row_of_split (k * k) row
  rw [e1, e2] at this
  exact this

/-- The row ids with a given box-number constraint. -/
theorem box_index_eq {b : Board} {k : Nat} (hb : IsBoard b k) {br bc o row : Nat}
    (hrow : row < k * k * (k * k * (k * k))) (hbc : bc < k) (ho : o < k * k)
    (h : box_index b (k * k * (k * k)) row = 3 * (k * k * (k * k)) + (k * br + bc) * (k * k) + o) :
    row = row_of (k * k) (row / (k * k * (k * k))) ((row / (k * k)) % (k * k)) (o + 1) ∧
      row / (k * k * (k * k)) / k = br ∧ (row / (k * k)) % (k * k) / k = bc := by
  have hN := hb.line_pos
  have hk := hb.k_pos
  obtain ⟨p1, p2, p3, p4⟩ := row_parts hN hrow
  simp only [box_index, hb.line_size, hb.grid_size, hb.cell_size] at h
  have h' : (k * (row / (k * k * (k * k)) / k) + row / (k * k) % (k * k) / k) * (k * k)
      + row % (k * k) = (k * br + bc) * (k * k) + o := by omega
  obtain ⟨e1, e2⟩ := mul_add_inj (Nat.mod_lt _ hN) ho h'
  have dx : row / (k * k) % (k * k) / k < k := by
    rw [Nat.div_lt_iff_lt_mul hk]; exact p2
  rw [Nat.mul_comm k (row / (k * k * (k * k)) / k), Nat.mul_comm k br] at e1
  obtain ⟨f1, f2⟩ := mul_add_inj dx hbc e1
  have := @row_of_split (k * k) row
  rw [e2] at this
  exact ⟨this, f1, f2⟩

/-- The cell of a selected row in the written grid holds the digit of the
row, and every cell is the cell of a selected row. -/
theorem grid_cell {b : Board} {k : Nat} (hb : IsBoard b k)
    (hfit : k * k * (k * k * (k * k)) ≤ UINT_MOD) {q : List Nat}
    (hq : ExactCover (matrix_shape b) q) {r c : Nat} (hr : r < k * k) (hc : c < k * k) :
    ∃ n ∈ q, (matrix_create b).heap.row_id n
        = row_of (k * k) r c (board_get (write_solution (matrix_create b).heap b q) c r) ∧
      1 ≤ board_get (write_solution (matrix_create b).heap b q) c r ∧
      board_get (write_solution (matrix_create b).heap b q) c r ≤ k * k := by
  have hinv := (matrix_create_inv hb).1
  have hN := hb.line_pos
  have hlt : r * (k * k) + c < k * k * (k * k) := mul_add_lt hr hc
  have hC : 2 + (r * (k * k) + c) ∈ (matrix_shape b).hs := by
    rw [matrix_headers hb]; omega
  have hall : ∀ n ∈ q, (matrix_create b).heap.row_id n < k * k * (k * k * (k * k)) :=
    fun n hn => (hinv.node_col (hq.1 n hn).1 (hq.1 n hn).2).1
  have hnum : ∀ n, (matrix_create b).heap.row_id n / (k * k)
      = num_index b (k * k * (k * k)) ((matrix_create b).heap.row_id n) := by
    intro n; simp only [num_index, hb.line_size, Nat.zero_mul, Nat.zero_add]
  have hcol : ∀ n ∈ q, (matrix_create b).heap.row_id n / (k * k) = r * (k * k) + c →
      2 + (r * (k * k) + c)
        ∈ rowColsOf b (k * k * (k * k)) ((matrix_create b).heap.row_id n) := by
    intro n _ he
    rw [hnum] at he
    simp only [rowColsOf, List.mem_cons, he, true_or]
  obtain ⟨n, hn, h1, h2, h3⟩ := cover_has_row hb hq hC
  obtain ⟨i1, i2, i3, i4, i5, i6, i7⟩ := index_ranges hb h2
  have hn1 : num_index b (k * k * (k * k)) ((matrix_create b).heap.row_id n)
      = r * (k * k) + c := by
    simp only [rowColsOf, List.mem_cons, List.mem_singleton, List.not_mem_nil, or_false] at h1
    omega
  have hval := (write_solution_get hb.k_pos hb.fits hfit (matrix_create b).heap hr hc q b
    hb.dims hall).2 ((matrix_create b).heap.row_id n % (k * k) + 1)
    ⟨n, hn, by rw [hnum, hn1]⟩
    (fun m hm he => by
      have : m = n := cover_unique hb hq hC hm hn (hcol m hm he) h1
      rw [this])
  have hoff : (matrix_create b).heap.row_id n % (k * k) < k * k := Nat.mod_lt _ hN
  refine ⟨n, hn, ?_, ?_, ?_⟩
  · rw [hval]; exact num_index_eq hb hc hn1
  · rw [hval]; omega
  · rw [hval]; omega

/-- The digit of a selected row is the digit of its cell in the written
grid. -/
theorem grid_of_node {b : Board} {k : Nat} (hb : IsBoard b k)
    (hfit : k * k * (k * k * (k * k)) ≤ UINT_MOD) {q : List Nat}
    (hq : ExactCover (matrix_shape b) q) {n r c d : Nat} (hn : n ∈ q) (hr : r < k * k)
    (hc : c < k * k) (h1 : 1 ≤ d) (hd : d ≤ k * k)
    (hid : (matrix_create b).heap.row_id n = row_of (k * k) r c d) :
    board_get (write_solution (matrix_create b).heap b q) c r = d := by
  obtain ⟨m, hm, e, g1, g2⟩ := grid_cell hb hfit hq hr hc
  have hC : 2 + (r * (k * k) + c) ∈ (matrix_shape b).hs := by
    rw [matrix_headers hb]
    have := mul_add_lt hr hc
    omega
  have hmem : ∀ d', 1 ≤ d' → d' ≤ k * k →
      2 + (r * (k * k) + c) ∈ rowColsOf b (k * k * (k * k)) (row_of (k * k) r c d') := by
    intro d' a1 a2
    simp only [rowColsOf, List.mem_cons, (index_row_of hb r hc a1 a2).1, true_or]
  have : n = m := cover_unique hb hq hC hn hm (by rw [hid]; exact hmem d h1 hd)
    (by rw [e]; exact hmem _ g1 g2)
  subst this
  rw [hid] at e
  have p1 := (@row_of_parts (k * k) r c d hc h1 hd).2.2
  have p2 := (@row_of_parts (k * k) r c _ hc g1 g2).2.2
  rw [e] at p1
  omega

/-- Two cells of the written grid with the same digit in one line, column or
box are the same cell. -/
theorem grid_unique {b : Board} {k : Nat} (hb : IsBoard b k)
    (hfit : k * k * (k * k * (k * k)) ≤ UINT_MOD) {q : List Nat}
    (hq : ExactCover (matrix_shape b) q) {r1 c1 r2 c2 : Nat} (hr1 : r1 < k * k)
    (hc1 : c1 < k * k) (hr2 : r2 < k * k) (hc2 : c2 < k * k)
    (he : board_get (write_solution (matrix_create b).heap b q) c1 r1
      = board_get (write_solution (matrix_create b).heap b q) c2 r2)
    (hsame : r1 = r2 ∨ c1 = c2 ∨ (r1 / k = r2 / k ∧ c1 / k = c2 / k)) : r1 = r2 ∧ c1 = c2 := by
  obtain ⟨n1, hn1, e1, a1, a2⟩ := grid_cell hb hfit hq hr1 hc1
  obtain ⟨n2, hn2, e2, -, -⟩ := grid_cell hb hfit hq hr2 hc2
  rw [← he] at e2
  obtain ⟨Z, hZ, z1, z2⟩ := duplicate_share hb hr1 hc1 hr2 hc2 a1 a2 hsame
  have : n1 = n2 := cover_unique hb hq hZ hn1 hn2 (by rw [e1]; exact z1) (by rw [e2]; exact z2)
  subst this
  rw [e1] at e2
  exact row_of_cell_inj hc1 hc2 a1 a2 a1 a2 e2

/-- The grid written from an exact cover of the matrix of a board is a Sudoku
solution that keeps the clues, as long as the row ids fit an `unsigned int`. -/
theorem grid_valid {b : Board} {k : Nat} (hb : IsBoard b k)
    (hfit : k * k * (k * k * (k * k)) ≤ UINT_MOD) {q : List Nat}
    (hq : ExactCover (matrix_shape b) q) :
    ValidGrid (write_solution (matrix_create b).heap b q) k ∧
      ∀ r c, r < k * k → c < k * k → board_get b c r ≠ 0 →
        board_get (write_solution (matrix_create b).heap b q) c r = board_get b c r := by
  have hinv := (matrix_create_inv hb).1
  have hN := hb.line_pos
  have hk := hb.k_pos
  have hhs := matrix_headers hb
  have hcss : 0 < k * k * (k * k) := Nat.mul_pos hN hN
  refine ⟨⟨?_, ?_, ?_⟩, ?_⟩
  · intro r d hr h1 hd
    have hlt : r * (k * k) + (d - 1) < k * k * (k * k) := mul_add_lt hr (by omega)
    have hZ : 2 + (k * k * (k * k) + r * (k * k) + (d - 1)) ∈ (matrix_shape b).hs := by
      rw [hhs]; omega
    obtain ⟨n, hn, m1, m2, -⟩ := cover_has_row hb hq hZ
    obtain ⟨i1, i2, i3, i4, i5, i6, i7⟩ := index_ranges hb m2
    obtain ⟨p1, p2, p3, p4⟩ := row_parts hN m2
    have hidx : row_index b (k * k * (k * k)) ((matrix_create b).heap.row_id n)
        = k * k * (k * k) + r * (k * k) + (d - 1) := by
      simp only [rowColsOf, List.mem_cons, List.mem_singleton, List.not_mem_nil, or_false] at m1
      omega
    have hrow := row_index_eq hb (by omega) hidx
    rw [show d - 1 + 1 = d by omega] at hrow
    refine ⟨_, ⟨p2, grid_of_node hb hfit hq hn hr p2 h1 hd hrow⟩, ?_⟩
    rintro c' ⟨hc', hg⟩
    have := grid_unique hb hfit hq hr hc' hr p2
      (by rw [hg, grid_of_node hb hfit hq hn hr p2 h1 hd hrow]) (Or.inl rfl)
    exact this.2
  · intro c d hc h1 hd
    have hlt : c * (k * k) + (d - 1) < k * k * (k * k) := mul_add_lt hc (by omega)
    have hZ : 2 + (2 * (k * k * (k * k)) + c * (k * k) + (d - 1)) ∈ (matrix_shape b).hs := by
      rw [hhs]; omega
    obtain ⟨n, hn, m1, m2, -⟩ := cover_has_row hb hq hZ
    obtain ⟨i1, i2, i3, i4, i5, i6, i7⟩ := index_ranges hb m2
    obtain ⟨p1, p2, p3, p4⟩ := row_parts hN m2
    have hidx : col_index b (k * k * (k * k)) ((matrix_create b).heap.row_id n)
        = 2 * (k * k * (k * k)) + c * (k * k) + (d - 1) := by
      simp only [rowColsOf, List.mem_cons, List.mem_singleton, List.not_mem_nil, or_false] at m1
      omega
    have hrow := col_index_eq hb (by omega) hidx
    rw [show d - 1 + 1 = d by omega] at hrow
    refine ⟨_, ⟨p1, grid_of_node hb hfit hq hn p1 hc h1 hd hrow⟩, ?_⟩
    rintro r' ⟨hr', hg⟩
    have := grid_unique hb hfit hq hr' hc p1 hc
      (by rw [hg, grid_of_node hb hfit hq hn p1 hc h1 hd hrow]) (Or.inr (Or.inl rfl))
    exact this.1
  · intro br bc d hbr hbc h1 hd
    have hbx : br * k + bc < k * k := mul_add_lt hbr hbc
    have hlt : (br * k + bc) * (k * k) + (d - 1) < k * k * (k * k) := mul_add_lt hbx (by omega)
    have hZ : 2 + (3 * (k * k * (k * k)) + (k * br + bc) * (k * k) + (d - 1))
        ∈ (matrix_shape b).hs := by
      rw [hhs, Nat.mul_comm k br]; omega
    obtain ⟨n, hn, m1, m2, -⟩ := cover_has_row hb hq hZ
    obtain ⟨i1, i2, i3, i4, i5, i6, i7⟩ := index_ranges hb m2
    obtain ⟨p1, p2, p3, p4⟩ := row_parts hN m2
    have hidx : box_index b (k * k * (k * k)) ((matrix_create b).heap.row_id n)
        = 3 * (k * k * (k * k)) + (k * br + bc) * (k * k) + (d - 1) := by
      simp only [rowColsOf, List.mem_cons, List.mem_singleton, List.not_mem_nil, or_false] at m1
      rw [Nat.mul_comm k br] at m1 ⊢
      omega
    obtain ⟨hrow, f1, f2⟩ := box_index_eq hb m2 hbc (by omega) hidx
    rw [show d - 1 + 1 = d by omega] at hrow
    have hg0 := grid_of_node hb hfit hq hn p1 p2 h1 hd hrow
    refine ⟨(_, _), ⟨p1, p2, f1, f2, hg0⟩, ?_⟩
    rintro ⟨r', c'⟩ ⟨hr', hc', g1, g2, hg⟩
    have := grid_unique hb hfit hq hr' hc' p1 p2 (by rw [hg, hg0])
      (Or.inr (Or.inr ⟨by rw [g1, f1], by rw [g2, f2]⟩))
    exact Prod.ext this.1 this.2
  · intro r c hr hc hne
    obtain ⟨n, hn, e, a1, a2⟩ := grid_cell hb hfit hq hr hc
    have hns := (hinv.node_col (hq.1 n hn).1 (hq.1 n hn).2).2.1
    rw [e, row_skipped_row_of hb hr hc a1 a2] at hns
    by_contra hd
    exact hns ⟨hne, fun h => hd h.symm⟩

/-! ## The search on a matrix with one node per column -/

theorem length_one_of_eq {l : List Nat} {a : Nat} (hn : l.Nodup) (ha : a ∈ l)
    (h : ∀ x ∈ l, x = a) : l.length = 1 := by
  have h1 := length_le_one_of_eq hn h
  have h2 : 0 < l.length := List.length_pos_of_mem ha
  omega

theorem eq_of_length_one {l : List Nat} (h : l.length = 1) {x y : Nat} (hx : x ∈ l)
    (hy : y ∈ l) : x = y := by
  obtain ⟨z, rfl⟩ := List.length_eq_one.1 h
  rw [List.mem_singleton.1 hx, List.mem_singleton.1 hy]

/-- Selecting the row of the chosen column keeps one node in every remaining
column: the rows of such a matrix do not meet. -/
theorem oneEach_select {sh : Shape} (hw : sh.WF) (hp : OneEach sh) {c r : Nat} (hc : c ∈ sh.hs)
    (hr : r ∈ sh.vs c) :
    OneEach (selectA (coverA sh c) r) ∧
      ∀ d ∈ (selectA (coverA sh c) r).hs, ∀ x, x ∈ (selectA (coverA sh c) r).vs d ↔ x ∈ sh.vs d := by
  obtain ⟨hwf, -, -, i4, i5⟩ := selectA_spec hw hc hr
  have hkeep : ∀ d ∈ (selectA (coverA sh c) r).hs, ∀ x, x ∈ sh.vs d →
      x ∈ (selectA (coverA sh c) r).vs d := by
    intro d hd x hx
    obtain ⟨hd1, hd2⟩ := (i4 d).1 hd
    refine (i5 d hd x).2 ⟨hx, fun e he hex => ?_⟩
    obtain ⟨y, hy, hyr⟩ := hw.rowCols_node hc hr he
    obtain ⟨z, hz, hzx⟩ := hw.rowCols_node hd1 hx hex
    have he' : e ∈ sh.hs := hw.rowCols_sub hc hr he
    have hyz : y = z := eq_of_length_one (hp.2 e he') hy hz
    subst hyz
    have h1 := hw.rowCols_eq hc hr hyr d
    have h2 := hw.rowCols_eq hd1 hx hzx d
    have hdx : d ∈ sh.rowCols x := by
      have := sh.par_mem_rowCols x
      rwa [hw.vs_par d hd1 x hx] at this
    exact hd2 (h1.1 (h2.2 hdx))
  have hiff : ∀ d ∈ (selectA (coverA sh c) r).hs, ∀ x,
      x ∈ (selectA (coverA sh c) r).vs d ↔ x ∈ sh.vs d :=
    fun d hd x => ⟨fun hx => ((i5 d hd x).1 hx).1, hkeep d hd x⟩
  refine ⟨⟨fun h => hp.1 ((i4 0).1 h).1, fun d hd => ?_⟩, hiff⟩
  have hd1 := ((i4 d).1 hd).1
  obtain ⟨z, hz⟩ := List.length_eq_one.1 (hp.2 d hd1)
  have hzm : z ∈ sh.vs d := by rw [hz]; exact List.mem_singleton_self _
  refine length_one_of_eq (hwf.vs_nodup d hd) (hkeep d hd z hzm) (fun x hx => ?_)
  have := (hiff d hd x).1 hx
  rw [hz] at this
  exact List.mem_singleton.1 this

theorem closed_oneEach : Closed OneEach := by
  constructor
  · intro sh _ hp hs
    obtain ⟨c, hc⟩ := List.exists_mem_of_ne_nil _ hs
    exact chooseA_ne_of_small hp.1 hc (by rw [hp.2 c hc])
  · intro sh hw hp hs r hr
    obtain ⟨c, hc⟩ := List.exists_mem_of_ne_nil _ hs
    have hne := chooseA_ne_of_small hp.1 hc (by rw [hp.2 c hc])
    exact (oneEach_select hw hp (chooseA_mem hne) hr).1

/-- On a matrix with one node per column the search succeeds. -/
theorem solveA_oneEach : ∀ (d : Nat) (sh : Shape) (sol : List Nat), sh.WF → OneEach sh →
    sh.hs.length < d → ∃ a1, solveA d sh (false, sol) = .ok (true, a1)
  | 0, _, _, _, _, h => absurd h (Nat.not_lt_zero _)
  | d + 1, sh, sol, hw, hp, hd => by
    unfold solveA
    by_cases hs : sh.hs = []
    · rw [if_pos hs]; exact ⟨_, rfl⟩
    · rw [if_neg hs]
      have h0 := closed_oneEach.choose_ne sh hw hp hs
      rw [if_neg h0]
      have hc := chooseA_mem h0
      obtain ⟨r, hr⟩ := List.length_eq_one.1 (hp.2 _ hc)
      have hrm : r ∈ sh.vs (chooseA sh) := by rw [hr]; exact List.mem_singleton_self _
      have hlen := length_selectA_lt hc r
      obtain ⟨a2, h2⟩ := solveA_oneEach d (selectA (coverA sh (chooseA sh)) r) (sol ++ [r])
        (selectA_spec hw hc hrm).1 (oneEach_select hw hp hc hrm).1 (by omega)
      rw [hr]
      simp only [foldRows, solve_rowA]
      have hpush : pushA (false, sol) r = (false, sol ++ [r]) := rfl
      rw [hpush, h2]
      simp only [if_true, popA]
      exact ⟨_, rfl⟩

/-! ## The matrix of a completely filled valid board -/

/-- A column all of whose nodes carry one row id holds one node. -/
theorem RowsInv.column_one {b : Board} {css : Nat} {s : Heap} {sh : Shape} {i : Nat}
    (h : RowsInv b css s sh i) {C m : Nat} (hC : C ∈ sh.hs) (hm : m ∈ sh.vs C)
    (hall : ∀ x ∈ sh.vs C, s.row_id x = s.row_id m) : (sh.vs C).length = 1 :=
  length_one_of_eq (h.wf.vs_nodup C hC) hm (fun x hx => h.uniq C hC x hx m hm (hall x hx))

/-- In the matrix of a filled board, the row id of a node says what its cell
holds. -/
theorem filled_node {b : Board} {k : Nat} (hb : IsBoard b k) (hf : Filled b k) {r c d : Nat}
    (hr : r < k * k) (hc : c < k * k) (h1 : 1 ≤ d) (hd : d ≤ k * k)
    (hns : ¬ row_skipped b (row_of (k * k) r c d)) : board_get b c r = d := by
  rw [row_skipped_row_of hb hr hc h1 hd] at hns
  by_contra hne
  exact hns ⟨hf r c hr hc, hne⟩

/-- The matrix of a completely filled valid board holds one node in every
column. -/
theorem matrix_oneEach {b : Board} {k : Nat} (hb : IsBoard b k) (hf : Filled b k)
    (hv : ValidGrid b k) : OneEach (matrix_shape b) := by
  have hinv := (matrix_create_inv hb).1
  have hN := hb.line_pos
  have hk := hb.k_pos
  have hhs := matrix_headers hb
  refine ⟨fun h => by rw [hhs] at h; omega, fun C hC => ?_⟩
  have hC2 := (hhs C).1 hC
  have hpresent : ∀ r c d, r < k * k → c < k * k → 1 ≤ d → d ≤ k * k → board_get b c r = d →
      ∃ n0, IsRow b (k * k * (k * k)) (matrix_create b).heap (matrix_shape b) n0 ∧
        (matrix_create b).heap.row_id n0 = row_of (k * k) r c d := by
    intro r c d hr hc h1 hd hval
    refine hinv.has _ (row_of_lt hr hc h1 hd) ?_
    rw [row_skipped_row_of hb hr hc h1 hd]
    intro h; exact h.2 hval
  by_cases q0 : C < 2 + k * k * (k * k)
  · -- a cell column
    have hr : (C - 2) / (k * k) < k * k := by
      rw [Nat.div_lt_iff_lt_mul hN]; omega
    have hc : (C - 2) % (k * k) < k * k := Nat.mod_lt _ hN
    have hCe : C = 2 + ((C - 2) / (k * k) * (k * k) + (C - 2) % (k * k)) := by
      have := Nat.div_add_mod (C - 2) (k * k)
      rw [Nat.mul_comm] at this
      omega
    obtain ⟨-, a, ha, -, hpar, hall⟩ := clue_column hb hr hc (hf _ _ hr hc)
    rw [← hCe] at hpar hall
    have hm : a ∈ (matrix_shape b).vs C := by rw [← hpar]; exact ha.mem0
    exact length_one_of_eq (hinv.wf.vs_nodup C hC) hm hall
  · by_cases q1 : C < 2 + 2 * (k * k * (k * k))
    · -- a row-number column
      have hr : (C - 2 - k * k * (k * k)) / (k * k) < k * k := by
        rw [Nat.div_lt_iff_lt_mul hN]; omega
      have ho : (C - 2 - k * k * (k * k)) % (k * k) < k * k := Nat.mod_lt _ hN
      generalize hrr : (C - 2 - k * k * (k * k)) / (k * k) = r at hr
      generalize hoo : (C - 2 - k * k * (k * k)) % (k * k) = o at ho
      have hCe : C = 2 + (k * k * (k * k) + r * (k * k) + o) := by
        have := Nat.div_add_mod (C - 2 - k * k * (k * k)) (k * k)
        rw [Nat.mul_comm, hrr, hoo] at this
        omega
      obtain ⟨c, ⟨hc, hval⟩, huniq⟩ := hv.1 r (o + 1) hr (by omega) (by omega)
      obtain ⟨n0, hrow, hid⟩ := hpresent r c (o + 1) hr hc (by omega) (by omega) hval
      have hpar : (matrix_shape b).par (n0 + 1) = C := by
        rw [hrow.par1, hid, (index_row_of hb r hc (by omega) (by omega)).2.1, hCe]
        rfl
      have hm : n0 + 1 ∈ (matrix_shape b).vs C := by rw [← hpar]; exact hrow.mem1
      refine hinv.column_one hC hm (fun x hx => ?_)
      obtain ⟨m1, m2, m3⟩ := hinv.node_col hC hx
      obtain ⟨i1, i2, i3, i4, i5, i6, i7⟩ := index_ranges hb m1
      obtain ⟨p1, p2, p3, p4⟩ := row_parts hN m1
      have hidx : row_index b (k * k * (k * k)) ((matrix_create b).heap.row_id x)
          = k * k * (k * k) + r * (k * k) + o := by omega
      have hx1 := row_index_eq hb ho hidx
      have hxv := @filled_node b k hb hf r _ (o + 1) hr p2 (by omega) (by omega)
        (by rw [← hx1]; exact m2)
      have hcx := huniq _ ⟨p2, hxv⟩
      rw [hcx] at hx1
      rw [hx1, hrow.id1, hid]
    · by_cases q2 : C < 2 + 3 * (k * k * (k * k))
      · -- a column-number column
        have hc : (C - 2 - 2 * (k * k * (k * k))) / (k * k) < k * k := by
          rw [Nat.div_lt_iff_lt_mul hN]; omega
        have ho : (C - 2 - 2 * (k * k * (k * k))) % (k * k) < k * k := Nat.mod_lt _ hN
        generalize hcc : (C - 2 - 2 * (k * k * (k * k))) / (k * k) = c at hc
        generalize hoo : (C - 2 - 2 * (k * k * (k * k))) % (k * k) = o at ho
        have hCe : C = 2 + (2 * (k * k * (k * k)) + c * (k * k) + o) := by
          have := Nat.div_add_mod (C - 2 - 2 * (k * k * (k * k))) (k * k)
          rw [Nat.mul_comm, hcc, hoo] at this
          omega
        obtain ⟨r, ⟨hr, hval⟩, huniq⟩ := hv.2.1 c (o + 1) hc (by omega) (by omega)
        obtain ⟨n0, hrow, hid⟩ := hpresent r c (o + 1) hr hc (by omega) (by omega) hval
        have hpar : (matrix_shape b).par (n0 + 2) = C := by
          rw [hrow.par2, hid, (index_row_of hb r hc (by omega) (by omega)).2.2.1, hCe]
          rfl
        have hm : n0 + 2 ∈ (matrix_shape b).vs C := by rw [← hpar]; exact hrow.mem2
        refine hinv.column_one hC hm (fun x hx => ?_)
        obtain ⟨m1, m2, m3⟩ := hinv.node_col hC hx
        obtain ⟨i1, i2, i3, i4, i5, i6, i7⟩ := index_ranges hb m1
        obtain ⟨p1, p2, p3, p4⟩ := row_parts hN m1
        have hidx : col_index b (k * k * (k * k)) ((matrix_create b).heap.row_id x)
            = 2 * (k * k * (k * k)) + c * (k * k) + o := by omega
        have hx1 := col_index_eq hb ho hidx
        have hxv := @filled_node b k hb hf _ c (o + 1) p1 hc (by omega) (by omega)
          (by rw [← hx1]; exact m2)
        have hrx := huniq _ ⟨p1, hxv⟩
        rw [hrx] at hx1
        rw [hx1, hrow.id2, hid]
      · -- a box-number column
        have hbx : (C - 2 - 3 * (k * k * (k * k))) / (k * k) < k * k := by
          rw [Nat.div_lt_iff_lt_mul hN]; omega
        have ho : (C - 2 - 3 * (k * k * (k * k))) % (k * k) < k * k := Nat.mod_lt _ hN
        generalize hbb : (C - 2 - 3 * (k * k * (k * k))) / (k * k) = bx at hbx
        generalize hoo : (C - 2 - 3 * (k * k * (k * k))) % (k * k) = o at ho
        have hbr : bx / k < k := by rw [Nat.div_lt_iff_lt_mul hk]; exact hbx
        have hbc : bx % k < k := Nat.mod_lt _ hk
        have hbxe : k * (bx / k) + bx % k = bx := Nat.div_add_mod bx k
        have hCe : C = 2 + (3 * (k * k * (k * k)) + (k * (bx / k) + bx % k) * (k * k) + o) := by
          have := Nat.div_add_mod (C - 2 - 3 * (k * k * (k * k))) (k * k)
          rw [Nat.mul_comm, hbb, hoo] at this
          rw [hbxe]
          omega
        obtain ⟨⟨r, c⟩, ⟨hr, hc, hrb, hcb, hval⟩, huniq⟩ :=
          hv.2.2 (bx / k) (bx % k) (o + 1) hbr hbc (by omega) (by omega)
        simp only at hr hc hrb hcb hval
        obtain ⟨n0, hrow, hid⟩ := hpresent r c (o + 1) hr hc (by omega) (by omega) hval
        have hpar : (matrix_shape b).par (n0 + 3) = C := by
          rw [hrow.par3, hid, (index_row_of hb r hc (by omega) (by omega)).2.2.2, hCe, hrb, hcb]
          rfl
        have hm : n0 + 3 ∈ (matrix_shape b).vs C := by rw [← hpar]; exact hrow.mem3
        refine hinv.column_one hC hm (fun x hx => ?_)
        obtain ⟨m1, m2, m3⟩ := hinv.node_col hC hx
        obtain ⟨i1, i2, i3, i4, i5, i6, i7⟩ := index_ranges hb m1
        obtain ⟨p1, p2, p3, p4⟩ := row_parts hN m1
        have hidx : box_index b (k * k * (k * k)) ((matrix_create b).heap.row_id x)
            = 3 * (k * k * (k * k)) + (k * (bx / k) + bx % k) * (k * k) + o := by omega
        obtain ⟨hx1, f1, f2⟩ := box_index_eq hb m1 hbc ho hidx
        have hxv := @filled_node b k hb hf _ _ (o + 1) p1 p2 (by omega) (by omega)
          (by rw [← hx1]; exact m2)
        have hpx := huniq (_, _) ⟨p1, p2, f1, f2, hxv⟩
        have e1 := congrArg Prod.fst hpx
        have e2 := congrArg Prod.snd hpx
        simp only at e1 e2
        rw [e1, e2] at hx1
        rw [hx1, hrow.id3, hid]

/-! ## Round trip on a completely filled valid board -/

theorem board_set_cell_size (b : Board) (i j v : Nat) :
    (board_set b i j v).board_cell_size = b.board_cell_size := by
  unfold board_set
  dsimp only
  split <;> rfl

theorem write_solution_dims {k : Nat} (h : Heap) : ∀ (q : List Nat) (b : Board), Dims b k →
    Dims (write_solution h b q) k ∧
      (write_solution h b q).board_cell_size = b.board_cell_size
  | [], _, hd => ⟨hd, rfl⟩
  | n :: q, b, hd => by
    have ih := write_solution_dims h q (write_solution_row h b n) (write_row_dims hd h n)
    have e : write_solution h b (n :: q) = write_solution h (write_solution_row h b n) q := rfl
    rw [e]
    refine ⟨ih.1, ih.2.trans ?_⟩
    unfold write_solution_row
    exact board_set_cell_size _ _ _ _

/-- Reading a cell of a board with known sizes. -/
theorem Dims.get {b : Board} {k : Nat} (h : Dims b k) (hu : k * k * (k * k) < UINT_MOD)
    {i : Nat} (hi : i < k * k * (k * k)) :
    board_get b (i % (k * k)) (i / (k * k)) = b.cells.getD i 0 := by
  have e : i % (k * k) + i / (k * k) * (k * k) = i := by
    rw [Nat.mul_comm (i / (k * k))]; exact Nat.mod_add_div _ _
  simp only [board_get, h.line_size, h.size, e, Nat.mod_eq_of_lt (lt_trans hi hu), if_pos hi]

/-- Two boards of the same sizes with the same cells are equal. -/
theorem board_ext {b g : Board} {k : Nat} (hb : Dims b k) (hg : Dims g k)
    (hu : k * k * (k * k) < UINT_MOD) (hk : 1 ≤ k)
    (hcs : g.board_cell_size = b.board_cell_size)
    (h : ∀ r c, r < k * k → c < k * k → board_get g c r = board_get b c r) : g = b := by
  have hN : 0 < k * k := Nat.mul_pos hk hk
  have hcells : g.cells = b.cells := by
    apply List.ext_getElem (by rw [hg.len, hb.len])
    intro i h1 h2
    have hi : i < k * k * (k * k) := by rw [← hg.len]; exact h1
    have hr : i / (k * k) < k * k := by rw [Nat.div_lt_iff_lt_mul hN]; exact hi
    have := h _ _ hr (Nat.mod_lt i hN)
    rw [hg.get hu hi, hb.get hu hi, List.getD_eq_getElem?_getD,
      List.getD_eq_getElem?_getD, List.getElem?_eq_getElem h1, List.getElem?_eq_getElem h2] at this
    exact this
  cases b
  cases g
  simp only [Board.mk.injEq]
  exact ⟨hcells, hg.size.trans hb.size.symm, hg.grid_size.trans hb.grid_size.symm, hcs,
    hg.line_size.trans hb.line_size.symm⟩

/-- On a completely filled valid board whose row ids fit an `unsigned int`, the
search succeeds and the row ids of its solution, decoded as in `main`, give
the grid that was given (`solve_board`: the row ids are the ones the nodes were
created with). -/
theorem round_trip_small {b : Board} {k : Nat} (hb : IsBoard b k) (hf : Filled b k)
    (hv : ValidGrid b k) (hfit : k * k * (k * k * (k * k)) ≤ UINT_MOD) :
    ∃ F0, ∀ F, F0 ≤ F → solve_board F b = .ok (some b) := by
  have hw := matrix_create_wf hb
  refine ⟨(matrix_shape b).bound, fun F hF => ?_⟩
  have hlt : (matrix_shape b).hs.length < F :=
    lt_of_lt_of_le (matrix_shape b).length_lt_bound hF
  obtain ⟨a1, h1⟩ := solveA_oneEach F (matrix_shape b) [] hw.1 (matrix_oneEach hb hf hv) hlt
  have hrun : dlx_solve F (matrix_create b)
      = .ok (true, State.mk' (matrix_create b).heap 1 a1) := by
    rw [dlx_solve_eq hw ((matrix_shape b).fits_bound hF)]
    show (match solveA F (matrix_shape b) (false, []) with
      | .ok (b', a1) => Except.ok (b', State.mk' (matrix_create b).heap 1 a1)
      | .error e => .error e) = _
    rw [h1]
  have hq : ExactCover (matrix_shape b) a1.2 := by
    rcases solveA_unsolved F _ [] true a1 hw.1 h1 with ⟨hv', -⟩ | ⟨-, p, hp1, hp2⟩
    · cases hv'
    · rw [hp1]; exact hp2
  unfold solve_board
  rw [hrun]
  show Except.ok (some (write_solution (matrix_create b).heap b a1.2)) = _
  have hd := write_solution_dims (matrix_create b).heap a1.2 b hb.dims
  rw [board_ext hb.dims hd.1 hb.fits hb.k_pos hd.2
    (fun r c hr hc => (grid_valid hb hfit hq).2 r c hr hc (hf r c hr hc))]

/-- When the search succeeds on a board whose row ids fit an `unsigned int`,
the row ids of its solution, decoded as in `main`, give a Sudoku solution that
keeps the clues (`solve_board`: the row ids are the ones the nodes were created
with). -/
theorem sudoku_correct_small {b : Board} {k : Nat} (hb : IsBoard b k)
    (hfit : k * k * (k * k * (k * k)) ≤ UINT_MOD) {F : Nat} {g : Board}
    (h : solve_board F b = .ok (some g)) :
    ValidGrid g k ∧
      ∀ r c, r < k * k → c < k * k → board_get b c r ≠ 0 → board_get g c r = board_get b c r := by
  obtain ⟨q, hq, rfl⟩ := solve_board_some hb h
  exact grid_valid hb hfit hq

/-! ## The pattern board with `k = 41` -/

theorem pattern41_isBoard : IsBoard (patternBoard 41) 41 :=
  patternBoard_isBoard (by norm_num) (by norm_num [UINT_MOD])

/-- The cells of the pattern board with `k = 41`. -/
theorem pattern41_get {r c : Nat} (hr : r < 1681) (hc : c < 1681) :
    board_get (patternBoard 41) c r = (41 * (r % 41) + r / 41 + c) % 1681 + 1 := by
  have h := board_get_pattern 41 c r (by norm_num; omega) (by norm_num [UINT_MOD])
  have e1 : (c + r * (41 * 41)) / (41 * 41) = r := by omega
  have e2 : (c + r * (41 * 41)) % (41 * 41) = c := by omega
  rw [h, e1, e2]

theorem pattern41_filled : Filled (patternBoard 41) 41 := by
  intro r c hr hc
  rw [pattern41_get (by norm_num at hr; exact hr) (by norm_num at hc; exact hc)]
  omega

/-- Swapping the two base-41 digits of a number below `1681` twice gives the
number back. -/
theorem swap41 {t : Nat} (ht : t < 1681) :
    41 * (t % 41) + t / 41 < 1681 ∧
      41 * ((41 * (t % 41) + t / 41) % 41) + (41 * (t % 41) + t / 41) / 41 = t := by
  omega

/-- The digit at an offset in a line of the pattern. -/
theorem shift41 {s c d : Nat} (hs : s < 1681) (hc : c < 1681) (h1 : 1 ≤ d) (hd : d ≤ 1681) :
    (s + c) % 1681 + 1 = d ↔ s = (d - 1 + 1681 - c) % 1681 := by
  omega

theorem pattern41_valid : ValidGrid (patternBoard 41) 41 := by
  refine ⟨?_, ?_, ?_⟩
  · intro r d hr h1 hd
    norm_num at hr hd
    refine ⟨(d - 1 + 1681 - (41 * (r % 41) + r / 41) % 1681) % 1681, ⟨?_, ?_⟩, ?_⟩
    · norm_num; omega
    · rw [pattern41_get hr (by omega)]; omega
    · rintro c ⟨hc, hv⟩
      norm_num at hc
      rw [pattern41_get hr hc] at hv
      omega
  · intro c d hc h1 hd
    norm_num at hc hd
    have ht : (d - 1 + 1681 - c) % 1681 < 1681 := Nat.mod_lt _ (by norm_num)
    generalize htt : (d - 1 + 1681 - c) % 1681 = t at ht
    obtain ⟨w1, w2⟩ := swap41 ht
    refine ⟨41 * (t % 41) + t / 41, ⟨w1, ?_⟩, ?_⟩
    · rw [pattern41_get w1 hc, w2]
      exact (shift41 ht hc h1 hd).2 htt.symm
    · rintro r ⟨hr, hv⟩
      norm_num at hr
      rw [pattern41_get hr hc] at hv
      obtain ⟨v1, v2⟩ := swap41 hr
      have := (shift41 v1 hc h1 hd).1 hv
      rw [htt] at this
      rw [← this]
      exact v2.symm
  · intro br bc d hbr hbc h1 hd
    norm_num at hd
    have hw : br + 41 * bc < 1681 := by omega
    have ht : (d - 1 + 1681 - (br + 41 * bc)) % 1681 < 1681 := Nat.mod_lt _ (by norm_num)
    generalize htt : (d - 1 + 1681 - (br + 41 * bc)) % 1681 = t at ht
    have hr0 : 41 * br + t / 41 < 1681 := by omega
    have hc0 : 41 * bc + t % 41 < 1681 := by omega
    refine ⟨(41 * br + t / 41, 41 * bc + t % 41), ⟨hr0, hc0, ?_, ?_, ?_⟩, ?_⟩
    · show (41 * br + t / 41) / 41 = br
      omega
    · show (41 * bc + t % 41) / 41 = bc
      omega
    · show board_get (patternBoard 41) (41 * bc + t % 41) (41 * br + t / 41) = d
      rw [pattern41_get hr0 hc0]
      have e : 41 * ((41 * br + t / 41) % 41) + (41 * br + t / 41) / 41 + (41 * bc + t % 41)
          = t + (br + 41 * bc) := by omega
      rw [e]
      exact (shift41 ht hw h1 hd).2 htt.symm
    · rintro ⟨r, c⟩ ⟨hr, hc, g1, g2, hv⟩
      simp only at hr hc g1 g2 hv
      norm_num at hr hc
      rw [pattern41_get hr hc] at hv
      have e : 41 * (r % 41) + r / 41 + c = (41 * (r % 41) + c % 41) + (br + 41 * bc) := by
        omega
      rw [e] at hv
      have hu : 41 * (r % 41) + c % 41 < 1681 := by omega
      have := (shift41 hu hw h1 hd).1 hv
      rw [htt] at this
      refine Prod.ext ?_ ?_
      · show r = 41 * br + t / 41
        omega
      · show c = 41 * bc + t % 41
        omega

/-! ## The order of the selected rows -/

theorem foldl_coverA_sublist : ∀ (l : List Nat) (sh : Shape) (f : Nat → Nat),
    (l.foldl (fun a n => coverA a (f n)) sh).hs.Sublist sh.hs
  | [], _, _ => List.Sublist.refl _
  | n :: l, sh, f =>
    (foldl_coverA_sublist l (coverA sh (f n)) f).trans (List.filter_sublist _)

theorem selectA_hs_sublist (sh : Shape) (c r : Nat) :
    (selectA (coverA sh c) r).hs.Sublist sh.hs :=
  (foldl_coverA_sublist _ _ _).trans (List.filter_sublist _)

/-- With one node in every column the first header is chosen. -/
theorem chooseA_head {sh : Shape} (hw : sh.WF) (hp : OneEach sh) {h : Nat} {l : List Nat}
    (hs : sh.hs = h :: l) : chooseA sh = h := by
  unfold chooseA
  rw [hs]
  have hnd := hw.hs_nodup
  rw [hs] at hnd
  have h1 : (sh.vs h).length = 1 := hp.2 h (by rw [hs]; exact List.mem_cons_self _ _)
  have e : MIN_COUNT_INIT = 511 := by decide
  unfold chooseL
  rw [if_pos (by rw [h1, e]; norm_num)]
  refine (chooseL_eq_best _ l h _ (List.nodup_cons.1 hnd).1).2 (fun c hc => ?_)
  rw [h1, hp.2 c (by rw [hs]; exact List.mem_cons_of_mem _ hc)]

/-- Selecting a row keeps the order of the headers and the keys of the
rows. -/
theorem KeyInv.select {key : Nat → Nat} {sh : Shape} (hw : sh.WF) (hk : KeyInv key sh)
    {c r : Nat} (hc : c ∈ sh.hs) (hr : r ∈ sh.vs c) :
    KeyInv key (selectA (coverA sh c) r) := by
  obtain ⟨-, i2, i3, i4, i5⟩ := selectA_spec hw hc hr
  refine ⟨hk.1.sublist (selectA_hs_sublist sh c r), fun d hd x hx => ?_⟩
  rw [rowCols_congr i2 i3]
  exact hk.2 d ((i4 d).1 hd).1 x ((i5 d hd x).1 hx).1

/-- On a matrix with one node in every column the search succeeds, and it
selects the rows in the order of their keys. -/
theorem solveA_sorted {key : Nat → Nat} : ∀ (d : Nat) (sh : Shape) (sol : List Nat),
    sh.WF → OneEach sh → KeyInv key sh → sh.hs.length < d →
    ∃ p a1, solveA d sh (false, sol) = .ok (true, a1) ∧ a1.2 = sol ++ p ∧
      p.Pairwise (fun x y => key x < key y) ∧ ∀ x ∈ p, key x ∈ sh.hs
  | 0, _, _, _, _, _, h => absurd h (Nat.not_lt_zero _)
  | d + 1, sh, sol, hw, hp, hk, hd => by
    unfold solveA
    by_cases hs0 : sh.hs = []
    · rw [if_pos hs0]
      exact ⟨[], _, rfl, by simp, List.Pairwise.nil,
        fun x hx => absurd hx (List.not_mem_nil _)⟩
    · obtain ⟨h, l, hs⟩ := List.exists_cons_of_ne_nil hs0
      rw [if_neg hs0]
      have hch := chooseA_head hw hp hs
      have h0 := closed_oneEach.choose_ne sh hw hp hs0
      rw [if_neg h0]
      have hc := chooseA_mem h0
      obtain ⟨r, hr⟩ := List.length_eq_one.1 (hp.2 _ hc)
      have hrm : r ∈ sh.vs (chooseA sh) := by rw [hr]; exact List.mem_singleton_self _
      have hlen := length_selectA_lt hc r
      obtain ⟨hwf, -, -, i4, -⟩ := selectA_spec hw hc hrm
      obtain ⟨p, a2, h2, ha2, hp1, hp2⟩ := solveA_sorted d (selectA (coverA sh (chooseA sh)) r)
        (sol ++ [r]) hwf (oneEach_select hw hp hc hrm).1 (hk.select hw hc hrm) (by omega)
      have hsorted := hk.1
      rw [hs] at hsorted
      have hgt : ∀ e ∈ sh.hs, e ≠ h → h < e := by
        intro e he hne'
        rw [hs] at he
        rcases List.mem_cons.1 he with rfl | he
        · exact absurd rfl hne'
        · exact (List.pairwise_cons.1 hsorted).1 e he
      have hcr : chooseA sh ∈ sh.rowCols r := by
        have := sh.par_mem_rowCols r
        rwa [hw.vs_par _ hc r hrm] at this
      obtain ⟨k1, k2⟩ := hk.2 _ hc r hrm
      have hkr : key r = h := by
        have hle := k2 _ hcr
        rw [hch] at hle
        by_contra hne'
        have := hgt (key r) (hw.rowCols_sub hc hrm k1) hne'
        omega
      refine ⟨r :: p, (true, a2.2), ?_, by simp [ha2],
        List.pairwise_cons.2 ⟨fun x hx => ?_, hp1⟩, fun x hx => ?_⟩
      · rw [hr]
        simp only [foldRows, solve_rowA]
        have hpush : pushA (false, sol) r = (false, sol ++ [r]) := rfl
        rw [hpush, h2]
        simp [popA]
      · obtain ⟨m1, m2⟩ := (i4 (key x)).1 (hp2 x hx)
        rw [hkr]
        refine hgt _ m1 (fun he => m2 ?_)
        rw [he, ← hch]; exact hcr
      · rcases List.mem_cons.1 hx with rfl | hx
        · exact hw.rowCols_sub hc hrm k1
        · exact ((i4 (key x)).1 (hp2 x hx)).1

/-! ## The result loop with row ids above `2 ^ 32` -/

/-- One iteration of the result loop: the row id is reduced to an `unsigned
int` before it is decoded. -/
theorem write_row_get_mod {b : Board} {k : Nat} (hd : Dims b k) (hk : 1 ≤ k)
    (hu : k * k * (k * k) < UINT_MOD) (h : Heap) {n : Nat}
    (hn : h.row_id n % UINT_MOD < k * k * (k * k * (k * k))) {r c : Nat} (hr : r < k * k)
    (hc : c < k * k) :
    board_get (write_solution_row h b n) c r
      = if h.row_id n % UINT_MOD / (k * k) = r * (k * k) + c
        then h.row_id n % UINT_MOD % (k * k) + 1 else board_get b c r := by
  have hN : 0 < k * k := Nat.mul_pos hk hk
  obtain ⟨p1, p2, p3, p4⟩ := row_parts hN hn
  have hU : ∀ x, x < k * k → x % UINT_MOD = x := by
    intro x hx
    apply Nat.mod_eq_of_lt
    have : k * k ≤ k * k * (k * k) := Nat.le_mul_of_pos_right _ hN
    omega
  have e : write_solution_row h b n
      = board_set b (h.row_id n % UINT_MOD / (k * k) % (k * k))
          (h.row_id n % UINT_MOD / (k * k * (k * k))) (h.row_id n % UINT_MOD % (k * k) + 1) := by
    simp only [write_solution_row, hd.line_size, hd.grid_size, hU _ p1, hU _ p2]
  rw [e, hd.get_set hu hr hc p1 p2]
  have e2 : h.row_id n % UINT_MOD / (k * k * (k * k)) * (k * k)
      + h.row_id n % UINT_MOD / (k * k) % (k * k) = h.row_id n % UINT_MOD / (k * k) := by
    rw [← Nat.div_div_eq_div_mul, Nat.mul_comm]
    exact Nat.div_add_mod _ _
  rw [e2]

/-- The result loop writes into a cell the digit on which all the selected
rows agree that are decoded to the cell. -/
theorem write_solution_get_mod {k : Nat} (hk : 1 ≤ k) (hu : k * k * (k * k) < UINT_MOD)
    (h : Heap) {r c : Nat} (hr : r < k * k) (hc : c < k * k) :
    ∀ (q : List Nat) (b : Board), Dims b k →
      (∀ n ∈ q, h.row_id n % UINT_MOD < k * k * (k * k * (k * k))) →
      ((∀ n ∈ q, h.row_id n % UINT_MOD / (k * k) ≠ r * (k * k) + c) →
        board_get (write_solution h b q) c r = board_get b c r) ∧
      ∀ d, (∃ n ∈ q, h.row_id n % UINT_MOD / (k * k) = r * (k * k) + c) →
        (∀ n ∈ q, h.row_id n % UINT_MOD / (k * k) = r * (k * k) + c →
          h.row_id n % UINT_MOD % (k * k) + 1 = d) →
        board_get (write_solution h b q) c r = d
  | [], b, _, _ => ⟨fun _ => rfl, fun d hex => by simp at hex⟩
  | n :: q, b, hd, hlt => by
    have ih := write_solution_get_mod hk hu h hr hc q (write_solution_row h b n)
      (write_row_dims hd h n) (fun m hm => hlt m (List.mem_cons_of_mem _ hm))
    have hstep := write_row_get_mod hd hk hu h (hlt n (List.mem_cons_self _ _)) hr hc
    have e : write_solution h b (n :: q) = write_solution h (write_solution_row h b n) q := rfl
    rw [e]
    refine ⟨fun hnone => ?_, fun d hex hall => ?_⟩
    · rw [ih.1 (fun m hm => hnone m (List.mem_cons_of_mem _ hm)), hstep,
        if_neg (hnone n (List.mem_cons_self _ _))]
    · by_cases hq : ∃ m ∈ q, h.row_id m % UINT_MOD / (k * k) = r * (k * k) + c
      · exact ih.2 d hq (fun m hm => hall m (List.mem_cons_of_mem _ hm))
      · have hnone : ∀ m ∈ q, h.row_id m % UINT_MOD / (k * k) ≠ r * (k * k) + c :=
          fun m hm he => hq ⟨m, hm, he⟩
        obtain ⟨m, hm, he⟩ := hex
        rcases List.mem_cons.1 hm with rfl | hm
        · rw [ih.1 hnone, hstep, if_pos he]
          exact hall m (List.mem_cons_self _ _) he
        · exact absurd he (hnone m hm)

/-- The least column of the row of a node of the matrix of a board is its
cell column. -/
theorem matrix_keyInv {b : Board} {k : Nat} (hb : IsBoard b k) :
    KeyInv (fun x => 2 + (matrix_create b).heap.row_id x / (k * k)) (matrix_shape b) := by
  have hinv := (matrix_create_inv hb).1
  refine ⟨?_, fun c hc x hx => ?_⟩
  · rw [hinv.hs]
    exact List.pairwise_lt_range' 2 _
  · obtain ⟨m1, -, -⟩ := hinv.node_col hc hx
    obtain ⟨i1, i2, i3, i4, i5, i6, i7⟩ := index_ranges hb m1
    have hnum : (matrix_create b).heap.row_id x / (k * k)
        = num_index b (k * k * (k * k)) ((matrix_create b).heap.row_id x) := by
      simp only [num_index, hb.line_size, Nat.zero_mul, Nat.zero_add]
    refine ⟨?_, fun e he => ?_⟩
    · rw [hinv.node_rowCols hc hx]
      simp only [rowColsOf, List.mem_cons, hnum, true_or]
    · rw [hinv.node_rowCols hc hx] at he
      simp only [rowColsOf, List.mem_cons, List.mem_singleton, List.not_mem_nil, or_false] at he
      show 2 + (matrix_create b).heap.row_id x / (k * k) ≤ e
      rw [hnum]
      omega

/-- On a filled valid board the search succeeds, and it selects the rows in
the order of their cells. -/
theorem filled_run {b : Board} {k : Nat} (hb : IsBoard b k) (hf : Filled b k)
    (hv : ValidGrid b k) {F : Nat} (hF : (matrix_shape b).bound ≤ F) :
    ∃ p, solve_board F b = .ok (some (write_solution (matrix_create b).heap b p)) ∧
      ExactCover (matrix_shape b) p ∧
      p.Pairwise (fun x y => (matrix_create b).heap.row_id x / (k * k)
        < (matrix_create b).heap.row_id y / (k * k)) := by
  have hw := matrix_create_wf hb
  have hlt : (matrix_shape b).hs.length < F :=
    lt_of_lt_of_le (matrix_shape b).length_lt_bound hF
  obtain ⟨p, a1, h1, ha1, hsort, -⟩ := solveA_sorted F (matrix_shape b) []
    hw.1 (matrix_oneEach hb hf hv) (matrix_keyInv hb) hlt
  rw [List.nil_append] at ha1
  have hrun : dlx_solve F (matrix_create b)
      = .ok (true, State.mk' (matrix_create b).heap 1 a1) := by
    rw [dlx_solve_eq hw ((matrix_shape b).fits_bound hF)]
    show (match solveA F (matrix_shape b) (false, []) with
      | .ok (b', a1) => Except.ok (b', State.mk' (matrix_create b).heap 1 a1)
      | .error e => .error e) = _
    rw [h1]
  have hq : ExactCover (matrix_shape b) p := by
    rcases solveA_unsolved F _ [] true a1 hw.1 h1 with ⟨hv', -⟩ | ⟨-, p', hp1, hp2⟩
    · cases hv'
    · rw [List.nil_append] at hp1
      rw [← ha1, hp1]; exact hp2
  refine ⟨p, ?_, hq, ?_⟩
  · unfold solve_board
    rw [hrun]
    show Except.ok (some (write_solution (matrix_create b).heap b a1.2)) = _
    rw [ha1]
  · exact hsort.imp (fun h => by omega)

/-- In a list ordered by a key, an element whose key is the greatest possible
is the last one. -/
theorem last_of_sorted {key : Nat → Nat} {M : Nat} :
    ∀ {p : List Nat} {n : Nat}, p.Pairwise (fun x y => key x < key y) → n ∈ p →
      (∀ x ∈ p, key x ≤ M) → key n = M → ∃ l, p = l ++ [n] := by
  intro p n hs hn hM hk
  obtain ⟨l1, l2, rfl⟩ := List.append_of_mem hn
  rcases l2 with _ | ⟨x, l2⟩
  · exact ⟨l1, rfl⟩
  · exfalso
    have hx : x ∈ l1 ++ n :: x :: l2 := by simp
    have h1 := (List.pairwise_cons.1 (List.pairwise_append.1 hs).2.1).1 x
      (List.mem_cons_self _ _)
    have h2 := hM x hx
    omega

/-- On a filled valid board the search succeeds, and the row it selects last
is the row of the clue in the last cell. -/
theorem filled_run_last {b : Board} {k : Nat} (hb : IsBoard b k) (hf : Filled b k)
    (hv : ValidGrid b k) {F : Nat} (hF : (matrix_shape b).bound ≤ F) :
    ∃ l n, solve_board F b = .ok (some (write_solution (matrix_create b).heap b (l ++ [n]))) ∧
      ExactCover (matrix_shape b) (l ++ [n]) ∧
      (matrix_create b).heap.row_id n
        = row_of (k * k) (k * k - 1) (k * k - 1) (board_get b (k * k - 1) (k * k - 1)) := by
  have hinv := (matrix_create_inv hb).1
  have hN : 0 < k * k := Nat.mul_pos hb.k_pos hb.k_pos
  obtain ⟨p, hrun, hq, hsort⟩ := filled_run hb hf hv hF
  have hlt : k * k - 1 < k * k := by omega
  have hcell := hf (k * k - 1) (k * k - 1) hlt hlt
  have hle := hb.board_get_le (k * k - 1) (k * k - 1)
  obtain ⟨n, hn, hid⟩ := @cover_has_clue b k hb p hq (k * k - 1) (k * k - 1) hlt hlt hcell
  have hkey : (matrix_create b).heap.row_id n / (k * k) = k * k * (k * k) - 1 := by
    rw [hid]
    obtain ⟨d, hd⟩ : ∃ d, board_get b (k * k - 1) (k * k - 1) = d := ⟨_, rfl⟩
    rw [hd] at hcell hle ⊢
    generalize k * k = N at hN hcell hle ⊢
    obtain ⟨M, rfl⟩ : ∃ M, N = M + 1 := ⟨N - 1, by omega⟩
    simp only [row_of, Nat.add_sub_cancel]
    have e : M * (M + 1) * (M + 1) + M * (M + 1) + (d - 1)
        = (d - 1) + (M + 1) * (M * (M + 1) + M) := by ring
    rw [e, Nat.add_mul_div_left _ _ (Nat.succ_pos M), Nat.div_eq_of_lt (by omega)]
    have e2 : (M + 1) * (M + 1) = M * (M + 1) + M + 1 := by ring
    rw [e2]; omega
  have hmax : ∀ x ∈ p, (matrix_create b).heap.row_id x / (k * k) ≤ k * k * (k * k) - 1 := by
    intro x hx
    have hxlt := (hinv.node_col (hq.1 x hx).1 (hq.1 x hx).2).1
    have : (matrix_create b).heap.row_id x / (k * k) < k * k * (k * k) := by
      rw [Nat.div_lt_iff_lt_mul hN]
      calc (matrix_create b).heap.row_id x < k * k * (k * k * (k * k)) := hxlt
        _ = k * k * (k * k) * (k * k) := by ring
    omega
  obtain ⟨l, rfl⟩ := last_of_sorted hsort hn hmax hkey
  exact ⟨l, n, hrun, hq, hid⟩

theorem write_solution_snoc (h : Heap) (b : Board) (l : List Nat) (n : Nat) :
    write_solution h b (l ++ [n]) = write_solution_row h (write_solution h b l) n := by
  simp only [write_solution, List.foldl_append, List.foldl_cons, List.foldl_nil]

/-- In the matrix of a filled board, the cell of every node holds the digit
of the node. -/
theorem filled_row_digit {b : Board} {k : Nat} (hb : IsBoard b k) (hf : Filled b k) {c n : Nat}
    (hc : c ∈ (matrix_shape b).hs) (hn : n ∈ (matrix_shape b).vs c) :
    (matrix_create b).heap.row_id n < k * k * (k * k * (k * k)) ∧
      board_get b ((matrix_create b).heap.row_id n / (k * k) % (k * k))
        ((matrix_create b).heap.row_id n / (k * k * (k * k)))
        = (matrix_create b).heap.row_id n % (k * k) + 1 := by
  have hinv := (matrix_create_inv hb).1
  have hN : 0 < k * k := Nat.mul_pos hb.k_pos hb.k_pos
  obtain ⟨hlt, hns, -⟩ := hinv.node_col hc hn
  obtain ⟨p1, p2, p3, -⟩ := row_parts hN hlt
  refine ⟨hlt, ?_⟩
  generalize (matrix_create b).heap.row_id n = row at hlt hns p1 p2 p3 ⊢
  have e := @row_of_split (k * k) row
  rw [e] at hns
  exact filled_node hb hf p1 p2 (Nat.succ_pos _) p3 hns

/-- The search and the result loop on the pattern board with `k = 41`, a
board too wide for the line buffer of `try_read_board`: the last row of the
solution is written into line 161, column 112. -/
theorem pattern41_written (F : Nat) :
    ∃ g, solve_board ((matrix_shape (patternBoard 41)).bound + F) (patternBoard 41)
        = .ok (some g) ∧
      board_get g 112 161 = 1151 ∧ board_get g 1270 161 = 1151 := by
  have hb := pattern41_isBoard
  have hu : 41 * 41 * (41 * 41) < UINT_MOD := by norm_num [UINT_MOD]
  obtain ⟨l, n, hrun, hq, hid⟩ := filled_run_last hb pattern41_filled pattern41_valid
    (Nat.le_add_right (matrix_shape (patternBoard 41)).bound F)
  have e1 : board_get (patternBoard 41) (41 * 41 - 1) (41 * 41 - 1) = 1680 := by
    rw [pattern41_get (by norm_num) (by norm_num)]
  rw [e1] at hid
  have hid2 : (matrix_create (patternBoard 41)).heap.row_id n = 4750104239 := by
    rw [hid]; norm_num [row_of]
  have hall : ∀ m ∈ l ++ [n], (matrix_create (patternBoard 41)).heap.row_id m % UINT_MOD
      < 41 * 41 * (41 * 41 * (41 * 41)) := fun m _ =>
    lt_trans (Nat.mod_lt _ (by norm_num [UINT_MOD])) (by norm_num [UINT_MOD])
  refine ⟨_, hrun, ?_, ?_⟩
  · rw [write_solution_snoc,
      write_row_get_mod (write_solution_dims _ l _ hb.dims).1 (by norm_num) hu _
        (hall n (by simp)) (by norm_num) (by norm_num), hid2]
    norm_num [UINT_MOD]
  · have e2 : board_get (patternBoard 41) 1270 161 = 1151 := by
      rw [pattern41_get (by norm_num) (by norm_num)]
    obtain ⟨m, hm, hmid⟩ := @cover_has_clue _ _ hb _ hq 161 1270 (by norm_num) (by norm_num)
      (by rw [e2]; norm_num)
    rw [e2] at hmid
    refine ((write_solution_get_mod (by norm_num) hu (matrix_create (patternBoard 41)).heap
      (by norm_num) (by norm_num) (l ++ [n]) (patternBoard 41) hb.dims hall).2 1151
      ⟨m, hm, ?_⟩ ?_)
    · rw [hmid]; norm_num [UINT_MOD, row_of]
    · intro x hx htar
      obtain ⟨hlt, hdig⟩ := filled_row_digit hb pattern41_filled (hq.1 x hx).1 (hq.1 x hx).2
      generalize (matrix_create (patternBoard 41)).heap.row_id x = row at hlt hdig htar ⊢
      have q1 : row / (41 * 41) % (41 * 41) = 1270 := by
        simp only [UINT_MOD] at htar; omega
      have q2 : row / (41 * 41 * (41 * 41)) = 161 := by
        simp only [UINT_MOD] at htar; omega
      rw [q1, q2, e2] at hdig
      simp only [UINT_MOD] at htar ⊢
      omega

/-- Beyond the boards that `try_read_board` can deliver: `patternBoard 41` is
a completely filled valid board, and with enough fuel `solve_board` on it
(build the matrix, search, decode the selected rows) gives a grid that is not
the input grid: the cell in line 161, column 112 held 1674 and now holds 1151,
because the row id `1681 ^ 3 - 2` of the last cell is cut to an `unsigned int`
before it is decoded. -/
theorem round_trip_fails :
    IsBoard (patternBoard 41) 41 ∧ Filled (patternBoard 41) 41 ∧
      ValidGrid (patternBoard 41) 41 ∧
      ∀ F, ∃ g, solve_board ((matrix_shape (patternBoard 41)).bound + F) (patternBoard 41)
          = .ok (some g) ∧
        board_get (patternBoard 41) 112 161 = 1674 ∧ board_get g 112 161 = 1151 ∧
        g ≠ patternBoard 41 := by
  refine ⟨pattern41_isBoard, pattern41_filled, pattern41_valid, fun F => ?_⟩
  obtain ⟨g, hrun, h1, -⟩ := pattern41_written F
  have e : board_get (patternBoard 41) 112 161 = 1674 := by
    rw [pattern41_get (by norm_num) (by norm_num)]
  refine ⟨g, hrun, e, h1, fun hg => ?_⟩
  rw [hg, e] at h1
  omega

/-- Beyond the boards that `try_read_board` can deliver: all the cells of the
board `patternBoard 41` hold values in `1..1681`, and with enough fuel
`solve_board` on it gives a grid that is no Sudoku solution and that has not
kept the clues: line 161 holds the digit 1151 in column 112 and in column
1270, and the clue 1674 of line 161, column 112 is gone. -/
theorem solved_grid_fails :
    IsBoard (patternBoard 41) 41 ∧
      ∀ F, ∃ g, solve_board ((matrix_shape (patternBoard 41)).bound + F) (patternBoard 41)
          = .ok (some g) ∧
        board_get g 112 161 = 1151 ∧ board_get g 1270 161 = 1151 ∧ ¬ ValidGrid g 41 ∧
        board_get (patternBoard 41) 112 161 ≠ 0 ∧
        board_get g 112 161 ≠ board_get (patternBoard 41) 112 161 := by
  refine ⟨pattern41_isBoard, fun F => ?_⟩
  obtain ⟨g, hrun, h1, h2⟩ := pattern41_written F
  have e : board_get (patternBoard 41) 112 161 = 1674 := by
    rw [pattern41_get (by norm_num) (by norm_num)]
  refine ⟨g, hrun, h1, h2, fun hv => ?_, by rw [e]; omega, by rw [e, h1]; omega⟩
  obtain ⟨c, -, huniq⟩ := hv.1 161 1151 (by norm_num) (by norm_num) (by norm_num)
  have a1 := huniq 112 ⟨by norm_num, h1⟩
  have a2 := huniq 1270 ⟨by norm_num, h2⟩
  omega

/-! ## `matrix_free` and the result loop behind it -/

theorem deref_ok {freed : List Nat} {n : Nat} (h0 : n ≠ 0) (hn : n ∉ freed) :
    deref freed n = .ok () := by
  simp [deref, h0, hn]

theorem deref_freed {freed : List Nat} {n : Nat} (h0 : n ≠ 0) (hn : n ∈ freed) :
    deref freed n = .error .useAfterFree := by
  simp [deref, h0, hn]

/-- A walk that releases every node it visits: the nodes of the list walked
are added to the released nodes. -/
theorem for_nodes_free (up : Nat → Nat) (stop : Nat) :
    ∀ (l : List Nat) (x : Nat) (fr : List Nat) (fuel : Nat), Path up x l stop → stop ∉ l →
      l.Nodup → (∀ y ∈ l, y ≠ 0 ∧ y ∉ fr) → l.length < fuel →
      for_nodes stop (fun _ row => up row) free_node fuel x fr
        = .ok (l.reverse ++ fr)
  | [], x, fr, fuel, hp, _, _, _, hf => by
    obtain ⟨f, rfl⟩ : ∃ f, fuel = f + 1 := ⟨fuel - 1, by simp at hf; omega⟩
    have : x = stop := hp
    rw [this]; exact for_nodes_stop _ _ _ _ _
  | y :: l, x, fr, fuel, hp, hs, hnd, hfr, hf => by
    obtain ⟨f, rfl⟩ : ∃ f, fuel = f + 1 := ⟨fuel - 1, by simp at hf; omega⟩
    obtain ⟨rfl, hp2⟩ := hp
    have hx : x ≠ stop := by rintro rfl; simp at hs
    have hd := deref_ok (hfr x (List.mem_cons_self _ _)).1 (hfr x (List.mem_cons_self _ _)).2
    rw [for_nodes_step f hx (show free_node fr x = .ok (x :: fr) by unfold free_node; rw [hd])]
    rw [for_nodes_free up stop l (up x) (x :: fr) f hp2
      (fun h => hs (List.mem_cons_of_mem _ h)) (List.nodup_cons.1 hnd).2 ?_
      (by simp at hf; omega)]
    · simp
    · intro z hz
      refine ⟨(hfr z (List.mem_cons_of_mem _ hz)).1, ?_⟩
      intro h
      rcases List.mem_cons.1 h with rfl | h
      · exact (List.nodup_cons.1 hnd).1 hz
      · exact (hfr z (List.mem_cons_of_mem _ hz)).2 h

/-- The header of a column is not one of its data nodes. -/
theorem Rep.header_nmem {s : Heap} {root : Nat} {sh : Shape} (hr : Rep s root sh) {c : Nat}
    (hc : c ∈ sh.hs) : c ∉ sh.vs c := by
  intro h
  have := hr.node_type c hc c h
  rw [hr.col_type c hc] at this
  exact absurd this (by decide)

/-- The inner loop of `matrix_free` releases the data nodes of the column. -/
theorem free_rows_spec {s : Heap} {root : Nat} {sh : Shape} (hw : sh.WF) (hr : Rep s root sh)
    (ha : Alloc s root sh) {F c : Nat} (hc : c ∈ sh.hs) (hF : (sh.vs c).length < F)
    {fr : List Nat} (hfr : ∀ y ∈ sh.vs c, y ∉ fr) :
    free_rows s F c fr = .ok (sh.vs c ++ fr) := by
  have hp := Seg.path _ _ _ (Seg.rev _ _ _ (hr.vring c hc))
  unfold free_rows
  rw [for_nodes_free s.up c (sh.vs c).reverse (s.up c) fr F hp
    (fun h => hr.header_nmem hc (List.mem_reverse.1 h))
    (List.nodup_reverse.2 (hw.vs_nodup c hc))
    (fun y hy => ⟨ha.vs_ne c hc y (List.mem_reverse.1 hy), hfr y (List.mem_reverse.1 hy)⟩)
    (by simpa using hF)]
  rw [List.reverse_reverse]

/-- The nodes released by `matrix_free` on the columns `cs`, walked in this
order. -/
theorem mem_foldl_free {vs : Nat → List Nat} {x : Nat} : ∀ (cs : List Nat) (fr : List Nat),
    x ∈ cs.foldl (fun fr c => c :: (vs c ++ fr)) fr ↔ x ∈ fr ∨ ∃ c ∈ cs, x ∈ c :: vs c
  | [], fr => by simp
  | c :: cs, fr => by
    rw [List.foldl_cons, mem_foldl_free cs]
    simp only [List.mem_cons, List.mem_append, exists_eq_or_imp]
    constructor
    · rintro ((h | h | h) | h)
      · exact Or.inr (Or.inl (Or.inl h))
      · exact Or.inr (Or.inl (Or.inr h))
      · exact Or.inl h
      · exact Or.inr (Or.inr h)
    · rintro (h | (h | h) | h)
      · exact Or.inl (Or.inr (Or.inr h))
      · exact Or.inl (Or.inl h)
      · exact Or.inl (Or.inr (Or.inl h))
      · exact Or.inr h

/-- The outer loop of `matrix_free` releases the columns it walks over and
their data nodes. -/
theorem free_columns_walk {s : Heap} {root : Nat} {sh : Shape} (hw : sh.WF)
    (hr : Rep s root sh) (ha : Alloc s root sh) {F : Nat} (hF : sh.Fits F) :
    ∀ (cs : List Nat) (x : Nat) (fr : List Nat) (fuel : Nat), Path s.left x cs root →
      cs.Nodup → (∀ c ∈ cs, c ∈ sh.hs) → (∀ c ∈ cs, ∀ y ∈ c :: sh.vs c, y ∉ fr) →
      cs.length < fuel →
      for_nodes root (fun _ column => s.left column) (free_column s F) fuel x fr
        = .ok (cs.foldl (fun fr c => c :: (sh.vs c ++ fr)) fr)
  | [], x, fr, fuel, hp, _, _, _, hf => by
    obtain ⟨f, rfl⟩ : ∃ f, fuel = f + 1 := ⟨fuel - 1, by simp at hf; omega⟩
    have : x = root := hp
    rw [this]; exact for_nodes_stop _ _ _ _ _
  | c :: cs, x, fr, fuel, hp, hnd, hmem, hfr, hf => by
    obtain ⟨f, rfl⟩ : ∃ f, fuel = f + 1 := ⟨fuel - 1, by simp at hf; omega⟩
    obtain ⟨rfl, hp2⟩ := hp
    have hc : x ∈ sh.hs := hmem x (List.mem_cons_self _ _)
    have hx : x ≠ root := fun h => hr.root_nmem (h ▸ hc)
    have h0 : x ≠ 0 := hr.hs_ne x hc
    have hd1 := deref_ok h0 (hfr x (List.mem_cons_self _ _) x (List.mem_cons_self _ _))
    have hrows := free_rows_spec hw hr ha hc (hF.2.1 x hc)
      (fun y hy => hfr x (List.mem_cons_self _ _) y (List.mem_cons_of_mem _ hy))
    have hd2 : deref (sh.vs x ++ fr) x = .ok () := by
      apply deref_ok h0
      rw [List.mem_append]
      rintro (h | h)
      · exact hr.header_nmem hc h
      · exact hfr x (List.mem_cons_self _ _) x (List.mem_cons_self _ _) h
    have hbody : free_column s F fr x = .ok (x :: (sh.vs x ++ fr)) := by
      unfold free_column
      rw [hd1]; dsimp only
      rw [hrows]; dsimp only
      unfold free_node
      rw [hd2]
    rw [for_nodes_step f hx hbody]
    rw [free_columns_walk hw hr ha hF cs (s.left x) (x :: (sh.vs x ++ fr)) f hp2
      (List.nodup_cons.1 hnd).2 (fun d hd => hmem d (List.mem_cons_of_mem _ hd)) ?_
      (by simp at hf; omega)]
    · rfl
    · intro d hd y hy h
      have hdx : d ≠ x := fun e => (List.nodup_cons.1 hnd).1 (e ▸ hd)
      have hdh := hmem d (List.mem_cons_of_mem _ hd)
      rcases List.mem_cons.1 h with rfl | h
      · exact hr.col_disjoint hdh hc hdx hy (List.mem_cons_self _ _) rfl
      · rcases List.mem_append.1 h with h | h
        · exact hr.col_disjoint hdh hc hdx hy (List.mem_cons_of_mem _ h) rfl
        · exact hfr d (List.mem_cons_of_mem _ hd) y hy h

/-- With enough fuel `matrix_free` returns, and it has released the root,
every column header and every data node of the matrix. -/
theorem matrix_free_spec {st : State} {sh : Shape} (hw : WellFormed st sh)
    (ha : Alloc st.heap st.root sh) {F : Nat} (hF : sh.Fits F) :
    ∃ fr, matrix_free F st = .ok fr ∧
      ∀ x, x ∈ fr ↔ x = st.root ∨ ∃ c ∈ sh.hs, x ∈ c :: sh.vs c := by
  have hp := Seg.path _ _ _ (Seg.rev _ _ _ hw.2.hring)
  have hwalk := free_columns_walk hw.1 hw.2 ha hF sh.hs.reverse (st.heap.left st.root) [] F hp
    (List.nodup_reverse.2 hw.1.hs_nodup) (fun c hc => List.mem_reverse.1 hc)
    (fun _ _ _ _ => List.not_mem_nil _) (by simpa using hF.1)
  refine ⟨st.root :: sh.hs.reverse.foldl (fun fr c => c :: (sh.vs c ++ fr)) [], ?_, fun x => ?_⟩
  · unfold matrix_free free_columns
    rw [deref_ok hw.2.root_ne (List.not_mem_nil _)]
    dsimp only
    rw [hwalk]
  · rw [List.mem_cons, mem_foldl_free]
    simp only [List.not_mem_nil, false_or, List.mem_reverse]

theorem free_rows_mono {s : Heap} {F F' c : Nat} (hF : F ≤ F') {fr t : List Nat}
    (h : free_rows s F c fr = .ok t) : free_rows s F' c fr = .ok t :=
  for_nodes_mono (fun _ _ _ h => h) F F' _ fr t hF h

theorem matrix_free_mono {F F' : Nat} (hF : F ≤ F') {st : State} {fr : List Nat}
    (h : matrix_free F st = .ok fr) : matrix_free F' st = .ok fr := by
  unfold matrix_free at h ⊢
  cases hd : deref [] st.root with
  | error e => rw [hd] at h; cases h
  | ok u =>
    rw [hd] at h
    dsimp only at h ⊢
    cases hc : free_columns st.heap F st.root [] with
    | error e => rw [hc] at h; cases h
    | ok fr1 =>
      rw [hc] at h
      have hc2 : free_columns st.heap F' st.root [] = .ok fr1 := by
        unfold free_columns at hc ⊢
        refine for_nodes_mono ?_ F F' _ [] fr1 hF hc
        intro fr0 x t hb
        unfold free_column at hb ⊢
        cases hd1 : deref fr0 x with
        | error e => rw [hd1] at hb; cases hb
        | ok u1 =>
          rw [hd1] at hb
          dsimp only at hb ⊢
          cases hrw : free_rows st.heap F x fr0 with
          | error e => rw [hrw] at hb; cases hb
          | ok fr2 =>
            rw [hrw] at hb
            rw [free_rows_mono hF hrw]
            exact hb
      rw [hc2]
      exact h

/-! ## The run of `main` -/

/-- The matrix of a board has a column. -/
theorem matrix_hs_ne {b : Board} {k : Nat} (hb : IsBoard b k) : (matrix_shape b).hs ≠ [] := by
  intro h
  have h2 : 2 ∈ (matrix_shape b).hs := by
    rw [matrix_headers hb]
    have := Nat.mul_pos (Nat.mul_pos hb.k_pos hb.k_pos) (Nat.mul_pos hb.k_pos hb.k_pos)
    omega
  rw [h] at h2
  exact absurd h2 (List.not_mem_nil _)

/-- With enough fuel `matrix_free` returns on the state left by the search,
and it has released every data node of the matrix. -/
theorem matrix_free_board {b : Board} {k : Nat} (hb : IsBoard b k) {F : Nat}
    (hF : (matrix_shape b).bound ≤ F) (a : Acc) :
    ∃ fr, matrix_free F (State.mk' (matrix_create b).heap 1 a) = .ok fr ∧
      ∀ c ∈ (matrix_shape b).hs, ∀ n ∈ (matrix_shape b).vs c, n ≠ 0 ∧ n ∈ fr := by
  have hinv := (matrix_create_inv hb).1
  have hw : WellFormed (State.mk' (matrix_create b).heap 1 a) (matrix_shape b) :=
    ⟨hinv.wf, hinv.rep⟩
  obtain ⟨fr, h1, h2⟩ := matrix_free_spec hw hinv.alloc ((matrix_shape b).fits_bound hF)
  exact ⟨fr, h1, fun c hc n hn => ⟨hinv.alloc.vs_ne c hc n hn,
    (h2 n).2 (Or.inr ⟨c, hc, List.mem_cons_of_mem _ hn⟩)⟩⟩

/-- The result loop behind `matrix_free` stops at its first read when the
first node of the solution has been released. -/
theorem read_solution_freed (h : Heap) {freed : List Nat} {n : Nat} (q : List Nat) (b : Board)
    (h0 : n ≠ 0) (hn : n ∈ freed) :
    read_solution h freed (n :: q) b = .error .useAfterFree := by
  unfold read_solution
  rw [deref_freed h0 hn]

/-- The run of `main` with enough fuel, by the outcome of the search: the
search stops at a `NULL` column, or it fails and `main` exits, or it succeeds
and the result loop reads a released node. -/
theorem main_run_eq {b : Board} {k : Nat} (hb : IsBoard b k) {F : Nat}
    (hF : (matrix_shape b).bound ≤ F) :
    main_run F b =
      match solveA F (matrix_shape b) (false, []) with
      | .error e => .error e
      | .ok (false, _) => .ok none
      | .ok (true, _) => .error .useAfterFree := by
  have hw := matrix_create_wf hb
  have hrun := dlx_solve_eq hw ((matrix_shape b).fits_bound hF)
  have hrun2 : dlx_solve F (matrix_create b) =
      match solveA F (matrix_shape b) (false, []) with
      | .ok (v, a1) => .ok (v, State.mk' (matrix_create b).heap 1 a1)
      | .error e => .error e := hrun
  unfold main_run
  rw [hrun2]
  cases hs : solveA F (matrix_shape b) (false, []) with
  | error e => rfl
  | ok res =>
    obtain ⟨v, a1⟩ := res
    obtain ⟨fr, hfr, hall⟩ := matrix_free_board hb hF a1
    cases v with
    | false =>
      dsimp only
      rw [hfr]
    | true =>
      dsimp only
      rw [hfr]
      dsimp only
      rcases solveA_unsolved F _ [] true a1 hw.1 hs with ⟨hv, -⟩ | ⟨-, p, hp1, hp2⟩
      · cases hv
      · rw [List.nil_append] at hp1
        rcases p with _ | ⟨n, q⟩
        · exact absurd hp2.hs_nil_of_nil (matrix_hs_ne hb)
        · have hn := hp2.1 n (List.mem_cons_self _ _)
          obtain ⟨h0, hmem⟩ := hall _ hn.1 n hn.2
          have e : (State.mk' (matrix_create b).heap 1 a1).solution = n :: q := hp1
          rw [e, read_solution_freed _ q b h0 hmem]

/-- The search of `main` with enough fuel, by the outcome of the search on
the matrix. -/
theorem solve_board_eq {b : Board} {k : Nat} (hb : IsBoard b k) {F : Nat}
    (hF : (matrix_shape b).bound ≤ F) :
    solve_board F b =
      match solveA F (matrix_shape b) (false, []) with
      | .error e => .error e
      | .ok (false, _) => .ok none
      | .ok (true, a1) => .ok (some (write_solution (matrix_create b).heap b a1.2)) := by
  have hw := matrix_create_wf hb
  have hrun := dlx_solve_eq hw ((matrix_shape b).fits_bound hF)
  have hrun2 : dlx_solve F (matrix_create b) =
      match solveA F (matrix_shape b) (false, []) with
      | .ok (v, a1) => .ok (v, State.mk' (matrix_create b).heap 1 a1)
      | .error e => .error e := hrun
  unfold solve_board
  rw [hrun2]
  cases hs : solveA F (matrix_shape b) (false, []) with
  | error e => rfl
  | ok res =>
    obtain ⟨v, a1⟩ := res
    cases v <;> rfl

/-- The exit of `main` with "Failed to find a solution!" is the one of the
search without the calls of `matrix_free`. -/
theorem main_run_none {b : Board} {k : Nat} (hb : IsBoard b k) {F : Nat}
    (hF : (matrix_shape b).bound ≤ F) :
    main_run F b = .ok none ↔ solve_board F b = .ok none := by
  rw [main_run_eq hb hF, solve_board_eq hb hF]
  cases hs : solveA F (matrix_shape b) (false, []) with
  | error e => simp
  | ok res =>
    obtain ⟨v, a1⟩ := res
    cases v <;> simp

/-- Where the search without the calls of `matrix_free` would write a grid,
the run of `main` reads a released node. -/
theorem main_run_solved {b : Board} {k : Nat} (hb : IsBoard b k) {F : Nat}
    (hF : (matrix_shape b).bound ≤ F) {g : Board} (h : solve_board F b = .ok (some g)) :
    main_run F b = .error .useAfterFree := by
  rw [solve_board_eq hb hF] at h
  rw [main_run_eq hb hF]
  cases hs : solveA F (matrix_shape b) (false, []) with
  | error e => rw [hs] at h; cases h
  | ok res =>
    obtain ⟨v, a1⟩ := res
    rw [hs] at h
    cases v with
    | false => cases h
    | true => rfl

theorem main_run_mono {F F' : Nat} (hF : F ≤ F') {b : Board} {r : Option Board}
    (h : main_run F b = .ok r) : main_run F' b = .ok r := by
  unfold main_run at h ⊢
  cases hs : dlx_solve F (matrix_create b) with
  | error e => rw [hs] at h; cases h
  | ok res =>
    obtain ⟨v, st⟩ := res
    rw [hs] at h
    rw [dlx_solve_mono hF _ _ hs]
    cases v with
    | false =>
      dsimp only at h ⊢
      cases hm : matrix_free F st with
      | error e => rw [hm] at h; cases h
      | ok fr =>
        rw [hm] at h
        rw [matrix_free_mono hF hm]
        exact h
    | true =>
      dsimp only at h ⊢
      cases hm : matrix_free F st with
      | error e => rw [hm] at h; cases h
      | ok fr =>
        rw [hm] at h
        rw [matrix_free_mono hF hm]
        exact h

/-- No run of `main` on a board ends with a grid written by the result
loop. -/
theorem main_run_no_grid {b : Board} {k : Nat} (hb : IsBoard b k) (F : Nat) (g : Board) :
    main_run F b ≠ .ok (some g) := by
  intro h
  have h2 := main_run_mono (Nat.le_max_left F (matrix_shape b).bound) h
  rw [main_run_eq hb (Nat.le_max_right F (matrix_shape b).bound)] at h2
  cases hs : solveA (max F (matrix_shape b).bound) (matrix_shape b) (false, []) with
  | error e => rw [hs] at h2; cases h2
  | ok res =>
    obtain ⟨v, a1⟩ := res
    rw [hs] at h2
    cases v <;> cases h2

/-- On a completely filled valid board the run of `main` reads a released
node. -/
theorem filled_run_freed {b : Board} {k : Nat} (hb : IsBoard b k) (hf : Filled b k)
    (hv : ValidGrid b k) {F : Nat} (hF : (matrix_shape b).bound ≤ F) :
    main_run F b = .error .useAfterFree := by
  obtain ⟨p, hrun, -, -⟩ := filled_run hb hf hv hF
  exact main_run_solved hb hF hrun

theorem solve_board_mono {F F' : Nat} (hF : F ≤ F') {b : Board} {r : Option Board}
    (h : solve_board F b = .ok r) : solve_board F' b = .ok r := by
  unfold solve_board at h ⊢
  cases hs : dlx_solve F (matrix_create b) with
  | error e => rw [hs] at h; cases h
  | ok res =>
    rw [hs] at h
    rw [dlx_solve_mono hF _ _ hs]
    exact h

/-- A grid is written only after a successful search. -/
theorem solve_board_run {F : Nat} {b g : Board} (h : solve_board F b = .ok (some g)) :
    ∃ st, dlx_solve F (matrix_create b) = .ok (true, st) := by
  unfold solve_board at h
  cases hs : dlx_solve F (matrix_create b) with
  | error e => rw [hs] at h; cases h
  | ok res =>
    obtain ⟨v, st⟩ := res
    rw [hs] at h
    cases v with
    | false => cases h
    | true => exact ⟨st, rfl⟩

theorem oneBoard_isBoard : IsBoard oneBoard 1 := by
  constructor <;> simp [oneBoard, UINT_MOD]

theorem oneBoard_filled : Filled oneBoard 1 := by
  intro r c hr hc
  obtain rfl : r = 0 := by omega
  obtain rfl : c = 0 := by omega
  decide

theorem oneBoard_valid : ValidGrid oneBoard 1 := by
  refine ⟨fun r d hr h1 hd => ?_, fun c d hc h1 hd => ?_, fun br bc d hr hc h1 hd => ?_⟩
  · obtain rfl : r = 0 := by omega
    obtain rfl : d = 1 := by omega
    refine ⟨0, ⟨by decide, by decide⟩, fun y hy => ?_⟩
    have := hy.1
    omega
  · obtain rfl : c = 0 := by omega
    obtain rfl : d = 1 := by omega
    refine ⟨0, ⟨by decide, by decide⟩, fun y hy => ?_⟩
    have := hy.1
    omega
  · obtain rfl : br = 0 := by omega
    obtain rfl : bc = 0 := by omega
    obtain rfl : d = 1 := by omega
    refine ⟨(0, 0), ⟨by decide, by decide, by decide, by decide, by decide⟩, fun y hy => ?_⟩
    obtain ⟨y1, y2⟩ := y
    have h1 := hy.1
    have h2 := hy.2.1
    simp only at h1 h2
    obtain rfl : y1 = 0 := by omega
    obtain rfl : y2 = 0 := by omega
    rfl

/-- C6 fails on the code: the board `oneBoard` (the input file `1`) is a
completely filled valid board, and the run of `main` on it does not get through
the result mapping.  The search succeeds, `matrix_free(board_repr)` releases
every node of the matrix, and the first iteration of the result loop reads
`solution[0]->data.row_id` through a released node; no budget makes the run end
with a grid. -/
theorem round_trip_reads_freed :
    IsBoard oneBoard 1 ∧ Filled oneBoard 1 ∧ ValidGrid oneBoard 1 ∧
      (∀ F, main_run (21 + F) oneBoard = .error .useAfterFree) ∧
      ∀ F g, main_run F oneBoard ≠ .ok (some g) := by
  refine ⟨oneBoard_isBoard, oneBoard_filled, oneBoard_valid, fun F => ?_,
    main_run_no_grid oneBoard_isBoard⟩
  have hbound : (matrix_shape oneBoard).bound = 21 := by decide
  exact filled_run_freed oneBoard_isBoard oneBoard_filled oneBoard_valid (by omega)

/-- C2 fails on the code: on the board `unitBoard` (one empty cell, the input
file `.`) `dlx_solve` succeeds, and the row id its solution node was created
with decodes to the grid `1`; but `main` calls `matrix_free(board_repr)` before
the result loop, so the loop reads the row id through a released node and the
run yields no grid. -/
theorem solved_grid_reads_freed :
    IsBoard unitBoard 1 ∧
      ∀ F, (∃ st, dlx_solve (21 + F) (matrix_create unitBoard) = .ok (true, st)) ∧
        solve_board (21 + F) unitBoard = .ok (some oneBoard) ∧
        main_run (21 + F) unitBoard = .error .useAfterFree := by
  refine ⟨unitBoard_isBoard, fun F => ?_⟩
  have h21 : solve_board 21 unitBoard = .ok (some oneBoard) := rfl
  have hF := solve_board_mono (Nat.le_add_right 21 F) h21
  have hbound : (matrix_shape unitBoard).bound = 21 := by decide
  exact ⟨solve_board_run hF, hF, main_run_solved unitBoard_isBoard (by omega) hF⟩

/-- C12, amended: on a board with `N = k * k` cells per line, the decoding of
the row id `r * N * N + c * N + (d - 1)` in the result loop of `main` gives
back `(r, c, d)` exactly when the row id is below `2 ^ 32`, the range of the
`unsigned int` it is stored in.  The row id is one of the `N * N * N` ids of
the row loop of `matrix_create`, which splits it into the row index `r`, the
column index `c` and the offset `d - 1`. -/
theorem decode_round_trip (b : Board) (k r c d : Nat) (hb : IsBoard b k) (hr : r < k * k)
    (hc : c < k * k) (h1 : 1 ≤ d) (hd : d ≤ k * k) :
    (decode_row b (row_of (k * k) r c d) = (r, c, d) ↔ row_of (k * k) r c d < UINT_MOD) ∧
      row_of (k * k) r c d < k * k * (k * k * (k * k)) ∧
      split_row b (row_of (k * k) r c d) = (r, c, d - 1) ∧ d - 1 + 1 = d := by
  obtain ⟨p1, p2, p3⟩ := @row_of_parts (k * k) r c d hc h1 hd
  refine ⟨⟨fun h => ?_, fun h => ?_⟩, row_of_lt hr hc h1 hd, split_row_of hb hc h1 hd, by omega⟩
  · simp only [decode_row, hb.grid_size, hb.line_size, Prod.mk.injEq] at h
    obtain ⟨e1, e2, e3⟩ := h
    have e := @row_of_split (k * k) (row_of (k * k) r c d % UINT_MOD)
    rw [e1, e2, e3] at e
    rw [← e]
    exact Nat.mod_lt _ (by norm_num [UINT_MOD])
  · simp only [decode_row, hb.grid_size, hb.line_size, Nat.mod_eq_of_lt h, p1, p2, p3]
    congr 2
    omega

/-- Witness for C12: line 3, column 2, digit 4 on a 4 by 4 board. -/
theorem decode_round_trip_witness :
    (decode_row scenarioBoard (row_of (2 * 2) 3 2 4) = (3, 2, 4) ↔
        row_of (2 * 2) 3 2 4 < UINT_MOD) ∧
      row_of (2 * 2) 3 2 4 < 2 * 2 * (2 * 2 * (2 * 2)) ∧
      split_row scenarioBoard (row_of (2 * 2) 3 2 4) = (3, 2, 4 - 1) ∧ 4 - 1 + 1 = 4 :=
  decode_round_trip scenarioBoard 2 3 2 4 scenarioBoard_isBoard (by decide) (by decide)
    (by decide) (by decide)

/-! ## The empty boards -/

theorem emptyBoard_get (k i j : Nat) : board_get (emptyBoard k) i j = 0 := by
  unfold board_get
  dsimp only
  split
  · simp only [emptyBoard, List.getD_eq_getElem?_getD]
    cases h : (List.replicate (k * k * (k * k)) 0)[(i + j * (k * k)) % UINT_MOD]? with
    | none => rfl
    | some v =>
      obtain ⟨hlt, hv⟩ := List.getElem?_eq_some_iff.1 h
      rw [List.getElem_replicate] at hv
      rw [← hv]; rfl
  · rfl

theorem emptyBoard_isBoard {k : Nat} (hk : 1 ≤ k) (hu : k * k * (k * k) < UINT_MOD) :
    IsBoard (emptyBoard k) k := by
  refine ⟨hk, rfl, rfl, rfl, rfl, by simp [emptyBoard], hu, ?_⟩
  intro v hv
  simp only [emptyBoard, List.mem_replicate] at hv
  rw [hv.2]
  exact Nat.zero_le _

/-- No row is skipped on an empty board. -/
theorem emptyBoard_not_skipped (k row : Nat) : ¬ row_skipped (emptyBoard k) row := by
  intro h
  unfold row_skipped at h
  exact h.1 (emptyBoard_get _ _ _)

/-- C12 does not hold for every `N`: on the empty board with `k = 41`,
`N = 1681`, the row id of `(r, c, d) = (1680, 1680, 1681)` is `1681 ^ 3 - 1`,
above `2 ^ 32`.  `matrix_create` creates the row with this id and splits the id
into `(1680, 1680, 1680)`, that is digit `1681`; the result loop of `main`
stores the id in an `unsigned int` and decodes `(161, 112, 1152)`. -/
theorem decode_row_truncates :
    IsBoard (emptyBoard 41) 41 ∧
      row_of 1681 1680 1680 1681 = 1681 ^ 3 - 1 ∧
      has_row (matrix_create (emptyBoard 41)).heap (matrix_shape (emptyBoard 41))
        (row_of 1681 1680 1680 1681) ∧
      split_row (emptyBoard 41) (row_of 1681 1680 1680 1681) = (1680, 1680, 1680) ∧
      decode_row (emptyBoard 41) (row_of 1681 1680 1680 1681) = (161, 112, 1152) := by
  have hb : IsBoard (emptyBoard 41) 41 :=
    emptyBoard_isBoard (by norm_num) (by norm_num [UINT_MOD])
  refine ⟨hb, by norm_num [row_of], ?_, ?_, ?_⟩
  · exact (has_row_iff hb (by norm_num [row_of])).2 (emptyBoard_not_skipped _ _)
  · simp only [split_row, emptyBoard, row_of]
  · simp only [decode_row, emptyBoard, row_of, UINT_MOD]
    norm_num

end Cdoku
